import Mathlib

/-!
The p8est connectivity tables, edge transforms and the scda file header.

A shallow embedding of parts of `src/p8est_connectivity.c` and `src/sc_scda.c`.

Conventions of the embedding.

* C integers (`int`, `p4est_topidx_t`, `int8_t`) are mathematical integers.  The
  index arithmetic of the embedded functions stays far inside the 32 bit range
  for every array that fits into memory, so no wrap-around is modelled there;
  the narrowing casts to `int8_t` are modelled by `to_int8`.
* C arrays are lists.  A read through `aget` outside the array yields `none`,
  and every function that reads connectivity arrays returns an `Option`, where
  `none` stands for an access outside an array.
* C integer division and remainder truncate towards zero: `Int.tdiv`, `Int.tmod`.
-/

set_option maxRecDepth 100000
set_option maxHeartbeats 4000000

/-! # Definitions -/

/-! ## Static tables of p8est_connectivity.c -/

/-- Corners of each face, in z-order: p8est_face_corners[6][4]. -/
def p8est_face_corners : List (List Int) :=
  [[0, 2, 4, 6],
   [1, 3, 5, 7],
   [0, 1, 4, 5],
   [2, 3, 6, 7],
   [0, 1, 2, 3],
   [4, 5, 6, 7]]

/-- Edges of each face: p8est_face_edges[6][4]. -/
def p8est_face_edges : List (List Int) :=
  [[4, 6, 8, 10],
   [5, 7, 9, 11],
   [0, 2, 8, 9],
   [1, 3, 10, 11],
   [0, 1, 4, 5],
   [2, 3, 6, 7]]

/-- Opposite face: p8est_face_dual[6]. -/
def p8est_face_dual : List Int :=
  [1, 0, 3, 2, 5, 4]

/-- The eight face corner permutations that occur: p8est_face_permutations[8][4]. -/
def p8est_face_permutations : List (List Int) :=
  [[0, 1, 2, 3],
   [0, 2, 1, 3],
   [1, 0, 3, 2],
   [1, 3, 0, 2],
   [2, 0, 3, 1],
   [2, 3, 0, 1],
   [3, 1, 2, 0],
   [3, 2, 1, 0]]

/-- Sets of four permutations indexed by orientation: p8est_face_permutation_sets[3][4]. -/
def p8est_face_permutation_sets : List (List Int) :=
  [[1, 2, 5, 6],
   [0, 3, 4, 7],
   [0, 4, 3, 7]]

/-- Which permutation set belongs to a pair of faces: p8est_face_permutation_refs[6][6]. -/
def p8est_face_permutation_refs : List (List Int) :=
  [[0, 1, 1, 0, 0, 1],
   [2, 0, 0, 1, 1, 0],
   [2, 0, 0, 1, 1, 0],
   [0, 2, 2, 0, 0, 1],
   [0, 2, 2, 0, 0, 1],
   [2, 0, 0, 2, 2, 0]]

/-- The two faces touching each edge: p8est_edge_faces[12][2]. -/
def p8est_edge_faces : List (List Int) :=
  [[2, 4],
   [3, 4],
   [2, 5],
   [3, 5],
   [0, 4],
   [1, 4],
   [0, 5],
   [1, 5],
   [0, 2],
   [1, 2],
   [0, 3],
   [1, 3]]

/-- The two end corners of each edge: p8est_edge_corners[12][2]. -/
def p8est_edge_corners : List (List Int) :=
  [[0, 1],
   [2, 3],
   [4, 5],
   [6, 7],
   [0, 2],
   [1, 3],
   [4, 6],
   [5, 7],
   [0, 4],
   [1, 5],
   [2, 6],
   [3, 7]]

/-- Face corner numbers of the two edge ends within a face, or -1: p8est_edge_face_corners[12][6][2]. -/
def p8est_edge_face_corners : List (List (List Int)) :=
  [[[-1, -1], [-1, -1], [0, 1], [-1, -1], [0, 1], [-1, -1]],
   [[-1, -1], [-1, -1], [-1, -1], [0, 1], [2, 3], [-1, -1]],
   [[-1, -1], [-1, -1], [2, 3], [-1, -1], [-1, -1], [0, 1]],
   [[-1, -1], [-1, -1], [-1, -1], [2, 3], [-1, -1], [2, 3]],
   [[0, 1], [-1, -1], [-1, -1], [-1, -1], [0, 2], [-1, -1]],
   [[-1, -1], [0, 1], [-1, -1], [-1, -1], [1, 3], [-1, -1]],
   [[2, 3], [-1, -1], [-1, -1], [-1, -1], [-1, -1], [0, 2]],
   [[-1, -1], [2, 3], [-1, -1], [-1, -1], [-1, -1], [1, 3]],
   [[0, 2], [-1, -1], [0, 2], [-1, -1], [-1, -1], [-1, -1]],
   [[-1, -1], [0, 2], [1, 3], [-1, -1], [-1, -1], [-1, -1]],
   [[1, 3], [-1, -1], [-1, -1], [0, 2], [-1, -1], [-1, -1]],
   [[-1, -1], [1, 3], [-1, -1], [1, 3], [-1, -1], [-1, -1]]]

/-- The three faces touching each corner: p8est_corner_faces[8][3]. -/
def p8est_corner_faces : List (List Int) :=
  [[0, 2, 4],
   [1, 2, 4],
   [0, 3, 4],
   [1, 3, 4],
   [0, 2, 5],
   [1, 2, 5],
   [0, 3, 5],
   [1, 3, 5]]

/-- The three edges touching each corner: p8est_corner_edges[8][3]. -/
def p8est_corner_edges : List (List Int) :=
  [[0, 4, 8],
   [0, 5, 9],
   [1, 4, 10],
   [1, 5, 11],
   [2, 6, 8],
   [2, 7, 9],
   [3, 6, 10],
   [3, 7, 11]]

/-- Face corner number of a corner within a face, or -1: p8est_corner_face_corners[8][6]. -/
def p8est_corner_face_corners : List (List Int) :=
  [[0, -1, 0, -1, 0, -1],
   [-1, 0, 1, -1, 1, -1],
   [1, -1, -1, 0, 2, -1],
   [-1, 1, -1, 1, 3, -1],
   [2, -1, 2, -1, -1, 0],
   [-1, 2, 3, -1, -1, 1],
   [3, -1, -1, 2, -1, 2],
   [-1, 3, -1, 3, -1, 3]]

/-- Face shared by a child and a parent edge neighbour, or -1: p8est_child_edge_faces[8][12]. -/
def p8est_child_edge_faces : List (List Int) :=
  [[-1, 4, 2, -1, -1, 4, 0, -1, -1, 2, 0, -1],
   [-1, 4, 2, -1, 4, -1, -1, 1, 2, -1, -1, 1],
   [4, -1, -1, 3, -1, 4, 0, -1, 0, -1, -1, 3],
   [4, -1, -1, 3, 4, -1, -1, 1, -1, 1, 3, -1],
   [2, -1, -1, 5, 0, -1, -1, 5, -1, 2, 0, -1],
   [2, -1, -1, 5, -1, 1, 5, -1, 2, -1, -1, 1],
   [-1, 3, 5, -1, 0, -1, -1, 5, 0, -1, -1, 3],
   [-1, 3, 5, -1, -1, 1, 5, -1, -1, 1, 3, -1]]

/-- Face shared by a child and a parent corner neighbour, or -1: p8est_child_corner_faces[8][8]. -/
def p8est_child_corner_faces : List (List Int) :=
  [[-1, -1, -1, 4, -1, 2, 0, -1],
   [-1, -1, 4, -1, 2, -1, -1, 1],
   [-1, 4, -1, -1, 0, -1, -1, 3],
   [4, -1, -1, -1, -1, 1, 3, -1],
   [-1, 2, 0, -1, -1, -1, -1, 5],
   [2, -1, -1, 1, -1, -1, 5, -1],
   [0, -1, -1, 3, -1, 5, -1, -1],
   [-1, 1, 3, -1, 5, -1, -1, -1]]

/-- Edge shared by a child and a parent corner neighbour, or -1: p8est_child_corner_edges[8][8]. -/
def p8est_child_corner_edges : List (List Int) :=
  [[-1, 0, 4, -1, 8, -1, -1, -1],
   [0, -1, -1, 5, -1, 9, -1, -1],
   [4, -1, -1, 1, -1, -1, 10, -1],
   [-1, 5, 1, -1, -1, -1, -1, 11],
   [8, -1, -1, -1, -1, 2, 6, -1],
   [-1, 9, -1, -1, 2, -1, -1, 7],
   [-1, -1, 10, -1, 6, -1, -1, 3],
   [-1, -1, -1, 11, -1, 7, 3, -1]]

/-! ## Array access -/

/-- Read `a[i]` for a C index `i`; `none` when `i` lies outside the array. -/
def aget {α : Type} (a : List α) (i : Int) : Option α :=
  if i < 0 then none else a.get? i.toNat

/-- Read `a[i][j]` of a two-dimensional table. -/
def aget2 {α : Type} (a : List (List α)) (i j : Int) : Option α :=
  (aget a i).bind (fun row => aget row j)

/-- The cast `(int8_t) x` of a C `int`. -/
def to_int8 (x : Int) : Int := (x + 128) % 256 - 128

/-! ## The connectivity structure -/

/-- The fields of `p4est_connectivity_t` (3D) that the sources read and write.
The struct itself is declared in p8est_connectivity.h; the field names are those
used by `p8est_connectivity_new_brick` and `p8est_find_edge_transform`. -/
structure p4est_connectivity_t where
  num_vertices : Int
  num_trees : Int
  num_edges : Int
  num_corners : Int
  vertices : List Rat
  tree_to_vertex : List Int
  tree_to_tree : List Int
  tree_to_face : List Int
  tree_to_edge : List Int
  ett_offset : List Int
  edge_to_tree : List Int
  edge_to_edge : List Int
  tree_to_corner : List Int
  ctt_offset : List Int
  corner_to_tree : List Int
  corner_to_corner : List Int

/-- Modelled from the spec: `p4est_connectivity_new_copy` lives in
p4est_connectivity.c, which is not part of the sources here.  It builds the
"immutable description of trees and their face/edge/corner neighbor relations"
by copying the counts and arrays it is given; a NULL array argument is the
empty list, and a pointer to a single offset is a one-element list. -/
def p4est_connectivity_new_copy (num_vertices num_trees num_edges num_corners : Int)
    (vertices : List Rat) (ttv ttt ttf : List Int)
    (tte eoff ett ete : List Int) (ttc coff ctt ctc : List Int) : p4est_connectivity_t :=
  { num_vertices := num_vertices, num_trees := num_trees,
    num_edges := num_edges, num_corners := num_corners,
    vertices := vertices, tree_to_vertex := ttv,
    tree_to_tree := ttt, tree_to_face := ttf,
    tree_to_edge := tte, ett_offset := eoff,
    edge_to_tree := ett, edge_to_edge := ete,
    tree_to_corner := ttc, ctt_offset := coff,
    corner_to_tree := ctt, corner_to_corner := ctc }

/-! ## The predefined connectivities -/

/-- Translation of p8est_connectivity_new_unitcube: one tree whose six faces are domain boundary; no edge and no corner tables. -/
def p8est_connectivity_new_unitcube : p4est_connectivity_t :=
  let num_vertices : Int := 8
  let num_trees : Int := 1
  let num_ett : Int := 0
  let num_ctt : Int := 0
  let vertices : List Rat :=
    [0, 0, 0,
     1, 0, 0,
     0, 1, 0,
     1, 1, 0,
     0, 0, 1,
     1, 0, 1,
     0, 1, 1,
     1, 1, 1]
  let tree_to_vertex : List Int :=
    [0, 1, 2, 3, 4, 5, 6, 7]
  let tree_to_tree : List Int :=
    [0, 0, 0, 0, 0, 0]
  let tree_to_face : List Int :=
    [0, 1, 2, 3, 4, 5]
  p4est_connectivity_new_copy num_vertices num_trees 0 0
    vertices tree_to_vertex tree_to_tree tree_to_face
    [] [num_ett] [] []
    [] [num_ctt] [] []

/-- Translation of p8est_connectivity_new_periodic: one tree, periodic in all three directions. -/
def p8est_connectivity_new_periodic : p4est_connectivity_t :=
  let num_vertices : Int := 8
  let num_trees : Int := 1
  let num_edges : Int := 3
  let num_corners : Int := 1
  let vertices : List Rat :=
    [0, 0, 0,
     1, 0, 0,
     0, 1, 0,
     1, 1, 0,
     0, 0, 1,
     1, 0, 1,
     0, 1, 1,
     1, 1, 1]
  let tree_to_vertex : List Int :=
    [0, 1, 2, 3, 4, 5, 6, 7]
  let tree_to_tree : List Int :=
    [0, 0, 0, 0, 0, 0]
  let tree_to_face : List Int :=
    [1, 0, 3, 2, 5, 4]
  let tree_to_edge : List Int :=
    [0, 0, 0, 0, 1, 1, 1, 1, 2, 2, 2, 2]
  let ett_offset : List Int :=
    [0, 4, 8, 12]
  let edge_to_tree : List Int :=
    [0, 0, 0, 0,
     0, 0, 0, 0,
     0, 0, 0, 0]
  let edge_to_edge : List Int :=
    [0, 1, 2, 3,
     4, 5, 6, 7,
     8, 9, 10, 11]
  let tree_to_corner : List Int :=
    [0, 0, 0, 0, 0, 0, 0, 0]
  let ctt_offset : List Int :=
    [0, 8]
  let corner_to_tree : List Int :=
    [0, 0, 0, 0, 0, 0, 0, 0]
  let corner_to_corner : List Int :=
    [0, 1, 2, 3, 4, 5, 6, 7]
  p4est_connectivity_new_copy num_vertices num_trees num_edges num_corners
    vertices tree_to_vertex tree_to_tree tree_to_face
    tree_to_edge ett_offset edge_to_tree edge_to_edge
    tree_to_corner ctt_offset corner_to_tree corner_to_corner

/-- Translation of p8est_connectivity_new_rotwrap: one tree, periodic in x, rotated wrap in z, boundary in y. -/
def p8est_connectivity_new_rotwrap : p4est_connectivity_t :=
  let num_vertices : Int := 8
  let num_trees : Int := 1
  let num_edges : Int := 4
  let num_corners : Int := 1
  let vertices : List Rat :=
    [0, 0, 0,
     1, 0, 0,
     0, 1, 0,
     1, 1, 0,
     0, 0, 1,
     1, 0, 1,
     0, 1, 1,
     1, 1, 1]
  let tree_to_vertex : List Int :=
    [0, 1, 2, 3, 4, 5, 6, 7]
  let tree_to_tree : List Int :=
    [0, 0, 0, 0, 0, 0]
  let tree_to_face : List Int :=
    [1, 0, 2, 3, 11, 10]
  let tree_to_edge : List Int :=
    [0, 0, 1, 1, 1, 1, 0, 0, 2, 2, 3, 3]
  let ett_offset : List Int :=
    [0, 4, 8, 10, 12]
  let edge_to_tree : List Int :=
    [0, 0, 0, 0,
     0, 0, 0, 0,
     0, 0, 0, 0]
  let edge_to_edge : List Int :=
    [0, 7, 1, 6,
     2, 16, 3, 17,
     8, 9, 10, 11]
  let tree_to_corner : List Int :=
    [0, 0, 0, 0, 0, 0, 0, 0]
  let ctt_offset : List Int :=
    [0, 8]
  let corner_to_tree : List Int :=
    [0, 0, 0, 0, 0, 0, 0, 0]
  let corner_to_corner : List Int :=
    [0, 1, 2, 3, 4, 5, 6, 7]
  p4est_connectivity_new_copy num_vertices num_trees num_edges num_corners
    vertices tree_to_vertex tree_to_tree tree_to_face
    tree_to_edge ett_offset edge_to_tree edge_to_edge
    tree_to_corner ctt_offset corner_to_tree corner_to_corner

/-- Translation of p8est_connectivity_new_twocubes: two trees glued along one face. -/
def p8est_connectivity_new_twocubes : p4est_connectivity_t :=
  let num_vertices : Int := 12
  let num_trees : Int := 2
  let num_ett : Int := 0
  let num_ctt : Int := 0
  let vertices : List Rat :=
    [0, 0, 0,
     1, 0, 0,
     2, 0, 0,
     0, 1, 0,
     1, 1, 0,
     2, 1, 0,
     0, 0, 1,
     1, 0, 1,
     2, 0, 1,
     0, 1, 1,
     1, 1, 1,
     2, 1, 1]
  let tree_to_vertex : List Int :=
    [0, 1, 3, 4, 6, 7, 9, 10,
     1, 2, 4, 5, 7, 8, 10, 11]
  let tree_to_tree : List Int :=
    [0, 1, 0, 0, 0, 0,
     0, 1, 1, 1, 1, 1]
  let tree_to_face : List Int :=
    [0, 0, 2, 3, 4, 5,
     1, 1, 2, 3, 4, 5]
  p4est_connectivity_new_copy num_vertices num_trees 0 0
    vertices tree_to_vertex tree_to_tree tree_to_face
    [] [num_ett] [] []
    [] [num_ctt] [] []

/-- Translation of p8est_connectivity_new_twowrap: two trees glued along two pairs of faces with orientation 3. -/
def p8est_connectivity_new_twowrap : p4est_connectivity_t :=
  let num_vertices : Int := 12
  let num_trees : Int := 2
  let num_ett : Int := 0
  let num_ctt : Int := 0
  let vertices : List Rat :=
    [0, 0, 0,
     1, 0, 0,
     2, 0, 0,
     0, 1, 0,
     1, 1, 0,
     2, 1, 0,
     0, 0, 1,
     1, 0, 1,
     2, 0, 1,
     0, 1, 1,
     1, 1, 1,
     2, 1, 1]
  let tree_to_vertex : List Int :=
    [3, 9, 0, 6, 4, 10, 1, 7,
     8, 2, 7, 1, 11, 5, 10, 4]
  let tree_to_tree : List Int :=
    [0, 0, 0, 0, 1, 1,
     1, 1, 0, 0, 1, 1]
  let tree_to_face : List Int :=
    [0, 1, 2, 3, 20, 21,
     0, 1, 22, 23, 4, 5]
  p4est_connectivity_new_copy num_vertices num_trees 0 0
    vertices tree_to_vertex tree_to_tree tree_to_face
    [] [num_ett] [] []
    [] [num_ctt] [] []

/-- Translation of p8est_connectivity_new_rotcubes: six mutually rotated trees. -/
def p8est_connectivity_new_rotcubes : p4est_connectivity_t :=
  let num_vertices : Int := 26
  let num_trees : Int := 6
  let num_edges : Int := 3
  let num_corners : Int := 1
  let vertices : List Rat :=
    [0, 0, 0,
     1, 0, 2,
     2, 0, 0,
     0, 1, 0,
     1, 1, 0,
     2, 1, 0,
     1, (-1 : Rat), 0,
     2, (-1 : Rat), 0,
     1, (-1 : Rat), 1,
     2, (-1 : Rat), 1,
     2, 1, 1,
     1, 0, 1,
     2, 0, 1,
     0, 1, 1,
     1, 1, 1,
     0, 0, 1,
     0, 0, 2,
     1, 0, 0,
     1, 1, 2,
     0, 1, 2,
     (5/2 : Rat), (3/2 : Rat), 2,
     2, (3/2 : Rat), 2,
     2, (3/2 : Rat), (5/2 : Rat),
     2, (1/2 : Rat), (5/2 : Rat),
     (5/2 : Rat), (1/2 : Rat), 2,
     2, (1/2 : Rat), 2]
  let tree_to_vertex : List Int :=
    [0, 17, 3, 4, 15, 11, 13, 14,
     7, 2, 6, 17, 9, 12, 8, 11,
     2, 12, 5, 10, 17, 11, 4, 14,
     19, 13, 18, 14, 16, 15, 1, 11,
     14, 11, 21, 25, 18, 1, 22, 23,
     21, 20, 25, 24, 14, 10, 11, 12]
  let tree_to_tree : List Int :=
    [0, 2, 0, 0, 0, 3,
     1, 2, 1, 1, 1, 1,
     2, 5, 1, 2, 2, 0,
     3, 0, 3, 4, 3, 3,
     4, 4, 3, 4, 5, 4,
     4, 5, 5, 5, 5, 2]
  let tree_to_face : List Int :=
    [0, 5, 2, 3, 4, 13,
     0, 2, 2, 3, 4, 5,
     0, 23, 1, 3, 4, 1,
     0, 17, 2, 8, 4, 5,
     0, 1, 9, 3, 12, 5,
     16, 1, 2, 3, 4, 19]
  let tree_to_edge : List Int :=
    [(-1 : Int), (-1 : Int), (-1 : Int), (-1 : Int), (-1 : Int), (-1 : Int), (-1 : Int), 0, (-1 : Int), 2, (-1 : Int), (-1 : Int),
     (-1 : Int), (-1 : Int), (-1 : Int), (-1 : Int), (-1 : Int), (-1 : Int), (-1 : Int), 1, (-1 : Int), (-1 : Int), (-1 : Int), 2,
     (-1 : Int), (-1 : Int), 2, (-1 : Int), (-1 : Int), (-1 : Int), (-1 : Int), 0, (-1 : Int), 1, (-1 : Int), (-1 : Int),
     (-1 : Int), (-1 : Int), (-1 : Int), (-1 : Int), (-1 : Int), (-1 : Int), (-1 : Int), (-1 : Int), (-1 : Int), (-1 : Int), (-1 : Int), 0,
     0, (-1 : Int), (-1 : Int), (-1 : Int), (-1 : Int), (-1 : Int), (-1 : Int), (-1 : Int), (-1 : Int), (-1 : Int), (-1 : Int), (-1 : Int),
     (-1 : Int), (-1 : Int), (-1 : Int), 1, (-1 : Int), (-1 : Int), 0, (-1 : Int), (-1 : Int), (-1 : Int), (-1 : Int), (-1 : Int)]
  let ett_offset : List Int :=
    [0, 5, 8, 11]
  let edge_to_tree : List Int :=
    [0, 2, 3, 4,
     5, 1, 2, 5,
     0, 1, 2]
  let edge_to_edge : List Int :=
    [7, 7, 23, 12,
     18, 7, 9, 15,
     9, 11, 2]
  let tree_to_corner : List Int :=
    [(-1 : Int), (-1 : Int), (-1 : Int), (-1 : Int), (-1 : Int), 0, (-1 : Int), (-1 : Int),
     (-1 : Int), (-1 : Int), (-1 : Int), (-1 : Int), (-1 : Int), (-1 : Int), (-1 : Int), 0,
     (-1 : Int), (-1 : Int), (-1 : Int), (-1 : Int), (-1 : Int), 0, (-1 : Int), (-1 : Int),
     (-1 : Int), (-1 : Int), (-1 : Int), (-1 : Int), (-1 : Int), (-1 : Int), (-1 : Int), 0,
     (-1 : Int), 0, (-1 : Int), (-1 : Int), (-1 : Int), (-1 : Int), (-1 : Int), (-1 : Int),
     (-1 : Int), (-1 : Int), (-1 : Int), (-1 : Int), (-1 : Int), (-1 : Int), 0, (-1 : Int)]
  let ctt_offset : List Int :=
    [0, 6]
  let corner_to_tree : List Int :=
    [0, 1, 2, 3, 4, 5]
  let corner_to_corner : List Int :=
    [5, 7, 5, 7, 1, 6]
  p4est_connectivity_new_copy num_vertices num_trees num_edges num_corners
    vertices tree_to_vertex tree_to_tree tree_to_face
    tree_to_edge ett_offset edge_to_tree edge_to_edge
    tree_to_corner ctt_offset corner_to_tree corner_to_corner

/-- Translation of p8est_connectivity_new_shell: 24 trees forming a spherical shell. -/
def p8est_connectivity_new_shell : p4est_connectivity_t :=
  let num_vertices : Int := 18
  let num_trees : Int := 24
  let num_edges : Int := 18
  let num_corners : Int := 0
  let ctt_offset : Int := 0
  let vertices : List Rat :=
    [(-1 : Rat), (-1 : Rat), 1,
     0, (-1 : Rat), 1,
     1, (-1 : Rat), 1,
     (-1 : Rat), 0, 1,
     0, 0, 1,
     1, 0, 1,
     (-1 : Rat), 1, 1,
     0, 1, 1,
     1, 1, 1,
     (-1 : Rat), (-1 : Rat), 2,
     0, (-1 : Rat), 2,
     1, (-1 : Rat), 2,
     (-1 : Rat), 0, 2,
     0, 0, 2,
     1, 0, 2,
     (-1 : Rat), 1, 2,
     0, 1, 2,
     1, 1, 2]
  let tree_to_vertex : List Int :=
    [0, 1, 3, 4, 9, 10, 12, 13,
     1, 2, 4, 5, 10, 11, 13, 14,
     3, 4, 6, 7, 12, 13, 15, 16,
     4, 5, 7, 8, 13, 14, 16, 17,
     0, 1, 3, 4, 9, 10, 12, 13,
     1, 2, 4, 5, 10, 11, 13, 14,
     3, 4, 6, 7, 12, 13, 15, 16,
     4, 5, 7, 8, 13, 14, 16, 17,
     0, 1, 3, 4, 9, 10, 12, 13,
     1, 2, 4, 5, 10, 11, 13, 14,
     3, 4, 6, 7, 12, 13, 15, 16,
     4, 5, 7, 8, 13, 14, 16, 17,
     0, 1, 3, 4, 9, 10, 12, 13,
     1, 2, 4, 5, 10, 11, 13, 14,
     3, 4, 6, 7, 12, 13, 15, 16,
     4, 5, 7, 8, 13, 14, 16, 17,
     0, 1, 3, 4, 9, 10, 12, 13,
     1, 2, 4, 5, 10, 11, 13, 14,
     3, 4, 6, 7, 12, 13, 15, 16,
     4, 5, 7, 8, 13, 14, 16, 17,
     0, 1, 3, 4, 9, 10, 12, 13,
     1, 2, 4, 5, 10, 11, 13, 14,
     3, 4, 6, 7, 12, 13, 15, 16,
     4, 5, 7, 8, 13, 14, 16, 17]
  let tree_to_tree : List Int :=
    [18, 1, 14, 2, 0, 0,
     0, 23, 15, 3, 1, 1,
     16, 3, 0, 4, 2, 2,
     2, 21, 1, 5, 3, 3,
     16, 5, 2, 6, 4, 4,
     4, 21, 3, 7, 5, 5,
     17, 7, 4, 8, 6, 6,
     6, 20, 5, 9, 7, 7,
     17, 9, 6, 10, 8, 8,
     8, 20, 7, 11, 9, 9,
     19, 11, 8, 12, 10, 10,
     10, 22, 9, 13, 11, 11,
     19, 13, 10, 14, 12, 12,
     12, 22, 11, 15, 13, 13,
     18, 15, 12, 0, 14, 14,
     14, 23, 13, 1, 15, 15,
     2, 17, 4, 18, 16, 16,
     16, 8, 6, 19, 17, 17,
     0, 19, 16, 14, 18, 18,
     18, 10, 17, 12, 19, 19,
     9, 21, 7, 22, 20, 20,
     20, 3, 5, 23, 21, 21,
     11, 23, 20, 13, 22, 22,
     22, 1, 21, 15, 23, 23]
  let tree_to_face : List Int :=
    [6, 0, 3, 2, 4, 5,
     1, 7, 3, 2, 4, 5,
     6, 0, 3, 2, 4, 5,
     1, 7, 3, 2, 4, 5,
     2, 0, 3, 2, 4, 5,
     1, 8, 3, 2, 4, 5,
     2, 0, 3, 2, 4, 5,
     1, 8, 3, 2, 4, 5,
     1, 0, 3, 2, 4, 5,
     1, 0, 3, 2, 4, 5,
     1, 0, 3, 2, 4, 5,
     1, 0, 3, 2, 4, 5,
     9, 0, 3, 2, 4, 5,
     1, 3, 3, 2, 4, 5,
     9, 0, 3, 2, 4, 5,
     1, 3, 3, 2, 4, 5,
     6, 0, 0, 2, 4, 5,
     1, 0, 0, 2, 4, 5,
     6, 0, 3, 6, 4, 5,
     1, 0, 3, 6, 4, 5,
     1, 0, 7, 2, 4, 5,
     1, 7, 7, 2, 4, 5,
     1, 0, 3, 1, 4, 5,
     1, 7, 3, 1, 4, 5]
  let tree_to_edge : List Int :=
    [(-1 : Int), (-1 : Int), (-1 : Int), (-1 : Int), (-1 : Int), (-1 : Int), (-1 : Int), (-1 : Int), (-1 : Int), 8, 6, 0,
     (-1 : Int), (-1 : Int), (-1 : Int), (-1 : Int), (-1 : Int), (-1 : Int), (-1 : Int), (-1 : Int), 8, (-1 : Int), 0, 7,
     (-1 : Int), (-1 : Int), (-1 : Int), (-1 : Int), (-1 : Int), (-1 : Int), (-1 : Int), (-1 : Int), 6, 0, (-1 : Int), 9,
     (-1 : Int), (-1 : Int), (-1 : Int), (-1 : Int), (-1 : Int), (-1 : Int), (-1 : Int), (-1 : Int), 0, 7, 9, (-1 : Int),
     (-1 : Int), (-1 : Int), (-1 : Int), (-1 : Int), (-1 : Int), (-1 : Int), (-1 : Int), (-1 : Int), (-1 : Int), 9, 10, 1,
     (-1 : Int), (-1 : Int), (-1 : Int), (-1 : Int), (-1 : Int), (-1 : Int), (-1 : Int), (-1 : Int), 9, (-1 : Int), 1, 11,
     (-1 : Int), (-1 : Int), (-1 : Int), (-1 : Int), (-1 : Int), (-1 : Int), (-1 : Int), (-1 : Int), 10, 1, (-1 : Int), 12,
     (-1 : Int), (-1 : Int), (-1 : Int), (-1 : Int), (-1 : Int), (-1 : Int), (-1 : Int), (-1 : Int), 1, 11, 12, (-1 : Int),
     (-1 : Int), (-1 : Int), (-1 : Int), (-1 : Int), (-1 : Int), (-1 : Int), (-1 : Int), (-1 : Int), (-1 : Int), 12, 13, 2,
     (-1 : Int), (-1 : Int), (-1 : Int), (-1 : Int), (-1 : Int), (-1 : Int), (-1 : Int), (-1 : Int), 12, (-1 : Int), 2, 14,
     (-1 : Int), (-1 : Int), (-1 : Int), (-1 : Int), (-1 : Int), (-1 : Int), (-1 : Int), (-1 : Int), 13, 2, (-1 : Int), 15,
     (-1 : Int), (-1 : Int), (-1 : Int), (-1 : Int), (-1 : Int), (-1 : Int), (-1 : Int), (-1 : Int), 2, 14, 15, (-1 : Int),
     (-1 : Int), (-1 : Int), (-1 : Int), (-1 : Int), (-1 : Int), (-1 : Int), (-1 : Int), (-1 : Int), (-1 : Int), 15, 16, 3,
     (-1 : Int), (-1 : Int), (-1 : Int), (-1 : Int), (-1 : Int), (-1 : Int), (-1 : Int), (-1 : Int), 15, (-1 : Int), 3, 17,
     (-1 : Int), (-1 : Int), (-1 : Int), (-1 : Int), (-1 : Int), (-1 : Int), (-1 : Int), (-1 : Int), 16, 3, (-1 : Int), 8,
     (-1 : Int), (-1 : Int), (-1 : Int), (-1 : Int), (-1 : Int), (-1 : Int), (-1 : Int), (-1 : Int), 3, 17, 8, (-1 : Int),
     (-1 : Int), (-1 : Int), (-1 : Int), (-1 : Int), (-1 : Int), (-1 : Int), (-1 : Int), (-1 : Int), (-1 : Int), 10, 6, 4,
     (-1 : Int), (-1 : Int), (-1 : Int), (-1 : Int), (-1 : Int), (-1 : Int), (-1 : Int), (-1 : Int), 10, (-1 : Int), 4, 13,
     (-1 : Int), (-1 : Int), (-1 : Int), (-1 : Int), (-1 : Int), (-1 : Int), (-1 : Int), (-1 : Int), 6, 4, (-1 : Int), 16,
     (-1 : Int), (-1 : Int), (-1 : Int), (-1 : Int), (-1 : Int), (-1 : Int), (-1 : Int), (-1 : Int), 4, 13, 16, (-1 : Int),
     (-1 : Int), (-1 : Int), (-1 : Int), (-1 : Int), (-1 : Int), (-1 : Int), (-1 : Int), (-1 : Int), (-1 : Int), 11, 14, 5,
     (-1 : Int), (-1 : Int), (-1 : Int), (-1 : Int), (-1 : Int), (-1 : Int), (-1 : Int), (-1 : Int), 11, (-1 : Int), 5, 7,
     (-1 : Int), (-1 : Int), (-1 : Int), (-1 : Int), (-1 : Int), (-1 : Int), (-1 : Int), (-1 : Int), 14, 5, (-1 : Int), 17,
     (-1 : Int), (-1 : Int), (-1 : Int), (-1 : Int), (-1 : Int), (-1 : Int), (-1 : Int), (-1 : Int), 5, 7, 17, (-1 : Int)]
  let ett_offset : List Int :=
    [0, 4, 8, 12, 16, 20, 24, 28, 32, 36,
     40, 44, 48, 52, 56, 60, 64, 68, 72]
  let edge_to_tree : List Int :=
    [0, 1, 2, 3,
     4, 5, 6, 7,
     8, 9, 10, 11,
     12, 13, 14, 15,
     16, 17, 18, 19,
     20, 21, 22, 23,
     0, 2, 16, 18,
     1, 3, 21, 23,
     0, 1, 14, 15,
     2, 3, 4, 5,
     4, 6, 16, 17,
     5, 7, 20, 21,
     6, 7, 8, 9,
     8, 10, 17, 19,
     9, 11, 20, 22,
     10, 11, 12, 13,
     12, 14, 18, 19,
     13, 15, 22, 23]
  let edge_to_edge : List Int :=
    [11, 10, 9, 8,
     11, 10, 9, 8,
     11, 10, 9, 8,
     11, 10, 9, 8,
     11, 10, 9, 8,
     11, 10, 9, 8,
     10, 8, 10, 8,
     11, 9, 11, 9,
     9, 8, 11, 10,
     11, 10, 9, 8,
     10, 8, 9, 8,
     11, 9, 9, 8,
     11, 10, 9, 8,
     10, 8, 11, 9,
     11, 9, 10, 8,
     11, 10, 9, 8,
     10, 8, 11, 10,
     11, 9, 11, 10]
  p4est_connectivity_new_copy num_vertices num_trees num_edges num_corners
    vertices tree_to_vertex tree_to_tree tree_to_face
    tree_to_edge ett_offset edge_to_tree edge_to_edge
    [] [ctt_offset] [] []

/-- Translation of p8est_connectivity_new_sphere: 13 trees forming a solid sphere; the corner tables sit in a disabled preprocessor block and are not passed on. -/
def p8est_connectivity_new_sphere : p4est_connectivity_t :=
  let num_vertices : Int := 16
  let num_trees : Int := 13
  let num_edges : Int := 12
  let num_corners : Int := 0
  let ctt_offset : Int := 0
  let vertices : List Rat :=
    [(-1 : Rat), (-1 : Rat), 1,
     1, (-1 : Rat), 1,
     (-1 : Rat), 1, 1,
     1, 1, 1,
     (-1 : Rat), (-1 : Rat), 2,
     1, (-1 : Rat), 2,
     (-1 : Rat), 1, 2,
     1, 1, 2,
     (-1 : Rat), (-1 : Rat), (-1 : Rat),
     1, (-1 : Rat), (-1 : Rat),
     (-1 : Rat), 1, (-1 : Rat),
     1, 1, (-1 : Rat),
     (-1 : Rat), (-1 : Rat), 1,
     1, (-1 : Rat), 1,
     (-1 : Rat), 1, 1,
     1, 1, 1]
  let tree_to_vertex : List Int :=
    [0, 1, 2, 3, 4, 5, 6, 7,
     0, 1, 2, 3, 4, 5, 6, 7,
     0, 1, 2, 3, 4, 5, 6, 7,
     0, 1, 2, 3, 4, 5, 6, 7,
     0, 1, 2, 3, 4, 5, 6, 7,
     0, 1, 2, 3, 4, 5, 6, 7,
     0, 1, 2, 3, 4, 5, 6, 7,
     0, 1, 2, 3, 4, 5, 6, 7,
     0, 1, 2, 3, 4, 5, 6, 7,
     0, 1, 2, 3, 4, 5, 6, 7,
     0, 1, 2, 3, 4, 5, 6, 7,
     0, 1, 2, 3, 4, 5, 6, 7,
     8, 9, 10, 11, 12, 13, 14, 15]
  let tree_to_tree : List Int :=
    [5, 3, 4, 1, 6, 0,
     5, 3, 0, 2, 7, 1,
     5, 3, 1, 4, 8, 2,
     2, 0, 1, 4, 9, 3,
     2, 0, 3, 5, 10, 4,
     2, 0, 4, 1, 11, 5,
     11, 9, 10, 7, 12, 0,
     11, 9, 6, 8, 12, 1,
     11, 9, 7, 10, 12, 2,
     8, 6, 7, 10, 12, 3,
     8, 6, 9, 11, 12, 4,
     8, 6, 10, 7, 12, 5,
     11, 9, 6, 8, 10, 7]
  let tree_to_face : List Int :=
    [1, 7, 7, 2, 5, 5,
     9, 8, 3, 2, 5, 5,
     6, 0, 3, 6, 5, 5,
     1, 7, 7, 2, 5, 5,
     9, 8, 3, 2, 5, 5,
     6, 0, 3, 6, 5, 5,
     1, 7, 7, 2, 2, 4,
     9, 8, 3, 2, 5, 4,
     6, 0, 3, 6, 15, 4,
     1, 7, 7, 2, 19, 4,
     9, 8, 3, 2, 22, 4,
     6, 0, 3, 6, 6, 4,
     10, 22, 4, 16, 22, 4]
  let tree_to_edge : List Int :=
    [0, 2, (-1 : Int), (-1 : Int), 8, 9, (-1 : Int), (-1 : Int), (-1 : Int), (-1 : Int), (-1 : Int), (-1 : Int),
     2, 3, (-1 : Int), (-1 : Int), 6, 7, (-1 : Int), (-1 : Int), (-1 : Int), (-1 : Int), (-1 : Int), (-1 : Int),
     3, 1, (-1 : Int), (-1 : Int), 10, 11, (-1 : Int), (-1 : Int), (-1 : Int), (-1 : Int), (-1 : Int), (-1 : Int),
     7, 5, (-1 : Int), (-1 : Int), 11, 9, (-1 : Int), (-1 : Int), (-1 : Int), (-1 : Int), (-1 : Int), (-1 : Int),
     5, 4, (-1 : Int), (-1 : Int), 1, 0, (-1 : Int), (-1 : Int), (-1 : Int), (-1 : Int), (-1 : Int), (-1 : Int),
     4, 6, (-1 : Int), (-1 : Int), 10, 8, (-1 : Int), (-1 : Int), (-1 : Int), (-1 : Int), (-1 : Int), (-1 : Int),
     (-1 : Int), (-1 : Int), 0, 2, (-1 : Int), (-1 : Int), 8, 9, (-1 : Int), (-1 : Int), (-1 : Int), (-1 : Int),
     (-1 : Int), (-1 : Int), 2, 3, (-1 : Int), (-1 : Int), 6, 7, (-1 : Int), (-1 : Int), (-1 : Int), (-1 : Int),
     (-1 : Int), (-1 : Int), 3, 1, (-1 : Int), (-1 : Int), 10, 11, (-1 : Int), (-1 : Int), (-1 : Int), (-1 : Int),
     (-1 : Int), (-1 : Int), 7, 5, (-1 : Int), (-1 : Int), 11, 9, (-1 : Int), (-1 : Int), (-1 : Int), (-1 : Int),
     (-1 : Int), (-1 : Int), 5, 4, (-1 : Int), (-1 : Int), 1, 0, (-1 : Int), (-1 : Int), (-1 : Int), (-1 : Int),
     (-1 : Int), (-1 : Int), 4, 6, (-1 : Int), (-1 : Int), 10, 8, (-1 : Int), (-1 : Int), (-1 : Int), (-1 : Int),
     (-1 : Int), (-1 : Int), (-1 : Int), (-1 : Int), (-1 : Int), (-1 : Int), (-1 : Int), (-1 : Int), (-1 : Int), (-1 : Int), (-1 : Int), (-1 : Int)]
  let ett_offset : List Int :=
    [0, 4, 8, 12, 16, 20, 24, 28, 32, 36,
     40, 44, 48]
  let edge_to_tree : List Int :=
    [0, 4, 6, 10,
     2, 4, 8, 10,
     0, 1, 6, 7,
     1, 2, 7, 8,
     4, 5, 10, 11,
     3, 4, 9, 10,
     1, 5, 7, 11,
     1, 3, 7, 9,
     0, 5, 6, 11,
     0, 3, 6, 9,
     2, 5, 8, 11,
     2, 3, 8, 9]
  let edge_to_edge : List Int :=
    [0, 17, 2, 19,
     1, 16, 3, 18,
     1, 0, 3, 2,
     1, 0, 3, 2,
     13, 12, 15, 14,
     13, 12, 15, 14,
     4, 13, 6, 15,
     5, 12, 7, 14,
     4, 5, 6, 7,
     5, 17, 7, 19,
     16, 4, 18, 6,
     17, 16, 19, 18]
  p4est_connectivity_new_copy num_vertices num_trees num_edges num_corners
    vertices tree_to_vertex tree_to_tree tree_to_face
    tree_to_edge ett_offset edge_to_tree edge_to_edge
    [] [ctt_offset] [] []

/-! ## Face permutations and face symmetry -/

/-- The face corner permutation looked up for a face pair and an orientation,
`P(f,g,o)[k] = p8est_face_permutations[p8est_face_permutation_sets[p8est_face_permutation_refs[f][g]][o]][k]`,
as it is evaluated in `p8est_find_edge_transform`. -/
def face_permutation (f g o k : Int) : Option Int :=
  (aget2 p8est_face_permutation_refs f g).bind fun pref =>
  (aget2 p8est_face_permutation_sets pref o).bind fun pset =>
  aget2 p8est_face_permutations pset k

/-- The face relation of a connectivity is symmetric: when face `f` of tree `t`
is recorded as meeting face `f'` of tree `t'` with orientation `o`, then face
`f'` of `t'` is recorded as meeting face `f` of `t` with the same orientation. -/
def face_symmetric (conn : p4est_connectivity_t) : Prop :=
  ∀ t f o f' : Nat, (t : Int) < conn.num_trees → f < 6 → o < 4 → f' < 6 → ∀ t' : Int,
    aget conn.tree_to_tree (6 * (t : Int) + f) = some t' →
    aget conn.tree_to_face (6 * (t : Int) + f) = some (6 * (o : Int) + f') →
    aget conn.tree_to_tree (6 * t' + f') = some (t : Int) ∧
    aget conn.tree_to_face (6 * t' + f') = some (6 * (o : Int) + f)

/-- Executable check of `face_symmetric` at one tree and face. -/
def face_symmetric_at (conn : p4est_connectivity_t) (t f : Nat) : Bool :=
  match aget conn.tree_to_tree (6 * (t : Int) + f), aget conn.tree_to_face (6 * (t : Int) + f) with
  | some t', some x =>
      if 0 ≤ x ∧ x < 24 then
        aget conn.tree_to_tree (6 * t' + x % 6) == some (t : Int) &&
        aget conn.tree_to_face (6 * t' + x % 6) == some (6 * (x / 6) + (f : Int))
      else true
  | _, _ => true

/-- Executable check of `face_symmetric` for a whole connectivity. -/
def face_symmetric_check (conn : p4est_connectivity_t) : Bool :=
  (List.range conn.num_trees.toNat).all fun t => (List.range 6).all fun f => face_symmetric_at conn t f

/-! ## Reverse tables of edges and corners -/

/-- Local edge number stored in an `edge_to_edge` entry (the entry also carries
the flip as a multiple of 12). -/
def edge_of_entry (r : Int) : Int := r % 12

/-- Local corner number stored in a `corner_to_corner` entry. -/
def corner_of_entry (r : Int) : Int := r

/-- Slots `lo + j` (`lo <= lo + j < hi`) of a reverse table whose entry is the
pair `(t, e)`; `dec` extracts the local entity number from the stored entry. -/
def reverse_slots (to_tree to_local : List Int) (dec : Int → Int) (lo hi t e : Int) : List Nat :=
  (List.range (hi - lo).toNat).filter fun j =>
    aget to_tree (lo + (j : Int)) == some t &&
    (aget to_local (lo + (j : Int))).map dec == some e

/-- Every entry of every global edge's reverse list maps forward to that edge:
`tree_to_edge[12 * edge_to_tree[k] + edge_to_edge[k] mod 12] = a` for all slots
`k` with `ett_offset[a] <= k < ett_offset[a+1]`. -/
def edge_round_trip (conn : p4est_connectivity_t) : Prop :=
  ∀ a : Nat, (a : Int) < conn.num_edges →
    ∃ lo hi, aget conn.ett_offset a = some lo ∧ aget conn.ett_offset ((a : Int) + 1) = some hi ∧
      ∀ k : Int, lo ≤ k → k < hi →
        ∃ t e, aget conn.edge_to_tree k = some t ∧ aget conn.edge_to_edge k = some e ∧
          aget conn.tree_to_edge (12 * t + edge_of_entry e) = some (a : Int)

/-- Every (tree, edge) with a global edge id occurs exactly once in the reverse
list of that id. -/
def edge_forward_once (conn : p4est_connectivity_t) : Prop :=
  ∀ t e : Nat, (t : Int) < conn.num_trees → e < 12 → ∀ a : Int,
    aget conn.tree_to_edge (12 * (t : Int) + e) = some a → a ≠ -1 →
    ∃ lo hi, aget conn.ett_offset a = some lo ∧ aget conn.ett_offset (a + 1) = some hi ∧
      (reverse_slots conn.edge_to_tree conn.edge_to_edge edge_of_entry lo hi t e).length = 1

/-- Every entry of every global corner's reverse list maps forward to that corner:
`tree_to_corner[8 * corner_to_tree[k] + corner_to_corner[k]] = c`. -/
def corner_round_trip (conn : p4est_connectivity_t) : Prop :=
  ∀ c : Nat, (c : Int) < conn.num_corners →
    ∃ lo hi, aget conn.ctt_offset c = some lo ∧ aget conn.ctt_offset ((c : Int) + 1) = some hi ∧
      ∀ k : Int, lo ≤ k → k < hi →
        ∃ t e, aget conn.corner_to_tree k = some t ∧ aget conn.corner_to_corner k = some e ∧
          aget conn.tree_to_corner (8 * t + corner_of_entry e) = some (c : Int)

/-- Every (tree, corner) with a global corner id occurs exactly once in the
reverse list of that id. -/
def corner_forward_once (conn : p4est_connectivity_t) : Prop :=
  ∀ t e : Nat, (t : Int) < conn.num_trees → e < 8 → ∀ c : Int,
    aget conn.tree_to_corner (8 * (t : Int) + e) = some c → c ≠ -1 →
    ∃ lo hi, aget conn.ctt_offset c = some lo ∧ aget conn.ctt_offset (c + 1) = some hi ∧
      (reverse_slots conn.corner_to_tree conn.corner_to_corner corner_of_entry lo hi t e).length = 1

/-- Executable check of a round trip through a reverse table with `n` global ids
and `w` local entities per tree. -/
def round_trip_check (n : Int) (offs to_tree to_local fwd : List Int) (w : Int)
    (dec : Int → Int) : Bool :=
  (List.range n.toNat).all fun a =>
    match aget offs a, aget offs ((a : Int) + 1) with
    | some lo, some hi =>
        (List.range (hi - lo).toNat).all fun j =>
          match aget to_tree (lo + (j : Int)), aget to_local (lo + (j : Int)) with
          | some t, some e => aget fwd (w * t + dec e) == some (a : Int)
          | _, _ => false
    | _, _ => false

/-- Executable check of the exactly-once occurrence in a reverse table. -/
def forward_once_check (nt : Int) (offs to_tree to_local fwd : List Int) (w : Nat)
    (dec : Int → Int) : Bool :=
  (List.range nt.toNat).all fun t => (List.range w).all fun e =>
    match aget fwd ((w : Int) * (t : Int) + e) with
    | some a =>
        if a = -1 then true else
        match aget offs a, aget offs (a + 1) with
        | some lo, some hi => (reverse_slots to_tree to_local dec lo hi t e).length == 1
        | _, _ => false
    | none => true

/-- The four reverse-table properties of a connectivity: both round trips and
both exactly-once occurrences. -/
def reverse_tables_consistent (conn : p4est_connectivity_t) : Prop :=
  edge_round_trip conn ∧ corner_round_trip conn ∧ edge_forward_once conn ∧ corner_forward_once conn

/-! ## p8est_find_edge_transform -/

/-- The fields of `p8est_edge_transform_t` that `p8est_find_edge_transform` fills. -/
structure p8est_edge_transform_t where
  ntree : Int
  nedge : Int
  naxis : List Int
  nflip : Int
  corners : Int
deriving DecidableEq

/-- The edge information `p8est_edge_info_t`: the queried edge and the array of
transforms. -/
structure p8est_edge_info_t where
  iedge : Int
  edge_transforms : List p8est_edge_transform_t
deriving DecidableEq

/-- The local variables `faces[i]`, `ntrees[i]`, `nfaces[i]`, `orients[i]` and the
row `fcorners[i]` of one of the two faces touching the edge. -/
structure edge_face_t where
  face : Int
  ntree : Int
  nface : Int
  orient : Int
  fcorners : List Int
deriving DecidableEq

/-- The local array `noncorners`. -/
def noncorners : List Int := [-1, -1]

/-- One iteration `i` of the loop "identify touching faces" of
`p8est_find_edge_transform`. -/
def find_edge_face (conn : p4est_connectivity_t) (itree iedge i : Int) : Option edge_face_t := do
  let face ← aget2 p8est_edge_faces iedge i
  let ntree ← aget conn.tree_to_tree (6 * itree + face)
  let nface ← aget conn.tree_to_face (6 * itree + face)
  if ntree = itree ∧ nface = face then
    some { face := face, ntree := -1, nface := -1, orient := -1, fcorners := noncorners }
  else do
    let fc ← aget2 p8est_edge_face_corners iedge face
    some { face := face, ntree := ntree, nface := Int.tmod nface 6, orient := Int.tdiv nface 6,
           fcorners := fc }

/-- The loop "find orientation of this edge": the first slot `etree` of the
reverse list at offset `off` whose entry is `(itree, iedge)`, with its flip;
`(-1, -1)` when the loop runs to its end. -/
def find_edge_orientation (conn : p4est_connectivity_t) (itree iedge off : Int) :
    List Nat → Option (Int × Int)
  | [] => some (-1, -1)
  | etree :: rest => do
    let ntree ← aget conn.edge_to_tree (off + (etree : Int))
    let redge ← aget conn.edge_to_edge (off + (etree : Int))
    let nedge := Int.tmod redge 12
    if nedge = iedge ∧ ntree = itree then
      some ((etree : Int), Int.tdiv redge 12)
    else
      find_edge_orientation conn itree iedge off rest

/-- Outcome of the corner comparison for one face and one reverse-table entry. -/
inductive face_match_t where
  | nomatch
  | found
  | flipped
deriving DecidableEq

/-- The C expression `!x`. -/
def c_not (x : Int) : Int := if x = 0 then 1 else 0

/-- The body of `if (ntree == ntrees[i])` in the main loop: does the edge `nedge`
of the neighbor touch the contact face, and do the permuted face corners of the
caller's edge agree with the neighbor's in the order given by `nflip`
(`found`), in the opposite order (`flipped`, counted in debug builds), or not
at all. -/
def edge_corner_check (face nface orient : Int) (fcorners : List Int) (nedge nflip : Int) :
    Option face_match_t := do
  let nfcorners ← aget2 p8est_edge_face_corners nedge nface
  let nfc0 ← aget nfcorners 0
  if nfc0 ≥ 0 then do
    let pref ← aget2 p8est_face_permutation_refs face nface
    let pset ← aget2 p8est_face_permutation_sets pref orient
    let c0 ← aget fcorners 0
    let fc0 ← aget2 p8est_face_permutations pset c0
    let c1 ← aget fcorners 1
    let fc1 ← aget2 p8est_face_permutations pset c1
    let a ← aget nfcorners nflip
    let b ← aget nfcorners (c_not nflip)
    if fc0 = a ∧ fc1 = b then some face_match_t.found
    else if fc0 = b ∧ fc1 = a then some face_match_t.flipped
    else some face_match_t.nomatch
  else some face_match_t.nomatch

/-- One pass of the inner loop over `i` for the face `fi`. -/
def edge_face_check (fi : edge_face_t) (ntree nedge nflip : Int) : Option face_match_t :=
  if ntree = fi.ntree then
    edge_corner_check fi.face fi.nface fi.orient fi.fcorners nedge nflip
  else some face_match_t.nomatch

/-- The variables the main loop updates: the transform array `ta`, `founds[0]`,
`founds[1]`, the debug counter `flipped`, and whether the assertion
`!founds[i] && !nows[!i]` held each time it was reached. -/
structure edge_loop_t where
  ta : List p8est_edge_transform_t
  founds0 : Int
  founds1 : Int
  flipped : Int
  bracket_ok : Bool

/-- The transform pushed for a diagonal edge neighbor. -/
def edge_transform_of (ntree nedge nflip : Int) : p8est_edge_transform_t :=
  { ntree := ntree,
    nedge := to_int8 nedge,
    naxis := [to_int8 (Int.tdiv nedge 4), to_int8 (if nedge < 4 then 1 else 0),
              to_int8 (if nedge < 8 then 2 else 1)],
    nflip := to_int8 nflip,
    corners := to_int8 (Int.tmod nedge 4) }

/-- One iteration of the loop "loop through all trees connected through this edge". -/
def edge_transform_step (conn : p4est_connectivity_t) (off : Int) (f0 f1 : edge_face_t)
    (ietree iflip : Int) (st : edge_loop_t) (etree : Nat) : Option edge_loop_t :=
  if (etree : Int) = ietree then some st
  else do
    let ntree ← aget conn.edge_to_tree (off + (etree : Int))
    let redge ← aget conn.edge_to_edge (off + (etree : Int))
    let nedge := Int.tmod redge 12
    let nflip := Int.xor (Int.tdiv redge 12) iflip
    let m0 ← edge_face_check f0 ntree nedge nflip
    let m1 ← edge_face_check f1 ntree nedge nflip
    let ok0 : Bool := if m0 = face_match_t.found then decide (st.founds0 = 0) else true
    let ok1 : Bool :=
      if m1 = face_match_t.found then decide (st.founds1 = 0 ∧ m0 ≠ face_match_t.found) else true
    let st1 : edge_loop_t :=
      { ta := st.ta,
        founds0 := if m0 = face_match_t.found then 1 else st.founds0,
        founds1 := if m1 = face_match_t.found then 1 else st.founds1,
        flipped := st.flipped + (if m0 = face_match_t.flipped then 1 else 0)
                              + (if m1 = face_match_t.flipped then 1 else 0),
        bracket_ok := st.bracket_ok && ok0 && ok1 }
    if m0 = face_match_t.found ∨ m1 = face_match_t.found then some st1
    else some { st1 with ta := st1.ta ++ [edge_transform_of ntree nedge nflip] }

/-- The main loop over the slots of the reverse list. -/
def edge_transform_loop (conn : p4est_connectivity_t) (off : Int) (f0 f1 : edge_face_t)
    (ietree iflip : Int) : edge_loop_t → List Nat → Option edge_loop_t
  | st, [] => some st
  | st, etree :: rest =>
    (edge_transform_step conn off f0 f1 ietree iflip st etree).bind fun st' =>
      edge_transform_loop conn off f0 f1 ietree iflip st' rest

/-- The local variables of `p8est_find_edge_transform` when it returns from its
end: the two faces, `edge_trees`, `ietree`, `iflip` and the loop variables. -/
structure edge_scan_t where
  f0 : edge_face_t
  f1 : edge_face_t
  edge_trees : Int
  ietree : Int
  iflip : Int
  loop : edge_loop_t

/-- The part of `p8est_find_edge_transform` after the two early returns, for the
global edge `aedge` of `(itree, iedge)`. -/
def p8est_find_edge_transform_scan (conn : p4est_connectivity_t) (itree iedge aedge : Int) :
    Option edge_scan_t := do
  let f0 ← find_edge_face conn itree iedge 0
  let f1 ← find_edge_face conn itree iedge 1
  let hi ← aget conn.ett_offset (aedge + 1)
  let off ← aget conn.ett_offset aedge
  let edge_trees := hi - off
  let slots := List.range edge_trees.toNat
  let (ietree, iflip) ← find_edge_orientation conn itree iedge off slots
  let st ← edge_transform_loop conn off f0 f1 ietree iflip
    { ta := [], founds0 := 0, founds1 := 0, flipped := 0, bracket_ok := true } slots
  some { f0 := f0, f1 := f1, edge_trees := edge_trees, ietree := ietree, iflip := iflip,
         loop := st }

/-- Translation of `p8est_find_edge_transform (conn, itree, iedge, ei)`: the edge
information written to `ei`, or `none` if an array is read outside its bounds. -/
def p8est_find_edge_transform (conn : p4est_connectivity_t) (itree iedge : Int) :
    Option p8est_edge_info_t :=
  if conn.num_edges = 0 then
    some { iedge := to_int8 iedge, edge_transforms := [] }
  else do
    let aedge ← aget conn.tree_to_edge (12 * itree + iedge)
    if aedge = -1 then
      some { iedge := to_int8 iedge, edge_transforms := [] }
    else do
      let s ← p8est_find_edge_transform_scan conn itree iedge aedge
      some { iedge := to_int8 iedge, edge_transforms := s.loop.ta }

/-! ## Basic facts about the edge transform loops -/

/-- The entry at slot `j` of the reverse list at offset `off` is `(itree, iedge)`. -/
def own_slot (conn : p4est_connectivity_t) (itree iedge off : Int) (j : Nat) : Bool :=
  aget conn.edge_to_tree (off + (j : Int)) == some itree &&
  (aget conn.edge_to_edge (off + (j : Int))).map (fun r => Int.tmod r 12) == some iedge

/-! ## Table facts used by the edge transform proofs -/

/-- The face `p8est_edge_faces[e][i]` together with the row
`p8est_edge_face_corners[e][face]`. -/
def edge_face_row (e i : Int) : Option (Int × List Int) :=
  (aget2 p8est_edge_faces e i).bind fun face =>
    (aget2 p8est_edge_face_corners e face).map fun row => (face, row)

/-- Table check: the corner comparison reads no table outside its bounds. -/
def corner_check_total_at (e i x ne nf : Nat) : Bool :=
  match edge_face_row e i with
  | some (face, row) =>
      0 ≤ face && face < 6 &&
      (edge_corner_check face ((x : Int) % 6) ((x : Int) / 6) row ne nf).isSome
  | none => false

/-- Table check: a corner match seen from one side is a corner match seen from
the other side, with the same orientation code and flip. -/
def corner_check_symm_at (eb j x ea nf : Nat) : Bool :=
  match edge_face_row eb j with
  | some (g, rowB) =>
      if edge_corner_check g ((x : Int) % 6) ((x : Int) / 6) rowB ea nf = some face_match_t.found then
        (List.range 2).any fun i =>
          match edge_face_row ea i with
          | some (f, rowA) =>
              f == (x : Int) % 6 &&
              edge_corner_check f g ((x : Int) / 6) rowA eb nf == some face_match_t.found
          | none => false
      else true
  | none => false

/-! ## Index validity of a connectivity -/

/-- The arrays of the connectivity are large enough and hold values in range:
`tree_to_tree` entries are trees, `tree_to_face` entries lie in 0..23,
`tree_to_edge` entries (if there are edges) lie in -1..num_edges-1, the offsets
`ett_offset` are non-decreasing and every slot of a reverse list holds a tree
and an entry in 0..23. -/
def conn_indices_valid (conn : p4est_connectivity_t) : Prop :=
  (∀ t f : Nat, (t : Int) < conn.num_trees → f < 6 →
    ∃ t' x, aget conn.tree_to_tree (6 * (t : Int) + f) = some t' ∧ 0 ≤ t' ∧ t' < conn.num_trees ∧
      aget conn.tree_to_face (6 * (t : Int) + f) = some x ∧ 0 ≤ x ∧ x < 24) ∧
  (conn.num_edges ≠ 0 → ∀ t e : Nat, (t : Int) < conn.num_trees → e < 12 →
    ∃ a, aget conn.tree_to_edge (12 * (t : Int) + e) = some a ∧ -1 ≤ a ∧ a < conn.num_edges) ∧
  (∀ a : Nat, (a : Int) < conn.num_edges →
    ∃ lo hi, aget conn.ett_offset a = some lo ∧ aget conn.ett_offset ((a : Int) + 1) = some hi ∧
      lo ≤ hi ∧ ∀ k : Int, lo ≤ k → k < hi →
        ∃ t r, aget conn.edge_to_tree k = some t ∧ 0 ≤ t ∧ t < conn.num_trees ∧
          aget conn.edge_to_edge k = some r ∧ 0 ≤ r ∧ r < 24)

/-- The record that the loop "identify touching faces" computes from the face
number `face`, the row `row` and the two table entries `t'` and `x`. -/
def edge_face_of (itree face t' x : Int) (row : List Int) : edge_face_t :=
  if t' = itree ∧ x = face then
    { face := face, ntree := -1, nface := -1, orient := -1, fcorners := noncorners }
  else
    { face := face, ntree := t', nface := x % 6, orient := x / 6, fcorners := row }

/-- The loop variables at the start of the main loop. -/
def edge_loop_init : edge_loop_t :=
  { ta := [], founds0 := 0, founds1 := 0, flipped := 0, bracket_ok := true }

/-- The reciprocity property of `p8est_find_edge_transform` on a connectivity:
whenever the call for `(A, ea)` emits a transform to `(B, eb)` with flip `f`,
the call for `(B, eb)` emits a transform to `(A, ea)` with the same flip. -/
def edge_transform_reciprocal (conn : p4est_connectivity_t) : Prop :=
  ∀ A ea : Nat, (A : Int) < conn.num_trees → ea < 12 →
    ∀ ei, p8est_find_edge_transform conn A ea = some ei →
    ∀ et ∈ ei.edge_transforms,
      ∃ ei', p8est_find_edge_transform conn et.ntree et.nedge = some ei' ∧
        ∃ et' ∈ ei'.edge_transforms,
          et'.ntree = (A : Int) ∧ et'.nedge = (ea : Int) ∧ et'.nflip = et.nflip

/-- Executable check of `conn_indices_valid`. -/
def conn_indices_valid_check (conn : p4est_connectivity_t) : Bool :=
  ((List.range conn.num_trees.toNat).all fun t => (List.range 6).all fun f =>
    match aget conn.tree_to_tree (6 * (t : Int) + f), aget conn.tree_to_face (6 * (t : Int) + f) with
    | some t', some x => decide (0 ≤ t' ∧ t' < conn.num_trees ∧ 0 ≤ x ∧ x < 24)
    | _, _ => false) &&
  (decide (conn.num_edges = 0) ||
    (List.range conn.num_trees.toNat).all fun t => (List.range 12).all fun e =>
      match aget conn.tree_to_edge (12 * (t : Int) + e) with
      | some a => decide (-1 ≤ a ∧ a < conn.num_edges)
      | none => false) &&
  ((List.range conn.num_edges.toNat).all fun a =>
    match aget conn.ett_offset a, aget conn.ett_offset ((a : Int) + 1) with
    | some lo, some hi =>
        decide (lo ≤ hi) && (List.range (hi - lo).toNat).all fun j =>
          match aget conn.edge_to_tree (lo + (j : Int)), aget conn.edge_to_edge (lo + (j : Int)) with
          | some t, some r => decide (0 ≤ t ∧ t < conn.num_trees ∧ 0 ≤ r ∧ r < 24)
          | _, _ => false
    | _, _ => false)

/-- A connectivity of two separate trees (all faces are domain boundary) with one
global edge: edge 0 of tree 0 carries the global edge 0, whose reverse list
names edge 0 of tree 0 and edge 3 of tree 1, while edge 3 of tree 1 carries no
global edge (`tree_to_edge[12 + 3] = -1`). -/
def one_sided_edge_conn : p4est_connectivity_t :=
  { num_vertices := 0, num_trees := 2, num_edges := 1, num_corners := 0,
    vertices := [], tree_to_vertex := [],
    tree_to_tree := [0, 0, 0, 0, 0, 0, 1, 1, 1, 1, 1, 1],
    tree_to_face := [0, 1, 2, 3, 4, 5, 0, 1, 2, 3, 4, 5],
    tree_to_edge := [0, -1, -1, -1, -1, -1, -1, -1, -1, -1, -1, -1,
                     -1, -1, -1, -1, -1, -1, -1, -1, -1, -1, -1, -1],
    ett_offset := [0, 2],
    edge_to_tree := [0, 1],
    edge_to_edge := [0, 3],
    tree_to_corner := [], ctt_offset := [0], corner_to_tree := [], corner_to_corner := [] }

/-! ## sc_scda.c: padding and the file header

A `char` is represented by its byte value, a `char` buffer by the list of its
bytes, and a pointer `&buf[k]` by the suffix `buf.drop k`.  A function that
writes through a pointer returns the updated buffer.  A read behind the end of
a list yields 0; the statements below assume buffers as large as the C code
requires, except for the two buffers of `sc_scda_check_file_header`, whose
capacity is part of the embedding.  `size_t` values are natural numbers; in
`sc_scda_get_pad_to_mod`, whose length test adds two `size_t` values, the
arithmetic is carried out modulo `SIZE_MAX + 1`; every other subtraction of the
embedded functions is guarded in the source (by a check or an assertion), so
none wraps around.  A function returning 0 or -1 and writing output
parameters returns `some` outputs for 0 and `none` for -1. -/

/-- The macro `SC_SCDA_MAGIC`: the bytes of "scdata0". -/
def SC_SCDA_MAGIC : List Nat := [115, 99, 100, 97, 116, 97, 48]

/-- The macro `SC_SCDA_MAGIC_BYTES`. -/
def SC_SCDA_MAGIC_BYTES : Nat := 7

/-- The macro `SC_SCDA_VENDOR_STRING`: the bytes of "libsc". -/
def SC_SCDA_VENDOR_STRING : List Nat := [108, 105, 98, 115, 99]

/-- The macro `SC_SCDA_VENDOR_STRING_FIELD`. -/
def SC_SCDA_VENDOR_STRING_FIELD : Nat := 24

/-- The macro `SC_SCDA_VENDOR_STRING_BYTES`. -/
def SC_SCDA_VENDOR_STRING_BYTES : Nat := 20

/-- The macro `SC_SCDA_USER_STRING_FIELD`. -/
def SC_SCDA_USER_STRING_FIELD : Nat := 62

/-- The macro `SC_SCDA_PADDING_MOD`. -/
def SC_SCDA_PADDING_MOD : Nat := 32

/-- Modelled from the spec: the macro `SC_SCDA_USER_STRING_BYTES` is defined in
sc_scda.h, which is not among the sources; its value 58 is the user string
field without the four bytes of minimal padding, as for the vendor string. -/
def SC_SCDA_USER_STRING_BYTES : Nat := 58

/-- Modelled from the spec: the macro `SC_SCDA_HEADER_BYTES` is defined in
sc_scda.h, which is not among the sources; its value 128 is the one that
`sc_scda_fopen_write` asserts for the sum of the header fields. -/
def SC_SCDA_HEADER_BYTES : Nat := 128

/-- Store the bytes `data` into the buffer `buf` starting at index `off`. -/
def buf_write (buf : List Nat) (off : Nat) (data : List Nat) : List Nat :=
  buf.take off ++ data ++ buf.drop (off + data.length)

/-- Translation of `sc_scda_copy_bytes (dest, src, n)`; returns `dest`. -/
def sc_scda_copy_bytes (dest src : List Nat) (n : Nat) : List Nat :=
  if n = 0 then dest else buf_write dest 0 (src.take n)

/-- Translation of `sc_scda_set_bytes (dest, c, n)`; returns `dest`. -/
def sc_scda_set_bytes (dest : List Nat) (c : Nat) (n : Nat) : List Nat :=
  buf_write dest 0 (List.replicate n c)

/-- Translation of `sc_scda_init_nul (dest, len)`. -/
def sc_scda_init_nul (dest : List Nat) (len : Nat) : List Nat :=
  sc_scda_set_bytes dest 0 len

/-- Translation of `sc_scda_pad_to_fix_len (input_data, input_len, output_data,
pad_len)`; returns `output_data`.  The source asserts `input_len <= pad_len - 4`. -/
def sc_scda_pad_to_fix_len (input_data : List Nat) (input_len : Nat) (output_data : List Nat)
    (pad_len : Nat) : List Nat :=
  let o1 := sc_scda_copy_bytes output_data input_data input_len
  let o2 := buf_write o1 input_len [32]
  let o3 := o2.take (input_len + 1) ++
    sc_scda_set_bytes (o2.drop (input_len + 1)) 45 (pad_len - input_len - 2)
  buf_write o3 (pad_len - 1) [10]

/-- The loop `for (si = pad_len - 2; si != 0; --si)` of
`sc_scda_get_pad_to_fix_len`, started at `si`: the value of `si` after the loop. -/
def fix_len_scan (padded_data : List Nat) : Nat → Nat
  | 0 => 0
  | si + 1 => if padded_data.getD (si + 1) 0 ≠ 45 then si + 1 else fix_len_scan padded_data si

/-- Translation of `sc_scda_get_pad_to_fix_len (padded_data, pad_len, raw_data,
raw_len)`: the outputs `(raw_data, *raw_len)`. -/
def sc_scda_get_pad_to_fix_len (padded_data : List Nat) (pad_len : Nat) (raw_data : List Nat) :
    Option (List Nat × Nat) :=
  if pad_len < 4 then none
  else if padded_data.getD (pad_len - 1) 0 ≠ 10 then none
  else
    let si := fix_len_scan padded_data (pad_len - 2)
    if padded_data.getD si 0 ≠ 32 then none
    else some (sc_scda_copy_bytes raw_data padded_data si, si)

/-- Translation of `sc_scda_pad_to_mod_len (input_len)`. -/
def sc_scda_pad_to_mod_len (input_len : Nat) : Nat :=
  let num_pad_bytes :=
    (SC_SCDA_PADDING_MOD - (input_len % SC_SCDA_PADDING_MOD)) % SC_SCDA_PADDING_MOD
  if num_pad_bytes < 7 then num_pad_bytes + SC_SCDA_PADDING_MOD else num_pad_bytes

/-- Translation of `sc_scda_pad_to_mod (input_data, input_len, output_data)`;
returns `output_data`. -/
def sc_scda_pad_to_mod (input_data : List Nat) (input_len : Nat) (output_data : List Nat) :
    List Nat :=
  let num_pad_bytes := sc_scda_pad_to_mod_len input_len
  let o1 := sc_scda_copy_bytes output_data input_data input_len
  let o2 :=
    if input_len > 0 ∧ input_data.getD (input_len - 1) 0 = 10 then buf_write o1 input_len [61]
    else buf_write o1 input_len [10]
  let o3 := buf_write o2 (input_len + 1) [61]
  let o4 := o3.take (input_len + 2) ++
    sc_scda_set_bytes (o3.drop (input_len + 2)) 61 (num_pad_bytes - 4)
  let o5 := buf_write o4 (input_len + num_pad_bytes - 2) [10]
  buf_write o5 (input_len + num_pad_bytes - 1) [10]

/-- The C macro `SIZE_MAX`, the largest value of `size_t`; `size_t` is taken to
be 64 bits wide. -/
def SIZE_MAX : Nat := 2 ^ 64 - 1

/-- The value that a `size_t` holds for the number `n`: `n` modulo
`SIZE_MAX + 1`. -/
def to_size_t (n : Nat) : Nat := n % (SIZE_MAX + 1)

/-- The difference `a - b` of two `size_t` values; it wraps around below 0. -/
def size_t_sub (a b : Nat) : Nat :=
  if b ≤ a then a - b else to_size_t (a + (SIZE_MAX + 1) - b)

/-- The loop `for (si = padded_len - 3; si != padded_len - num_pad_bytes; --si)`
of `sc_scda_get_pad_to_mod`, at the value `si` with `n` iterations to go:
`false` when it returns -1 from inside the loop. -/
def mod_scan (padded_data : List Nat) : Nat → Nat → Bool
  | 0, _ => true
  | n + 1, si =>
    if padded_data.getD si 0 ≠ 61 then false else mod_scan padded_data n (size_t_sub si 1)

/-- Translation of `sc_scda_get_pad_to_mod (padded_data, padded_len, raw_len,
raw_data)`: the output `raw_data`.  The sum `num_pad_bytes + raw_len` and the
differences are `size_t` values, computed modulo `SIZE_MAX + 1`; the loop runs
once for each value of `si` from `padded_len - 3` down to, and without,
`padded_len - num_pad_bytes`. -/
def sc_scda_get_pad_to_mod (padded_data : List Nat) (padded_len raw_len : Nat)
    (raw_data : List Nat) : Option (List Nat) :=
  let num_pad_bytes := sc_scda_pad_to_mod_len raw_len
  if to_size_t (num_pad_bytes + raw_len) ≠ to_size_t padded_len then none
  else if padded_data.getD (size_t_sub padded_len 1) 0 ≠ 10 ∨
      padded_data.getD (size_t_sub padded_len 2) 0 ≠ 10 then
    none
  else if mod_scan padded_data
      (size_t_sub (size_t_sub padded_len 3) (size_t_sub padded_len num_pad_bytes))
      (size_t_sub padded_len 3) = false then none
  else
    let si := size_t_sub padded_len num_pad_bytes
    if ¬ ((padded_data.getD si 0 = 61 ∧ raw_len ≠ 0 ∧
          padded_data.getD (size_t_sub si 1) 0 = 10) ∨
        padded_data.getD si 0 = 10) then none
    else if raw_len ≠ 0 then some (sc_scda_copy_bytes raw_data padded_data raw_len)
    else some raw_data

/-- The C library function `strlen`: the number of bytes before the first nul. -/
def strlen (s : List Nat) : Nat := (s.takeWhile (fun c => c ≠ 0)).length

/-- Modelled from the spec: `sc_strcopy (dest, size, src)` is defined in sc.c,
which is not among the sources.  As its caller notes ("user_string_copy is
guaranteed to be nul-terminated") it copies the nul-terminated `src`, cut to at
most `size - 1` bytes, and terminates the copy with nul. -/
def sc_strcopy (size : Nat) (src : List Nat) : List Nat :=
  (src.takeWhile (fun c => c ≠ 0)).take (size - 1) ++ [0]

/-- Translation of `sc_scda_get_user_string_len (user_string, in_len, out_len)`:
the output `*out_len`; `in_len = none` is the NULL pointer. -/
def sc_scda_get_user_string_len (user_string : List Nat) (in_len : Option Nat) : Option Nat :=
  match in_len with
  | some n =>
      if n > SC_SCDA_USER_STRING_BYTES then none
      else if user_string.getD n 0 ≠ 0 then none
      else some n
  | none =>
      let user_string_copy := sc_strcopy (SC_SCDA_USER_STRING_BYTES + 1) user_string
      let len := strlen user_string_copy
      if len < SC_SCDA_USER_STRING_BYTES then some len
      else if user_string.getD (SC_SCDA_USER_STRING_BYTES - 1) 0 = 0 then some len
      else none

/-- Translation of the block `if (fc->mpirank == 0)` of `sc_scda_fopen_write`,
entered after the file was opened: the 128 bytes of `file_header_data` that are
handed to `sc_io_write_at`, or `none` when the function returns NULL because
`sc_scda_get_user_string_len` fails.  The argument `file_header_data` is the
content of the local array before it is filled. -/
def sc_scda_fopen_write (user_string : List Nat) (len : Option Nat)
    (file_header_data : List Nat) : Option (List Nat) :=
  let h1 := sc_scda_copy_bytes file_header_data SC_SCDA_MAGIC SC_SCDA_MAGIC_BYTES
  let c1 := SC_SCDA_MAGIC_BYTES
  let h2 := buf_write h1 c1 [32]
  let c2 := c1 + 1
  let h3 := h2.take c2 ++ sc_scda_pad_to_fix_len SC_SCDA_VENDOR_STRING
    (strlen SC_SCDA_VENDOR_STRING) (h2.drop c2) SC_SCDA_VENDOR_STRING_FIELD
  let c3 := c2 + SC_SCDA_VENDOR_STRING_FIELD
  let h4 := buf_write h3 c3 [70]
  let c4 := c3 + 1
  let h5 := buf_write h4 c4 [32]
  let c5 := c4 + 1
  match sc_scda_get_user_string_len user_string len with
  | none => none
  | some user_string_len =>
      let h6 := h5.take c5 ++ sc_scda_pad_to_fix_len user_string user_string_len (h5.drop c5)
        SC_SCDA_USER_STRING_FIELD
      let c6 := c5 + SC_SCDA_USER_STRING_FIELD
      let h7 := h6.take c6 ++ sc_scda_pad_to_mod [] 0 (h6.drop c6)
      some h7

/-- Translation of `sc_scda_check_file_header (file_header_data, user_string,
len)`.  The argument `vendor_string` is the content of the local array
`char vendor_string[SC_SCDA_VENDOR_STRING_BYTES]` before it is filled, and
`user_string` is the buffer of the caller, whose length is its capacity.  The
result is `none` when the function writes behind the end of one of the two
buffers (undefined behaviour): `sc_scda_get_pad_to_fix_len` copies `vendor_len`
bytes to `vendor_string` and `*len` bytes to `user_string`, and the function
stores a nul at `user_string[*len]`.  Otherwise the result is `some none` for
the return value -1 and `some (some (user_string, *len))`, the outputs, for the
return value 0. -/
def sc_scda_check_file_header (file_header_data : List Nat) (vendor_string : List Nat)
    (user_string : List Nat) : Option (Option (List Nat × Nat)) :=
  if ¬ (file_header_data.getD SC_SCDA_MAGIC_BYTES 0 = 32 ∧
        file_header_data.getD (SC_SCDA_MAGIC_BYTES + 1 + SC_SCDA_VENDOR_STRING_FIELD) 0 = 70 ∧
        file_header_data.getD (SC_SCDA_MAGIC_BYTES + 1 + SC_SCDA_VENDOR_STRING_FIELD + 1) 0 = 32)
  then some none
  else if SC_SCDA_MAGIC.take SC_SCDA_MAGIC_BYTES ≠ file_header_data.take SC_SCDA_MAGIC_BYTES then
    some none
  else
    let p1 := SC_SCDA_MAGIC_BYTES + 1
    match sc_scda_get_pad_to_fix_len (file_header_data.drop p1) SC_SCDA_VENDOR_STRING_FIELD
        vendor_string with
    | none => some none
    | some (_, vendor_len) =>
        if SC_SCDA_VENDOR_STRING_BYTES < vendor_len then none
        else
          let p2 := p1 + (SC_SCDA_VENDOR_STRING_FIELD + 2)
          match sc_scda_get_pad_to_fix_len (file_header_data.drop p2) SC_SCDA_USER_STRING_FIELD
              user_string with
          | none => some none
          | some (user_string1, len) =>
              if user_string.length ≤ len then none
              else
                let user_string2 := buf_write user_string1 len [0]
                let p3 := p2 + SC_SCDA_USER_STRING_FIELD
                match sc_scda_get_pad_to_mod (file_header_data.drop p3) SC_SCDA_PADDING_MOD 0
                    [] with
                | none => some none
                | some _ => some (some (user_string2, len))

/-! ## The file header -/

/-- The header that the scda format prescribes for a user string `u`: magic,
vendor field, the section character `F`, the user field and the padding. -/
def scda_header_layout (u : List Nat) : List Nat :=
  SC_SCDA_MAGIC ++ [32] ++
  (SC_SCDA_VENDOR_STRING ++ [32] ++ List.replicate 17 45 ++ [10]) ++
  [70] ++ [32] ++
  (u ++ [32] ++ List.replicate (60 - u.length) 45 ++ [10]) ++
  ([10] ++ List.replicate 29 61 ++ [10, 10])

/-! ## Incidence predicates for the static tables -/

/-- Bit `a` of the corner number `c`. -/
def corner_bit (c a : Nat) : Nat := c / 2 ^ a % 2

/-- The corner `c` is one of the four entries of `p8est_face_corners[f]`. -/
def face_has_corner (f c : Int) : Bool :=
  match aget p8est_face_corners f with
  | some row => row.contains c
  | none => false

/-- The corner `c` is one of the two entries of `p8est_edge_corners[e]`. -/
def edge_has_corner (e c : Int) : Bool :=
  match aget p8est_edge_corners e with
  | some row => row.contains c
  | none => false

/-- The face `f` is one of the two entries of `p8est_edge_faces[e]`. -/
def edge_has_face (e f : Int) : Bool :=
  match aget p8est_edge_faces e with
  | some row => row.contains f
  | none => false

/-- Both end corners of the edge `e` are corners of the face `f`. -/
def face_has_edge_corners (f e : Int) : Bool :=
  match aget p8est_edge_corners e with
  | some row => row.all fun c => face_has_corner f c
  | none => false

/-- The ascending list of the numbers below `n` that satisfy `p`, as C integers. -/
def ascending_where (n : Nat) (p : Nat → Bool) : List Int :=
  ((List.range n).filter p).map Int.ofNat

/-- Composition of two face corner permutations given as rows: the row
`k ↦ p[q[k]]`; `none` if an entry of `q` is no index of `p`. -/
def perm_compose (p q : List Int) : Option (List Int) :=
  q.mapM fun k => aget p k

/-- Lexicographic order on rows: `p` comes strictly before `q`. -/
def lex_lt : List Int → List Int → Bool
  | [], [] => false
  | [], _ :: _ => true
  | _ :: _, [] => false
  | a :: p, b :: q => decide (a < b) || (decide (a = b) && lex_lt p q)

/-- The 24 permutations of 0..3 as rows: the rows `[a, b, c, d]` over 0..3
without a repeated entry. -/
def permutations4 : List (List Int) :=
  ((List.range 256).map fun n =>
    [((n / 64 % 4 : Nat) : Int), ((n / 16 % 4 : Nat) : Int), ((n / 4 % 4 : Nat) : Int),
      ((n % 4 : Nat) : Int)]).filter fun p => decide p.Nodup

/-- Lexicographic rank of a row among the 24 permutations of 0..3: the number
of permutations that are lexicographically smaller. -/
def lex_rank (row : List Int) : Nat :=
  (permutations4.filter fun p => lex_lt p row).length

/-! ## Well-formed padding and headers -/

/-- A field of `pad_len` bytes is padded to fixed length: it ends in a line
break, preceded by a possibly empty run of '-', preceded by a blank at index
`i`. -/
def fix_len_padded_at (field : List Nat) (pad_len i : Nat) : Prop :=
  field.getD (pad_len - 1) 0 = 10 ∧ i ≤ pad_len - 2 ∧ field.getD i 0 = 32 ∧
    ∀ j, i < j → j ≤ pad_len - 2 → field.getD j 0 = 45

/-- A field of `pad_len` bytes is padded to fixed length, for some position of
the blank. -/
def fix_len_padded (field : List Nat) (pad_len : Nat) : Prop :=
  ∃ i, fix_len_padded_at field pad_len i

/-- The conditions on a file header that `sc_scda_check_file_header` tests:
bytes 0..6 are "scdata0", byte 7 is a blank, byte 32 is 'F', byte 33 is a
blank, the vendor field (bytes 8..31) and the user field (bytes 34..95) are
padded to fixed length, and the last 32 bytes are a line break, 29 times '='
and two line breaks. -/
def scda_header_well_formed (h : List Nat) : Prop :=
  h.take 7 = [115, 99, 100, 97, 116, 97, 48] ∧
  h.getD 7 0 = 32 ∧ h.getD 32 0 = 70 ∧ h.getD 33 0 = 32 ∧
  fix_len_padded (h.drop 8) 24 ∧ fix_len_padded (h.drop 34) 62 ∧
  h.drop 96 = [10] ++ List.replicate 29 61 ++ [10, 10]

/-- A 128-byte file header that is well formed for `sc_scda_check_file_header`
although its vendor field holds 22 data bytes and its user field 60 data bytes:
each field is filled with the byte 'a' up to the blank and the line break. -/
def overlong_header : List Nat :=
  [115, 99, 100, 97, 116, 97, 48] ++ [32] ++
  (List.replicate 22 97 ++ [32, 10]) ++
  [70] ++ [32] ++
  (List.replicate 60 97 ++ [32, 10]) ++
  ([10] ++ List.replicate 29 61 ++ [10, 10])

/-- A 128-byte file header that is well formed, with a vendor field of 20 data
bytes, which fit the array `vendor_string`, and a user field of 60 data bytes:
the fields are filled with the byte 'a'. -/
def overlong_user_header : List Nat :=
  [115, 99, 100, 97, 116, 97, 48] ++ [32] ++
  (List.replicate 20 97 ++ [32, 45, 45, 10]) ++
  [70] ++ [32] ++
  (List.replicate 60 97 ++ [32, 10]) ++
  ([10] ++ List.replicate 29 61 ++ [10, 10])

/-- The bytes that `sc_scda_get_pad_to_mod` accepts as padding of `raw_len`
data bytes within `padded_len` bytes: the length fits, the last two bytes are
line breaks, the bytes between are '=', and the first padding byte is a line
break, or '=' after data that ends in a line break. -/
def mod_padded (padded_data : List Nat) (padded_len raw_len : Nat) : Prop :=
  padded_len = raw_len + sc_scda_pad_to_mod_len raw_len ∧
  padded_data.getD (padded_len - 1) 0 = 10 ∧ padded_data.getD (padded_len - 2) 0 = 10 ∧
  (∀ j, raw_len < j → j ≤ padded_len - 3 → padded_data.getD j 0 = 61) ∧
  ((padded_data.getD raw_len 0 = 61 ∧ raw_len ≠ 0 ∧ padded_data.getD (raw_len - 1) 0 = 10) ∨
    padded_data.getD raw_len 0 = 10)

/-- A buffer that `sc_scda_get_pad_to_mod` accepts for `raw_len = 1` although
`sc_scda_pad_to_mod` does not produce it: the data byte is a line break and the
padding starts with a line break instead of '='. -/
def lenient_mod_padded : List Nat :=
  [10] ++ [10] ++ List.replicate 28 61 ++ [10, 10]

/-- A buffer in the format of `sc_scda_pad_to_mod` for the four data bytes
"Test": the data, a line break, 25 times '=' and two line breaks. -/
def mod_padded_example : List Nat :=
  [84, 101, 115, 116] ++ [10] ++ List.replicate 25 61 ++ [10, 10]

/-- The header that `sc_scda_fopen_write` writes for the user string
"This is a test file" of test_scda.c. -/
def test_file_header : List Nat :=
  scda_header_layout
    [84, 104, 105, 115, 32, 105, 115, 32, 97, 32, 116, 101, 115, 116, 32, 102, 105, 108, 101]

/-! ## Child tables -/

/-- Number of bit positions 0..2 in which the corner numbers `c` and `k` differ. -/
def bits_differ (c k : Nat) : Nat :=
  ((List.range 3).filter fun a => decide (corner_bit c a ≠ corner_bit k a)).length

/-- The face `f` is one of the three entries of `p8est_corner_faces[c]`. -/
def corner_has_face (c f : Int) : Bool :=
  match aget p8est_corner_faces c with
  | some row => row.contains f
  | none => false

/-- The faces that belong both to `p8est_edge_faces[e]` and to
`p8est_corner_faces[c]`, in ascending order. -/
def common_faces (c e : Nat) : List Int :=
  ascending_where 6 fun f => edge_has_face e f && corner_has_face c f

/-- The edges whose `p8est_edge_corners` row contains both `c` and `k`, in
ascending order. -/
def joining_edges (c k : Nat) : List Int :=
  ascending_where 12 fun e => edge_has_corner e c && edge_has_corner e k

/-! ## Ranges of the stored codes -/

/-- The offsets `offs` start at 0, are non-decreasing and end at `len`. -/
def offsets_valid (offs : List Int) (len : Nat) : Prop :=
  offs.head? = some 0 ∧ (∀ p ∈ offs.zip offs.tail, p.1 ≤ p.2) ∧ offs.getLast? = some (len : Int)

/-- Every stored index and orientation code of the connectivity is in range:
trees in `0..num_trees-1`, face codes in 0..23, vertices in
`0..num_vertices-1`, global edges in `-1..num_edges-1`, edge codes in 0..23,
corner numbers in 0..7; the offset arrays are valid for the reverse tables; and
a face that connects a tree to the same face of itself has orientation 0. -/
def codes_in_range (conn : p4est_connectivity_t) : Prop :=
  (∀ x ∈ conn.tree_to_tree, 0 ≤ x ∧ x < conn.num_trees) ∧
  (∀ x ∈ conn.tree_to_face, 0 ≤ x ∧ x < 24) ∧
  (∀ x ∈ conn.tree_to_vertex, 0 ≤ x ∧ x < conn.num_vertices) ∧
  (∀ x ∈ conn.tree_to_edge, -1 ≤ x ∧ x < conn.num_edges) ∧
  (∀ x ∈ conn.edge_to_tree, 0 ≤ x ∧ x < conn.num_trees) ∧
  (∀ x ∈ conn.edge_to_edge, 0 ≤ x ∧ x < 24) ∧
  (∀ x ∈ conn.corner_to_corner, 0 ≤ x ∧ x < 8) ∧
  offsets_valid conn.ett_offset conn.edge_to_tree.length ∧
  offsets_valid conn.ctt_offset conn.corner_to_tree.length ∧
  (∀ t < conn.num_trees.toNat, ∀ f < 6,
    aget conn.tree_to_tree (6 * (t : Int) + (f : Nat)) = some (t : Int) →
    (aget conn.tree_to_face (6 * (t : Int) + (f : Nat))).map (fun x => x % 6) = some (f : Int) →
    aget conn.tree_to_face (6 * (t : Int) + (f : Nat)) = some (f : Int))

/-! ## The assertions of p8est_find_edge_transform -/

/-- The C value of a comparison `x != y`: 1 if it holds and 0 otherwise. -/
def c_ne (x y : Int) : Int := if x ≠ y then 1 else 0

/-- The assertions at the end of the two loops of `p8est_find_edge_transform`
on the local variables `s`: `ietree >= 0 && iflip >= 0`, every
`!founds[i] && !nows[!i]` that was reached, and `edge_trees == elem_count + 1 +
(ntrees[0] != -1) + (ntrees[1] != -1) - flipped`. -/
def edge_scan_asserts (s : edge_scan_t) : Prop :=
  (0 ≤ s.ietree ∧ 0 ≤ s.iflip) ∧
  s.loop.bracket_ok = true ∧
  s.edge_trees =
    (s.loop.ta.length : Int) + 1 + c_ne s.f0.ntree (-1) + c_ne s.f1.ntree (-1) - s.loop.flipped

/-- The assertions of `p8est_find_edge_transform` hold for every tree and every
local edge of the connectivity: where the function does not return early, it
reads no array outside its bounds and the assertions hold. -/
def edge_asserts_hold (conn : p4est_connectivity_t) : Prop :=
  ∀ t e : Nat, (t : Int) < conn.num_trees → e < 12 → conn.num_edges ≠ 0 →
    ∃ aedge, aget conn.tree_to_edge (12 * (t : Int) + (e : Int)) = some aedge ∧
      (aedge ≠ -1 →
        ∃ s, p8est_find_edge_transform_scan conn t e aedge = some s ∧ edge_scan_asserts s)

/-- Executable form of `edge_asserts_hold` at one tree and edge. -/
def edge_asserts_at (conn : p4est_connectivity_t) (t e : Nat) : Bool :=
  decide (conn.num_edges = 0) ||
  match aget conn.tree_to_edge (12 * (t : Int) + (e : Int)) with
  | none => false
  | some aedge =>
      decide (aedge = -1) ||
      match p8est_find_edge_transform_scan conn t e aedge with
      | none => false
      | some s =>
          decide (0 ≤ s.ietree ∧ 0 ≤ s.iflip) && s.loop.bracket_ok &&
          decide (s.edge_trees =
            (s.loop.ta.length : Int) + 1 + c_ne s.f0.ntree (-1) + c_ne s.f1.ntree (-1) -
              s.loop.flipped)

/-- Executable form of `edge_asserts_hold`. -/
def edge_asserts_check (conn : p4est_connectivity_t) : Bool :=
  (List.range conn.num_trees.toNat).all fun t => (List.range 12).all fun e =>
    edge_asserts_at conn t e

/-! ## The transform list as a sub-list of the reverse table -/

/-- The entry `(ntree, nedge, nflip)` at slot `etree` of the reverse list that
starts at `off`: the stored tree, the stored edge code modulo 12, and the stored
flip relative to the caller's flip `iflip`. -/
def edge_entry (conn : p4est_connectivity_t) (off iflip : Int) (etree : Nat) :
    Option (Int × Int × Int) :=
  (aget conn.edge_to_tree (off + (etree : Int))).bind fun ntree =>
  (aget conn.edge_to_edge (off + (etree : Int))).map fun redge =>
    (ntree, Int.tmod redge 12, Int.xor (Int.tdiv redge 12) iflip)

/-- The bracketing face `fi` matches the entry `(ntree, nedge, nflip)`: the face
is not a domain boundary, `ntree` is the neighbor tree across it, `nedge` lies
on the neighbor's contact face, and the caller's two face-corner numbers of the
edge, mapped by the face permutation for (face, neighbor face, orientation),
equal the entry's face-corner pair on the neighbor face in the order selected
by `nflip`. -/
def bracket_face_matches (fi : edge_face_t) (en : Int × Int × Int) : Bool :=
  decide (fi.ntree ≠ -1) && decide (en.1 = fi.ntree) && edge_has_face en.2.1 fi.nface &&
  match (aget fi.fcorners 0).bind (face_permutation fi.face fi.nface fi.orient),
        (aget fi.fcorners 1).bind (face_permutation fi.face fi.nface fi.orient),
        (aget2 p8est_edge_face_corners en.2.1 fi.nface).bind (fun r => aget r en.2.2),
        (aget2 p8est_edge_face_corners en.2.1 fi.nface).bind (fun r => aget r (c_not en.2.2)) with
  | some p0, some p1, some q0, some q1 => decide (p0 = q0 ∧ p1 = q1)
  | _, _, _, _ => false

/-- The entries of the reverse list at the slots `slots`, each with its slot. -/
def reverse_entries (conn : p4est_connectivity_t) (off iflip : Int) (slots : List Nat) :
    List (Nat × Int × Int × Int) :=
  slots.filterMap fun k => (edge_entry conn off iflip k).map fun en => (k, en)

/-- The sub-list, in the order of the reverse table, of the entries other than
the one at slot `ietree` that neither bracketing face matches, each as the
transform record that is stored for it. -/
def edge_transform_sublist (conn : p4est_connectivity_t) (off : Int) (f0 f1 : edge_face_t)
    (ietree iflip : Int) (slots : List Nat) : List p8est_edge_transform_t :=
  ((reverse_entries conn off iflip slots).filter fun en =>
      decide ((en.1 : Int) ≠ ietree) && !bracket_face_matches f0 en.2 &&
        !bracket_face_matches f1 en.2).map
    fun en => edge_transform_of en.2.1 en.2.2.1 en.2.2.2

/-- Table check: the first entry of `p8est_edge_face_corners[e][f]` is not
negative exactly if the face `f` is one of `p8est_edge_faces[e]`. -/
def edge_face_corners_sign_at (e f : Nat) : Bool :=
  match aget2 p8est_edge_face_corners (e : Int) (f : Int) with
  | some row =>
      (match aget row 0 with
       | some v => decide (0 ≤ v) == edge_has_face e f
       | none => false)
  | none => false

/-! ## The transform list in terms of the connectivity arrays -/

/-- The bracketing face `i` (one of the two faces `p8est_edge_faces[iedge][i]`
that touch the edge `iedge` of the tree `itree`) matches the entry
`(ntree, nedge, nflip)`, read off the connectivity arrays: with
`face = p8est_edge_faces[iedge][i]`, `t' = tree_to_tree[6 * itree + face]` and
`x = tree_to_face[6 * itree + face]`, which encodes the contact face
`x mod 6` and the orientation `x / 6`, the face is not a domain boundary (not
both `t' = itree` and `x = face`), `ntree` is the neighbor tree `t'`, `nedge`
lies on the contact face, and the two face-corner numbers
`p8est_edge_face_corners[iedge][face]` of the caller's edge, mapped by the face
permutation `P(face, x mod 6, x / 6)`, are the entries `nflip` and `!nflip` of
`p8est_edge_face_corners[nedge][x mod 6]`. -/
def face_matches_entry (conn : p4est_connectivity_t) (itree iedge i : Int)
    (en : Int × Int × Int) : Bool :=
  match aget2 p8est_edge_faces iedge i with
  | none => false
  | some face =>
    match aget conn.tree_to_tree (6 * itree + face),
          aget conn.tree_to_face (6 * itree + face) with
    | some t', some x =>
        !decide (t' = itree ∧ x = face) && decide (en.1 = t') &&
        edge_has_face en.2.1 (Int.tmod x 6) &&
        match ((aget2 p8est_edge_face_corners iedge face).bind fun r => aget r 0).bind
                (face_permutation face (Int.tmod x 6) (Int.tdiv x 6)),
              ((aget2 p8est_edge_face_corners iedge face).bind fun r => aget r 1).bind
                (face_permutation face (Int.tmod x 6) (Int.tdiv x 6)),
              (aget2 p8est_edge_face_corners en.2.1 (Int.tmod x 6)).bind
                (fun r => aget r en.2.2),
              (aget2 p8est_edge_face_corners en.2.1 (Int.tmod x 6)).bind
                (fun r => aget r (c_not en.2.2)) with
        | some p0, some p1, some q0, some q1 => decide (p0 = q0 ∧ p1 = q1)
        | _, _, _, _ => false
    | _, _ => false

/-- The list that `p8est_find_edge_transform` is to return for the edge `iedge`
of the tree `itree`, whose own entry is at the slot `ietree` of the reverse
list at offset `off` and has the flip `iflip`: the sub-list, in the order of
the reverse table, of the entries at the slots `slots` other than the own
entry that neither bracketing face matches, each as the transform record that
is stored for it. -/
def claimed_edge_transforms (conn : p4est_connectivity_t) (itree iedge off ietree iflip : Int)
    (slots : List Nat) : List p8est_edge_transform_t :=
  ((reverse_entries conn off iflip slots).filter fun en =>
      decide ((en.1 : Int) ≠ ietree) && !face_matches_entry conn itree iedge 0 en.2 &&
        !face_matches_entry conn itree iedge 1 en.2).map
    fun en => edge_transform_of en.2.1 en.2.2.1 en.2.2.2

/-! ## p8est_connectivity_new_brick -/

/-- The number of times `x` can be halved before it drops below 2, with `fuel`
bounding the number of steps. -/
def log2_floor : Nat → Nat → Nat
  | 0, _ => 0
  | fuel + 1, x => if x < 2 then 0 else log2_floor fuel (x / 2) + 1

/-- Modelled from the spec: the macro `SC_LOG2_32` is defined in sc.h, which is
not among the sources.  It is taken as the position of the highest set bit of
its argument (the binary logarithm rounded down), and -1 for the argument 0,
the value `p8est_connectivity_new_brick` needs for a brick of one tree. -/
def SC_LOG2_32 (x : Int) : Int := if x ≤ 0 then -1 else (log2_floor x.toNat x.toNat : Int)

/-- An array whose cells may be indeterminate: `none` is a cell that was never
written (or was written with an indeterminate value). -/
def arr_get (a : Int → Option Int) (i : Option Int) : Option Int := i.bind a

/-- The assignment `a[i] = v`.  A write at an indeterminate index leaves no
cell determinate. -/
def arr_set (a : Int → Option Int) (i : Option Int) (v : Option Int) : Int → Option Int :=
  match i with
  | some k => fun j => if j = k then v else a j
  | none => fun _ => none

/-- The parameters of a brick: the sizes and the periodicity flags, and the
values derived from them at the start of `p8est_connectivity_new_brick`. -/
structure brick_t where
  m : Int
  n : Int
  p : Int
  periodic_a : Int
  periodic_b : Int
  periodic_c : Int

/-- The local `mc`. -/
def brick_t.mc (b : brick_t) : Int := if b.periodic_a ≠ 0 then b.m else b.m - 1

/-- The local `nc`. -/
def brick_t.nc (b : brick_t) : Int := if b.periodic_b ≠ 0 then b.n else b.n - 1

/-- The local `pc`. -/
def brick_t.pc (b : brick_t) : Int := if b.periodic_c ≠ 0 then b.p else b.p - 1

/-- The local `log_cl`: `SC_LOG2_32 (cube_length - 1) + 1` for `cube_length`
the largest of `m`, `n`, `p`. -/
def brick_t.log_cl (b : brick_t) : Int :=
  let cube_length := if b.m > b.n then b.m else b.n
  let cube_length := if cube_length > b.p then cube_length else b.p
  SC_LOG2_32 (cube_length - 1) + 1

/-- The entry `periodic[d]` of the local array `periodic`. -/
def brick_t.periodic (b : brick_t) (d : Nat) : Int :=
  if d = 0 then b.periodic_a else if d = 1 then b.periodic_b else b.periodic_c

/-- The entry `max[d]` of the local array `max`. -/
def brick_t.max (b : brick_t) (d : Nat) : Int :=
  if d = 0 then b.m - 1 else if d = 1 then b.n - 1 else b.p - 1

/-- The variables that the numbering pass of `p8est_connectivity_new_brick`
updates. -/
structure brick_numbering_t where
  linear_to_tree : Int → Option Int
  tree_to_corner2 : Int → Option Int
  tree_to_edge2 : Int → Option Int
  tj : Int
  tk : Int
  tl : Int

/-- The variables before the numbering pass: the three work arrays are
allocated and hold nothing yet, and `tj = tk = tl = 0`. -/
def brick_numbering_init : brick_numbering_t :=
  { linear_to_tree := fun _ => none, tree_to_corner2 := fun _ => none,
    tree_to_edge2 := fun _ => none, tj := 0, tk := 0, tl := 0 }

/-- The entry `coord[d]` of the local array `coord = {tx, ty, tz}`. -/
def brick_coord (tx ty tz : Int) (d : Nat) : Int :=
  if d = 0 then tx else if d = 1 then ty else tz

/-- The test `!periodic[d] && ((coord[d] == 0 && s == 0) || (coord[d] == max[d]
&& s == 1))`: side `s` of axis `d` is a boundary of the domain at this tree. -/
def brick_on_boundary (b : brick_t) (tx ty tz : Int) (d s : Nat) : Bool :=
  decide (b.periodic d = 0 ∧
    ((brick_coord tx ty tz d = 0 ∧ s = 0) ∨ (brick_coord tx ty tz d = b.max d ∧ s = 1)))

/-- The value stored in `tree_to_face[tj * 6 + l]`. -/
def brick_face_code (b : brick_t) (tx ty tz : Int) (l : Nat) : Option Int :=
  if brick_on_boundary b tx ty tz (l / 2) (l % 2) then some (to_int8 (l : Int))
  else some (to_int8 (((l / 2 * 2 + ((l % 2) ^^^ 1) : Nat)) : Int))

/-- The local `dir1` for the edge axis `i`. -/
def brick_dir1 (i : Nat) : Nat := if i = 0 then 1 else 0

/-- The local `dir2` for the edge axis `i`. -/
def brick_dir2 (i : Nat) : Nat := if i = 2 then 1 else 2

/-- The test that sets `tree_to_edge[tj * 12 + l] = -1`, `l = 4 * i + j`: the
edge lies on a boundary in direction `dir1` or `dir2`. -/
def brick_edge_boundary (b : brick_t) (tx ty tz : Int) (l : Nat) : Bool :=
  brick_on_boundary b tx ty tz (brick_dir1 (l / 4)) ((l % 4) &&& 1) ||
  brick_on_boundary b tx ty tz (brick_dir2 (l / 4)) ((l % 4) / 2)

/-- The test that sets `tree_to_corner[tj * 8 + i] = -1`. -/
def brick_corner_boundary (b : brick_t) (tx ty tz : Int) (i : Nat) : Bool :=
  brick_on_boundary b tx ty tz 0 (i &&& 1) ||
  brick_on_boundary b tx ty tz 1 ((i >>> 1) &&& 1) ||
  brick_on_boundary b tx ty tz 2 (i >>> 2)

/-- Apply a sequence of assignments `a[i] = v`, in order. -/
def arr_writes (a : Int → Option Int) (ws : List (Option Int × Option Int)) : Int → Option Int :=
  ws.foldl (fun a w => arr_set a w.1 w.2) a

/-- The arrays of the connectivity and the vertex counters while the second
pass of `p8est_connectivity_new_brick` runs. -/
structure brick_arrays_t where
  vertices : Int → Option Int
  tree_to_vertex : Int → Option Int
  tree_to_tree : Int → Option Int
  tree_to_face : Int → Option Int
  tree_to_edge : Int → Option Int
  edge_to_tree : Int → Option Int
  edge_to_edge : Int → Option Int
  tree_to_corner : Int → Option Int
  corner_to_tree : Int → Option Int
  corner_to_corner : Int → Option Int
  vcount : Int
  vicount : Int

/-- Modelled from the spec: `p4est_connectivity_new` lives in
p4est_connectivity.c, which is not part of the sources here.  It allocates the
arrays of a connectivity for the counts it is given.  The arrays of a kind of
entity whose count is 0 are NULL, as in the predefined connectivities, which
pass NULL edge and corner arrays together with the counts 0.  This is the test
`array != NULL`, for the edge arrays with `count = num_edges` and for the corner
arrays with `count = num_corners`. -/
abbrev p4est_connectivity_new_allocates (count : Int) : Prop := count > 0

/-- The first `len` cells of an array, as far as all of them are determinate. -/
def arr_list (a : Int → Option Int) (len : Int) : Option (List Int) :=
  (List.range len.toNat).mapM fun (i : Nat) => a ((i : Nat) : Int)

/-! ## p8est_connectivity_new_brick in 32-bit arithmetic

The counters, sizes and array indices of `p8est_connectivity_new_brick` are
`p4est_topidx_t` and `int` values.  Every sum of products that can leave the
range of 32 bits is wrapped by `to_topidx`; the differences `m - 1`, `n - 1`,
`p - 1` cannot, since the function asserts `m > 0`, `n > 0` and `p > 0`. -/

/-- Modelled from the spec: the types `p4est_topidx_t` and `p4est_locidx_t` are
declared in p4est_base.h, which is not among the sources; they are taken as
`int32_t`, and `int` as 32 bits wide.  `to_topidx x` is the value that such a
variable holds for the integer `x`: `x` modulo `2^32` in the range
`-2^31 .. 2^31 - 1`, the two's complement wrap-around (ISO C leaves a signed
overflow undefined).  Wrapping a sum of products once gives the same value as
wrapping after every operation. -/
def to_topidx (x : Int) : Int := (x + 2147483648) % 4294967296 - 2147483648

/-- The `int` value `1 << s` as a pattern of 32 bits: `2^s` modulo `2^32`. -/
def int_shl1 (s : Nat) : Nat := (1 <<< s) % 4294967296

/-- The `int` value `v << s` as a pattern of 32 bits, for `v` not negative. -/
def int_shl (v s : Nat) : Nat := (v <<< s) % 4294967296

/-- The loop that extracts `(tx, ty, tz)` from the bits of the Morton index
`ti`: `tx |= (ti & (1 << (3 * i))) >> (2 * i)` and likewise for `ty`, `tz`.
The index `ti` is not negative; the `int` values `1 << s` are taken as bit
patterns. -/
def brick_coords (log_cl : Nat) (ti : Nat) : Nat × Nat × Nat :=
  (List.range log_cl).foldl
    (fun (c : Nat × Nat × Nat) (i : Nat) =>
      (c.1 ||| ((ti &&& int_shl1 (3 * i)) >>> (2 * i)),
       c.2.1 ||| ((ti &&& int_shl1 (3 * i + 1)) >>> (2 * i + 1)),
       c.2.2 ||| ((ti &&& int_shl1 (3 * i + 2)) >>> (2 * i + 2))))
    (0, 0, 0)

/-- The loop that interleaves the bits of `(x, y, z)` to a Morton index:
`t |= (x & (1 << k)) << (2 * k)`, `t |= (y & (1 << k)) << (2 * k + 1)`,
`t |= (z & (1 << k)) << (2 * k + 2)`.  The coordinates are not negative; the
shifted values are taken as bit patterns of 32 bits. -/
def brick_linear (log_cl : Nat) (x y z : Nat) : Nat :=
  (List.range log_cl).foldl
    (fun (t : Nat) (k : Nat) =>
      ((t ||| int_shl (x &&& int_shl1 k) (2 * k)) ||| int_shl (y &&& int_shl1 k) (2 * k + 1)) |||
        int_shl (z &&& int_shl1 k) (2 * k + 2))
    0

/-- The local `num_trees`. -/
def brick_t.num_trees (b : brick_t) : Int := to_topidx (b.m * b.n * b.p)

/-- The local `num_vertices`. -/
def brick_t.num_vertices (b : brick_t) : Int :=
  to_topidx ((b.m + 1) * (b.n + 1) * (b.p + 1))

/-- The local `num_corners`. -/
def brick_t.num_corners (b : brick_t) : Int := to_topidx (b.mc * b.nc * b.pc)

/-- The local `num_edges`. -/
def brick_t.num_edges (b : brick_t) : Int :=
  to_topidx (b.m * b.nc * b.pc + b.mc * b.n * b.pc + b.mc * b.nc * b.p)

/-- The local `num_ett`. -/
def brick_t.num_ett (b : brick_t) : Int := to_topidx (4 * b.num_edges)

/-- The local `num_ctt`. -/
def brick_t.num_ctt (b : brick_t) : Int := to_topidx (8 * b.num_corners)

/-- The local `n_iter`: the cube of `cube_length = ((p4est_locidx_t) 1) << log_cl`,
both in 32 bits. -/
def brick_t.n_iter (b : brick_t) : Int :=
  let cube_length : Int := to_topidx ((1 <<< b.log_cl.toNat : Nat) : Int)
  to_topidx (cube_length * cube_length * cube_length)

/-- One iteration `ti` of the numbering pass (the first loop over `ti`). -/
def brick_number_step (b : brick_t) (s : brick_numbering_t) (ti : Nat) : brick_numbering_t :=
  let c := brick_coords b.log_cl.toNat ti
  let tx : Int := (c.1 : Int)
  let ty : Int := (c.2.1 : Int)
  let tz : Int := (c.2.2 : Int)
  if tx < b.m ∧ ty < b.n ∧ tz < b.p then
    let ltt := arr_set s.linear_to_tree (some (ti : Int)) (some s.tj)
    if (tx < b.m - 1 ∨ b.periodic_a ≠ 0) ∧ (ty < b.n - 1 ∨ b.periodic_b ≠ 0) ∧
        (tz < b.p - 1 ∨ b.periodic_c ≠ 0) then
      { linear_to_tree := ltt,
        tree_to_corner2 := arr_set s.tree_to_corner2 (some s.tj) (some s.tk),
        tree_to_edge2 :=
          arr_set (arr_set (arr_set s.tree_to_edge2 (some (to_topidx (3 * s.tj))) (some s.tl))
            (some (to_topidx (3 * s.tj + 1))) (some (to_topidx (s.tl + 1))))
            (some (to_topidx (3 * s.tj + 2))) (some (to_topidx (s.tl + 2))),
        tj := to_topidx (s.tj + 1), tk := to_topidx (s.tk + 1), tl := to_topidx (s.tl + 3) }
    else
      let e0 : Bool := (ty < b.n - 1 ∨ b.periodic_b ≠ 0) ∧ (tz < b.p - 1 ∨ b.periodic_c ≠ 0)
      let te2a :=
        arr_set s.tree_to_edge2 (some (to_topidx (3 * s.tj))) (some (if e0 then s.tl else -1))
      let tl1 := if e0 then to_topidx (s.tl + 1) else s.tl
      let e1 : Bool := (tx < b.m - 1 ∨ b.periodic_a ≠ 0) ∧ (tz < b.p - 1 ∨ b.periodic_c ≠ 0)
      let te2b := arr_set te2a (some (to_topidx (3 * s.tj + 1))) (some (if e1 then tl1 else -1))
      let tl2 := if e1 then to_topidx (tl1 + 1) else tl1
      let e2 : Bool := (tx < b.m - 1 ∨ b.periodic_a ≠ 0) ∧ (ty < b.n - 1 ∨ b.periodic_b ≠ 0)
      let te2c := arr_set te2b (some (to_topidx (3 * s.tj + 2))) (some (if e2 then tl2 else -1))
      let tl3 := if e2 then to_topidx (tl2 + 1) else tl2
      { linear_to_tree := ltt,
        tree_to_corner2 := arr_set s.tree_to_corner2 (some s.tj) (some (-1)),
        tree_to_edge2 := te2c,
        tj := to_topidx (s.tj + 1), tk := s.tk, tl := tl3 }
  else
    { s with linear_to_tree := arr_set s.linear_to_tree (some (ti : Int)) (some (-1)) }

/-- The numbering pass, run for the iterations `0 .. k - 1`. -/
def brick_number_upto (b : brick_t) (k : Nat) : brick_numbering_t :=
  (List.range k).foldl (brick_number_step b) brick_numbering_init

/-- The numbering pass of `p8est_connectivity_new_brick`. -/
def brick_numbering (b : brick_t) : brick_numbering_t :=
  brick_number_upto b b.n_iter.toNat

/-- The tree number `tf[l]` of the face neighbor, `l = 2 * i + j`: the entry of
`linear_to_tree` at the Morton index of the position one step along axis `i`,
taken modulo the size of the brick. -/
def brick_tf (b : brick_t) (ltt : Int → Option Int) (tx ty tz : Int) (l : Nat) : Option Int :=
  let i := l / 2
  let j : Int := ((l % 2 : Nat) : Int)
  let tfx := Int.tmod (to_topidx ((tx + (if i = 0 then 2 * j - 1 else 0)) + b.m)) b.m
  let tfy := Int.tmod (to_topidx ((ty + (if i = 1 then 2 * j - 1 else 0)) + b.n)) b.n
  let tfz := Int.tmod (to_topidx ((tz + (if i = 2 then 2 * j - 1 else 0)) + b.p)) b.p
  arr_get ltt
    (some (to_topidx ((brick_linear b.log_cl.toNat tfx.toNat tfy.toNat tfz.toNat : Nat) : Int)))

/-- The tree number `te[l]` of the edge neighbor, `l = 4 * i + j`. -/
def brick_te (b : brick_t) (ltt : Int → Option Int) (tx ty tz : Int) (l : Nat) : Option Int :=
  let i := l / 4
  let j := l % 4
  let j1 : Int := ((j &&& 1 : Nat) : Int)
  let j2 : Int := ((j / 2 : Nat) : Int)
  let tex := Int.tmod (to_topidx ((tx + (if i = 0 then 0 else 2 * j1 - 1)) + b.m)) b.m
  let tey :=
    Int.tmod (to_topidx ((ty + (if i = 1 then 0 else 2 * (if i = 0 then j1 else j2) - 1)) + b.n))
      b.n
  let tez := Int.tmod (to_topidx ((tz + (if i = 2 then 0 else 2 * j2 - 1)) + b.p)) b.p
  arr_get ltt
    (some (to_topidx ((brick_linear b.log_cl.toNat tex.toNat tey.toNat tez.toNat : Nat) : Int)))

/-- The tree number `tc[i]` of the corner neighbor. -/
def brick_tc (b : brick_t) (ltt : Int → Option Int) (tx ty tz : Int) (i : Nat) : Option Int :=
  let tcx := Int.tmod (to_topidx ((tx + (if i &&& 1 = 0 then -1 else 1)) + b.m)) b.m
  let tcy := Int.tmod (to_topidx ((ty + (if (i >>> 1) &&& 1 = 0 then -1 else 1)) + b.n)) b.n
  let tcz := Int.tmod (to_topidx ((tz + (if i >>> 2 = 0 then -1 else 1)) + b.p)) b.p
  arr_get ltt
    (some (to_topidx ((brick_linear b.log_cl.toNat tcx.toNat tcy.toNat tcz.toNat : Nat) : Int)))

/-- The value stored in `tree_to_tree[tj * 6 + l]`. -/
def brick_face_tree (b : brick_t) (ltt : Int → Option Int) (tx ty tz : Int) (tj : Option Int)
    (l : Nat) : Option Int :=
  if brick_on_boundary b tx ty tz (l / 2) (l % 2) then tj else brick_tf b ltt tx ty tz l

/-- The value `ttemp` of the `switch (j)` for the edge `l = 4 * i + j`: the
entry of `tree_to_edge2` for the axis `i` at the tree that numbers the edge. -/
def brick_edge_ttemp (b : brick_t) (num : brick_numbering_t) (tx ty tz : Int) (tj : Option Int)
    (l : Nat) : Option Int :=
  let i := l / 4
  let j := l % 4
  let t : Option Int :=
    if j = 0 then brick_te b num.linear_to_tree tx ty tz l
    else if j = 1 then brick_tf b num.linear_to_tree tx ty tz (brick_dir2 i * 2)
    else if j = 2 then brick_tf b num.linear_to_tree tx ty tz (brick_dir1 i * 2)
    else tj
  arr_get num.tree_to_edge2 (t.map fun t => to_topidx (t * 3 + (i : Int)))

/-- The value `ttemp` of the `switch (i)` for the corner `i`, looked up in
`tree_to_corner2`. -/
def brick_corner_ttemp (b : brick_t) (num : brick_numbering_t) (tx ty tz : Int)
    (tj : Option Int) (i : Nat) : Option Int :=
  let t : Option Int :=
    if i = 0 then brick_tc b num.linear_to_tree tx ty tz 0
    else if i = 1 then brick_te b num.linear_to_tree tx ty tz 0
    else if i = 2 then brick_te b num.linear_to_tree tx ty tz 4
    else if i = 3 then brick_tf b num.linear_to_tree tx ty tz 4
    else if i = 4 then brick_te b num.linear_to_tree tx ty tz 8
    else if i = 5 then brick_tf b num.linear_to_tree tx ty tz 2
    else if i = 6 then brick_tf b num.linear_to_tree tx ty tz 0
    else tj
  arr_get num.tree_to_corner2 t

/-- The assignments to `tree_to_tree` in the iteration at `(tx, ty, tz)`. -/
def brick_tree_to_tree_writes (b : brick_t) (num : brick_numbering_t) (tx ty tz : Int)
    (tj : Option Int) : List (Option Int × Option Int) :=
  (List.range 6).map fun (l : Nat) =>
    (tj.map fun t => to_topidx (t * 6 + (l : Int)),
      brick_face_tree b num.linear_to_tree tx ty tz tj l)

/-- The assignments to `tree_to_face` in the iteration at `(tx, ty, tz)`. -/
def brick_tree_to_face_writes (b : brick_t) (tx ty tz : Int) (tj : Option Int) :
    List (Option Int × Option Int) :=
  (List.range 6).map fun (l : Nat) =>
    (tj.map fun t => to_topidx (t * 6 + (l : Int)), brick_face_code b tx ty tz l)

/-- The assignments to `tree_to_edge` in the iteration at `(tx, ty, tz)`. -/
def brick_tree_to_edge_writes (b : brick_t) (num : brick_numbering_t) (tx ty tz : Int)
    (tj : Option Int) : List (Option Int × Option Int) :=
  (List.range 12).map fun (l : Nat) =>
    (tj.map fun t => to_topidx (t * 12 + (l : Int)),
      if brick_edge_boundary b tx ty tz l then some (-1)
      else brick_edge_ttemp b num tx ty tz tj l)

/-- The assignments to `edge_to_tree` in the iteration at `(tx, ty, tz)`. -/
def brick_edge_to_tree_writes (b : brick_t) (num : brick_numbering_t) (tx ty tz : Int)
    (tj : Option Int) : List (Option Int × Option Int) :=
  ((List.range 12).filter fun l => !brick_edge_boundary b tx ty tz l).map fun (l : Nat) =>
    ((brick_edge_ttemp b num tx ty tz tj l).map fun g =>
        to_topidx (4 * g + (3 - ((l % 4 : Nat) : Int))), tj)

/-- The assignments to `edge_to_edge` in the iteration at `(tx, ty, tz)`. -/
def brick_edge_to_edge_writes (b : brick_t) (num : brick_numbering_t) (tx ty tz : Int)
    (tj : Option Int) : List (Option Int × Option Int) :=
  ((List.range 12).filter fun l => !brick_edge_boundary b tx ty tz l).map fun (l : Nat) =>
    ((brick_edge_ttemp b num tx ty tz tj l).map fun g =>
        to_topidx (4 * g + (3 - ((l % 4 : Nat) : Int))),
      some (to_int8 (l : Int)))

/-- The assignments to `tree_to_corner` in the iteration at `(tx, ty, tz)`. -/
def brick_tree_to_corner_writes (b : brick_t) (num : brick_numbering_t) (tx ty tz : Int)
    (tj : Option Int) : List (Option Int × Option Int) :=
  (List.range 8).map fun (i : Nat) =>
    (tj.map fun t => to_topidx (t * 8 + (i : Int)),
      if brick_corner_boundary b tx ty tz i then some (-1)
      else brick_corner_ttemp b num tx ty tz tj i)

/-- The assignments to `corner_to_tree` in the iteration at `(tx, ty, tz)`. -/
def brick_corner_to_tree_writes (b : brick_t) (num : brick_numbering_t) (tx ty tz : Int)
    (tj : Option Int) : List (Option Int × Option Int) :=
  ((List.range 8).filter fun i => !brick_corner_boundary b tx ty tz i).map fun (i : Nat) =>
    ((brick_corner_ttemp b num tx ty tz tj i).map fun c => to_topidx (c * 8 + (7 - (i : Int))),
      tj)

/-- The assignments to `corner_to_corner` in the iteration at `(tx, ty, tz)`. -/
def brick_corner_to_corner_writes (b : brick_t) (num : brick_numbering_t) (tx ty tz : Int)
    (tj : Option Int) : List (Option Int × Option Int) :=
  ((List.range 8).filter fun i => !brick_corner_boundary b tx ty tz i).map fun (i : Nat) =>
    ((brick_corner_ttemp b num tx ty tz tj i).map fun c => to_topidx (c * 8 + (7 - (i : Int))),
      some (to_int8 (i : Int)))

/-- The body of the last loop over the corners `i` for the vertex arrays: the
corner takes the vertex of the neighbor below, in front or to the left when
there is one, and a new vertex otherwise. -/
def brick_vertex_step (b : brick_t) (num : brick_numbering_t) (tx ty tz : Int) (tj : Option Int)
    (st : brick_arrays_t) (i : Nat) : brick_arrays_t :=
  let tf := brick_tf b num.linear_to_tree tx ty tz
  let here := tj.map fun t => to_topidx (t * 8 + (i : Int))
  if tz > 0 ∧ i >>> 2 = 0 then
    let v := arr_get st.tree_to_vertex ((tf 4).map fun t => to_topidx (t * 8 + (i : Int) + 4))
    { st with tree_to_vertex := arr_set st.tree_to_vertex here v }
  else if ty > 0 ∧ (i >>> 1) &&& 1 = 0 then
    let v := arr_get st.tree_to_vertex ((tf 2).map fun t => to_topidx (t * 8 + (i : Int) + 2))
    { st with tree_to_vertex := arr_set st.tree_to_vertex here v }
  else if tx > 0 ∧ i &&& 1 = 0 then
    let v := arr_get st.tree_to_vertex ((tf 0).map fun t => to_topidx (t * 8 + (i : Int) + 1))
    { st with tree_to_vertex := arr_set st.tree_to_vertex here v }
  else
    let v0 : Int := to_topidx (tx + ((i &&& 1 : Nat) : Int))
    let v1 : Int := to_topidx (ty + (((i >>> 1) &&& 1 : Nat) : Int))
    let v2 : Int := to_topidx (tz + ((i >>> 2 : Nat) : Int))
    let vs1 := arr_set st.vertices (some st.vicount) (some v0)
    let vs2 := arr_set vs1 (some (to_topidx (st.vicount + 1))) (some v1)
    let vs3 := arr_set vs2 (some (to_topidx (st.vicount + 2))) (some v2)
    { st with
      tree_to_vertex := arr_set st.tree_to_vertex here (some st.vcount),
      vcount := to_topidx (st.vcount + 1),
      vertices := vs3,
      vicount := to_topidx (st.vicount + 3) }

/-- One iteration `ti` of the second pass.  The tests `tree_to_edge != NULL`
and `tree_to_corner != NULL` are `p4est_connectivity_new_allocates`. -/
def brick_fill_step (b : brick_t) (num : brick_numbering_t) (st : brick_arrays_t) (ti : Nat) :
    brick_arrays_t :=
  let c := brick_coords b.log_cl.toNat ti
  let tx : Int := (c.1 : Int)
  let ty : Int := (c.2.1 : Int)
  let tz : Int := (c.2.2 : Int)
  if tx < b.m ∧ ty < b.n ∧ tz < b.p then
    let tj := arr_get num.linear_to_tree (some (ti : Int))
    let st1 : brick_arrays_t :=
      { st with
        tree_to_tree := arr_writes st.tree_to_tree (brick_tree_to_tree_writes b num tx ty tz tj),
        tree_to_face := arr_writes st.tree_to_face (brick_tree_to_face_writes b tx ty tz tj),
        tree_to_edge :=
          if p4est_connectivity_new_allocates b.num_edges then
            arr_writes st.tree_to_edge (brick_tree_to_edge_writes b num tx ty tz tj)
          else st.tree_to_edge,
        edge_to_tree :=
          if p4est_connectivity_new_allocates b.num_edges then
            arr_writes st.edge_to_tree (brick_edge_to_tree_writes b num tx ty tz tj)
          else st.edge_to_tree,
        edge_to_edge :=
          if p4est_connectivity_new_allocates b.num_edges then
            arr_writes st.edge_to_edge (brick_edge_to_edge_writes b num tx ty tz tj)
          else st.edge_to_edge,
        tree_to_corner :=
          if p4est_connectivity_new_allocates b.num_corners then
            arr_writes st.tree_to_corner (brick_tree_to_corner_writes b num tx ty tz tj)
          else st.tree_to_corner,
        corner_to_tree :=
          if p4est_connectivity_new_allocates b.num_corners then
            arr_writes st.corner_to_tree (brick_corner_to_tree_writes b num tx ty tz tj)
          else st.corner_to_tree,
        corner_to_corner :=
          if p4est_connectivity_new_allocates b.num_corners then
            arr_writes st.corner_to_corner (brick_corner_to_corner_writes b num tx ty tz tj)
          else st.corner_to_corner }
    (List.range 8).foldl (brick_vertex_step b num tx ty tz tj) st1
  else st

/-- The arrays before the second pass: `tree_to_vertex` is set to -1 for the
`8 * num_trees` corners, everything else is allocated and not yet written. -/
def brick_arrays_init (b : brick_t) : brick_arrays_t :=
  { vertices := fun _ => none,
    tree_to_vertex := fun i => if 0 ≤ i ∧ i < to_topidx (8 * b.num_trees) then some (-1) else none,
    tree_to_tree := fun _ => none, tree_to_face := fun _ => none,
    tree_to_edge := fun _ => none, edge_to_tree := fun _ => none,
    edge_to_edge := fun _ => none, tree_to_corner := fun _ => none,
    corner_to_tree := fun _ => none, corner_to_corner := fun _ => none,
    vcount := 0, vicount := 0 }

/-- The second pass, run for the iterations `0 .. k - 1`. -/
def brick_fill_upto (b : brick_t) (k : Nat) : brick_arrays_t :=
  (List.range k).foldl (brick_fill_step b (brick_numbering b)) (brick_arrays_init b)

/-- The arrays at the end of `p8est_connectivity_new_brick`. -/
def brick_arrays (b : brick_t) : brick_arrays_t :=
  brick_fill_upto b b.n_iter.toNat

/-- The connectivity that `p8est_connectivity_new_brick` returns for the
brick `b`; `none` if a cell of the connectivity is left undetermined.  The
storage follows `p4est_connectivity_new`, called with the counts
`num_vertices`, `num_trees`, `num_edges`, `num_ett`, `num_corners` and
`num_ctt`: no edge arrays when `num_edges = 0` and no corner arrays when
`num_corners = 0`, and the offsets are `ett_offset[ti] = 4 * ti`,
`ctt_offset[ti] = 8 * ti`. -/
def brick_connectivity (b : brick_t) : Option p4est_connectivity_t :=
  let a := brick_arrays b
  let edges : Bool := decide (p4est_connectivity_new_allocates b.num_edges)
  let corners : Bool := decide (p4est_connectivity_new_allocates b.num_corners)
  (arr_list a.vertices (3 * b.num_vertices)).bind fun vertices =>
  (arr_list a.tree_to_vertex (8 * b.num_trees)).bind fun ttv =>
  (arr_list a.tree_to_tree (6 * b.num_trees)).bind fun ttt =>
  (arr_list a.tree_to_face (6 * b.num_trees)).bind fun ttf =>
  (if edges then arr_list a.tree_to_edge (12 * b.num_trees) else some []).bind fun tte =>
  (if edges then arr_list a.edge_to_tree b.num_ett else some []).bind fun ett =>
  (if edges then arr_list a.edge_to_edge b.num_ett else some []).bind fun ete =>
  (if corners then arr_list a.tree_to_corner (8 * b.num_trees) else some []).bind fun ttc =>
  (if corners then arr_list a.corner_to_tree b.num_ctt else some []).bind fun ctt =>
  (if corners then arr_list a.corner_to_corner b.num_ctt else some []).bind fun ctc =>
    some
      { num_vertices := b.num_vertices, num_trees := b.num_trees,
        num_edges := b.num_edges, num_corners := b.num_corners,
        vertices := vertices.map fun (v : Int) => ((v : Int) : Rat),
        tree_to_vertex := ttv, tree_to_tree := ttt, tree_to_face := ttf,
        tree_to_edge := tte,
        ett_offset := (List.range (to_topidx (b.num_edges + 1)).toNat).map fun (ti : Nat) =>
          to_topidx (4 * ((ti : Nat) : Int)),
        edge_to_tree := ett, edge_to_edge := ete,
        tree_to_corner := ttc,
        ctt_offset := (List.range (to_topidx (b.num_corners + 1)).toNat).map fun (ti : Nat) =>
          to_topidx (8 * ((ti : Nat) : Int)),
        corner_to_tree := ctt, corner_to_corner := ctc }

/-- Translation of `p8est_connectivity_new_brick (mi, ni, pi, periodic_a,
periodic_b, periodic_c)`.  The arguments are C `int` values; the function
asserts `m > 0`, `n > 0` and `p > 0`. -/
def p8est_connectivity_new_brick (mi ni pi periodic_a periodic_b periodic_c : Int) :
    Option p4est_connectivity_t :=
  brick_connectivity { m := mi, n := ni, p := pi, periodic_a := periodic_a,
                       periodic_b := periodic_b, periodic_c := periodic_c }

/-- No value that `p8est_connectivity_new_brick` computes for the brick `b`
leaves the range of 32 bits: the sides are at most 1024, so that
`n_iter = 8^log_cl` is at most `2^30`, and the largest array indices,
`12 * num_trees` and `3 * num_vertices`, are at most `2^31 - 1`. -/
abbrev brick_fits (b : brick_t) : Prop :=
  b.m ≤ 1024 ∧ b.n ≤ 1024 ∧ b.p ≤ 1024 ∧ 12 * (b.m * b.n * b.p) ≤ 2147483647 ∧
    3 * ((b.m + 1) * (b.n + 1) * (b.p + 1)) ≤ 2147483647

/-! ## The brick in exact integer arithmetic

The definitions `*_exact` are the definitions of the brick above with every
`to_topidx` and every 32-bit shift replaced by the exact operation.  They are
the model in which the properties of the brick are proved; the theorems
`*_fits` carry the results over to the 32-bit definitions for the bricks that
satisfy `brick_fits`. -/

/-- In exact integer arithmetic, without the 32-bit wrap-around of `brick_coords`:
The loop that extracts `(tx, ty, tz)` from the bits of the Morton index
`ti`: `tx |= (ti & (1 << (3 * i))) >> (2 * i)` and likewise for `ty`, `tz`. -/
def brick_coords_exact (log_cl : Nat) (ti : Nat) : Nat × Nat × Nat :=
  (List.range log_cl).foldl
    (fun (c : Nat × Nat × Nat) (i : Nat) =>
      (c.1 ||| ((ti &&& (1 <<< (3 * i))) >>> (2 * i)),
       c.2.1 ||| ((ti &&& (1 <<< (3 * i + 1))) >>> (2 * i + 1)),
       c.2.2 ||| ((ti &&& (1 <<< (3 * i + 2))) >>> (2 * i + 2))))
    (0, 0, 0)

/-- In exact integer arithmetic, without the 32-bit wrap-around of `brick_linear`:
The loop that interleaves the bits of `(x, y, z)` to a Morton index:
`t |= (x & (1 << k)) << (2 * k)`, `t |= (y & (1 << k)) << (2 * k + 1)`,
`t |= (z & (1 << k)) << (2 * k + 2)`. -/
def brick_linear_exact (log_cl : Nat) (x y z : Nat) : Nat :=
  (List.range log_cl).foldl
    (fun (t : Nat) (k : Nat) =>
      ((t ||| ((x &&& (1 <<< k)) <<< (2 * k))) ||| ((y &&& (1 <<< k)) <<< (2 * k + 1))) |||
        ((z &&& (1 <<< k)) <<< (2 * k + 2)))
    0

/-- In exact integer arithmetic, without the 32-bit wrap-around of `brick_t.num_trees`:
The local `num_trees`. -/
def brick_t.num_trees_exact (b : brick_t) : Int := b.m * b.n * b.p

/-- In exact integer arithmetic, without the 32-bit wrap-around of `brick_t.num_vertices`:
The local `num_vertices`. -/
def brick_t.num_vertices_exact (b : brick_t) : Int := (b.m + 1) * (b.n + 1) * (b.p + 1)

/-- In exact integer arithmetic, without the 32-bit wrap-around of `brick_t.num_corners`:
The local `num_corners`. -/
def brick_t.num_corners_exact (b : brick_t) : Int := b.mc * b.nc * b.pc

/-- In exact integer arithmetic, without the 32-bit wrap-around of `brick_t.num_edges`:
The local `num_edges`. -/
def brick_t.num_edges_exact (b : brick_t) : Int := b.m * b.nc * b.pc + b.mc * b.n * b.pc + b.mc * b.nc * b.p

/-- In exact integer arithmetic, without the 32-bit wrap-around of `brick_t.n_iter`:
The local `n_iter`: the cube of `cube_length = 1 << log_cl`. -/
def brick_t.n_iter_exact (b : brick_t) : Int :=
  let cube_length : Int := ((1 <<< b.log_cl.toNat : Nat) : Int)
  cube_length * cube_length * cube_length

/-- In exact integer arithmetic, without the 32-bit wrap-around of `brick_number_step`:
One iteration `ti` of the numbering pass (the first loop over `ti`). -/
def brick_number_step_exact (b : brick_t) (s : brick_numbering_t) (ti : Nat) : brick_numbering_t :=
  let c := brick_coords_exact b.log_cl.toNat ti
  let tx : Int := (c.1 : Int)
  let ty : Int := (c.2.1 : Int)
  let tz : Int := (c.2.2 : Int)
  if tx < b.m ∧ ty < b.n ∧ tz < b.p then
    let ltt := arr_set s.linear_to_tree (some (ti : Int)) (some s.tj)
    if (tx < b.m - 1 ∨ b.periodic_a ≠ 0) ∧ (ty < b.n - 1 ∨ b.periodic_b ≠ 0) ∧
        (tz < b.p - 1 ∨ b.periodic_c ≠ 0) then
      { linear_to_tree := ltt,
        tree_to_corner2 := arr_set s.tree_to_corner2 (some s.tj) (some s.tk),
        tree_to_edge2 :=
          arr_set (arr_set (arr_set s.tree_to_edge2 (some (3 * s.tj)) (some s.tl))
            (some (3 * s.tj + 1)) (some (s.tl + 1))) (some (3 * s.tj + 2)) (some (s.tl + 2)),
        tj := s.tj + 1, tk := s.tk + 1, tl := s.tl + 3 }
    else
      let e0 : Bool := (ty < b.n - 1 ∨ b.periodic_b ≠ 0) ∧ (tz < b.p - 1 ∨ b.periodic_c ≠ 0)
      let te2a := arr_set s.tree_to_edge2 (some (3 * s.tj)) (some (if e0 then s.tl else -1))
      let tl1 := if e0 then s.tl + 1 else s.tl
      let e1 : Bool := (tx < b.m - 1 ∨ b.periodic_a ≠ 0) ∧ (tz < b.p - 1 ∨ b.periodic_c ≠ 0)
      let te2b := arr_set te2a (some (3 * s.tj + 1)) (some (if e1 then tl1 else -1))
      let tl2 := if e1 then tl1 + 1 else tl1
      let e2 : Bool := (tx < b.m - 1 ∨ b.periodic_a ≠ 0) ∧ (ty < b.n - 1 ∨ b.periodic_b ≠ 0)
      let te2c := arr_set te2b (some (3 * s.tj + 2)) (some (if e2 then tl2 else -1))
      let tl3 := if e2 then tl2 + 1 else tl2
      { linear_to_tree := ltt,
        tree_to_corner2 := arr_set s.tree_to_corner2 (some s.tj) (some (-1)),
        tree_to_edge2 := te2c,
        tj := s.tj + 1, tk := s.tk, tl := tl3 }
  else
    { s with linear_to_tree := arr_set s.linear_to_tree (some (ti : Int)) (some (-1)) }

/-- In exact integer arithmetic, without the 32-bit wrap-around of `brick_number_upto`:
The numbering pass, run for the iterations `0 .. k - 1`. -/
def brick_number_upto_exact (b : brick_t) (k : Nat) : brick_numbering_t :=
  (List.range k).foldl (brick_number_step_exact b) brick_numbering_init

/-- In exact integer arithmetic, without the 32-bit wrap-around of `brick_numbering`:
The numbering pass of `p8est_connectivity_new_brick_exact`. -/
def brick_numbering_exact (b : brick_t) : brick_numbering_t :=
  brick_number_upto_exact b b.n_iter_exact.toNat

/-- In exact integer arithmetic, without the 32-bit wrap-around of `brick_tf`:
The tree number `tf[l]` of the face neighbor, `l = 2 * i + j`: the entry of
`linear_to_tree` at the Morton index of the position one step along axis `i`,
taken modulo the size of the brick. -/
def brick_tf_exact (b : brick_t) (ltt : Int → Option Int) (tx ty tz : Int) (l : Nat) : Option Int :=
  let i := l / 2
  let j : Int := ((l % 2 : Nat) : Int)
  let tfx := Int.tmod ((tx + (if i = 0 then 2 * j - 1 else 0)) + b.m) b.m
  let tfy := Int.tmod ((ty + (if i = 1 then 2 * j - 1 else 0)) + b.n) b.n
  let tfz := Int.tmod ((tz + (if i = 2 then 2 * j - 1 else 0)) + b.p) b.p
  arr_get ltt (some ((brick_linear_exact b.log_cl.toNat tfx.toNat tfy.toNat tfz.toNat : Nat) : Int))

/-- In exact integer arithmetic, without the 32-bit wrap-around of `brick_te`:
The tree number `te[l]` of the edge neighbor, `l = 4 * i + j`. -/
def brick_te_exact (b : brick_t) (ltt : Int → Option Int) (tx ty tz : Int) (l : Nat) : Option Int :=
  let i := l / 4
  let j := l % 4
  let j1 : Int := ((j &&& 1 : Nat) : Int)
  let j2 : Int := ((j / 2 : Nat) : Int)
  let tex := Int.tmod ((tx + (if i = 0 then 0 else 2 * j1 - 1)) + b.m) b.m
  let tey := Int.tmod ((ty + (if i = 1 then 0 else 2 * (if i = 0 then j1 else j2) - 1)) + b.n) b.n
  let tez := Int.tmod ((tz + (if i = 2 then 0 else 2 * j2 - 1)) + b.p) b.p
  arr_get ltt (some ((brick_linear_exact b.log_cl.toNat tex.toNat tey.toNat tez.toNat : Nat) : Int))

/-- In exact integer arithmetic, without the 32-bit wrap-around of `brick_tc`:
The tree number `tc[i]` of the corner neighbor. -/
def brick_tc_exact (b : brick_t) (ltt : Int → Option Int) (tx ty tz : Int) (i : Nat) : Option Int :=
  let tcx := Int.tmod ((tx + (if i &&& 1 = 0 then -1 else 1)) + b.m) b.m
  let tcy := Int.tmod ((ty + (if (i >>> 1) &&& 1 = 0 then -1 else 1)) + b.n) b.n
  let tcz := Int.tmod ((tz + (if i >>> 2 = 0 then -1 else 1)) + b.p) b.p
  arr_get ltt (some ((brick_linear_exact b.log_cl.toNat tcx.toNat tcy.toNat tcz.toNat : Nat) : Int))

/-- In exact integer arithmetic, without the 32-bit wrap-around of `brick_face_tree`:
The value stored in `tree_to_tree[tj * 6 + l]`. -/
def brick_face_tree_exact (b : brick_t) (ltt : Int → Option Int) (tx ty tz : Int) (tj : Option Int)
    (l : Nat) : Option Int :=
  if brick_on_boundary b tx ty tz (l / 2) (l % 2) then tj else brick_tf_exact b ltt tx ty tz l

/-- In exact integer arithmetic, without the 32-bit wrap-around of `brick_edge_ttemp`:
The value `ttemp` of the `switch (j)` for the edge `l = 4 * i + j`: the
entry of `tree_to_edge2` for the axis `i` at the tree that numbers the edge. -/
def brick_edge_ttemp_exact (b : brick_t) (num : brick_numbering_t) (tx ty tz : Int) (tj : Option Int)
    (l : Nat) : Option Int :=
  let i := l / 4
  let j := l % 4
  let t : Option Int :=
    if j = 0 then brick_te_exact b num.linear_to_tree tx ty tz l
    else if j = 1 then brick_tf_exact b num.linear_to_tree tx ty tz (brick_dir2 i * 2)
    else if j = 2 then brick_tf_exact b num.linear_to_tree tx ty tz (brick_dir1 i * 2)
    else tj
  arr_get num.tree_to_edge2 (t.map fun t => t * 3 + (i : Int))

/-- In exact integer arithmetic, without the 32-bit wrap-around of `brick_corner_ttemp`:
The value `ttemp` of the `switch (i)` for the corner `i`, looked up in
`tree_to_corner2`. -/
def brick_corner_ttemp_exact (b : brick_t) (num : brick_numbering_t) (tx ty tz : Int)
    (tj : Option Int) (i : Nat) : Option Int :=
  let t : Option Int :=
    if i = 0 then brick_tc_exact b num.linear_to_tree tx ty tz 0
    else if i = 1 then brick_te_exact b num.linear_to_tree tx ty tz 0
    else if i = 2 then brick_te_exact b num.linear_to_tree tx ty tz 4
    else if i = 3 then brick_tf_exact b num.linear_to_tree tx ty tz 4
    else if i = 4 then brick_te_exact b num.linear_to_tree tx ty tz 8
    else if i = 5 then brick_tf_exact b num.linear_to_tree tx ty tz 2
    else if i = 6 then brick_tf_exact b num.linear_to_tree tx ty tz 0
    else tj
  arr_get num.tree_to_corner2 t

/-- In exact integer arithmetic, without the 32-bit wrap-around of `brick_tree_to_tree_writes`:
The assignments to `tree_to_tree` in the iteration at `(tx, ty, tz)`. -/
def brick_tree_to_tree_writes_exact (b : brick_t) (num : brick_numbering_t) (tx ty tz : Int)
    (tj : Option Int) : List (Option Int × Option Int) :=
  (List.range 6).map fun (l : Nat) =>
    (tj.map fun t => t * 6 + (l : Int), brick_face_tree_exact b num.linear_to_tree tx ty tz tj l)

/-- In exact integer arithmetic, without the 32-bit wrap-around of `brick_tree_to_face_writes`:
The assignments to `tree_to_face` in the iteration at `(tx, ty, tz)`. -/
def brick_tree_to_face_writes_exact (b : brick_t) (tx ty tz : Int) (tj : Option Int) :
    List (Option Int × Option Int) :=
  (List.range 6).map fun (l : Nat) => (tj.map fun t => t * 6 + (l : Int), brick_face_code b tx ty tz l)

/-- In exact integer arithmetic, without the 32-bit wrap-around of `brick_tree_to_edge_writes`:
The assignments to `tree_to_edge` in the iteration at `(tx, ty, tz)`. -/
def brick_tree_to_edge_writes_exact (b : brick_t) (num : brick_numbering_t) (tx ty tz : Int)
    (tj : Option Int) : List (Option Int × Option Int) :=
  (List.range 12).map fun (l : Nat) =>
    (tj.map fun t => t * 12 + (l : Int),
      if brick_edge_boundary b tx ty tz l then some (-1)
      else brick_edge_ttemp_exact b num tx ty tz tj l)

/-- In exact integer arithmetic, without the 32-bit wrap-around of `brick_edge_to_tree_writes`:
The assignments to `edge_to_tree` in the iteration at `(tx, ty, tz)`. -/
def brick_edge_to_tree_writes_exact (b : brick_t) (num : brick_numbering_t) (tx ty tz : Int)
    (tj : Option Int) : List (Option Int × Option Int) :=
  ((List.range 12).filter fun l => !brick_edge_boundary b tx ty tz l).map fun (l : Nat) =>
    ((brick_edge_ttemp_exact b num tx ty tz tj l).map fun g => 4 * g + (3 - ((l % 4 : Nat) : Int)), tj)

/-- In exact integer arithmetic, without the 32-bit wrap-around of `brick_edge_to_edge_writes`:
The assignments to `edge_to_edge` in the iteration at `(tx, ty, tz)`. -/
def brick_edge_to_edge_writes_exact (b : brick_t) (num : brick_numbering_t) (tx ty tz : Int)
    (tj : Option Int) : List (Option Int × Option Int) :=
  ((List.range 12).filter fun l => !brick_edge_boundary b tx ty tz l).map fun (l : Nat) =>
    ((brick_edge_ttemp_exact b num tx ty tz tj l).map fun g => 4 * g + (3 - ((l % 4 : Nat) : Int)),
      some (to_int8 (l : Int)))

/-- In exact integer arithmetic, without the 32-bit wrap-around of `brick_tree_to_corner_writes`:
The assignments to `tree_to_corner` in the iteration at `(tx, ty, tz)`. -/
def brick_tree_to_corner_writes_exact (b : brick_t) (num : brick_numbering_t) (tx ty tz : Int)
    (tj : Option Int) : List (Option Int × Option Int) :=
  (List.range 8).map fun (i : Nat) =>
    (tj.map fun t => t * 8 + (i : Int),
      if brick_corner_boundary b tx ty tz i then some (-1)
      else brick_corner_ttemp_exact b num tx ty tz tj i)

/-- In exact integer arithmetic, without the 32-bit wrap-around of `brick_corner_to_tree_writes`:
The assignments to `corner_to_tree` in the iteration at `(tx, ty, tz)`. -/
def brick_corner_to_tree_writes_exact (b : brick_t) (num : brick_numbering_t) (tx ty tz : Int)
    (tj : Option Int) : List (Option Int × Option Int) :=
  ((List.range 8).filter fun i => !brick_corner_boundary b tx ty tz i).map fun (i : Nat) =>
    ((brick_corner_ttemp_exact b num tx ty tz tj i).map fun c => c * 8 + (7 - (i : Int)), tj)

/-- In exact integer arithmetic, without the 32-bit wrap-around of `brick_corner_to_corner_writes`:
The assignments to `corner_to_corner` in the iteration at `(tx, ty, tz)`. -/
def brick_corner_to_corner_writes_exact (b : brick_t) (num : brick_numbering_t) (tx ty tz : Int)
    (tj : Option Int) : List (Option Int × Option Int) :=
  ((List.range 8).filter fun i => !brick_corner_boundary b tx ty tz i).map fun (i : Nat) =>
    ((brick_corner_ttemp_exact b num tx ty tz tj i).map fun c => c * 8 + (7 - (i : Int)),
      some (to_int8 (i : Int)))

/-- In exact integer arithmetic, without the 32-bit wrap-around of `brick_vertex_step`:
The body of the last loop over the corners `i` for the vertex arrays: the
corner takes the vertex of the neighbor below, in front or to the left when
there is one, and a new vertex otherwise. -/
def brick_vertex_step_exact (b : brick_t) (num : brick_numbering_t) (tx ty tz : Int) (tj : Option Int)
    (st : brick_arrays_t) (i : Nat) : brick_arrays_t :=
  let tf := brick_tf_exact b num.linear_to_tree tx ty tz
  let here := tj.map fun t => t * 8 + (i : Int)
  if tz > 0 ∧ i >>> 2 = 0 then
    let v := arr_get st.tree_to_vertex ((tf 4).map fun t => t * 8 + (i : Int) + 4)
    { st with tree_to_vertex := arr_set st.tree_to_vertex here v }
  else if ty > 0 ∧ (i >>> 1) &&& 1 = 0 then
    let v := arr_get st.tree_to_vertex ((tf 2).map fun t => t * 8 + (i : Int) + 2)
    { st with tree_to_vertex := arr_set st.tree_to_vertex here v }
  else if tx > 0 ∧ i &&& 1 = 0 then
    let v := arr_get st.tree_to_vertex ((tf 0).map fun t => t * 8 + (i : Int) + 1)
    { st with tree_to_vertex := arr_set st.tree_to_vertex here v }
  else
    let v0 : Int := tx + ((i &&& 1 : Nat) : Int)
    let v1 : Int := ty + (((i >>> 1) &&& 1 : Nat) : Int)
    let v2 : Int := tz + ((i >>> 2 : Nat) : Int)
    let vs1 := arr_set st.vertices (some st.vicount) (some v0)
    let vs2 := arr_set vs1 (some (st.vicount + 1)) (some v1)
    let vs3 := arr_set vs2 (some (st.vicount + 2)) (some v2)
    { st with
      tree_to_vertex := arr_set st.tree_to_vertex here (some st.vcount),
      vcount := st.vcount + 1,
      vertices := vs3,
      vicount := st.vicount + 3 }

/-- In exact integer arithmetic, without the 32-bit wrap-around of `brick_fill_step`:
One iteration `ti` of the second pass.  The tests `tree_to_edge != NULL`
and `tree_to_corner != NULL` are `p4est_connectivity_new_allocates`. -/
def brick_fill_step_exact (b : brick_t) (num : brick_numbering_t) (st : brick_arrays_t) (ti : Nat) :
    brick_arrays_t :=
  let c := brick_coords_exact b.log_cl.toNat ti
  let tx : Int := (c.1 : Int)
  let ty : Int := (c.2.1 : Int)
  let tz : Int := (c.2.2 : Int)
  if tx < b.m ∧ ty < b.n ∧ tz < b.p then
    let tj := arr_get num.linear_to_tree (some (ti : Int))
    let st1 : brick_arrays_t :=
      { st with
        tree_to_tree := arr_writes st.tree_to_tree (brick_tree_to_tree_writes_exact b num tx ty tz tj),
        tree_to_face := arr_writes st.tree_to_face (brick_tree_to_face_writes_exact b tx ty tz tj),
        tree_to_edge :=
          if p4est_connectivity_new_allocates b.num_edges_exact then
            arr_writes st.tree_to_edge (brick_tree_to_edge_writes_exact b num tx ty tz tj)
          else st.tree_to_edge,
        edge_to_tree :=
          if p4est_connectivity_new_allocates b.num_edges_exact then
            arr_writes st.edge_to_tree (brick_edge_to_tree_writes_exact b num tx ty tz tj)
          else st.edge_to_tree,
        edge_to_edge :=
          if p4est_connectivity_new_allocates b.num_edges_exact then
            arr_writes st.edge_to_edge (brick_edge_to_edge_writes_exact b num tx ty tz tj)
          else st.edge_to_edge,
        tree_to_corner :=
          if p4est_connectivity_new_allocates b.num_corners_exact then
            arr_writes st.tree_to_corner (brick_tree_to_corner_writes_exact b num tx ty tz tj)
          else st.tree_to_corner,
        corner_to_tree :=
          if p4est_connectivity_new_allocates b.num_corners_exact then
            arr_writes st.corner_to_tree (brick_corner_to_tree_writes_exact b num tx ty tz tj)
          else st.corner_to_tree,
        corner_to_corner :=
          if p4est_connectivity_new_allocates b.num_corners_exact then
            arr_writes st.corner_to_corner (brick_corner_to_corner_writes_exact b num tx ty tz tj)
          else st.corner_to_corner }
    (List.range 8).foldl (brick_vertex_step_exact b num tx ty tz tj) st1
  else st

/-- In exact integer arithmetic, without the 32-bit wrap-around of `brick_arrays_init`:
The arrays before the second pass: `tree_to_vertex` is set to -1 for the
`8 * num_trees` corners, everything else is allocated and not yet written. -/
def brick_arrays_init_exact (b : brick_t) : brick_arrays_t :=
  { vertices := fun _ => none,
    tree_to_vertex := fun i => if 0 ≤ i ∧ i < 8 * b.num_trees_exact then some (-1) else none,
    tree_to_tree := fun _ => none, tree_to_face := fun _ => none,
    tree_to_edge := fun _ => none, edge_to_tree := fun _ => none,
    edge_to_edge := fun _ => none, tree_to_corner := fun _ => none,
    corner_to_tree := fun _ => none, corner_to_corner := fun _ => none,
    vcount := 0, vicount := 0 }

/-- In exact integer arithmetic, without the 32-bit wrap-around of `brick_fill_upto`:
The second pass, run for the iterations `0 .. k - 1`. -/
def brick_fill_upto_exact (b : brick_t) (k : Nat) : brick_arrays_t :=
  (List.range k).foldl (brick_fill_step_exact b (brick_numbering_exact b)) (brick_arrays_init_exact b)

/-- In exact integer arithmetic, without the 32-bit wrap-around of `brick_arrays`:
The arrays at the end of `p8est_connectivity_new_brick_exact`. -/
def brick_arrays_exact (b : brick_t) : brick_arrays_t :=
  brick_fill_upto_exact b b.n_iter_exact.toNat

/-- In exact integer arithmetic, without the 32-bit wrap-around of `brick_connectivity`:
The connectivity that `p8est_connectivity_new_brick_exact` returns for the
brick `b`; `none` if a cell of the connectivity is left undetermined.  The
storage follows `p4est_connectivity_new`: no edge arrays when
`num_edges = 0` and no corner arrays when `num_corners = 0`, and the offsets
are `ett_offset[ti] = 4 * ti`, `ctt_offset[ti] = 8 * ti`. -/
def brick_connectivity_exact (b : brick_t) : Option p4est_connectivity_t :=
  let a := brick_arrays_exact b
  let edges : Bool := decide (p4est_connectivity_new_allocates b.num_edges_exact)
  let corners : Bool := decide (p4est_connectivity_new_allocates b.num_corners_exact)
  (arr_list a.vertices (3 * b.num_vertices_exact)).bind fun vertices =>
  (arr_list a.tree_to_vertex (8 * b.num_trees_exact)).bind fun ttv =>
  (arr_list a.tree_to_tree (6 * b.num_trees_exact)).bind fun ttt =>
  (arr_list a.tree_to_face (6 * b.num_trees_exact)).bind fun ttf =>
  (if edges then arr_list a.tree_to_edge (12 * b.num_trees_exact) else some []).bind fun tte =>
  (if edges then arr_list a.edge_to_tree (4 * b.num_edges_exact) else some []).bind fun ett =>
  (if edges then arr_list a.edge_to_edge (4 * b.num_edges_exact) else some []).bind fun ete =>
  (if corners then arr_list a.tree_to_corner (8 * b.num_trees_exact) else some []).bind fun ttc =>
  (if corners then arr_list a.corner_to_tree (8 * b.num_corners_exact) else some []).bind fun ctt =>
  (if corners then arr_list a.corner_to_corner (8 * b.num_corners_exact) else some []).bind fun ctc =>
    some
      { num_vertices := b.num_vertices_exact, num_trees := b.num_trees_exact,
        num_edges := b.num_edges_exact, num_corners := b.num_corners_exact,
        vertices := vertices.map fun (v : Int) => ((v : Int) : Rat),
        tree_to_vertex := ttv, tree_to_tree := ttt, tree_to_face := ttf,
        tree_to_edge := tte,
        ett_offset := (List.range (b.num_edges_exact + 1).toNat).map fun (ti : Nat) => 4 * ((ti : Nat) : Int),
        edge_to_tree := ett, edge_to_edge := ete,
        tree_to_corner := ttc,
        ctt_offset := (List.range (b.num_corners_exact + 1).toNat).map fun (ti : Nat) => 8 * ((ti : Nat) : Int),
        corner_to_tree := ctt, corner_to_corner := ctc }

/-- In exact integer arithmetic, without the 32-bit wrap-around of `p8est_connectivity_new_brick`:
the translation of `p8est_connectivity_new_brick (mi, ni, pi, periodic_a,
periodic_b, periodic_c)`. -/
def p8est_connectivity_new_brick_exact (mi ni pi periodic_a periodic_b periodic_c : Int) :
    Option p4est_connectivity_t :=
  brick_connectivity_exact
    { m := mi, n := ni, p := pi, periodic_a := periodic_a,
      periodic_b := periodic_b, periodic_c := periodic_c }

/-! ## The numbering of trees, edges and corners of a brick -/

/-- The lattice position `(tx, ty, tz)` that the passes compute from `ti`. -/
def brick_pos (b : brick_t) (ti : Nat) : Int × Int × Int :=
  let c := brick_coords_exact b.log_cl.toNat ti
  ((c.1 : Int), (c.2.1 : Int), (c.2.2 : Int))

/-- The test `tx < m && ty < n && tz < p`: the position of `ti` is a tree. -/
def brick_inside (b : brick_t) (ti : Nat) : Bool :=
  decide ((brick_pos b ti).1 < b.m ∧ (brick_pos b ti).2.1 < b.n ∧ (brick_pos b ti).2.2 < b.p)

/-- The test `coord[d] < max[d] || periodic[d]` of the numbering pass, written
there as `tx < m - 1 || periodic_a` and so on. -/
def brick_up (b : brick_t) (ti : Nat) (d : Nat) : Bool :=
  decide (brick_coord (brick_pos b ti).1 (brick_pos b ti).2.1 (brick_pos b ti).2.2 d < b.max d ∨
    b.periodic d ≠ 0)

/-- The tree at `ti` numbers a corner. -/
def brick_corner_owned (b : brick_t) (ti : Nat) : Bool :=
  brick_up b ti 0 && brick_up b ti 1 && brick_up b ti 2

/-- The tree at `ti` numbers an edge along the axis `d`. -/
def brick_edge_owned (b : brick_t) (ti : Nat) (d : Nat) : Bool :=
  brick_up b ti (brick_dir1 d) && brick_up b ti (brick_dir2 d)

/-- The number of the tree at `ti`: the value of `tj` when the numbering pass
reaches `ti`. -/
def brick_tree_no (b : brick_t) (ti : Nat) : Int := (brick_number_upto_exact b ti).tj

/-- The number of the corner that the tree at `ti` numbers: the value of `tk`
when the numbering pass reaches `ti`. -/
def brick_corner_no (b : brick_t) (ti : Nat) : Int := (brick_number_upto_exact b ti).tk

/-- The number of the edge along the axis `d` that the tree at `ti` numbers:
the value of `tl` when the numbering pass reaches `ti`, plus the number of
edges along lower axes that the same tree numbers. -/
def brick_edge_no (b : brick_t) (ti : Nat) (d : Nat) : Int :=
  (brick_number_upto_exact b ti).tl +
    (if 0 < d ∧ brick_edge_owned b ti 0 then 1 else 0) +
    (if 1 < d ∧ brick_edge_owned b ti 1 then 1 else 0)

/-- The indicator of `x < m`. -/
def below_ind (m : Int) (x : Nat) : Int := if (x : Int) < m then 1 else 0

/-- The indicator of `x < m - 1 || per`. -/
def up_ind (m per : Int) (x : Nat) : Int := if (x : Int) < m - 1 ∨ per ≠ 0 then 1 else 0

/-- The number of corners along one axis that get a new vertex at a tree with
coordinate `c`: both at the first tree, and only the upper one elsewhere. -/
def vertex_ind (c : Nat) : Int := if (c : Int) > 0 then 1 else 2

/-! ## Sequences of array writes -/

/-- The tree number `tj` that the second pass reads for the iteration `ti`. -/
def brick_tj (b : brick_t) (ti : Nat) : Option Int :=
  arr_get (brick_numbering_exact b).linear_to_tree (some (ti : Int))

/-- The assignments that the iteration `ti` of the second pass makes to one of
the arrays, selected by `sel`: 0 `tree_to_tree`, 1 `tree_to_face`,
2 `tree_to_edge`, 3 `edge_to_tree`, 4 `edge_to_edge`, 5 `tree_to_corner`,
6 `corner_to_tree`, 7 `corner_to_corner`. -/
def brick_writes (b : brick_t) (sel : Nat) (ti : Nat) : List (Option Int × Option Int) :=
  let q := brick_pos b ti
  let num := brick_numbering_exact b
  if brick_inside b ti = true then
    match sel with
    | 0 => brick_tree_to_tree_writes_exact b num q.1 q.2.1 q.2.2 (brick_tj b ti)
    | 1 => brick_tree_to_face_writes_exact b q.1 q.2.1 q.2.2 (brick_tj b ti)
    | 2 =>
      if b.num_edges_exact > 0 then brick_tree_to_edge_writes_exact b num q.1 q.2.1 q.2.2 (brick_tj b ti)
      else []
    | 3 =>
      if b.num_edges_exact > 0 then brick_edge_to_tree_writes_exact b num q.1 q.2.1 q.2.2 (brick_tj b ti)
      else []
    | 4 =>
      if b.num_edges_exact > 0 then brick_edge_to_edge_writes_exact b num q.1 q.2.1 q.2.2 (brick_tj b ti)
      else []
    | 5 =>
      if b.num_corners_exact > 0 then
        brick_tree_to_corner_writes_exact b num q.1 q.2.1 q.2.2 (brick_tj b ti)
      else []
    | 6 =>
      if b.num_corners_exact > 0 then
        brick_corner_to_tree_writes_exact b num q.1 q.2.1 q.2.2 (brick_tj b ti)
      else []
    | _ =>
      if b.num_corners_exact > 0 then
        brick_corner_to_corner_writes_exact b num q.1 q.2.1 q.2.2 (brick_tj b ti)
      else []
  else []

/-- All assignments to the array `sel` in the iterations `0 .. k - 1`. -/
def brick_all_writes (b : brick_t) (sel : Nat) (k : Nat) : List (Option Int × Option Int) :=
  ((List.range k).map (brick_writes b sel)).flatten

/-! ## The second pass as sequences of writes -/

/-- The expression `((c + d) + size) % size` that steps a coordinate, wrapping
around the brick. -/
def brick_shift (size c d : Int) : Int := Int.tmod ((c + d) + size) size

/-- The Morton index of the position `(tx + dx, ty + dy, tz + dz)`, wrapped
around the brick. -/
def brick_nb (b : brick_t) (tx ty tz dx dy dz : Int) : Nat :=
  brick_linear_exact b.log_cl.toNat (brick_shift b.m tx dx).toNat (brick_shift b.n ty dy).toNat
    (brick_shift b.p tz dz).toNat

/-- The tree at the lattice position `(x, y, z)`. -/
def brick_tree_at (b : brick_t) (x y z : Int) : Int :=
  brick_tree_no b (brick_nb b x y z 0 0 0)

/-! ## The arrays that are written in blocks, one block per tree -/

/-- The step along the axis `d` that leads across the face `l = 2 * i + j`:
`2 * j - 1` along the axis `i` and `0` along the others. -/
def brick_face_step (l d : Nat) : Int :=
  if l / 2 = d then 2 * ((l % 2 : Nat) : Int) - 1 else 0

/-! ## The face relation of a brick -/

/-- The side of a tree on which its edge `l = 4 * i + j` lies along the axis
`d`: bit 0 of `j` along `dir1`, bit 1 of `j` along `dir2`, and 1 along the axis
`i` of the edge, where both sides of the tree see the edge. -/
def brick_edge_side (l d : Nat) : Nat :=
  if d = brick_dir1 (l / 4) then (l % 4) &&& 1
  else if d = brick_dir2 (l / 4) then (l % 4) / 2 else 1

/-- The side of a tree on which its corner `i` lies along the axis `d`. -/
def brick_corner_side (i d : Nat) : Nat := (i >>> d) &&& 1

/-- The Morton index of the tree whose upper sides are the sides `s` of the
tree at `(x, y, z)`: one step down along every axis `d` with `s d = 0`.  It is
the tree that numbers the edge or corner on these sides. -/
def brick_owner (b : brick_t) (x y z : Int) (s : Nat → Nat) : Nat :=
  brick_nb b x y z ((s 0 : Int) - 1) ((s 1 : Int) - 1) ((s 2 : Int) - 1)

/-- The Morton index of the tree whose sides `s` are the upper sides of the
tree at `(x, y, z)`: one step up along every axis `d` with `s d = 0`. -/
def brick_user (b : brick_t) (x y z : Int) (s : Nat → Nat) : Nat :=
  brick_nb b x y z (1 - (s 0 : Int)) (1 - (s 1 : Int)) (1 - (s 2 : Int))

/-! ## The forward tables of edges and corners -/

/-- The cell of `edge_to_tree` and `edge_to_edge` that the tree at `ti` writes
for its edge `l`, when the edge is not on a boundary. -/
def brick_edge_slot (b : brick_t) (ti l : Nat) : Int :=
  4 * brick_edge_no b (brick_owner b (brick_pos b ti).1 (brick_pos b ti).2.1 (brick_pos b ti).2.2
    (brick_edge_side l)) (l / 4) + (3 - ((l % 4 : Nat) : Int))

/-- The cell of `corner_to_tree` and `corner_to_corner` that the tree at `ti`
writes for its corner `i`, when the corner is not on a boundary. -/
def brick_corner_slot (b : brick_t) (ti i : Nat) : Int :=
  brick_corner_no b (brick_owner b (brick_pos b ti).1 (brick_pos b ti).2.1 (brick_pos b ti).2.2
    (brick_corner_side i)) * 8 + (7 - (i : Int))

/-! ## The reverse tables of edges and corners -/

/-- The cells of the vertex arrays that are determinate during the second
pass: all of `tree_to_vertex`, which starts as -1, and the coordinates of the
vertices created so far. -/
def brick_vertex_inv (b : brick_t) (st : brick_arrays_t) : Prop :=
  (∀ k : Int, 0 ≤ k → k < 8 * b.num_trees_exact → ∃ v, st.tree_to_vertex k = some v) ∧
  (∀ k : Int, 0 ≤ k → k < st.vicount → ∃ v, st.vertices k = some v) ∧
  st.vicount = 3 * st.vcount ∧ 0 ≤ st.vcount

/-! ## Owner search and ghost layer (p4est_ghost.h) -/

/-- Modelled from the spec: the type `p4est_quadrant_t` is declared in p4est.h,
which is not part of the sources here.  A quadrant has a "level (refinement
depth), anchor coordinates in tree-local integer space" and "carries an opaque
piggy payload used to stash (owner tree, local index) when relocated into a
ghost layer"; p4est_ghost.h calls the payload `piggy3`. -/
structure p4est_quadrant_t where
  x : Int
  y : Int
  z : Int
  level : Int
  which_tree : Int
  local_num : Int
deriving DecidableEq

/-- Modelled from the spec: `p4est_quadrant_is_inside_root` belongs to the
quadrant primitives, which are not part of the sources here.  The anchor of a
quadrant of the tree lies in `[0, root_len)` along every axis, `root_len` being
the constant `P4EST_ROOT_LEN` of p4est.h. -/
def p4est_quadrant_is_inside_root (root_len : Int) (q : p4est_quadrant_t) : Bool :=
  decide (0 ≤ q.x ∧ q.x < root_len ∧ 0 ≤ q.y ∧ q.y < root_len ∧ 0 ≤ q.z ∧ q.z < root_len)

/-- Modelled from the spec: the face across which a quadrant lies that is "at
most one face-step outside" its tree, used by `p4est_quadrant_find_owner` when
no face is supplied (`face = -1`): face `2 * i` below and `2 * i + 1` above the
tree along the axis `i`. -/
def quadrant_contact_face (root_len : Int) (q : p4est_quadrant_t) : Int :=
  if q.x < 0 then 0 else if q.x ≥ root_len then 1
  else if q.y < 0 then 2 else if q.y ≥ root_len then 3
  else if q.z < 0 then 4 else 5

/-- A position on the space filling curve: a tree and the scalar key of a
quadrant in it, in lexicographic order. -/
def position_le (a b : Int × Int) : Bool :=
  decide (a.1 < b.1 ∨ (a.1 = b.1 ∧ a.2 ≤ b.2))

/-- Modelled from the spec: `p4est_comm_find_owner` belongs to the partition
collaborator, which is not part of the sources here.  It does a "binary-search
[of] the externally supplied global partition boundary table (sorted by a
scalar space-filling-curve key) to find the owning rank": `first[r]` is the
first position of the rank `r`, and the search keeps `first[lo] <= p` and
`p < first[hi + 1]`.  The value is -1 when the fuel runs out or a read is out
of bounds. -/
def p4est_comm_find_owner_loop (first : List (Int × Int)) (p : Int × Int) : Nat → Int → Int → Int
  | 0, _, _ => -1
  | fuel + 1, lo, hi =>
    let guess := (lo + hi) / 2
    match aget first guess, aget first (guess + 1) with
    | some cur, some next =>
      if !position_le cur p then p4est_comm_find_owner_loop first p fuel lo (guess - 1)
      else if position_le next p then p4est_comm_find_owner_loop first p fuel (guess + 1) hi
      else guess
    | _, _ => -1

/-- Modelled from the spec: `p4est_comm_find_owner`, the search of the
partition boundary table with `num_procs + 1` entries for the rank that owns the
position `p`. -/
def p4est_comm_find_owner (first : List (Int × Int)) (p : Int × Int) : Int :=
  p4est_comm_find_owner_loop first p first.length 0 ((first.length : Int) - 2)

/-- Modelled from the spec: `p4est_quadrant_find_owner` is declared in
p4est_ghost.h and defined in p4est_ghost.c, which is not part of the sources
here.  "Resolve the across-face neighbor tree and local coordinates via
ConnectivityGraph and the permutation orientation, map the transformed quadrant
into the neighbor tree's coordinate frame, then binary-search the externally
supplied global partition boundary table ... to find the owning rank.  Returns
none if the neighbor tree does not exist (true domain boundary)"; the header
gives -1 for none, and a face is a domain boundary when the tree is its own
neighbor across the same face.  The scalar key `key` and the face transform
`transform` are external collaborators.  The value is `none` when a read of
the connectivity is out of bounds. -/
def p4est_quadrant_find_owner (conn : p4est_connectivity_t) (root_len : Int)
    (key : p4est_quadrant_t → Int)
    (transform : Int → Int → p4est_quadrant_t → p4est_quadrant_t)
    (first : List (Int × Int)) (treeid face : Int) (q : p4est_quadrant_t) : Option Int :=
  if p4est_quadrant_is_inside_root root_len q then
    some (p4est_comm_find_owner first (treeid, key q))
  else
    let f := if face = -1 then quadrant_contact_face root_len q else face
    match aget conn.tree_to_tree (6 * treeid + f), aget conn.tree_to_face (6 * treeid + f) with
    | some ntreeid, some nface =>
      if ntreeid = treeid ∧ nface = f then some (-1)
      else some (p4est_comm_find_owner first (ntreeid, key (transform treeid f q)))
    | _, _ => none

/-- Modelled from the spec: the type `p4est_ghost_t` of p4est_ghost.h with the
array `ghosts` as a list: "an ordered sequence of Quadrant copies (ghosts), plus
two ascending integer-offset arrays: `tree_offsets` (size = #trees+1) and
`proc_offsets` (size = #processes+1)". -/
structure p4est_ghost_t where
  ghosts : List p4est_quadrant_t
  tree_offsets : List Int
  proc_offsets : List Int

/-- Modelled from the spec: the "canonical (owner-rank, owner-tree, within-tree
spatial) key" that orders the received quadrants, each paired with the rank of
its owner; `key` is the scalar key of the space filling curve. -/
def ghost_key_le (key : p4est_quadrant_t → Int) (a b : Int × p4est_quadrant_t) : Prop :=
  a.1 < b.1 ∨ (a.1 = b.1 ∧ (a.2.which_tree < b.2.which_tree ∨
    (a.2.which_tree = b.2.which_tree ∧ key a.2 ≤ key b.2)))

instance ghost_key_le_decidable (key : p4est_quadrant_t → Int) :
    DecidableRel (ghost_key_le key) :=
  fun a b => by unfold ghost_key_le; exact inferInstance

/-- Modelled from the spec: `p4est_quadrant_compare_piggy` belongs to the
quadrant primitives, which are not part of the sources here.  It orders
quadrants by the tree in their piggy payload and, within a tree, by the
comparison of the quadrants, which is the order of the scalar key. -/
def p4est_quadrant_compare_piggy (key : p4est_quadrant_t → Int) (a b : p4est_quadrant_t) : Int :=
  if a.which_tree ≠ b.which_tree then a.which_tree - b.which_tree else key a - key b

/-- Modelled from the spec: the offsets that the "single linear scan of the
sorted sequence" computes for the ids `0 .. n - 1` (trees or ranks): the offset
of an id is the number of entries with a smaller id, which in the sorted
sequence is the index of the first entry with this id or a larger one. -/
def ghost_offsets (n : Int) (ids : List Int) : List Int :=
  (List.range (n + 1).toNat).map fun (t : Nat) => ((ids.countP fun i => i < (t : Int) : Nat) : Int)

/-- Modelled from the spec: `p4est_ghost_new` is declared in p4est_ghost.h and
defined in p4est_ghost.c, which is not part of the sources here.  The
collective exchange is an external collaborator; its result is the list
`received` of the quadrants "owned by others that are adjacent to its own
trees", each with the rank of its owner.  The builder "deduplicates per-tree
..., sorts the received set by the canonical ordering key, and computes
`tree_offsets`/`proc_offsets` by a single linear scan of the sorted
sequence". -/
def p4est_ghost_new (key : p4est_quadrant_t → Int) (num_trees num_procs : Int)
    (received : List (Int × p4est_quadrant_t)) : p4est_ghost_t :=
  let sorted := (received.dedup).insertionSort (ghost_key_le key)
  { ghosts := sorted.map fun g => g.2,
    tree_offsets := ghost_offsets num_trees (sorted.map fun g => g.2.which_tree),
    proc_offsets := ghost_offsets num_procs (sorted.map fun g => g.1) }

/-- Modelled from the spec: `sc_array_bsearch` is defined in sc_containers.c,
which is not part of the sources here.  Binary search for the key `k` in the
cells `lo .. hi - 1` of a sorted array of keys; the value is the index of a cell
that holds `k`, or -1. -/
def sc_array_bsearch (keys : List Int) (k : Int) : Nat → Int → Int → Int
  | 0, _, _ => -1
  | fuel + 1, lo, hi =>
    if hi ≤ lo then -1
    else
      let mid := lo + (hi - lo) / 2
      match aget keys mid with
      | none => -1
      | some v =>
        if k < v then sc_array_bsearch keys k fuel lo mid
        else if v < k then sc_array_bsearch keys k fuel (mid + 1) hi
        else mid

/-- Modelled from the spec: `p4est_ghost_tree_bsearch` is declared in
p4est_ghost.h and defined in p4est_ghost.c, which is not part of the sources
here.  "Conduct binary search on range of the ghost layer for specific tree":
the range is `tree_offsets[which_tree] .. tree_offsets[which_tree + 1] - 1` and
the quadrants are compared by their scalar key.  The value is the index of the
ghost in the whole layer, or -1. -/
def p4est_ghost_tree_bsearch (key : p4est_quadrant_t → Int) (ghost : p4est_ghost_t)
    (which_tree : Int) (q : p4est_quadrant_t) : Int :=
  match aget ghost.tree_offsets which_tree, aget ghost.tree_offsets (which_tree + 1) with
  | some start, some ended =>
    sc_array_bsearch (ghost.ghosts.map key) (key q) ((ended - start).toNat + 1) start ended
  | _, _ => -1

/-! ## Index safety of p8est_find_edge_transform -/

/-- The connectivity twocubes with one global edge added: edge 5 of tree 0 and
edge 4 of tree 1, the same edge of the glued face, carry the global edge 0, and
the reverse list of the global edge names only edge 4 of tree 1.  All indices
are in range and the entry of the reverse list maps forward to the global edge,
but the reverse list does not name edge 5 of tree 0. -/
def missing_own_entry_conn : p4est_connectivity_t :=
  { p8est_connectivity_new_twocubes with
    num_edges := 1,
    tree_to_edge := [-1, -1, -1, -1, -1, 0, -1, -1, -1, -1, -1, -1,
                     -1, -1, -1, -1, 0, -1, -1, -1, -1, -1, -1, -1],
    ett_offset := [0, 1],
    edge_to_tree := [1],
    edge_to_edge := [4] }

/-- The entry `(itree, iedge)` occurs in the reverse list of the global edge
`aedge`. -/
def own_entry_present (conn : p4est_connectivity_t) (itree iedge aedge : Int) : Prop :=
  ∃ lo hi, aget conn.ett_offset aedge = some lo ∧ aget conn.ett_offset (aedge + 1) = some hi ∧
    reverse_slots conn.edge_to_tree conn.edge_to_edge edge_of_entry lo hi itree iedge ≠ []

/-! ## Orientation codes and the vertices of glued faces and edges -/

/-- The vertex `tree_to_vertex[8 * t + c]` at the corner `c` of the tree `t`. -/
def tree_vertex (conn : p4est_connectivity_t) (t c : Int) : Option Int :=
  aget conn.tree_to_vertex (8 * t + c)

/-- The vertex at the face corner `k` of the face `f` of the tree `t`:
`tree_to_vertex[8 * t + p8est_face_corners[f][k]]`. -/
def face_corner_vertex (conn : p4est_connectivity_t) (t f k : Int) : Option Int :=
  (aget2 p8est_face_corners f k).bind fun c => tree_vertex conn t c

/-- The face connection at the face `f` of the tree `t`, if it leads to a
different tree: the corners `k` of the face lie at the same vertices as the
corners `P(f, f', o)[k]` of the neighbor face. -/
def face_orientation_consistent_at (conn : p4est_connectivity_t) (t f : Nat) : Bool :=
  match aget conn.tree_to_tree (6 * (t : Int) + f), aget conn.tree_to_face (6 * (t : Int) + f) with
  | some t', some x =>
      if t' = (t : Int) then true
      else (List.range 4).all fun (k : Nat) =>
        match face_permutation f (x % 6) (x / 6) k with
        | some pk =>
            (face_corner_vertex conn t f k).isSome &&
            face_corner_vertex conn t f k == face_corner_vertex conn t' (x % 6) pk
        | none => false
  | _, _ => false

/-- The pair of vertices at the two ends of the edge `e` of the tree `t`:
`tree_to_vertex[8 * t + p8est_edge_corners[e][0]]` and
`tree_to_vertex[8 * t + p8est_edge_corners[e][1]]`. -/
def edge_vertices (conn : p4est_connectivity_t) (t e : Int) : Option (Int × Int) :=
  (aget2 p8est_edge_corners e 0).bind fun c0 =>
  (aget2 p8est_edge_corners e 1).bind fun c1 =>
  (tree_vertex conn t c0).bind fun v0 =>
  (tree_vertex conn t c1).map fun v1 => (v0, v1)

/-- The entry in the slot `k` of the reverse edge table as the triple (tree,
edge, flip), with the vertices at the two ends of the edge. -/
def edge_entry_vertices (conn : p4est_connectivity_t) (k : Int) :
    Option (Int × Int × Int × (Int × Int)) :=
  (aget conn.edge_to_tree k).bind fun t =>
  (aget conn.edge_to_edge k).bind fun r =>
  (edge_vertices conn t (r % 12)).map fun v => (t, r % 12, r / 12, v)

/-- Two slots of the reverse edge table describe the same pair of vertices: the
same pair when the flips are equal, the swapped pair when they differ. -/
def edge_flip_consistent_at (conn : p4est_connectivity_t) (k1 k2 : Int) : Bool :=
  match edge_entry_vertices conn k1, edge_entry_vertices conn k2 with
  | some (_, _, b1, v1), some (_, _, b2, v2) =>
      if b1 = b2 then v1 == v2 else v1 == (v2.2, v2.1)
  | _, _ => false

/-- Check of `face_orientation_consistent_at` at every face of every tree. -/
def face_orientation_consistent_check (conn : p4est_connectivity_t) : Bool :=
  (List.range conn.num_trees.toNat).all fun t =>
    (List.range 6).all fun f => face_orientation_consistent_at conn t f

/-- The orientation codes of the face connections agree with the vertices: for
every face `f` of every tree `t` with the entries `t' = tree_to_tree[6t+f]` and
`x = tree_to_face[6t+f]` (neighbor face `x mod 6`, orientation `x / 6`), if
`t'` is a different tree then every face corner `k` of `f` lies at the vertex of
the face corner `P(f, f', o)[k]` of the neighbor face. -/
def face_orientation_consistent (conn : p4est_connectivity_t) : Prop :=
  ∀ t f : Nat, (t : Int) < conn.num_trees → f < 6 →
    ∃ t' x, aget conn.tree_to_tree (6 * (t : Int) + f) = some t' ∧
      aget conn.tree_to_face (6 * (t : Int) + f) = some x ∧
      (t' ≠ (t : Int) → ∀ k : Nat, k < 4 →
        ∃ pk v, face_permutation f (x % 6) (x / 6) k = some pk ∧
          face_corner_vertex conn t f k = some v ∧
          face_corner_vertex conn t' (x % 6) pk = some v)

/-- Check of `edge_flip_consistent_at` at every pair of slots of the reverse
list of every global edge. -/
def edge_flips_consistent_check (conn : p4est_connectivity_t) : Bool :=
  (List.range conn.num_edges.toNat).all fun (a : Nat) =>
    match aget conn.ett_offset (a : Int), aget conn.ett_offset ((a : Int) + 1) with
    | some lo, some hi =>
        (List.range (hi - lo).toNat).all fun (j1 : Nat) =>
          (List.range (hi - lo).toNat).all fun (j2 : Nat) =>
            edge_flip_consistent_at conn (lo + (j1 : Int)) (lo + (j2 : Int))
    | _, _ => false

/-- The flips of the reverse edge table agree with the vertices: any two entries
(tree, edge, flip) of the same global edge have equal vertex pairs when their
flips are equal and swapped vertex pairs when their flips differ. -/
def edge_flips_consistent (conn : p4est_connectivity_t) : Prop :=
  ∀ a : Nat, (a : Int) < conn.num_edges →
    ∃ lo hi, aget conn.ett_offset (a : Int) = some lo ∧
      aget conn.ett_offset ((a : Int) + 1) = some hi ∧
      ∀ k1 k2 : Int, lo ≤ k1 → k1 < hi → lo ≤ k2 → k2 < hi →
        ∃ t1 e1 b1 v1 t2 e2 b2 v2,
          edge_entry_vertices conn k1 = some (t1, e1, b1, v1) ∧
          edge_entry_vertices conn k2 = some (t2, e2, b2, v2) ∧
          (b1 = b2 → v1 = v2) ∧ (b1 ≠ b2 → v1 = (v2.2, v2.1))

/-! ## The brick generator and the hand-written connectivities -/

/-- The reverse list of the global edge or corner `a`: the pairs
`(to_tree[k], to_local[k])` of the slots `offs[a] <= k < offs[a+1]`; a slot
outside the arrays gives `none`. -/
def reverse_list (offs to_tree to_local : List Int) (a : Int) : List (Option Int × Option Int) :=
  match aget offs a, aget offs (a + 1) with
  | some lo, some hi =>
      (List.range (hi - lo).toNat).map fun (j : Nat) =>
        (aget to_tree (lo + (j : Int)), aget to_local (lo + (j : Int)))
  | _, _ => []

/-! # Theorems -/

/-! ## Face permutations and face symmetry -/

theorem face_symmetric_of_check (conn : p4est_connectivity_t)
    (h : face_symmetric_check conn = true) : face_symmetric conn := by
  intro t f o f' ht hf ho hf' t' h1 h2
  have hc : face_symmetric_at conn t f = true := by
    simp only [face_symmetric_check, List.all_eq_true, List.mem_range] at h
    exact h t (by omega) f hf
  simp only [face_symmetric_at, h1, h2] at hc
  have e1 : (6 * (o : Int) + f') % 6 = f' := by omega
  have e2 : (6 * (o : Int) + f') / 6 = o := by omega
  have e3 : (0 : Int) ≤ 6 * (o : Int) + f' ∧ 6 * (o : Int) + f' < 24 := by omega
  rw [if_pos e3, e1, e2] at hc
  simpa using hc

/-- C2: mapping face corners across a glued face and back with the same stored
orientation code is the identity: `P(g,f,o)[P(f,g,o)[k]] = k` for all faces
`f, g` in 0..5, orientation codes `o` in 0..3 and face corners `k` in 0..3. -/
theorem face_permutation_involution :
    ∀ f < 6, ∀ g < 6, ∀ o < 4, ∀ k < 4,
      (face_permutation (f : Nat) (g : Nat) (o : Nat) (k : Nat)).bind (fun k' => face_permutation g f o k') = some (k : Int) := by
  decide

theorem face_permutation_involution_witness :
    (face_permutation (0 : Nat) (1 : Nat) (1 : Nat) (2 : Nat)).bind
      (fun k' => face_permutation (1 : Nat) (0 : Nat) (1 : Nat) k') = some ((2 : Nat) : Int) :=
  face_permutation_involution 0 (by decide) 1 (by decide) 1 (by decide) 2 (by decide)

/-- C3: the face relation of each predefined connectivity (unitcube, periodic,
rotwrap, twocubes, twowrap, rotcubes, shell, sphere) is symmetric: for every
tree `t` and face `f` with `tree_to_tree[6t+f] = t'` and
`tree_to_face[6t+f] = 6 o + f'`, the reverse entry has
`tree_to_tree[6t'+f'] = t` and `tree_to_face[6t'+f'] = 6 o + f`. -/
theorem predefined_face_symmetric :
    face_symmetric p8est_connectivity_new_unitcube ∧
    face_symmetric p8est_connectivity_new_periodic ∧
    face_symmetric p8est_connectivity_new_rotwrap ∧
    face_symmetric p8est_connectivity_new_twocubes ∧
    face_symmetric p8est_connectivity_new_twowrap ∧
    face_symmetric p8est_connectivity_new_rotcubes ∧
    face_symmetric p8est_connectivity_new_shell ∧
    face_symmetric p8est_connectivity_new_sphere := by
  refine ⟨?_, ?_, ?_, ?_, ?_, ?_, ?_, ?_⟩ <;> apply face_symmetric_of_check <;> decide

/-! ## Reverse tables of edges and corners -/

theorem round_trip_of_check (n : Int) (offs to_tree to_local fwd : List Int) (w : Int)
    (dec : Int → Int) (h : round_trip_check n offs to_tree to_local fwd w dec = true) :
    ∀ a : Nat, (a : Int) < n →
      ∃ lo hi, aget offs a = some lo ∧ aget offs ((a : Int) + 1) = some hi ∧
        ∀ k : Int, lo ≤ k → k < hi →
          ∃ t e, aget to_tree k = some t ∧ aget to_local k = some e ∧
            aget fwd (w * t + dec e) = some (a : Int) := by
  intro a ha
  simp only [round_trip_check, List.all_eq_true, List.mem_range] at h
  have h1 := h a (by omega)
  cases hlo : aget offs a with
  | none => simp [hlo] at h1
  | some lo =>
    cases hhi : aget offs ((a : Int) + 1) with
    | none => simp [hlo, hhi] at h1
    | some hi =>
      refine ⟨lo, hi, rfl, rfl, ?_⟩
      intro k hk1 hk2
      simp only [hlo, hhi, List.all_eq_true, List.mem_range] at h1
      have h2 := h1 (k - lo).toNat (by omega)
      have e1 : lo + ((k - lo).toNat : Int) = k := by omega
      rw [e1] at h2
      cases ht : aget to_tree k with
      | none => simp [ht] at h2
      | some t =>
        cases he : aget to_local k with
        | none => simp [ht, he] at h2
        | some e =>
          simp only [ht, he, beq_iff_eq] at h2
          exact ⟨t, e, rfl, rfl, h2⟩

theorem forward_once_of_check (nt : Int) (offs to_tree to_local fwd : List Int) (w : Nat)
    (dec : Int → Int) (h : forward_once_check nt offs to_tree to_local fwd w dec = true) :
    ∀ t e : Nat, (t : Int) < nt → e < w → ∀ a : Int,
      aget fwd ((w : Int) * (t : Int) + e) = some a → a ≠ -1 →
      ∃ lo hi, aget offs a = some lo ∧ aget offs (a + 1) = some hi ∧
        (reverse_slots to_tree to_local dec lo hi t e).length = 1 := by
  intro t e ht he a ha hne
  simp only [forward_once_check, List.all_eq_true, List.mem_range] at h
  have h1 := h t (by omega) e he
  simp only [ha, if_neg hne] at h1
  cases hlo : aget offs a with
  | none => simp [hlo] at h1
  | some lo =>
    cases hhi : aget offs (a + 1) with
    | none => simp [hlo, hhi] at h1
    | some hi =>
      simp only [hlo, hhi, beq_iff_eq] at h1
      exact ⟨lo, hi, rfl, rfl, h1⟩

theorem edge_round_trip_of_check (conn : p4est_connectivity_t)
    (h : round_trip_check conn.num_edges conn.ett_offset conn.edge_to_tree conn.edge_to_edge
      conn.tree_to_edge 12 edge_of_entry = true) : edge_round_trip conn :=
  round_trip_of_check _ _ _ _ _ _ _ h

theorem edge_forward_once_of_check (conn : p4est_connectivity_t)
    (h : forward_once_check conn.num_trees conn.ett_offset conn.edge_to_tree conn.edge_to_edge
      conn.tree_to_edge 12 edge_of_entry = true) : edge_forward_once conn :=
  forward_once_of_check _ _ _ _ _ 12 _ h

theorem corner_round_trip_of_check (conn : p4est_connectivity_t)
    (h : round_trip_check conn.num_corners conn.ctt_offset conn.corner_to_tree conn.corner_to_corner
      conn.tree_to_corner 8 corner_of_entry = true) : corner_round_trip conn :=
  round_trip_of_check _ _ _ _ _ _ _ h

theorem corner_forward_once_of_check (conn : p4est_connectivity_t)
    (h : forward_once_check conn.num_trees conn.ctt_offset conn.corner_to_tree
      conn.corner_to_corner conn.tree_to_corner 8 corner_of_entry = true) :
    corner_forward_once conn :=
  forward_once_of_check _ _ _ _ _ 8 _ h

theorem reverse_tables_consistent_of_check (conn : p4est_connectivity_t)
    (h1 : round_trip_check conn.num_edges conn.ett_offset conn.edge_to_tree conn.edge_to_edge
      conn.tree_to_edge 12 edge_of_entry = true)
    (h2 : round_trip_check conn.num_corners conn.ctt_offset conn.corner_to_tree conn.corner_to_corner
      conn.tree_to_corner 8 corner_of_entry = true)
    (h3 : forward_once_check conn.num_trees conn.ett_offset conn.edge_to_tree conn.edge_to_edge
      conn.tree_to_edge 12 edge_of_entry = true)
    (h4 : forward_once_check conn.num_trees conn.ctt_offset conn.corner_to_tree
      conn.corner_to_corner conn.tree_to_corner 8 corner_of_entry = true) :
    reverse_tables_consistent conn :=
  ⟨edge_round_trip_of_check conn h1, corner_round_trip_of_check conn h2,
   edge_forward_once_of_check conn h3, corner_forward_once_of_check conn h4⟩

/-- C4: in each of periodic, rotwrap, rotcubes, shell and sphere every slot of
every global edge's reverse list maps forward to that edge
(`tree_to_edge[12 * edge_to_tree[k] + edge_to_edge[k] mod 12] = a`), every slot
of every global corner's reverse list maps forward to that corner, and every
(tree, edge) or (tree, corner) whose forward entry is not -1 occurs exactly
once in the reverse list of its global id. -/
theorem predefined_reverse_tables_consistent :
    reverse_tables_consistent p8est_connectivity_new_periodic ∧
    reverse_tables_consistent p8est_connectivity_new_rotwrap ∧
    reverse_tables_consistent p8est_connectivity_new_rotcubes ∧
    reverse_tables_consistent p8est_connectivity_new_shell ∧
    reverse_tables_consistent p8est_connectivity_new_sphere := by
  refine ⟨?_, ?_, ?_, ?_, ?_⟩ <;> apply reverse_tables_consistent_of_check <;> decide

/-! ## Basic facts about the edge transform loops -/

theorem to_int8_of_range (x : Int) (h1 : -128 ≤ x) (h2 : x ≤ 127) : to_int8 x = x := by
  unfold to_int8; omega

theorem find_edge_orientation_spec (conn : p4est_connectivity_t) (itree iedge off : Int) :
    ∀ (l : List Nat) (ie ifl : Int),
      find_edge_orientation conn itree iedge off l = some (ie, ifl) →
      (∃ k0 r0, (l.filter (own_slot conn itree iedge off)).head? = some k0 ∧ ie = (k0 : Int) ∧
          aget conn.edge_to_edge (off + (k0 : Int)) = some r0 ∧ ifl = Int.tdiv r0 12) ∨
      (l.filter (own_slot conn itree iedge off) = [] ∧ ie = -1 ∧ ifl = -1) := by
  intro l
  induction l with
  | nil =>
    intro ie ifl h
    simp only [find_edge_orientation, Option.some.injEq, Prod.mk.injEq] at h
    right
    exact ⟨rfl, h.1.symm, h.2.symm⟩
  | cons j rest ih =>
    intro ie ifl h
    simp only [find_edge_orientation, Option.bind_eq_bind] at h
    cases ht : aget conn.edge_to_tree (off + (j : Int)) with
    | none => simp [ht] at h
    | some ntree =>
      cases hr : aget conn.edge_to_edge (off + (j : Int)) with
      | none => simp [ht, hr] at h
      | some redge =>
        simp only [ht, hr, Option.some_bind] at h
        by_cases hc : Int.tmod redge 12 = iedge ∧ ntree = itree
        · rw [if_pos hc] at h
          simp only [Option.some.injEq, Prod.mk.injEq] at h
          left
          refine ⟨j, redge, ?_, h.1.symm, hr, h.2.symm⟩
          have : own_slot conn itree iedge off j = true := by
            simp [own_slot, ht, hr, hc.1, hc.2]
          simp [List.filter_cons, this]
        · rw [if_neg hc] at h
          have hn : own_slot conn itree iedge off j = false := by
            simp only [own_slot, ht, hr, Option.map_some', Bool.and_eq_false_imp, beq_iff_eq,
              Option.some.injEq, beq_eq_false_iff_ne, ne_eq]
            intro h1 h2
            exact hc ⟨h2, h1⟩
          rcases ih ie ifl h with h' | h'
          · left
            simpa [List.filter_cons, hn] using h'
          · right
            simpa [List.filter_cons, hn] using h'

theorem edge_transform_loop_mem (conn : p4est_connectivity_t) (off : Int) (f0 f1 : edge_face_t)
    (ietree iflip : Int) (et : p8est_edge_transform_t) :
    ∀ (l : List Nat) (st st' : edge_loop_t),
      edge_transform_loop conn off f0 f1 ietree iflip st l = some st' →
      (et ∈ st'.ta ↔ et ∈ st.ta ∨ ∃ k ∈ l, (k : Int) ≠ ietree ∧ ∃ ntree redge m0 m1,
        aget conn.edge_to_tree (off + (k : Int)) = some ntree ∧
        aget conn.edge_to_edge (off + (k : Int)) = some redge ∧
        edge_face_check f0 ntree (Int.tmod redge 12) (Int.xor (Int.tdiv redge 12) iflip) = some m0 ∧
        edge_face_check f1 ntree (Int.tmod redge 12) (Int.xor (Int.tdiv redge 12) iflip) = some m1 ∧
        m0 ≠ face_match_t.found ∧ m1 ≠ face_match_t.found ∧
        et = edge_transform_of ntree (Int.tmod redge 12) (Int.xor (Int.tdiv redge 12) iflip)) := by
  intro l
  induction l with
  | nil =>
    intro st st' h
    simp only [edge_transform_loop, Option.some.injEq] at h
    subst h
    simp
  | cons j rest ih =>
    intro st st' h
    simp only [edge_transform_loop] at h
    cases hs : edge_transform_step conn off f0 f1 ietree iflip st j with
    | none => simp [hs] at h
    | some st1 =>
      simp only [hs, Option.some_bind] at h
      rw [ih st1 st' h]
      unfold edge_transform_step at hs
      by_cases hj : (j : Int) = ietree
      · rw [if_pos hj] at hs
        simp only [Option.some.injEq] at hs
        subst hs
        constructor
        · rintro (h1 | ⟨k, hk, h2⟩)
          · exact Or.inl h1
          · exact Or.inr ⟨k, List.mem_cons_of_mem _ hk, h2⟩
        · rintro (h1 | ⟨k, hk, hne, h2⟩)
          · exact Or.inl h1
          · rcases List.mem_cons.mp hk with rfl | hk'
            · exact absurd hj hne
            · exact Or.inr ⟨k, hk', hne, h2⟩
      · rw [if_neg hj] at hs
        simp only [Option.bind_eq_bind] at hs
        cases ht : aget conn.edge_to_tree (off + (j : Int)) with
        | none => simp [ht] at hs
        | some ntree =>
          cases hr : aget conn.edge_to_edge (off + (j : Int)) with
          | none => simp [ht, hr] at hs
          | some redge =>
            simp only [ht, hr, Option.some_bind] at hs
            cases hm0 : edge_face_check f0 ntree (Int.tmod redge 12)
                (Int.xor (Int.tdiv redge 12) iflip) with
            | none => simp [hm0] at hs
            | some m0 =>
              cases hm1 : edge_face_check f1 ntree (Int.tmod redge 12)
                  (Int.xor (Int.tdiv redge 12) iflip) with
              | none => simp [hm0, hm1] at hs
              | some m1 =>
                simp only [hm0, hm1, Option.some_bind] at hs
                by_cases hf : m0 = face_match_t.found ∨ m1 = face_match_t.found
                · rw [if_pos hf] at hs
                  simp only [Option.some.injEq] at hs
                  subst hs
                  constructor
                  · rintro (h1 | ⟨k, hk, h2⟩)
                    · exact Or.inl h1
                    · exact Or.inr ⟨k, List.mem_cons_of_mem _ hk, h2⟩
                  · rintro (h1 | ⟨k, hk, hne, nt, re, a0, a1, e1, e2, e3, e4, e5, e6, e7⟩)
                    · exact Or.inl h1
                    · rcases List.mem_cons.mp hk with rfl | hk'
                      · rw [ht] at e1; rw [hr] at e2
                        simp only [Option.some.injEq] at e1 e2
                        subst e1; subst e2
                        rw [hm0] at e3; rw [hm1] at e4
                        simp only [Option.some.injEq] at e3 e4
                        subst e3; subst e4
                        rcases hf with hf | hf
                        · exact absurd hf e5
                        · exact absurd hf e6
                      · exact Or.inr ⟨k, hk', hne, nt, re, a0, a1, e1, e2, e3, e4, e5, e6, e7⟩
                · rw [if_neg hf] at hs
                  simp only [Option.some.injEq] at hs
                  subst hs
                  simp only [List.mem_append, List.mem_singleton]
                  push_neg at hf
                  constructor
                  · rintro ((h1 | h1) | ⟨k, hk, h2⟩)
                    · exact Or.inl h1
                    · exact Or.inr ⟨j, List.mem_cons_self _ _, hj, ntree, redge, m0, m1, ht, hr,
                        hm0, hm1, hf.1, hf.2, h1⟩
                    · exact Or.inr ⟨k, List.mem_cons_of_mem _ hk, h2⟩
                  · rintro (h1 | ⟨k, hk, hne, nt, re, a0, a1, e1, e2, e3, e4, e5, e6, e7⟩)
                    · exact Or.inl (Or.inl h1)
                    · rcases List.mem_cons.mp hk with rfl | hk'
                      · rw [ht] at e1; rw [hr] at e2
                        simp only [Option.some.injEq] at e1 e2
                        subst e1; subst e2
                        exact Or.inl (Or.inr e7)
                      · exact Or.inr ⟨k, hk', hne, nt, re, a0, a1, e1, e2, e3, e4, e5, e6, e7⟩

/-! ## C5 and C6: what p8est_find_edge_transform emits -/

/-- C5: for every connectivity, every tree in range and every local edge in
0..11, if the connectivity has no edges (`num_edges = 0`) or
`tree_to_edge[12 * tree + edge] = -1`, then `p8est_find_edge_transform` records
`iedge` and returns an empty transform list; in particular this holds for all
12 edges of the unitcube and for all edges of both trees of twocubes and of
twowrap. -/
theorem find_edge_transform_no_edge :
    (∀ (conn : p4est_connectivity_t) (itree iedge : Int),
      0 ≤ itree → itree < conn.num_trees → 0 ≤ iedge → iedge < 12 →
      (conn.num_edges = 0 ∨ aget conn.tree_to_edge (12 * itree + iedge) = some (-1)) →
      p8est_find_edge_transform conn itree iedge =
        some { iedge := iedge, edge_transforms := [] }) ∧
    (∀ e < 12, p8est_find_edge_transform p8est_connectivity_new_unitcube 0 (e : Nat) =
        some { iedge := (e : Nat), edge_transforms := [] }) ∧
    (∀ t < 2, ∀ e < 12,
      p8est_find_edge_transform p8est_connectivity_new_twocubes (t : Nat) (e : Nat) =
        some { iedge := (e : Nat), edge_transforms := [] }) ∧
    (∀ t < 2, ∀ e < 12,
      p8est_find_edge_transform p8est_connectivity_new_twowrap (t : Nat) (e : Nat) =
        some { iedge := (e : Nat), edge_transforms := [] }) := by
  have key : ∀ (conn : p4est_connectivity_t) (itree iedge : Int),
      0 ≤ itree → itree < conn.num_trees → 0 ≤ iedge → iedge < 12 →
      (conn.num_edges = 0 ∨ aget conn.tree_to_edge (12 * itree + iedge) = some (-1)) →
      p8est_find_edge_transform conn itree iedge =
        some { iedge := iedge, edge_transforms := [] } := by
    intro conn itree iedge _ _ h3 h4 h
    have e8 : to_int8 iedge = iedge := to_int8_of_range iedge (by omega) (by omega)
    unfold p8est_find_edge_transform
    by_cases h0 : conn.num_edges = 0
    · rw [if_pos h0, e8]
    · rw [if_neg h0]
      rcases h with h | h
      · exact absurd h h0
      · simp [h, e8]
  refine ⟨key, ?_, ?_, ?_⟩
  · intro e he
    exact key _ 0 e (by decide) (by decide) (by omega) (by omega) (Or.inl rfl)
  · intro t ht e he
    exact key _ t e (by omega) (by show (t : Int) < 2; omega) (by omega) (by omega) (Or.inl rfl)
  · intro t ht e he
    exact key _ t e (by omega) (by show (t : Int) < 2; omega) (by omega) (by omega) (Or.inl rfl)

theorem find_edge_transform_no_edge_witness :
    p8est_find_edge_transform p8est_connectivity_new_rotcubes 0 3 =
      some { iedge := 3, edge_transforms := [] } :=
  find_edge_transform_no_edge.1 p8est_connectivity_new_rotcubes 0 3 (by decide) (by decide)
    (by decide) (by decide) (Or.inr (by decide))

theorem aget_mem {α : Type} (a : List α) (i : Int) (x : α) (h : aget a i = some x) : x ∈ a := by
  unfold aget at h
  split at h
  · simp at h
  · exact List.get?_mem h

theorem tmod_tdiv_of_range (r : Int) (h1 : 0 ≤ r) (h2 : r < 24) :
    Int.tmod r 12 = r % 12 ∧ Int.tdiv r 12 = r / 12 ∧ (r / 12 = 0 ∨ r / 12 = 1) ∧
      0 ≤ r % 12 ∧ r % 12 < 12 := by
  refine ⟨Int.tmod_eq_emod h1 (by decide), Int.tdiv_eq_ediv h1 (by decide), by omega, by omega,
    by omega⟩

theorem own_slot_eq_reverse (conn : p4est_connectivity_t)
    (hrange : ∀ r ∈ conn.edge_to_edge, 0 ≤ r ∧ r < 24) (itree iedge lo hi : Int) :
    (List.range (hi - lo).toNat).filter (own_slot conn itree iedge lo) =
      reverse_slots conn.edge_to_tree conn.edge_to_edge edge_of_entry lo hi itree iedge := by
  unfold reverse_slots
  apply List.filter_congr
  intro j _
  unfold own_slot
  cases hr : aget conn.edge_to_edge (lo + (j : Int)) with
  | none => simp
  | some r =>
    have hr' := hrange r (aget_mem _ _ _ hr)
    simp only [Option.map_some', edge_of_entry, (tmod_tdiv_of_range r hr'.1 hr'.2).1]

theorem xor_flip_cases (a b : Int) (ha : a = 0 ∨ a = 1) (hb : b = 0 ∨ b = 1) :
    to_int8 (Int.xor a b) = Int.xor a b ∧ (Int.xor a b = 0 ∨ Int.xor a b = 1) ∧
      Int.xor a b = Int.xor b a := by
  rcases ha with rfl | rfl <;> rcases hb with rfl | rfl <;> decide

/-- C6: every transform emitted by `p8est_find_edge_transform (conn, t, e)` stems
from one reverse-table entry `(ntree, redge)` of the global edge of `(t, e)`
other than the caller's own entry, with `nedge = redge mod 12` and
`nflip = (redge div 12) XOR iflip`, where `iflip = redge' div 12` for the first
entry of that table whose tree is `t` and whose edge `redge' mod 12` is `e`.
The function asserts that the stored entries lie in 0..23 and that the caller's
own entry is found; both are hypotheses here. -/
theorem find_edge_transform_emitted (conn : p4est_connectivity_t) (t e : Int)
    (hrange : ∀ r ∈ conn.edge_to_edge, 0 ≤ r ∧ r < 24)
    (hown : ∀ aedge lo hi, aget conn.tree_to_edge (12 * t + e) = some aedge →
      aget conn.ett_offset aedge = some lo → aget conn.ett_offset (aedge + 1) = some hi →
      reverse_slots conn.edge_to_tree conn.edge_to_edge edge_of_entry lo hi t e ≠ [])
    (ei : p8est_edge_info_t) (h : p8est_find_edge_transform conn t e = some ei)
    (et : p8est_edge_transform_t) (het : et ∈ ei.edge_transforms) :
    ∃ (aedge lo hi : Int) (k0 k : Nat) (redge0 ntree redge : Int),
      aget conn.tree_to_edge (12 * t + e) = some aedge ∧
      aget conn.ett_offset aedge = some lo ∧ aget conn.ett_offset (aedge + 1) = some hi ∧
      (reverse_slots conn.edge_to_tree conn.edge_to_edge edge_of_entry lo hi t e).head? = some k0 ∧
      aget conn.edge_to_edge (lo + (k0 : Int)) = some redge0 ∧
      (k : Int) < hi - lo ∧ k ≠ k0 ∧
      aget conn.edge_to_tree (lo + (k : Int)) = some ntree ∧
      aget conn.edge_to_edge (lo + (k : Int)) = some redge ∧
      et.ntree = ntree ∧ et.nedge = redge % 12 ∧ et.nflip = Int.xor (redge / 12) (redge0 / 12) := by
  unfold p8est_find_edge_transform at h
  by_cases h0 : conn.num_edges = 0
  · rw [if_pos h0] at h
    simp only [Option.some.injEq] at h
    subst h
    simp at het
  rw [if_neg h0] at h
  simp only [Option.bind_eq_bind] at h
  cases ha : aget conn.tree_to_edge (12 * t + e) with
  | none => simp [ha] at h
  | some aedge =>
    simp only [ha, Option.some_bind] at h
    by_cases h1 : aedge = -1
    · rw [if_pos h1] at h
      simp only [Option.some.injEq] at h
      subst h
      simp at het
    rw [if_neg h1] at h
    cases hs : p8est_find_edge_transform_scan conn t e aedge with
    | none => simp [hs] at h
    | some s =>
      simp only [hs, Option.some_bind, Option.some.injEq] at h
      subst h
      simp only at het
      unfold p8est_find_edge_transform_scan at hs
      simp only [Option.bind_eq_bind] at hs
      cases hf0 : find_edge_face conn t e 0 with
      | none => simp [hf0] at hs
      | some f0 =>
        cases hf1 : find_edge_face conn t e 1 with
        | none => simp [hf0, hf1] at hs
        | some f1 =>
          cases hhi : aget conn.ett_offset (aedge + 1) with
          | none => simp [hf0, hf1, hhi] at hs
          | some hi =>
            cases hlo : aget conn.ett_offset aedge with
            | none => simp [hf0, hf1, hhi, hlo] at hs
            | some lo =>
              simp only [hf0, hf1, hhi, hlo, Option.some_bind] at hs
              cases hso : find_edge_orientation conn t e lo (List.range (hi - lo).toNat) with
              | none => simp [hso] at hs
              | some p =>
                obtain ⟨ie, ifl⟩ := p
                simp only [hso, Option.some_bind] at hs
                cases hl : edge_transform_loop conn lo f0 f1 ie ifl
                    { ta := [], founds0 := 0, founds1 := 0, flipped := 0, bracket_ok := true }
                    (List.range (hi - lo).toNat) with
                | none => simp [hl] at hs
                | some st =>
                  simp only [hl, Option.some_bind, Option.some.injEq] at hs
                  subst hs
                  simp only at het
                  have hm := (edge_transform_loop_mem conn lo f0 f1 ie ifl et _ _ _ hl).mp het
                  simp only [List.not_mem_nil, false_or, List.mem_range] at hm
                  obtain ⟨k, hk, hne, ntree, redge, m0, m1, e1, e2, _, _, _, _, e7⟩ := hm
                  have hsp := find_edge_orientation_spec conn t e lo _ ie ifl hso
                  rw [own_slot_eq_reverse conn hrange] at hsp
                  rcases hsp with ⟨k0, r0, g1, g2, g3, g4⟩ | ⟨g1, _, _⟩
                  · have hr := hrange redge (aget_mem _ _ _ e2)
                    have hr0 := hrange r0 (aget_mem _ _ _ g3)
                    obtain ⟨a1, a2, a3, a4, a5⟩ := tmod_tdiv_of_range redge hr.1 hr.2
                    obtain ⟨b1, b2, b3, b4, b5⟩ := tmod_tdiv_of_range r0 hr0.1 hr0.2
                    refine ⟨aedge, lo, hi, k0, k, r0, ntree, redge, rfl, hlo, hhi, g1, g3, by omega,
                      ?_, e1, e2, ?_, ?_, ?_⟩
                    · intro hkk; apply hne; rw [g2, hkk]
                    · rw [e7]; rfl
                    · rw [e7]
                      show to_int8 (Int.tmod redge 12) = redge % 12
                      rw [a1]; exact to_int8_of_range _ (by omega) (by omega)
                    · rw [e7]
                      show to_int8 (Int.xor (Int.tdiv redge 12) ifl) = _
                      rw [g4, a2, b2]
                      exact (xor_flip_cases _ _ a3 b3).1
                  · exact absurd g1 (hown aedge lo hi ha hlo hhi)

theorem find_edge_transform_emitted_witness :
    ∃ (aedge lo hi : Int) (k0 k : Nat) (redge0 ntree redge : Int),
      aget p8est_connectivity_new_rotcubes.tree_to_edge (12 * 0 + 7) = some aedge ∧
      aget p8est_connectivity_new_rotcubes.ett_offset aedge = some lo ∧
      aget p8est_connectivity_new_rotcubes.ett_offset (aedge + 1) = some hi ∧
      (reverse_slots p8est_connectivity_new_rotcubes.edge_to_tree
        p8est_connectivity_new_rotcubes.edge_to_edge edge_of_entry lo hi 0 7).head? = some k0 ∧
      aget p8est_connectivity_new_rotcubes.edge_to_edge (lo + (k0 : Int)) = some redge0 ∧
      (k : Int) < hi - lo ∧ k ≠ k0 ∧
      aget p8est_connectivity_new_rotcubes.edge_to_tree (lo + (k : Int)) = some ntree ∧
      aget p8est_connectivity_new_rotcubes.edge_to_edge (lo + (k : Int)) = some redge ∧
      (edge_transform_of 4 0 1).ntree = ntree ∧ (edge_transform_of 4 0 1).nedge = redge % 12 ∧
      (edge_transform_of 4 0 1).nflip = Int.xor (redge / 12) (redge0 / 12) :=
  find_edge_transform_emitted p8est_connectivity_new_rotcubes 0 7 (by decide)
    (by
      intro aedge lo hi h1 h2 h3
      have e1 : aedge = 0 := by
        have : aget p8est_connectivity_new_rotcubes.tree_to_edge (12 * 0 + 7) = some 0 := by decide
        rw [this] at h1; exact (Option.some.inj h1).symm
      subst e1
      have e2 : lo = 0 := by
        have : aget p8est_connectivity_new_rotcubes.ett_offset 0 = some 0 := by decide
        rw [this] at h2; exact (Option.some.inj h2).symm
      have e3 : hi = 5 := by
        have : aget p8est_connectivity_new_rotcubes.ett_offset (0 + 1) = some 5 := by decide
        rw [this] at h3; exact (Option.some.inj h3).symm
      subst e2; subst e3
      decide)
    { iedge := 7, edge_transforms := [edge_transform_of 4 0 1, edge_transform_of 5 6 1] }
    (by decide) (edge_transform_of 4 0 1) (by decide)

/-! ## Table facts used by the edge transform proofs -/

theorem corner_check_total_tbl :
    ∀ e < 12, ∀ i < 2, ∀ x < 24, ∀ ne < 12, ∀ nf < 2, corner_check_total_at e i x ne nf = true := by
  decide

theorem corner_check_symm_tbl :
    ∀ eb < 12, ∀ j < 2, ∀ x < 24, ∀ ea < 12, ∀ nf < 2,
      corner_check_symm_at eb j x ea nf = true := by
  decide

/-! ## Index validity of a connectivity -/

theorem edge_face_row_int (e i : Int) (he0 : 0 ≤ e) (he : e < 12) (hi0 : 0 ≤ i) (hi : i < 2) :
    ∃ face row, edge_face_row e i = some (face, row) ∧ 0 ≤ face ∧ face < 6 ∧
      aget2 p8est_edge_faces e i = some face ∧ aget2 p8est_edge_face_corners e face = some row := by
  lift e to ℕ using he0
  lift i to ℕ using hi0
  have h := corner_check_total_tbl e (by omega) i (by omega) 0 (by decide) 0 (by decide) 0 (by decide)
  unfold corner_check_total_at at h
  cases hr : edge_face_row (e : Int) (i : Int) with
  | none => simp [hr] at h
  | some p =>
    obtain ⟨face, row⟩ := p
    simp only [hr, Bool.and_eq_true, decide_eq_true_eq] at h
    refine ⟨face, row, rfl, h.1.1, h.1.2, ?_⟩
    unfold edge_face_row at hr
    cases hf : aget2 p8est_edge_faces (e : Int) (i : Int) with
    | none => simp [hf] at hr
    | some f =>
      simp only [hf, Option.some_bind, Option.map_eq_some'] at hr
      obtain ⟨r, hr1, hr2⟩ := hr
      simp only [Prod.mk.injEq] at hr2
      obtain ⟨rfl, rfl⟩ := hr2
      exact ⟨rfl, hr1⟩

theorem corner_check_total_int (e i x ne nf : Int) (he0 : 0 ≤ e) (he : e < 12) (hi0 : 0 ≤ i)
    (hi : i < 2) (hx0 : 0 ≤ x) (hx : x < 24) (hne0 : 0 ≤ ne) (hne : ne < 12) (hnf0 : 0 ≤ nf)
    (hnf : nf < 2) (face : Int) (row : List Int) (hr : edge_face_row e i = some (face, row)) :
    ∃ m, edge_corner_check face (x % 6) (x / 6) row ne nf = some m := by
  lift e to ℕ using he0
  lift i to ℕ using hi0
  lift x to ℕ using hx0
  lift ne to ℕ using hne0
  lift nf to ℕ using hnf0
  have h := corner_check_total_tbl e (by omega) i (by omega) x (by omega) ne (by omega) nf (by omega)
  unfold corner_check_total_at at h
  simp only [hr, Bool.and_eq_true, decide_eq_true_eq] at h
  exact Option.isSome_iff_exists.mp h.2

theorem corner_check_symm_int (eb j x ea nf : Int) (heb0 : 0 ≤ eb) (heb : eb < 12) (hj0 : 0 ≤ j)
    (hj : j < 2) (hx0 : 0 ≤ x) (hx : x < 24) (hea0 : 0 ≤ ea) (hea : ea < 12) (hnf0 : 0 ≤ nf)
    (hnf : nf < 2) (g : Int) (rowB : List Int) (hr : edge_face_row eb j = some (g, rowB))
    (hm : edge_corner_check g (x % 6) (x / 6) rowB ea nf = some face_match_t.found) :
    ∃ i : Int, 0 ≤ i ∧ i < 2 ∧ ∃ rowA, edge_face_row ea i = some (x % 6, rowA) ∧
      edge_corner_check (x % 6) g (x / 6) rowA eb nf = some face_match_t.found := by
  lift eb to ℕ using heb0
  lift j to ℕ using hj0
  lift x to ℕ using hx0
  lift ea to ℕ using hea0
  lift nf to ℕ using hnf0
  have h := corner_check_symm_tbl eb (by omega) j (by omega) x (by omega) ea (by omega) nf (by omega)
  unfold corner_check_symm_at at h
  simp only [hr, hm, if_true, List.any_eq_true, List.mem_range] at h
  obtain ⟨i, hi, h2⟩ := h
  refine ⟨(i : Int), by omega, by omega, ?_⟩
  cases hra : edge_face_row (ea : Int) (i : Int) with
  | none => simp [hra] at h2
  | some p =>
    obtain ⟨f, rowA⟩ := p
    simp only [hra, Bool.and_eq_true, beq_iff_eq] at h2
    obtain ⟨h3, h4⟩ := h2
    subst h3
    exact ⟨rowA, rfl, h4⟩

theorem find_edge_face_valid (conn : p4est_connectivity_t) (hv : conn_indices_valid conn)
    (A : Nat) (hA : (A : Int) < conn.num_trees) (ea i : Int) (he0 : 0 ≤ ea) (he : ea < 12)
    (hi0 : 0 ≤ i) (hi : i < 2) :
    ∃ face row t' x, edge_face_row ea i = some (face, row) ∧ 0 ≤ face ∧ face < 6 ∧
      aget conn.tree_to_tree (6 * (A : Int) + face) = some t' ∧ 0 ≤ t' ∧ t' < conn.num_trees ∧
      aget conn.tree_to_face (6 * (A : Int) + face) = some x ∧ 0 ≤ x ∧ x < 24 ∧
      find_edge_face conn A ea i = some (edge_face_of A face t' x row) := by
  obtain ⟨face, row, h1, h2, h3, h4, h5⟩ := edge_face_row_int ea i he0 he hi0 hi
  lift face to ℕ using h2
  obtain ⟨t', x, g1, g2, g3, g4, g5, g6⟩ := hv.1 A face hA (by omega)
  refine ⟨face, row, t', x, h1, by omega, h3, g1, g2, g3, g4, g5, g6, ?_⟩
  unfold find_edge_face edge_face_of
  simp only [Option.bind_eq_bind, h4, g1, g4, Option.some_bind, h5]
  by_cases hb : t' = (A : Int) ∧ x = (face : Int)
  · rw [if_pos hb, if_pos hb]
  · rw [if_neg hb, if_neg hb, Int.tmod_eq_emod g5 (by decide), Int.tdiv_eq_ediv g5 (by decide)]

theorem edge_face_check_total (A face t' x : Int) (row : List Int) (ea i : Int)
    (he0 : 0 ≤ ea) (he : ea < 12) (hi0 : 0 ≤ i) (hi : i < 2)
    (hrow : edge_face_row ea i = some (face, row)) (hx0 : 0 ≤ x) (hx : x < 24)
    (ntree nedge nflip : Int) (hn : 0 ≤ ntree) (hne0 : 0 ≤ nedge) (hne : nedge < 12)
    (hnf0 : 0 ≤ nflip) (hnf : nflip < 2) :
    ∃ m, edge_face_check (edge_face_of A face t' x row) ntree nedge nflip = some m := by
  unfold edge_face_check edge_face_of
  by_cases hb : t' = A ∧ x = face
  · rw [if_pos hb]
    simp only
    rw [if_neg (by omega)]
    exact ⟨_, rfl⟩
  · rw [if_neg hb]
    simp only
    by_cases hq : ntree = t'
    · rw [if_pos hq]
      exact corner_check_total_int ea i x nedge nflip he0 he hi0 hi hx0 hx hne0 hne hnf0 hnf
        face row hrow
    · rw [if_neg hq]
      exact ⟨_, rfl⟩

/-- A match through a face seen from one tree is a match through the same glued
face seen from the neighbor. -/
theorem edge_face_check_symm (conn : p4est_connectivity_t) (hv : conn_indices_valid conn)
    (hs : face_symmetric conn) (A B : Nat) (hA : (A : Int) < conn.num_trees)
    (hB : (B : Int) < conn.num_trees) (ea eb nflip j : Int)
    (hea0 : 0 ≤ ea) (hea : ea < 12) (heb0 : 0 ≤ eb) (heb : eb < 12)
    (hnf0 : 0 ≤ nflip) (hnf : nflip < 2) (hj0 : 0 ≤ j) (hj : j < 2)
    (fB : edge_face_t) (hfB : find_edge_face conn B eb j = some fB)
    (hm : edge_face_check fB A ea nflip = some face_match_t.found) :
    ∃ i : Int, 0 ≤ i ∧ i < 2 ∧ ∃ fA, find_edge_face conn A ea i = some fA ∧
      edge_face_check fA B eb nflip = some face_match_t.found := by
  obtain ⟨g, rowB, t', x, h1, h2, h3, h4, h5, h6, h7, h8, h9, h10⟩ :=
    find_edge_face_valid conn hv B hB eb j heb0 heb hj0 hj
  rw [hfB] at h10
  simp only [Option.some.injEq] at h10
  subst h10
  unfold edge_face_check edge_face_of at hm
  by_cases hb : t' = (B : Int) ∧ x = g
  · rw [if_pos hb] at hm
    simp only at hm
    rw [if_neg (by omega)] at hm
    simp at hm
  · rw [if_neg hb] at hm
    simp only at hm
    by_cases hq : (A : Int) = t'
    · rw [if_pos hq] at hm
      subst hq
      obtain ⟨i, hi0, hi, rowA, hra, hca⟩ :=
        corner_check_symm_int eb j x ea nflip heb0 heb hj0 hj h8 h9 hea0 hea hnf0 hnf g rowB h1 hm
      refine ⟨i, hi0, hi, ?_⟩
      obtain ⟨f, rowA', t2, x2, k1, k2, k3, k4, k5, k6, k7, k8, k9, k10⟩ :=
        find_edge_face_valid conn hv A hA ea i hea0 hea hi0 hi
      rw [hra] at k1
      simp only [Option.some.injEq, Prod.mk.injEq] at k1
      obtain ⟨rfl, rfl⟩ := k1
      lift g to ℕ using h2
      have hx6 : ∃ o f' : Nat, o < 4 ∧ f' < 6 ∧ x = 6 * (o : Int) + f' :=
        ⟨(x / 6).toNat, (x % 6).toNat, by omega, by omega, by omega⟩
      obtain ⟨o, f', ho, hf', rfl⟩ := hx6
      have e1 : (6 * (o : Int) + f') % 6 = f' := by omega
      have e2 : (6 * (o : Int) + f') / 6 = o := by omega
      rw [e1, e2] at hca
      rw [e1] at k4 k7 k10
      obtain ⟨s1, s2⟩ := hs B g o f' hB (by omega) ho hf' (A : Int) h4 h7
      rw [s1] at k4
      rw [s2] at k7
      simp only [Option.some.injEq] at k4 k7
      subst k4
      subst k7
      refine ⟨_, k10, ?_⟩
      unfold edge_face_check edge_face_of
      by_cases hb2 : (B : Int) = (A : Int) ∧ 6 * (o : Int) + (g : Int) = (f' : Int)
      · exfalso
        apply hb
        constructor
        · exact hb2.1.symm
        · omega
      · rw [if_neg hb2]
        simp only [if_true]
        have e3 : (6 * (o : Int) + g) % 6 = g := by omega
        have e4 : (6 * (o : Int) + g) / 6 = o := by omega
        rw [e3, e4]
        exact hca
    · rw [if_neg hq] at hm
      simp at hm

theorem own_slot_eq_reverse_of_slots (conn : p4est_connectivity_t) (itree iedge lo hi : Int)
    (hrange : ∀ k : Int, lo ≤ k → k < hi → ∀ r, aget conn.edge_to_edge k = some r → 0 ≤ r) :
    (List.range (hi - lo).toNat).filter (own_slot conn itree iedge lo) =
      reverse_slots conn.edge_to_tree conn.edge_to_edge edge_of_entry lo hi itree iedge := by
  unfold reverse_slots
  apply List.filter_congr
  intro j hj
  rw [List.mem_range] at hj
  unfold own_slot
  cases hr : aget conn.edge_to_edge (lo + (j : Int)) with
  | none => simp
  | some r =>
    have hr' := hrange (lo + (j : Int)) (by omega) (by omega) r hr
    simp only [Option.map_some', edge_of_entry, Int.tmod_eq_emod hr' (by decide : (0 : Int) ≤ 12)]

theorem find_edge_orientation_total (conn : p4est_connectivity_t) (itree iedge off : Int) :
    ∀ l : List Nat,
      (∀ j ∈ l, ∃ t r, aget conn.edge_to_tree (off + (j : Int)) = some t ∧
        aget conn.edge_to_edge (off + (j : Int)) = some r) →
      ∃ p, find_edge_orientation conn itree iedge off l = some p := by
  intro l
  induction l with
  | nil => intro _; exact ⟨_, rfl⟩
  | cons j rest ih =>
    intro h
    obtain ⟨t, r, h1, h2⟩ := h j (List.mem_cons_self _ _)
    simp only [find_edge_orientation, Option.bind_eq_bind, h1, h2, Option.some_bind]
    by_cases hc : Int.tmod r 12 = iedge ∧ t = itree
    · rw [if_pos hc]; exact ⟨_, rfl⟩
    · rw [if_neg hc]
      exact ih (fun j' hj' => h j' (List.mem_cons_of_mem _ hj'))

theorem edge_transform_loop_total (conn : p4est_connectivity_t) (off : Int)
    (A : Int) (ea : Int) (he0 : 0 ≤ ea) (he : ea < 12)
    (face0 face1 t0 t1 x0 x1 : Int) (row0 row1 : List Int)
    (hrow0 : edge_face_row ea 0 = some (face0, row0)) (hrow1 : edge_face_row ea 1 = some (face1, row1))
    (hx0 : 0 ≤ x0 ∧ x0 < 24) (hx1 : 0 ≤ x1 ∧ x1 < 24)
    (ietree iflip : Int) (hif : iflip = 0 ∨ iflip = 1) :
    ∀ (l : List Nat) (st : edge_loop_t),
      (∀ j ∈ l, ∃ t r, aget conn.edge_to_tree (off + (j : Int)) = some t ∧ 0 ≤ t ∧
        aget conn.edge_to_edge (off + (j : Int)) = some r ∧ 0 ≤ r ∧ r < 24) →
      ∃ st', edge_transform_loop conn off (edge_face_of A face0 t0 x0 row0)
        (edge_face_of A face1 t1 x1 row1) ietree iflip st l = some st' := by
  intro l
  induction l with
  | nil => intro st _; exact ⟨_, rfl⟩
  | cons j rest ih =>
    intro st h
    obtain ⟨t, r, h1, h2, h3, h4, h5⟩ := h j (List.mem_cons_self _ _)
    have hrest := fun st1 => ih st1 (fun j' hj' => h j' (List.mem_cons_of_mem _ hj'))
    simp only [edge_transform_loop]
    unfold edge_transform_step
    by_cases hj : (j : Int) = ietree
    · rw [if_pos hj]
      simp only [Option.some_bind]
      exact hrest st
    · rw [if_neg hj]
      obtain ⟨a1, a2, a3, a4, a5⟩ := tmod_tdiv_of_range r h4 h5
      have hx := xor_flip_cases (r / 12) iflip a3 hif
      have hnf : 0 ≤ Int.xor (r / 12) iflip ∧ Int.xor (r / 12) iflip < 2 := by
        rcases hx.2.1 with h | h <;> rw [h] <;> decide
      obtain ⟨m0, hm0⟩ := edge_face_check_total A face0 t0 x0 row0 ea 0 he0 he (by decide)
        (by decide) hrow0 hx0.1 hx0.2 t (r % 12) (Int.xor (r / 12) iflip) h2 a4 a5 hnf.1 hnf.2
      obtain ⟨m1, hm1⟩ := edge_face_check_total A face1 t1 x1 row1 ea 1 he0 he (by decide)
        (by decide) hrow1 hx1.1 hx1.2 t (r % 12) (Int.xor (r / 12) iflip) h2 a4 a5 hnf.1 hnf.2
      simp only [Option.bind_eq_bind, h1, h3, Option.some_bind, a1, a2, hm0, hm1]
      split
      · exact hrest _
      · exact hrest _

theorem find_edge_transform_scan_valid (conn : p4est_connectivity_t)
    (hv : conn_indices_valid conn) (ho : edge_forward_once conn)
    (A ea : Nat) (hA : (A : Int) < conn.num_trees) (hea : ea < 12) (aedge : Int)
    (h0 : conn.num_edges ≠ 0) (ha : aget conn.tree_to_edge (12 * (A : Int) + ea) = some aedge)
    (hne : aedge ≠ -1) :
    ∃ (lo hi : Int) (f0 f1 : edge_face_t) (k0 : Nat) (r0 : Int) (st : edge_loop_t),
      aget conn.ett_offset aedge = some lo ∧ aget conn.ett_offset (aedge + 1) = some hi ∧
      find_edge_face conn A ea 0 = some f0 ∧ find_edge_face conn A ea 1 = some f1 ∧
      reverse_slots conn.edge_to_tree conn.edge_to_edge edge_of_entry lo hi A ea = [k0] ∧
      aget conn.edge_to_edge (lo + (k0 : Int)) = some r0 ∧ 0 ≤ r0 ∧ r0 < 24 ∧
      (∀ k : Int, lo ≤ k → k < hi →
        ∃ t r, aget conn.edge_to_tree k = some t ∧ 0 ≤ t ∧ t < conn.num_trees ∧
          aget conn.edge_to_edge k = some r ∧ 0 ≤ r ∧ r < 24) ∧
      edge_transform_loop conn lo f0 f1 k0 (r0 / 12) edge_loop_init
        (List.range (hi - lo).toNat) = some st ∧
      p8est_find_edge_transform conn A ea = some { iedge := ea, edge_transforms := st.ta } := by
  obtain ⟨a, ha1, ha2, ha3⟩ := hv.2.1 h0 A ea hA hea
  rw [ha] at ha1
  simp only [Option.some.injEq] at ha1
  subst ha1
  have ha0 : 0 ≤ aedge := by omega
  lift aedge to ℕ using ha0
  obtain ⟨lo, hi, hlo, hhi, hle, hslots⟩ := hv.2.2 aedge ha3
  obtain ⟨lo', hi', hlo', hhi', hlen⟩ := ho A ea hA hea aedge ha hne
  rw [hlo] at hlo'
  rw [hhi] at hhi'
  simp only [Option.some.injEq] at hlo' hhi'
  subst hlo'
  subst hhi'
  obtain ⟨k0, hk0⟩ := List.length_eq_one.mp hlen
  have hmem : k0 ∈ reverse_slots conn.edge_to_tree conn.edge_to_edge edge_of_entry lo hi A ea := by
    rw [hk0]; exact List.mem_singleton.mpr rfl
  unfold reverse_slots at hmem
  rw [List.mem_filter, List.mem_range] at hmem
  obtain ⟨hk0r, _⟩ := hmem
  obtain ⟨t0, r0, s1, s2, s3, s4, s5, s6⟩ := hslots (lo + (k0 : Int)) (by omega) (by omega)
  obtain ⟨face0, row0, t0', x0, p1, p2, p3, p4, p5, p6, p7, p8, p9, p10⟩ :=
    find_edge_face_valid conn hv A hA ea 0 (by omega) (by omega) (by decide) (by decide)
  obtain ⟨face1, row1, t1', x1, q1, q2, q3, q4, q5, q6, q7, q8, q9, q10⟩ :=
    find_edge_face_valid conn hv A hA ea 1 (by omega) (by omega) (by decide) (by decide)
  have hreads : ∀ j ∈ List.range (hi - lo).toNat,
      ∃ t r, aget conn.edge_to_tree (lo + (j : Int)) = some t ∧ 0 ≤ t ∧
        aget conn.edge_to_edge (lo + (j : Int)) = some r ∧ 0 ≤ r ∧ r < 24 := by
    intro j hj
    rw [List.mem_range] at hj
    obtain ⟨t, r, u1, u2, _, u4, u5, u6⟩ := hslots (lo + (j : Int)) (by omega) (by omega)
    exact ⟨t, r, u1, u2, u4, u5, u6⟩
  obtain ⟨p, hp⟩ := find_edge_orientation_total conn A ea lo (List.range (hi - lo).toNat)
    (fun j hj => by
      obtain ⟨t, r, u1, _, u4, _, _⟩ := hreads j hj
      exact ⟨t, r, u1, u4⟩)
  obtain ⟨ie, ifl⟩ := p
  have hsp := find_edge_orientation_spec conn A ea lo _ ie ifl hp
  rw [own_slot_eq_reverse_of_slots conn A ea lo hi (fun k hk1 hk2 r hr => by
    obtain ⟨t, r', _, _, _, u4, u5, _⟩ := hslots k hk1 hk2
    rw [u4] at hr
    simp only [Option.some.injEq] at hr
    omega), hk0] at hsp
  rcases hsp with ⟨k0', r0', g1, g2, g3, g4⟩ | ⟨g1, _, _⟩
  swap
  · simp at g1
  simp only [List.head?_cons, Option.some.injEq] at g1
  subst g1
  rw [s4] at g3
  simp only [Option.some.injEq] at g3
  subst g3
  obtain ⟨a1, a2, a3, a4, a5⟩ := tmod_tdiv_of_range r0 s5 s6
  rw [a2] at g4
  subst g4
  subst g2
  obtain ⟨st, hst⟩ := edge_transform_loop_total conn lo A ea (by omega) (by omega)
    face0 face1 t0' t1' x0 x1 row0 row1 p1 q1 ⟨p8, p9⟩ ⟨q8, q9⟩ (k0 : Int) (r0 / 12) a3
    (List.range (hi - lo).toNat) edge_loop_init hreads
  refine ⟨lo, hi, _, _, k0, r0, st, hlo, hhi, p10, q10, hk0, s4, s5, s6, hslots, hst, ?_⟩
  unfold p8est_find_edge_transform
  rw [if_neg h0]
  simp only [Option.bind_eq_bind, ha, Option.some_bind, if_neg hne]
  unfold p8est_find_edge_transform_scan
  have e8 : to_int8 (ea : Int) = ea := to_int8_of_range _ (by omega) (by omega)
  unfold edge_loop_init at hst
  simp only [Option.bind_eq_bind, p10, q10, hlo, hhi, Option.some_bind, hp, hst, e8]

theorem reverse_slots_mem (to_tree to_local : List Int) (dec : Int → Int) (lo hi t e : Int)
    (k : Nat) :
    k ∈ reverse_slots to_tree to_local dec lo hi t e ↔
      (k : Int) < hi - lo ∧ aget to_tree (lo + (k : Int)) = some t ∧
        ∃ r, aget to_local (lo + (k : Int)) = some r ∧ dec r = e := by
  unfold reverse_slots
  rw [List.mem_filter, List.mem_range]
  constructor
  · rintro ⟨h1, h2⟩
    simp only [Bool.and_eq_true, beq_iff_eq, Option.map_eq_some'] at h2
    exact ⟨by omega, h2.1, h2.2⟩
  · rintro ⟨h1, h2, h3⟩
    refine ⟨by omega, ?_⟩
    simp only [Bool.and_eq_true, beq_iff_eq, Option.map_eq_some']
    exact ⟨h2, h3⟩

/-- C1 (amended): on every connectivity with valid indices whose face relation
is symmetric, in which every (tree, edge) with a global edge id occurs exactly
once in that id's reverse list and in which every reverse list entry maps
forward to its global edge id, `p8est_find_edge_transform` is reciprocal. -/
theorem find_edge_transform_reciprocal (conn : p4est_connectivity_t)
    (hv : conn_indices_valid conn) (hs : face_symmetric conn)
    (ho : edge_forward_once conn) (hr : edge_round_trip conn) :
    edge_transform_reciprocal conn := by
  intro A ea hA hea ei h et het
  by_cases h0 : conn.num_edges = 0
  · unfold p8est_find_edge_transform at h
    rw [if_pos h0] at h
    simp only [Option.some.injEq] at h
    subst h
    simp at het
  obtain ⟨aedge, ha, ha1, ha2⟩ := hv.2.1 h0 A ea hA hea
  by_cases hne : aedge = -1
  · unfold p8est_find_edge_transform at h
    rw [if_neg h0] at h
    simp only [Option.bind_eq_bind, ha, Option.some_bind, if_pos hne, Option.some.injEq] at h
    subst h
    simp at het
  obtain ⟨lo, hi, f0, f1, k0, r0, st, hlo, hhi, hf0, hf1, hk0, hr0, hr0a, hr0b, hslots, hst, hres⟩ :=
    find_edge_transform_scan_valid conn hv ho A ea hA hea aedge h0 ha hne
  rw [hres] at h
  simp only [Option.some.injEq] at h
  subst h
  simp only at het
  have hm := (edge_transform_loop_mem conn lo f0 f1 k0 (r0 / 12) et _ _ _ hst).mp het
  simp only [edge_loop_init, List.not_mem_nil, false_or, List.mem_range] at hm
  obtain ⟨k, hk, hkne, B, rB, m0, m1, e1, e2, e3, e4, e5, e6, e7⟩ := hm
  obtain ⟨B', rB', u1, u2, u3, u4, u5, u6⟩ := hslots (lo + (k : Int)) (by omega) (by omega)
  rw [e1] at u1
  rw [e2] at u4
  simp only [Option.some.injEq] at u1 u4
  subst u1
  subst u4
  obtain ⟨a1, a2, a3, a4, a5⟩ := tmod_tdiv_of_range rB u5 u6
  obtain ⟨b1, b2, b3, b4, b5⟩ := tmod_tdiv_of_range r0 hr0a hr0b
  -- the own entry of (A, ea)
  have hk0m : k0 ∈ reverse_slots conn.edge_to_tree conn.edge_to_edge edge_of_entry lo hi A ea := by
    rw [hk0]; exact List.mem_singleton.mpr rfl
  rw [reverse_slots_mem] at hk0m
  obtain ⟨hk0r, hk0t, r0', hk0e, hk0d⟩ := hk0m
  rw [hr0] at hk0e
  simp only [Option.some.injEq] at hk0e
  subst hk0e
  unfold edge_of_entry at hk0d
  -- the round trip gives the global edge of (B, eb)
  have ha0 : 0 ≤ aedge := by omega
  lift aedge to ℕ using ha0
  obtain ⟨lo', hi', hlo', hhi', hrt⟩ := hr aedge ha2
  rw [hlo] at hlo'
  rw [hhi] at hhi'
  simp only [Option.some.injEq] at hlo' hhi'
  subst hlo'
  subst hhi'
  obtain ⟨tB, eB, v1, v2, v3⟩ := hrt (lo + (k : Int)) (by omega) (by omega)
  rw [e1] at v1
  rw [e2] at v2
  simp only [Option.some.injEq] at v1 v2
  subst v1
  subst v2
  unfold edge_of_entry at v3
  lift B to ℕ using u2
  have heb : ∃ eb : Nat, eb < 12 ∧ rB % 12 = (eb : Int) := ⟨(rB % 12).toNat, by omega, by omega⟩
  obtain ⟨eb, heb1, heb2⟩ := heb
  rw [heb2] at v3
  obtain ⟨lo2, hi2, g0, g1, kB, rB2, stB, hlo2, hhi2, hg0, hg1, hkB, hrB, hrBa, hrBb, _, hstB,
    hresB⟩ := find_edge_transform_scan_valid conn hv ho B eb u3 heb1 aedge h0 v3 hne
  rw [hlo] at hlo2
  rw [hhi] at hhi2
  simp only [Option.some.injEq] at hlo2 hhi2
  subst hlo2
  subst hhi2
  have hkm : k ∈ reverse_slots conn.edge_to_tree conn.edge_to_edge edge_of_entry lo hi B eb := by
    rw [reverse_slots_mem]
    exact ⟨by omega, e1, rB, e2, by unfold edge_of_entry; exact heb2⟩
  rw [hkB, List.mem_singleton] at hkm
  subst hkm
  rw [e2] at hrB
  simp only [Option.some.injEq] at hrB
  subst hrB
  -- the flips agree
  have hx := xor_flip_cases (rB / 12) (r0 / 12) a3 b3
  have hx' := xor_flip_cases (r0 / 12) (rB / 12) b3 a3
  have hnf : 0 ≤ Int.xor (rB / 12) (r0 / 12) ∧ Int.xor (rB / 12) (r0 / 12) < 2 := by
    rcases hx.2.1 with h | h <;> rw [h] <;> decide
  rw [a1, a2, heb2] at e3 e4 e7
  -- the two faces of (B, eb)
  obtain ⟨gf0, grow0, gt0, gx0, p1, p2, p3, p4, p5, p6, p7, p8, p9, p10⟩ :=
    find_edge_face_valid conn hv B u3 eb 0 (by omega) (by omega) (by decide) (by decide)
  obtain ⟨gf1, grow1, gt1, gx1, q1, q2, q3, q4, q5, q6, q7, q8, q9, q10⟩ :=
    find_edge_face_valid conn hv B u3 eb 1 (by omega) (by omega) (by decide) (by decide)
  rw [hg0] at p10
  rw [hg1] at q10
  simp only [Option.some.injEq] at p10 q10
  obtain ⟨n0, hn0⟩ := edge_face_check_total B gf0 gt0 gx0 grow0 eb 0 (by omega) (by omega)
    (by decide) (by decide) p1 p8 p9 A ea (Int.xor (rB / 12) (r0 / 12)) (by omega) (by omega)
    (by omega) hnf.1 hnf.2
  obtain ⟨n1, hn1⟩ := edge_face_check_total B gf1 gt1 gx1 grow1 eb 1 (by omega) (by omega)
    (by decide) (by decide) q1 q8 q9 A ea (Int.xor (rB / 12) (r0 / 12)) (by omega) (by omega)
    (by omega) hnf.1 hnf.2
  rw [← p10] at hn0
  rw [← q10] at hn1
  have key : ∀ (j : Int) (gj : edge_face_t), 0 ≤ j → j < 2 →
      find_edge_face conn B eb j = some gj →
      edge_face_check gj A ea (Int.xor (rB / 12) (r0 / 12)) ≠ some face_match_t.found := by
    intro j gj hj0 hj hgj hfound
    obtain ⟨i, hi0, hi1, fA, hfA, hcA⟩ := edge_face_check_symm conn hv hs A B hA u3 ea eb
      (Int.xor (rB / 12) (r0 / 12)) j (by omega) (by omega) (by omega) (by omega) hnf.1 hnf.2
      hj0 hj gj hgj hfound
    have hi01 : i = 0 ∨ i = 1 := by omega
    rcases hi01 with rfl | rfl
    · rw [hf0] at hfA
      simp only [Option.some.injEq] at hfA
      subst hfA
      rw [e3] at hcA
      simp only [Option.some.injEq] at hcA
      exact e5 hcA
    · rw [hf1] at hfA
      simp only [Option.some.injEq] at hfA
      subst hfA
      rw [e4] at hcA
      simp only [Option.some.injEq] at hcA
      exact e6 hcA
  have hmem : edge_transform_of A ea (Int.xor (rB / 12) (r0 / 12)) ∈ stB.ta := by
    rw [edge_transform_loop_mem conn lo g0 g1 k (rB / 12) _ _ _ _ hstB]
    right
    refine ⟨k0, List.mem_range.mpr (by omega), ?_, A, r0, n0, n1, hk0t, hr0, ?_, ?_, ?_, ?_, ?_⟩
    · intro hkk; apply hkne; omega
    · rw [b1, b2, hk0d, hx'.2.2]; exact hn0
    · rw [b1, b2, hk0d, hx'.2.2]; exact hn1
    · intro hfound
      exact key 0 g0 (by decide) (by decide) hg0 (by rw [hn0, hfound])
    · intro hfound
      exact key 1 g1 (by decide) (by decide) hg1 (by rw [hn1, hfound])
    · rw [b1, b2, hk0d, hx'.2.2]
  have e8 : to_int8 (eb : Int) = eb := to_int8_of_range _ (by omega) (by omega)
  have e9 : to_int8 (ea : Int) = ea := to_int8_of_range _ (by omega) (by omega)
  refine ⟨{ iedge := eb, edge_transforms := stB.ta }, ?_,
    edge_transform_of A ea (Int.xor (rB / 12) (r0 / 12)), hmem, ?_, ?_, ?_⟩
  · rw [e7]
    show p8est_find_edge_transform conn (B : Int) (to_int8 (eb : Int)) = _
    rw [e8]
    exact hresB
  · rfl
  · show to_int8 (ea : Int) = ea
    exact e9
  · rw [e7]
    rfl

theorem conn_indices_valid_of_check (conn : p4est_connectivity_t)
    (h : conn_indices_valid_check conn = true) : conn_indices_valid conn := by
  simp only [conn_indices_valid_check, Bool.and_eq_true, Bool.or_eq_true, List.all_eq_true,
    List.mem_range, decide_eq_true_eq] at h
  obtain ⟨⟨h1, h2⟩, h3⟩ := h
  refine ⟨?_, ?_, ?_⟩
  · intro t f ht hf
    have h := h1 t (by omega) f hf
    cases ha : aget conn.tree_to_tree (6 * (t : Int) + f) with
    | none => simp [ha] at h
    | some t' =>
      cases hb : aget conn.tree_to_face (6 * (t : Int) + f) with
      | none => simp [ha, hb] at h
      | some x =>
        simp only [ha, hb, decide_eq_true_eq] at h
        exact ⟨t', x, rfl, h.1, h.2.1, rfl, h.2.2.1, h.2.2.2⟩
  · intro h0 t e ht he
    rcases h2 with h2 | h2
    · exact absurd h2 h0
    · have h := h2 t (by omega) e he
      cases ha : aget conn.tree_to_edge (12 * (t : Int) + e) with
      | none => simp [ha] at h
      | some a =>
        simp only [ha, decide_eq_true_eq] at h
        exact ⟨a, rfl, h.1, h.2⟩
  · intro a ha
    have h := h3 a (by omega)
    cases hlo : aget conn.ett_offset a with
    | none => simp [hlo] at h
    | some lo =>
      cases hhi : aget conn.ett_offset ((a : Int) + 1) with
      | none => simp [hlo, hhi] at h
      | some hi =>
        simp only [hlo, hhi, Bool.and_eq_true, decide_eq_true_eq, List.all_eq_true,
          List.mem_range] at h
        refine ⟨lo, hi, rfl, rfl, h.1, ?_⟩
        intro k hk1 hk2
        have h4 := h.2 (k - lo).toNat (by omega)
        have e1 : lo + ((k - lo).toNat : Int) = k := by omega
        rw [e1] at h4
        cases ht : aget conn.edge_to_tree k with
        | none => simp [ht] at h4
        | some t =>
          cases hr : aget conn.edge_to_edge k with
          | none => simp [ht, hr] at h4
          | some r =>
            simp only [ht, hr, decide_eq_true_eq] at h4
            exact ⟨t, r, rfl, h4.1, h4.2.1, rfl, h4.2.2.1, h4.2.2.2⟩

/-- C1 as stated fails: `one_sided_edge_conn` has valid indices, a symmetric face
relation, and every (tree, edge) with a global edge id occurs exactly once in
that id's reverse list; the call for (tree 0, edge 0) emits a transform to
(tree 1, edge 3) with flip 0, but the call for (tree 1, edge 3) emits nothing. -/
theorem find_edge_transform_not_reciprocal :
    conn_indices_valid one_sided_edge_conn ∧ face_symmetric one_sided_edge_conn ∧
    edge_forward_once one_sided_edge_conn ∧
    p8est_find_edge_transform one_sided_edge_conn 0 0 =
      some { iedge := 0, edge_transforms := [edge_transform_of 1 3 0] } ∧
    p8est_find_edge_transform one_sided_edge_conn 1 3 =
      some { iedge := 3, edge_transforms := [] } ∧
    ¬ edge_transform_reciprocal one_sided_edge_conn := by
  have h1 : p8est_find_edge_transform one_sided_edge_conn 0 0 =
      some { iedge := 0, edge_transforms := [edge_transform_of 1 3 0] } := by decide
  have h2 : p8est_find_edge_transform one_sided_edge_conn 1 3 =
      some { iedge := 3, edge_transforms := [] } := by decide
  refine ⟨conn_indices_valid_of_check _ (by decide), face_symmetric_of_check _ (by decide),
    edge_forward_once_of_check _ (by decide), h1, h2, ?_⟩
  intro hrec
  obtain ⟨ei', h3, et', h4, _⟩ := hrec 0 0 (by decide) (by decide) _ h1 (edge_transform_of 1 3 0)
    (List.mem_singleton.mpr rfl)
  have h5 : p8est_find_edge_transform one_sided_edge_conn (edge_transform_of 1 3 0).ntree
      (edge_transform_of 1 3 0).nedge = some { iedge := 3, edge_transforms := [] } := h2
  rw [h5] at h3
  simp only [Option.some.injEq] at h3
  subst h3
  simp at h4

theorem find_edge_transform_reciprocal_witness :
    conn_indices_valid p8est_connectivity_new_rotcubes ∧
    face_symmetric p8est_connectivity_new_rotcubes ∧
    edge_forward_once p8est_connectivity_new_rotcubes ∧
    edge_round_trip p8est_connectivity_new_rotcubes ∧
    edge_transform_reciprocal p8est_connectivity_new_rotcubes ∧
    p8est_find_edge_transform p8est_connectivity_new_rotcubes 0 7 =
      some { iedge := 7, edge_transforms := [edge_transform_of 4 0 1, edge_transform_of 5 6 1] } ∧
    p8est_find_edge_transform p8est_connectivity_new_rotcubes 4 0 =
      some { iedge := 0, edge_transforms := [edge_transform_of 0 7 1, edge_transform_of 2 7 1] } :=
  have hv := conn_indices_valid_of_check p8est_connectivity_new_rotcubes (by decide)
  have hs := face_symmetric_of_check p8est_connectivity_new_rotcubes (by decide)
  have ho := edge_forward_once_of_check p8est_connectivity_new_rotcubes (by decide)
  have hr := edge_round_trip_of_check p8est_connectivity_new_rotcubes (by decide)
  ⟨hv, hs, ho, hr, find_edge_transform_reciprocal _ hv hs ho hr, by decide, by decide⟩

/-! ## Closed forms of the padding functions -/

theorem buf_write_zero (buf data : List Nat) :
    buf_write buf 0 data = data ++ buf.drop data.length := by
  simp [buf_write]

theorem buf_write_append (a b data : List Nat) (off : Nat) (h : a.length = off) :
    buf_write (a ++ b) off data = a ++ data ++ b.drop data.length := by
  subst h
  unfold buf_write
  rw [List.take_left, List.drop_append]

theorem take_append_length (a b : List Nat) (n : Nat) (h : a.length = n) :
    (a ++ b).take n = a := by
  subst h; exact List.take_left a b

theorem drop_append_length (a b : List Nat) (n : Nat) (h : a.length = n) :
    (a ++ b).drop n = b := by
  subst h; exact List.drop_left a b

theorem copy_bytes_eq (dest src : List Nat) (n : Nat) (h : n ≤ src.length) :
    sc_scda_copy_bytes dest src n = src.take n ++ dest.drop n := by
  unfold sc_scda_copy_bytes
  split
  · rename_i h0; subst h0; simp
  · rw [buf_write_zero, List.length_take, Nat.min_eq_left h]

theorem set_bytes_eq (dest : List Nat) (c n : Nat) :
    sc_scda_set_bytes dest c n = List.replicate n c ++ dest.drop n := by
  unfold sc_scda_set_bytes
  rw [buf_write_zero, List.length_replicate]

theorem pad_to_fix_len_eq (input_data : List Nat) (input_len : Nat) (output_data : List Nat)
    (pad_len : Nat) (h1 : input_len + 4 ≤ pad_len) (h3 : input_len ≤ input_data.length) :
    sc_scda_pad_to_fix_len input_data input_len output_data pad_len =
      input_data.take input_len ++ [32] ++ List.replicate (pad_len - input_len - 2) 45 ++ [10] ++
        output_data.drop pad_len := by
  have hd : (input_data.take input_len).length = input_len := by
    rw [List.length_take]; omega
  unfold sc_scda_pad_to_fix_len
  simp only
  rw [copy_bytes_eq _ _ _ h3, buf_write_append _ _ _ _ hd, set_bytes_eq]
  have hd1 : (List.take input_len input_data ++ [32]).length = input_len + 1 := by
    rw [List.length_append, hd]; rfl
  rw [take_append_length _ _ _ hd1, drop_append_length _ _ _ hd1]
  have e : List.take input_len input_data ++ [32] ++
      (List.replicate (pad_len - input_len - 2) 45 ++
        List.drop (pad_len - input_len - 2) (List.drop [32].length (List.drop input_len output_data))) =
      (List.take input_len input_data ++ [32] ++ List.replicate (pad_len - input_len - 2) 45) ++
        List.drop (pad_len - 1) output_data := by
    simp only [List.drop_drop, List.length_singleton, List.append_assoc]
    congr 4
    omega
  rw [e, buf_write_append _ _ _ _ (by
    simp only [List.length_append, hd, List.length_singleton, List.length_replicate]; omega)]
  simp only [List.drop_drop, List.length_singleton]
  congr 2
  omega

theorem pad_to_mod_len_bounds (n : Nat) :
    7 ≤ sc_scda_pad_to_mod_len n ∧ sc_scda_pad_to_mod_len n ≤ 38 ∧
      (n + sc_scda_pad_to_mod_len n) % 32 = 0 := by
  unfold sc_scda_pad_to_mod_len SC_SCDA_PADDING_MOD
  simp only
  split <;> omega

theorem pad_to_mod_eq (input_data : List Nat) (input_len : Nat) (output_data : List Nat)
    (h3 : input_len ≤ input_data.length) :
    sc_scda_pad_to_mod input_data input_len output_data =
      input_data.take input_len ++
        [if input_len > 0 ∧ input_data.getD (input_len - 1) 0 = 10 then 61 else 10] ++
        List.replicate (sc_scda_pad_to_mod_len input_len - 3) 61 ++ [10, 10] ++
        output_data.drop (input_len + sc_scda_pad_to_mod_len input_len) := by
  have hd : (input_data.take input_len).length = input_len := by
    rw [List.length_take]; omega
  obtain ⟨hr1, hr2, _⟩ := pad_to_mod_len_bounds input_len
  generalize hrdef : sc_scda_pad_to_mod_len input_len = r at hr1 hr2
  unfold sc_scda_pad_to_mod
  simp only [hrdef]
  rw [copy_bytes_eq _ _ _ h3]
  have step1 : (if input_len > 0 ∧ input_data.getD (input_len - 1) 0 = 10 then
        buf_write (List.take input_len input_data ++ List.drop input_len output_data) input_len [61]
      else buf_write (List.take input_len input_data ++ List.drop input_len output_data)
        input_len [10]) =
      List.take input_len input_data ++
        [if input_len > 0 ∧ input_data.getD (input_len - 1) 0 = 10 then 61 else 10] ++
        List.drop (input_len + 1) output_data := by
    split <;> rw [buf_write_append _ _ _ _ hd] <;> simp [List.drop_drop]
  rw [step1]
  generalize (if input_len > 0 ∧ input_data.getD (input_len - 1) 0 = 10 then 61 else 10) = c
  have hd1 : (List.take input_len input_data ++ [c]).length = input_len + 1 := by
    rw [List.length_append, hd]; rfl
  rw [buf_write_append _ _ _ _ hd1]
  have hd2 : (List.take input_len input_data ++ [c] ++ [61]).length = input_len + 2 := by
    rw [List.length_append, hd1]; rfl
  rw [take_append_length _ _ _ hd2, drop_append_length _ _ _ hd2, set_bytes_eq]
  have e : List.take input_len input_data ++ [c] ++ [61] ++
      (List.replicate (r - 4) 61 ++
        List.drop (r - 4) (List.drop [61].length (List.drop (input_len + 1) output_data))) =
      (List.take input_len input_data ++ [c] ++ List.replicate (r - 3) 61) ++
        List.drop (input_len + r - 2) output_data := by
    have e1 : List.replicate (r - 3) 61 = [61] ++ List.replicate (r - 4) 61 := by
      have : r - 3 = (r - 4) + 1 := by omega
      rw [this, List.replicate_succ]; rfl
    rw [e1]
    simp only [List.drop_drop, List.length_singleton, List.append_assoc]
    congr 5
    omega
  rw [e]
  have hd3 : (List.take input_len input_data ++ [c] ++ List.replicate (r - 3) 61).length =
      input_len + r - 2 := by
    rw [List.length_append, hd1, List.length_replicate]; omega
  rw [buf_write_append _ _ _ _ hd3]
  have hd4 : (List.take input_len input_data ++ [c] ++ List.replicate (r - 3) 61 ++ [10]).length =
      input_len + r - 1 := by
    rw [List.length_append, hd3]; simp; omega
  rw [buf_write_append _ _ _ _ hd4]
  simp only [List.drop_drop, List.length_singleton, List.append_assoc, List.singleton_append,
    List.cons_append, List.nil_append]
  congr 6
  omega

/-! ## Round trips of the padding functions -/

theorem getD_padded (a : List Nat) (x c y : Nat) (m : Nat) (rest : List Nat) :
    (a ++ [x] ++ List.replicate m c ++ [y] ++ rest).getD a.length 0 = x ∧
    (∀ j, a.length < j → j ≤ a.length + m →
      (a ++ [x] ++ List.replicate m c ++ [y] ++ rest).getD j 0 = c) ∧
    (a ++ [x] ++ List.replicate m c ++ [y] ++ rest).getD (a.length + m + 1) 0 = y ∧
    (∀ j, j < a.length → (a ++ [x] ++ List.replicate m c ++ [y] ++ rest).getD j 0 = a.getD j 0) ∧
    (a ++ [x] ++ List.replicate m c ++ [y] ++ rest).take a.length = a := by
  refine ⟨?_, ?_, ?_, ?_, ?_⟩
  · simp only [List.getD_eq_getElem?_getD, List.getElem?_append, List.length_append,
      List.length_singleton, List.length_replicate]
    have c1 : a.length < a.length + 1 + m + 1 := by omega
    have c2 : a.length < a.length + 1 + m := by omega
    have c3 : a.length < a.length + 1 := by omega
    simp [c1, c2, c3]
  · intro j h1 h2
    simp only [List.getD_eq_getElem?_getD, List.getElem?_append, List.length_append,
      List.length_singleton, List.length_replicate, List.getElem?_replicate]
    have c1 : j < a.length + 1 + m + 1 := by omega
    have c2 : j < a.length + 1 + m := by omega
    have c3 : ¬ j < a.length + 1 := by omega
    have c4 : j - (a.length + 1) < m := by omega
    simp [c1, c2, c3, c4]
  · simp only [List.getD_eq_getElem?_getD, List.getElem?_append, List.length_append,
      List.length_singleton, List.length_replicate]
    have c1 : a.length + m + 1 < a.length + 1 + m + 1 := by omega
    have c2 : ¬ a.length + m + 1 < a.length + 1 + m := by omega
    have c3 : a.length + m + 1 - (a.length + 1 + m) = 0 := by omega
    simp [c1, c2, c3]
  · intro j h1
    simp only [List.getD_eq_getElem?_getD, List.getElem?_append, List.length_append,
      List.length_singleton, List.length_replicate]
    have c1 : j < a.length + 1 + m + 1 := by omega
    have c2 : j < a.length + 1 + m := by omega
    have c3 : j < a.length + 1 := by omega
    simp [c1, c2, c3, h1]
  · simp only [List.append_assoc]
    exact List.take_left a _

theorem fix_len_scan_eq (p : List Nat) (n : Nat) :
    ∀ s, n ≤ s → (∀ j, n < j → j ≤ s → p.getD j 0 = 45) → (n = 0 ∨ p.getD n 0 ≠ 45) →
      fix_len_scan p s = n := by
  intro s
  induction s with
  | zero =>
    intro h _ _
    have : n = 0 := by omega
    subst this
    rfl
  | succ s ih =>
    intro h1 h2 h3
    unfold fix_len_scan
    by_cases hs : n = s + 1
    · subst hs
      rcases h3 with h3 | h3
      · omega
      · rw [if_pos h3]
    · rw [if_neg (by rw [h2 (s + 1) (by omega) (by omega)]; decide)]
      exact ih (by omega) (fun j hj1 hj2 => h2 j hj1 (by omega)) h3

theorem size_t_sub_of_le (a b : Nat) (h : b ≤ a) : size_t_sub a b = a - b := by
  unfold size_t_sub
  rw [if_pos h]

theorem to_size_t_of_le (n : Nat) (h : n ≤ SIZE_MAX) : to_size_t n = n := by
  unfold to_size_t
  exact Nat.mod_eq_of_lt (by omega)

/-- Without wrap-around the loop of `sc_scda_get_pad_to_mod` that starts at
`si` and runs `n` times accepts exactly if the bytes at `si - n + 1 .. si` are
'='. -/
theorem mod_scan_iff (p : List Nat) :
    ∀ n si, n ≤ si →
      (mod_scan p n si = true ↔ ∀ j, si - n < j → j ≤ si → p.getD j 0 = 61) := by
  intro n
  induction n with
  | zero =>
    intro si _
    constructor
    · intro _ j h1 h2; omega
    · intro _; rfl
  | succ n ih =>
    intro si hsi
    unfold mod_scan
    by_cases h : p.getD si 0 ≠ 61
    · rw [if_pos h]
      constructor
      · intro h'; simp at h'
      · intro h'
        exact absurd (h' si (by omega) (le_refl _)) h
    · rw [if_neg h, size_t_sub_of_le si 1 (by omega), ih (si - 1) (by omega)]
      constructor
      · intro h' j h1 h2
        by_cases hj : j = si
        · subst hj; exact not_not.mp h
        · exact h' j (by omega) (by omega)
      · intro h' j h1 h2
        exact h' j (by omega) (by omega)

/-- The decoder `sc_scda_get_pad_to_mod` when the lengths fit exactly: no
`size_t` operation wraps around. -/
theorem get_pad_to_mod_of_len (p : List Nat) (padded_len raw_len : Nat) (raw_data : List Nat)
    (h : sc_scda_pad_to_mod_len raw_len + raw_len = padded_len) :
    sc_scda_get_pad_to_mod p padded_len raw_len raw_data =
      if p.getD (padded_len - 1) 0 ≠ 10 ∨ p.getD (padded_len - 2) 0 ≠ 10 then none
      else if mod_scan p (sc_scda_pad_to_mod_len raw_len - 3) (padded_len - 3) = false then none
      else if ¬ ((p.getD raw_len 0 = 61 ∧ raw_len ≠ 0 ∧ p.getD (raw_len - 1) 0 = 10) ∨
          p.getD raw_len 0 = 10) then none
      else if raw_len ≠ 0 then some (sc_scda_copy_bytes raw_data p raw_len)
      else some raw_data := by
  obtain ⟨hr1, hr2, _⟩ := pad_to_mod_len_bounds raw_len
  unfold sc_scda_get_pad_to_mod
  simp only
  rw [if_neg (by rw [h]; exact not_not.mpr rfl)]
  have e1 : size_t_sub padded_len 1 = padded_len - 1 := size_t_sub_of_le _ _ (by omega)
  have e2 : size_t_sub padded_len 2 = padded_len - 2 := size_t_sub_of_le _ _ (by omega)
  have e3 : size_t_sub padded_len 3 = padded_len - 3 := size_t_sub_of_le _ _ (by omega)
  have e4 : size_t_sub padded_len (sc_scda_pad_to_mod_len raw_len) = raw_len := by
    rw [size_t_sub_of_le _ _ (by omega)]; omega
  have e5 : size_t_sub (padded_len - 3) raw_len = sc_scda_pad_to_mod_len raw_len - 3 := by
    rw [size_t_sub_of_le _ _ (by omega)]; omega
  rw [e1, e2, e3, e4, e5]
  by_cases h0 : raw_len = 0
  · subst h0
    simp
  · rw [size_t_sub_of_le raw_len 1 (by omega)]

/-- The decoder `sc_scda_get_pad_to_mod` returns -1 when the length test
fails. -/
theorem get_pad_to_mod_of_ne (p : List Nat) (padded_len raw_len : Nat) (raw_data : List Nat)
    (h : to_size_t (sc_scda_pad_to_mod_len raw_len + raw_len) ≠ to_size_t padded_len) :
    sc_scda_get_pad_to_mod p padded_len raw_len raw_data = none := by
  unfold sc_scda_get_pad_to_mod
  simp only
  rw [if_pos h]

theorem get_pad_to_fix_len_padded (d : List Nat) (pad_len : Nat) (rest raw_data : List Nat)
    (h1 : d.length + 4 ≤ pad_len) :
    sc_scda_get_pad_to_fix_len
      (d ++ [32] ++ List.replicate (pad_len - d.length - 2) 45 ++ [10] ++ rest) pad_len raw_data =
      some (d ++ raw_data.drop d.length, d.length) := by
  obtain ⟨g1, g2, g3, g4, g5⟩ := getD_padded d 32 45 10 (pad_len - d.length - 2) rest
  generalize hp : d ++ [32] ++ List.replicate (pad_len - d.length - 2) 45 ++ [10] ++ rest = p
    at g1 g2 g3 g4 g5
  have e1 : d.length + (pad_len - d.length - 2) + 1 = pad_len - 1 := by omega
  rw [e1] at g3
  have hscan : fix_len_scan p (pad_len - 2) = d.length := by
    apply fix_len_scan_eq p d.length (pad_len - 2) (by omega)
    · intro j hj1 hj2
      exact g2 j hj1 (by omega)
    · right
      rw [g1]; decide
  unfold sc_scda_get_pad_to_fix_len
  rw [if_neg (by omega), if_neg (by rw [g3]; decide)]
  simp only [hscan]
  rw [if_neg (by rw [g1]; decide)]
  have hlen : d.length ≤ p.length := by
    rw [← hp]; simp only [List.length_append]; omega
  rw [copy_bytes_eq _ _ _ hlen, g5]

/-- C10: for every `pad_len >= 4` and every byte string `d` of length
`n <= pad_len - 4`, whatever its content, `sc_scda_get_pad_to_fix_len` applied
to the `pad_len` bytes produced by `sc_scda_pad_to_fix_len (d, n, ., pad_len)`
returns 0 with `raw_len = n` and the bytes `d` in `raw_data`. -/
theorem pad_to_fix_len_round_trip (d : List Nat) (pad_len : Nat) (output_data raw_data : List Nat)
    (h1 : 4 ≤ pad_len) (h2 : d.length ≤ pad_len - 4) :
    sc_scda_get_pad_to_fix_len (sc_scda_pad_to_fix_len d d.length output_data pad_len) pad_len
      raw_data = some (d ++ raw_data.drop d.length, d.length) := by
  rw [pad_to_fix_len_eq d d.length output_data pad_len (by omega) (le_refl _), List.take_length]
  exact get_pad_to_fix_len_padded d pad_len _ raw_data (by omega)

theorem pad_to_fix_len_round_trip_witness :
    sc_scda_get_pad_to_fix_len (sc_scda_pad_to_fix_len [97, 45, 32, 45] [97, 45, 32, 45].length
      (List.replicate 8 0) 8) 8 [1, 2, 3, 4, 5] =
      some ([97, 45, 32, 45] ++ [1, 2, 3, 4, 5].drop [97, 45, 32, 45].length,
        [97, 45, 32, 45].length) :=
  pad_to_fix_len_round_trip [97, 45, 32, 45] 8 (List.replicate 8 0) [1, 2, 3, 4, 5] (by decide)
    (by decide)

/-- C9: for every byte string `d` of length `n` (also `n = 0`),
`sc_scda_pad_to_mod` writes `n + sc_scda_pad_to_mod_len (n)` bytes, the first
`n` of which are `d` (the rest of the output buffer is untouched), and
`sc_scda_get_pad_to_mod` applied to that output with
`padded_len = n + sc_scda_pad_to_mod_len (n)` and `raw_len = n` returns 0 and
extracts exactly `d`. -/
theorem pad_to_mod_round_trip (d output_data raw_data : List Nat) :
    (sc_scda_pad_to_mod d d.length output_data).take d.length = d ∧
    (sc_scda_pad_to_mod d d.length output_data).drop (d.length + sc_scda_pad_to_mod_len d.length) =
      output_data.drop (d.length + sc_scda_pad_to_mod_len d.length) ∧
    ((sc_scda_pad_to_mod d d.length output_data).take
      (d.length + sc_scda_pad_to_mod_len d.length)).length =
      d.length + sc_scda_pad_to_mod_len d.length ∧
    sc_scda_get_pad_to_mod (sc_scda_pad_to_mod d d.length output_data)
      (d.length + sc_scda_pad_to_mod_len d.length) d.length raw_data =
      some (d ++ raw_data.drop d.length) := by
  rw [pad_to_mod_eq d d.length output_data (le_refl _), List.take_length]
  obtain ⟨hr1, hr2, _⟩ := pad_to_mod_len_bounds d.length
  generalize hrdef : sc_scda_pad_to_mod_len d.length = r at hr1 hr2
  generalize hc : (if d.length > 0 ∧ d.getD (d.length - 1) 0 = 10 then 61 else 10) = c
  have hshape : d ++ [c] ++ List.replicate (r - 3) 61 ++ [10, 10] ++
      List.drop (d.length + r) output_data =
      d ++ [c] ++ List.replicate (r - 3) 61 ++ [10] ++
        ([10] ++ List.drop (d.length + r) output_data) := by
    simp
  obtain ⟨g1, g2, g3, g4, g5⟩ := getD_padded d c 61 10 (r - 3)
    ([10] ++ output_data.drop (d.length + r))
  have g6 : (d ++ [c] ++ List.replicate (r - 3) 61 ++ [10] ++
      ([10] ++ List.drop (d.length + r) output_data)).getD (d.length + r - 1) 0 = 10 := by
    simp only [List.getD_eq_getElem?_getD, List.getElem?_append, List.length_append,
      List.length_singleton, List.length_replicate]
    have c1 : ¬ d.length + r - 1 < d.length + 1 + (r - 3) + 1 := by omega
    have c2 : d.length + r - 1 - (d.length + 1 + (r - 3) + 1) = 0 := by omega
    simp [c1, c2]
  have g7 : (d ++ [c] ++ List.replicate (r - 3) 61 ++ [10] ++
      ([10] ++ List.drop (d.length + r) output_data)).drop (d.length + r) =
      List.drop (d.length + r) output_data := by
    have : (d ++ [c] ++ List.replicate (r - 3) 61 ++ [10] ++ [10]).length = d.length + r := by
      simp only [List.length_append, List.length_singleton, List.length_replicate]; omega
    rw [← List.append_assoc, drop_append_length _ _ _ this]
  have g8 : d.length + r ≤ (d ++ [c] ++ List.replicate (r - 3) 61 ++ [10] ++
      ([10] ++ List.drop (d.length + r) output_data)).length := by
    simp only [List.length_append, List.length_singleton, List.length_replicate]; omega
  rw [hshape]
  generalize hp : d ++ [c] ++ List.replicate (r - 3) 61 ++ [10] ++
    ([10] ++ List.drop (d.length + r) output_data) = p at g1 g2 g3 g4 g5 g6 g7 g8
  refine ⟨g5, g7, by rw [List.length_take]; omega, ?_⟩
  have e1 : d.length + (r - 3) + 1 = d.length + r - 2 := by omega
  rw [e1] at g3
  rw [get_pad_to_mod_of_len p (d.length + r) d.length raw_data (by rw [hrdef]; omega)]
  simp only [hrdef]
  rw [if_neg (by rw [g6, g3]; simp),
    (mod_scan_iff p (r - 3) (d.length + r - 3) (by omega)).mpr
      (fun j hj1 hj2 => g2 j (by omega) (by omega))]
  simp only [Bool.true_eq_false, if_false]
  have hfin : (p.getD d.length 0 = 61 ∧ d.length ≠ 0 ∧ p.getD (d.length - 1) 0 = 10) ∨
      p.getD d.length 0 = 10 := by
    rw [g1]
    by_cases hcond : d.length > 0 ∧ d.getD (d.length - 1) 0 = 10
    · left
      rw [if_pos hcond] at hc
      refine ⟨hc.symm, by omega, ?_⟩
      rw [g4 (d.length - 1) (by omega)]
      exact hcond.2
    · right
      rw [if_neg hcond] at hc
      exact hc.symm
  rw [if_neg (not_not.mpr hfin)]
  by_cases hn : d.length = 0
  · rw [if_neg (not_not.mpr hn)]
    have : d = [] := List.length_eq_zero.mp hn
    subst this
    simp
  · rw [if_pos hn, copy_bytes_eq _ _ _ (by omega), g5]

/-! ## The file header -/

theorem strlen_strcopy_le (size : Nat) (s : List Nat) : strlen (sc_strcopy size s) ≤ size - 1 := by
  unfold strlen sc_strcopy
  have h : ∀ x ∈ (s.takeWhile (fun c => decide (c ≠ 0))).take (size - 1),
      (fun c => decide (c ≠ 0)) x = true := by
    intro x hx
    have hx' := List.mem_of_mem_take hx
    exact List.mem_takeWhile_imp (p := fun c => decide (c ≠ 0)) hx'
  rw [List.takeWhile_append, if_pos (by rw [List.takeWhile_eq_self_iff.mpr h])]
  have h0 : List.takeWhile (fun c => decide (c ≠ 0)) [0] = [] := by decide
  rw [h0, List.append_nil]
  exact List.length_take_le _ _

theorem get_user_string_len_le (user_string : List Nat) (len : Option Nat) (L : Nat)
    (h : sc_scda_get_user_string_len user_string len = some L) : L ≤ 58 := by
  unfold sc_scda_get_user_string_len SC_SCDA_USER_STRING_BYTES at h
  cases len with
  | some n =>
    simp only at h
    split at h
    · simp at h
    · split at h
      · simp at h
      · simp only [Option.some.injEq] at h
        omega
  | none =>
    simp only at h
    have hb := strlen_strcopy_le (58 + 1) user_string
    split at h
    · simp only [Option.some.injEq] at h
      omega
    · split at h
      · simp only [Option.some.injEq] at h
        omega
      · simp at h

theorem fopen_write_eq (user_string : List Nat) (len : Option Nat) (L : Nat)
    (file_header_data : List Nat)
    (hL : sc_scda_get_user_string_len user_string len = some L)
    (hu : L ≤ user_string.length) (hb : file_header_data.length = SC_SCDA_HEADER_BYTES) :
    sc_scda_fopen_write user_string len file_header_data =
      some (scda_header_layout (user_string.take L)) := by
  have hL58 := get_user_string_len_le user_string len L hL
  have hul : (user_string.take L).length = L := by rw [List.length_take]; omega
  unfold SC_SCDA_HEADER_BYTES at hb
  unfold sc_scda_fopen_write
  simp only [hL]
  have hm : SC_SCDA_MAGIC.length = 7 := rfl
  have hvl : strlen SC_SCDA_VENDOR_STRING = 5 := by decide
  have hvt : SC_SCDA_VENDOR_STRING.take 5 = SC_SCDA_VENDOR_STRING := by decide
  simp only [SC_SCDA_MAGIC_BYTES, SC_SCDA_VENDOR_STRING_FIELD, SC_SCDA_USER_STRING_FIELD, hvl]
  rw [copy_bytes_eq _ _ _ (by decide)]
  have t7 : SC_SCDA_MAGIC.take 7 = SC_SCDA_MAGIC := by decide
  rw [t7, buf_write_append _ _ _ _ hm]
  have l8 : (SC_SCDA_MAGIC ++ [32]).length = 7 + 1 := by decide
  rw [take_append_length _ _ _ l8, drop_append_length _ _ _ l8,
    pad_to_fix_len_eq _ _ _ _ (by decide) (by decide), hvt]
  have l32 : (SC_SCDA_MAGIC ++ [32] ++
      (SC_SCDA_VENDOR_STRING ++ [32] ++ List.replicate (24 - 5 - 2) 45 ++ [10])).length =
      7 + 1 + 24 := by decide
  rw [← List.append_assoc, buf_write_append _ _ _ _ l32]
  have l33 : (SC_SCDA_MAGIC ++ [32] ++
      (SC_SCDA_VENDOR_STRING ++ [32] ++ List.replicate (24 - 5 - 2) 45 ++ [10]) ++ [70]).length =
      7 + 1 + 24 + 1 := by decide
  rw [buf_write_append _ _ _ _ l33]
  have l34 : (SC_SCDA_MAGIC ++ [32] ++
      (SC_SCDA_VENDOR_STRING ++ [32] ++ List.replicate (24 - 5 - 2) 45 ++ [10]) ++ [70] ++
      [32]).length = 7 + 1 + 24 + 1 + 1 := by decide
  rw [take_append_length _ _ _ l34, drop_append_length _ _ _ l34,
    pad_to_fix_len_eq _ _ _ _ (by omega) hu]
  have l96 : (SC_SCDA_MAGIC ++ [32] ++
      (SC_SCDA_VENDOR_STRING ++ [32] ++ List.replicate (24 - 5 - 2) 45 ++ [10]) ++ [70] ++
      [32] ++ (List.take L user_string ++ [32] ++ List.replicate (62 - L - 2) 45 ++ [10])).length =
      7 + 1 + 24 + 1 + 1 + 62 := by
    rw [List.length_append, l34]
    simp only [List.length_append, hul, List.length_singleton, List.length_replicate]
    omega
  rw [← List.append_assoc, take_append_length _ _ _ l96, drop_append_length _ _ _ l96,
    pad_to_mod_eq _ _ _ (by simp)]
  have pl : sc_scda_pad_to_mod_len 0 = 32 := by decide
  have hdrop : List.drop (0 + sc_scda_pad_to_mod_len 0)
      (List.drop 62 (List.drop [32].length (List.drop [70].length
        (List.drop 24 (List.drop [32].length (List.drop 7 file_header_data)))))) = [] := by
    apply List.drop_eq_nil_of_le
    simp only [List.length_drop, List.length_singleton, pl]
    omega
  rw [hdrop, pl]
  unfold scda_header_layout
  rw [hul]
  have e60 : 62 - L - 2 = 60 - L := by omega
  rw [e60]
  simp

/-- C8: the header written by `sc_scda_fopen_write` for a user string of length
`L` (the length determined by `sc_scda_get_user_string_len`) has exactly 128
bytes (`SC_SCDA_HEADER_BYTES`): the 7 bytes "scdata0", one ' ', the 24-byte
vendor field "libsc" + ' ' + 17 times '-' + newline, the byte 'F', one ' ', the
62-byte user field (the user string, `L <= 58`, then ' ', then `60 - L` times
'-', then newline), and the 32-byte padding newline + 29 times '=' + two
newlines. -/
theorem fopen_write_header_layout (user_string : List Nat) (len : Option Nat) (L : Nat)
    (file_header_data : List Nat)
    (hL : sc_scda_get_user_string_len user_string len = some L)
    (hu : L ≤ user_string.length) (hb : file_header_data.length = SC_SCDA_HEADER_BYTES) :
    L ≤ 58 ∧
    sc_scda_fopen_write user_string len file_header_data =
      some ([115, 99, 100, 97, 116, 97, 48] ++ [32] ++
        ([108, 105, 98, 115, 99] ++ [32] ++ List.replicate 17 45 ++ [10]) ++
        [70] ++ [32] ++
        (user_string.take L ++ [32] ++ List.replicate (60 - L) 45 ++ [10]) ++
        ([10] ++ List.replicate 29 61 ++ [10, 10])) ∧
    ([115, 99, 100, 97, 116, 97, 48] ++ [32] ++
        ([108, 105, 98, 115, 99] ++ [32] ++ List.replicate 17 45 ++ [10]) ++
        [70] ++ [32] ++
        (user_string.take L ++ [32] ++ List.replicate (60 - L) 45 ++ [10]) ++
        ([10] ++ List.replicate 29 61 ++ [10, 10])).length = 128 := by
  have hL58 := get_user_string_len_le user_string len L hL
  have hul : (user_string.take L).length = L := by rw [List.length_take]; omega
  refine ⟨hL58, ?_, ?_⟩
  · rw [fopen_write_eq user_string len L file_header_data hL hu hb]
    unfold scda_header_layout SC_SCDA_MAGIC SC_SCDA_VENDOR_STRING
    rw [hul]
  · simp only [List.length_append, List.length_cons, List.length_nil, List.length_replicate, hul]
    omega

theorem fopen_write_header_layout_witness :
    19 ≤ 58 ∧
    sc_scda_fopen_write
      [84, 104, 105, 115, 32, 105, 115, 32, 97, 32, 116, 101, 115, 116, 32, 102, 105, 108, 101, 0]
      none (List.replicate 128 0) =
      some ([115, 99, 100, 97, 116, 97, 48] ++ [32] ++
        ([108, 105, 98, 115, 99] ++ [32] ++ List.replicate 17 45 ++ [10]) ++
        [70] ++ [32] ++
        (([84, 104, 105, 115, 32, 105, 115, 32, 97, 32, 116, 101, 115, 116, 32, 102, 105, 108, 101,
            0] : List Nat).take 19 ++ [32] ++ List.replicate (60 - 19) 45 ++ [10]) ++
        ([10] ++ List.replicate 29 61 ++ [10, 10])) ∧
    ([115, 99, 100, 97, 116, 97, 48] ++ [32] ++
        ([108, 105, 98, 115, 99] ++ [32] ++ List.replicate 17 45 ++ [10]) ++
        [70] ++ [32] ++
        (([84, 104, 105, 115, 32, 105, 115, 32, 97, 32, 116, 101, 115, 116, 32, 102, 105, 108, 101,
            0] : List Nat).take 19 ++ [32] ++ List.replicate (60 - 19) 45 ++ [10]) ++
        ([10] ++ List.replicate 29 61 ++ [10, 10])).length = 128 :=
  fopen_write_header_layout
    [84, 104, 105, 115, 32, 105, 115, 32, 97, 32, 116, 101, 115, 116, 32, 102, 105, 108, 101, 0]
    none 19 (List.replicate 128 0) (by decide) (by decide) (by decide)

theorem check_file_header_layout (u vendor_string user_string : List Nat) (h : u.length ≤ 58)
    (hcap : u.length < user_string.length) :
    sc_scda_check_file_header (scda_header_layout u) vendor_string user_string =
      some (some (u ++ [0] ++ user_string.drop (u.length + 1), u.length)) := by
  have e60 : 62 - u.length - 2 = 60 - u.length := by omega
  have hpre : scda_header_layout u =
      [115, 99, 100, 97, 116, 97, 48, 32] ++
      (([108, 105, 98, 115, 99] ++ [32] ++
        List.replicate (24 - [108, 105, 98, 115, 99].length - 2) 45 ++ [10] ++
        ([70, 32] ++ (u ++ [32] ++ List.replicate (62 - u.length - 2) 45 ++ [10] ++
          [10, 61, 61, 61, 61, 61, 61, 61, 61, 61, 61, 61, 61, 61, 61, 61, 61, 61, 61, 61, 61, 61,
            61, 61, 61, 61, 61, 61, 61, 61, 10, 10])))) := by
    unfold scda_header_layout SC_SCDA_MAGIC SC_SCDA_VENDOR_STRING
    rw [e60]
    simp [List.replicate]
  have hpre34 : scda_header_layout u =
      [115, 99, 100, 97, 116, 97, 48, 32, 108, 105, 98, 115, 99, 32, 45, 45, 45, 45, 45, 45, 45,
        45, 45, 45, 45, 45, 45, 45, 45, 45, 45, 10, 70, 32] ++
      (u ++ [32] ++ List.replicate (62 - u.length - 2) 45 ++ [10] ++
          [10, 61, 61, 61, 61, 61, 61, 61, 61, 61, 61, 61, 61, 61, 61, 61, 61, 61, 61, 61, 61, 61,
            61, 61, 61, 61, 61, 61, 61, 61, 10, 10]) := by
    unfold scda_header_layout SC_SCDA_MAGIC SC_SCDA_VENDOR_STRING
    rw [e60]
    simp [List.replicate]
  have hg7 : (scda_header_layout u).getD 7 0 = 32 := by
    rw [hpre34, List.getD_append _ _ _ _ (by decide)]; rfl
  have hg32 : (scda_header_layout u).getD 32 0 = 70 := by
    rw [hpre34, List.getD_append _ _ _ _ (by decide)]; rfl
  have hg33 : (scda_header_layout u).getD 33 0 = 32 := by
    rw [hpre34, List.getD_append _ _ _ _ (by decide)]; rfl
  have ht7 : (scda_header_layout u).take 7 = [115, 99, 100, 97, 116, 97, 48] := by
    rw [hpre34, List.take_append_of_le_length (by decide)]; rfl
  have hd8 : (scda_header_layout u).drop 8 =
      [108, 105, 98, 115, 99] ++ [32] ++
        List.replicate (24 - [108, 105, 98, 115, 99].length - 2) 45 ++ [10] ++
        ([70, 32] ++ (u ++ [32] ++ List.replicate (62 - u.length - 2) 45 ++ [10] ++
          [10, 61, 61, 61, 61, 61, 61, 61, 61, 61, 61, 61, 61, 61, 61, 61, 61, 61, 61, 61, 61, 61,
            61, 61, 61, 61, 61, 61, 61, 61, 10, 10])) := by
    rw [hpre]
    exact drop_append_length _ _ 8 rfl
  have hd34 : (scda_header_layout u).drop 34 =
      u ++ [32] ++ List.replicate (62 - u.length - 2) 45 ++ [10] ++
          [10, 61, 61, 61, 61, 61, 61, 61, 61, 61, 61, 61, 61, 61, 61, 61, 61, 61, 61, 61, 61, 61,
            61, 61, 61, 61, 61, 61, 61, 61, 10, 10] := by
    rw [hpre34]
    exact drop_append_length _ _ 34 rfl
  have hd96 : (scda_header_layout u).drop 96 =
          [10, 61, 61, 61, 61, 61, 61, 61, 61, 61, 61, 61, 61, 61, 61, 61, 61, 61, 61, 61, 61, 61,
            61, 61, 61, 61, 61, 61, 61, 61, 10, 10] := by
    have e : (96 : Nat) = 34 + 62 := rfl
    rw [e, ← List.drop_drop, hd34]
    apply drop_append_length
    simp only [List.length_append, List.length_singleton, List.length_replicate]
    omega
  unfold sc_scda_check_file_header
  simp only [SC_SCDA_MAGIC_BYTES, SC_SCDA_VENDOR_STRING_FIELD, SC_SCDA_USER_STRING_FIELD,
    SC_SCDA_PADDING_MOD]
  rw [if_neg (by rw [hg7, hg32, hg33]; simp), if_neg (by rw [ht7]; decide), hd8,
    get_pad_to_fix_len_padded [108, 105, 98, 115, 99] 24 _ vendor_string (by decide)]
  simp only
  rw [if_neg (by decide), hd34, get_pad_to_fix_len_padded u 62 _ user_string (by omega)]
  simp only
  rw [if_neg (by omega), hd96]
  have hm : sc_scda_get_pad_to_mod
      [10, 61, 61, 61, 61, 61, 61, 61, 61, 61, 61, 61, 61, 61, 61, 61, 61, 61, 61, 61, 61, 61,
        61, 61, 61, 61, 61, 61, 61, 61, 10, 10] 32 0 [] = some [] := by decide
  rw [hm]
  simp only [Option.some.injEq, Prod.mk.injEq, and_true]
  rw [buf_write_append _ _ _ _ rfl]
  simp [List.drop_drop, Nat.add_comm]

/-- The header round trip for every user string whose length
`sc_scda_get_user_string_len` accepts: `sc_scda_fopen_write` composes a header,
and `sc_scda_check_file_header` accepts it and returns the same bytes,
nul-terminated, and the same length. -/
theorem header_round_trip (user_string : List Nat) (len : Option Nat) (L : Nat)
    (file_header_data vendor_string read_user_string : List Nat)
    (hL : sc_scda_get_user_string_len user_string len = some L)
    (hu : L ≤ user_string.length) (hb : file_header_data.length = SC_SCDA_HEADER_BYTES)
    (hcap : SC_SCDA_USER_STRING_BYTES < read_user_string.length) :
    ∃ hdr, sc_scda_fopen_write user_string len file_header_data = some hdr ∧
      sc_scda_check_file_header hdr vendor_string read_user_string =
        some (some (user_string.take L ++ [0] ++ read_user_string.drop (L + 1), L)) := by
  have hL58 := get_user_string_len_le user_string len L hL
  have hul : (user_string.take L).length = L := by rw [List.length_take]; omega
  refine ⟨_, fopen_write_eq user_string len L file_header_data hL hu hb, ?_⟩
  have := check_file_header_layout (user_string.take L) vendor_string read_user_string
    (by omega) (by unfold SC_SCDA_USER_STRING_BYTES at hcap; omega)
  rw [hul] at this
  exact this

theorem get_user_string_len_binary (user_string : List Nat) (n : Nat)
    (h1 : n ≤ 58) (h2 : user_string.getD n 0 = 0) :
    sc_scda_get_user_string_len user_string (some n) = some n := by
  unfold sc_scda_get_user_string_len SC_SCDA_USER_STRING_BYTES
  simp only
  rw [if_neg (by omega), if_neg (by rw [h2]; simp)]

/-- C7 at its failing input: a user string of exactly 58 bytes 'a', handed to
`sc_scda_fopen_write` as a nul-terminated C string (`len = NULL`), is rejected
by `sc_scda_get_user_string_len`, which tests `user_string[57]` for nul, so
that no header is composed; the same string handed over with its length 58 is
accepted and makes the round trip. -/
theorem fopen_write_rejects_58_byte_string :
    sc_scda_get_user_string_len (List.replicate 58 97 ++ [0]) none = none ∧
    sc_scda_fopen_write (List.replicate 58 97 ++ [0]) none (List.replicate 128 0) = none ∧
    sc_scda_get_user_string_len (List.replicate 58 97 ++ [0]) (some 58) = some 58 ∧
    (sc_scda_fopen_write (List.replicate 58 97 ++ [0]) (some 58) (List.replicate 128 0)).bind
      (fun hdr => sc_scda_check_file_header hdr (List.replicate 20 0) (List.replicate 59 0)) =
      some (some (List.replicate 58 97 ++ [0], 58)) := by
  refine ⟨by decide, by decide, by decide, by decide⟩

/-! ## The static incidence tables -/

/-- C17: for every face `f = 2a + s`, `p8est_face_corners[f]` lists in ascending
order exactly the corners in 0..7 whose bit `a` equals `s`;
`p8est_corner_faces[c]` lists in ascending order exactly the faces that contain
`c`; `p8est_corner_face_corners[c][f] = k` exactly when
`p8est_face_corners[f][k] = c`, and it is -1 exactly when `c` is not on `f`; and
`p8est_face_dual[f] = f XOR 1`. -/
theorem face_corner_incidence :
    (∀ a < 3, ∀ s < 2,
      aget p8est_face_corners ((2 * a + s : Nat) : Int) =
        some (ascending_where 8 fun c => decide (corner_bit c a = s))) ∧
    (∀ c < 8, aget p8est_corner_faces ((c : Nat) : Int) =
        some (ascending_where 6 fun f => face_has_corner f c)) ∧
    (∀ c < 8, ∀ f < 6, ∀ k < 4,
      (aget2 p8est_corner_face_corners ((c : Nat) : Int) ((f : Nat) : Int) = some ((k : Nat) : Int) ↔
        aget2 p8est_face_corners ((f : Nat) : Int) ((k : Nat) : Int) = some ((c : Nat) : Int))) ∧
    (∀ c < 8, ∀ f < 6,
      (aget2 p8est_corner_face_corners ((c : Nat) : Int) ((f : Nat) : Int) = some (-1) ↔
        face_has_corner f c = false)) ∧
    (∀ c < 8, ∀ f < 6, ∃ k : Int, -1 ≤ k ∧ k < 4 ∧
      aget2 p8est_corner_face_corners ((c : Nat) : Int) ((f : Nat) : Int) = some k) ∧
    (∀ f < 6, aget p8est_face_dual ((f : Nat) : Int) = some (Int.xor (f : Nat) 1)) := by
  refine ⟨by decide, by decide, by decide, by decide, ?_, by decide⟩
  intro c hc f hf
  have h : ∀ c < 8, ∀ f < 6, ∃ k < 5,
      aget2 p8est_corner_face_corners ((c : Nat) : Int) ((f : Nat) : Int) =
        some (((k : Nat) : Int) - 1) := by decide
  obtain ⟨k, hk, h2⟩ := h c hc f hf
  exact ⟨(k : Int) - 1, by omega, by omega, h2⟩

theorem face_corner_incidence_witness :
    aget p8est_face_corners (((2 * 1 + 1 : Nat)) : Int) =
      some (ascending_where 8 fun c => decide (corner_bit c 1 = 1)) :=
  face_corner_incidence.1 1 (by decide) 1 (by decide)

/-- C18: for every edge `e = 4a + j`, `p8est_edge_corners[e]` is a pair
`(c, c + 2^a)` of corners that differ only in bit `a`, and the 12 pairs are all
such pairs; `p8est_edge_faces[e]` lists exactly the two faces whose
`p8est_face_corners` contain both corners of `e`; `p8est_face_edges[f]` lists
exactly the four edges `e` with `f` in `p8est_edge_faces[e]`; and
`p8est_corner_edges[c]` lists exactly the three edges `e` with `c` in
`p8est_edge_corners[e]`. -/
theorem edge_incidence :
    (∀ a < 3, ∀ j < 4, ∃ c < 8, corner_bit c a = 0 ∧
      aget p8est_edge_corners ((4 * a + j : Nat) : Int) =
        some [((c : Nat) : Int), ((c + 2 ^ a : Nat) : Int)]) ∧
    (∀ a < 3, ∀ c < 8, corner_bit c a = 0 → ∃ j < 4,
      aget p8est_edge_corners ((4 * a + j : Nat) : Int) =
        some [((c : Nat) : Int), ((c + 2 ^ a : Nat) : Int)]) ∧
    (∀ e < 12, aget p8est_edge_faces ((e : Nat) : Int) =
        some (ascending_where 6 fun f => face_has_edge_corners f e) ∧
      (ascending_where 6 fun f => face_has_edge_corners f e).length = 2) ∧
    (∀ f < 6, aget p8est_face_edges ((f : Nat) : Int) =
        some (ascending_where 12 fun e => edge_has_face e f) ∧
      (ascending_where 12 fun e => edge_has_face e f).length = 4) ∧
    (∀ c < 8, aget p8est_corner_edges ((c : Nat) : Int) =
        some (ascending_where 12 fun e => edge_has_corner e c) ∧
      (ascending_where 12 fun e => edge_has_corner e c).length = 3) := by
  refine ⟨by decide, by decide, by decide, by decide, by decide⟩

theorem edge_incidence_witness :
    ∃ c < 8, corner_bit c 2 = 0 ∧
      aget p8est_edge_corners ((4 * 2 + 1 : Nat) : Int) =
        some [((c : Nat) : Int), ((c + 2 ^ 2 : Nat) : Int)] :=
  edge_incidence.1 2 (by decide) 1 (by decide)

/-- C19: for every edge `e` in 0..11 and face `f` in 0..5: if `f` is one of
`p8est_edge_faces[e]` then `p8est_edge_face_corners[e][f] = (k0, k1)` with
`p8est_face_corners[f][k0] = p8est_edge_corners[e][0]` and
`p8est_face_corners[f][k1] = p8est_edge_corners[e][1]`; otherwise
`p8est_edge_face_corners[e][f] = (-1, -1)`. -/
theorem edge_face_corners_incidence :
    ∀ e < 12, ∀ f < 6,
      if edge_has_face (e : Nat) (f : Nat) = true then
        ∃ k0 < 4, ∃ k1 < 4,
          aget2 p8est_edge_face_corners ((e : Nat) : Int) ((f : Nat) : Int) =
            some [((k0 : Nat) : Int), ((k1 : Nat) : Int)] ∧
          (aget2 p8est_face_corners ((f : Nat) : Int) ((k0 : Nat) : Int)).isSome = true ∧
          aget2 p8est_face_corners ((f : Nat) : Int) ((k0 : Nat) : Int) =
            aget2 p8est_edge_corners ((e : Nat) : Int) 0 ∧
          (aget2 p8est_face_corners ((f : Nat) : Int) ((k1 : Nat) : Int)).isSome = true ∧
          aget2 p8est_face_corners ((f : Nat) : Int) ((k1 : Nat) : Int) =
            aget2 p8est_edge_corners ((e : Nat) : Int) 1
      else
        aget2 p8est_edge_face_corners ((e : Nat) : Int) ((f : Nat) : Int) = some [-1, -1] := by
  decide

theorem edge_face_corners_incidence_witness :
    if edge_has_face ((7 : Nat) : Int) ((5 : Nat) : Int) = true then
      ∃ k0 < 4, ∃ k1 < 4,
        aget2 p8est_edge_face_corners ((7 : Nat) : Int) ((5 : Nat) : Int) =
          some [((k0 : Nat) : Int), ((k1 : Nat) : Int)] ∧
        (aget2 p8est_face_corners ((5 : Nat) : Int) ((k0 : Nat) : Int)).isSome = true ∧
        aget2 p8est_face_corners ((5 : Nat) : Int) ((k0 : Nat) : Int) =
          aget2 p8est_edge_corners ((7 : Nat) : Int) 0 ∧
        (aget2 p8est_face_corners ((5 : Nat) : Int) ((k1 : Nat) : Int)).isSome = true ∧
        aget2 p8est_face_corners ((5 : Nat) : Int) ((k1 : Nat) : Int) =
          aget2 p8est_edge_corners ((7 : Nat) : Int) 1
    else
      aget2 p8est_edge_face_corners ((7 : Nat) : Int) ((5 : Nat) : Int) = some [-1, -1] :=
  edge_face_corners_incidence 7 (by decide) 5 (by decide)

/-- C20: the eight rows of `p8est_face_permutations` are pairwise distinct
permutations of 0..3, listed in increasing lexicographic order with the
lexicographic ranks 0, 2, 7, 10, 13, 16, 21, 23 among the 24 permutations; the
set of rows contains the identity, consists of exactly the permutations that
keep the two diagonals of the z-ordered square (corners 0, 3 and corners 1, 2)
and is closed under composition and under inverse; and each row of
`p8est_face_permutation_sets` selects four distinct rows. -/
theorem face_permutations_group :
    p8est_face_permutations.length = 8 ∧
    p8est_face_permutations.Nodup ∧
    (∀ p ∈ p8est_face_permutations, List.Perm p [0, 1, 2, 3]) ∧
    permutations4.length = 24 ∧
    List.zipWith lex_lt p8est_face_permutations p8est_face_permutations.tail =
      List.replicate 7 true ∧
    p8est_face_permutations.map lex_rank = [0, 2, 7, 10, 13, 16, 21, 23] ∧
    [0, 1, 2, 3] ∈ p8est_face_permutations ∧
    (∀ p ∈ permutations4,
      (p ∈ p8est_face_permutations ↔ p.getD 0 0 + p.getD 3 0 = 3 ∧ p.getD 1 0 + p.getD 2 0 = 3)) ∧
    (∀ p ∈ p8est_face_permutations, ∀ q ∈ p8est_face_permutations,
      ∃ r ∈ p8est_face_permutations, perm_compose p q = some r) ∧
    (∀ p ∈ p8est_face_permutations, ∃ q ∈ p8est_face_permutations,
      perm_compose p q = some [0, 1, 2, 3] ∧ perm_compose q p = some [0, 1, 2, 3]) ∧
    (∀ s ∈ p8est_face_permutation_sets,
      s.length = 4 ∧ s.Nodup ∧ ∀ x ∈ s, (aget p8est_face_permutations x).isSome = true) := by
  refine ⟨by decide, by decide, by decide, by decide, by decide, by decide, by decide, by decide,
    by decide, by decide, by decide⟩

/-! ## Lengths and the user string check -/

/-- C11: for every input length `n`, `r = sc_scda_pad_to_mod_len (n)` satisfies
`(n + r) mod 32 = 0` and `7 <= r <= 38`, and `r` is the smallest number `>= 7`
with `(n + r) mod 32 = 0`; hence the bounds asserted in `sc_scda_pad_to_mod`
(`6 <= r <= SC_SCDA_PADDING_MOD + 6`) hold and the padded length `n + r` is a
multiple of `SC_SCDA_PADDING_MOD`. -/
theorem pad_to_mod_len_minimal (n : Nat) :
    (n + sc_scda_pad_to_mod_len n) % 32 = 0 ∧
    7 ≤ sc_scda_pad_to_mod_len n ∧ sc_scda_pad_to_mod_len n ≤ 38 ∧
    (∀ r', 7 ≤ r' → (n + r') % 32 = 0 → sc_scda_pad_to_mod_len n ≤ r') ∧
    6 ≤ sc_scda_pad_to_mod_len n ∧ sc_scda_pad_to_mod_len n ≤ SC_SCDA_PADDING_MOD + 6 ∧
    (n + sc_scda_pad_to_mod_len n) % SC_SCDA_PADDING_MOD = 0 := by
  unfold sc_scda_pad_to_mod_len SC_SCDA_PADDING_MOD
  simp only
  refine ⟨?_, ?_, ?_, ?_, ?_, ?_, ?_⟩
  · split <;> omega
  · split <;> omega
  · split <;> omega
  · intro r' h1 h2
    split <;> omega
  · split <;> omega
  · split <;> omega
  · split <;> omega

/-- C13: `sc_scda_get_user_string_len` with a length argument returns 0 and sets
`out_len = in_len` if and only if `in_len <= SC_SCDA_USER_STRING_BYTES` (= 58)
and `user_string[in_len]` is the nul byte; in every other case it returns -1. -/
theorem get_user_string_len_binary_iff (user_string : List Nat) (in_len : Nat) :
    SC_SCDA_USER_STRING_BYTES = 58 ∧
    (sc_scda_get_user_string_len user_string (some in_len) = some in_len ↔
      in_len ≤ SC_SCDA_USER_STRING_BYTES ∧ user_string.getD in_len 0 = 0) ∧
    (sc_scda_get_user_string_len user_string (some in_len) = none ↔
      ¬ (in_len ≤ SC_SCDA_USER_STRING_BYTES ∧ user_string.getD in_len 0 = 0)) ∧
    (∀ out_len, sc_scda_get_user_string_len user_string (some in_len) = some out_len →
      out_len = in_len) := by
  unfold sc_scda_get_user_string_len SC_SCDA_USER_STRING_BYTES
  simp only
  by_cases h1 : in_len > 58
  · rw [if_pos h1]
    refine ⟨trivial, ?_, ?_, ?_⟩
    · constructor
      · intro h; simp at h
      · intro h; omega
    · constructor
      · intro _ h; omega
      · intro _; rfl
    · intro out_len h; simp at h
  · rw [if_neg h1]
    by_cases h2 : user_string.getD in_len 0 ≠ 0
    · rw [if_pos h2]
      refine ⟨trivial, ?_, ?_, ?_⟩
      · constructor
        · intro h; simp at h
        · intro h; exact absurd h.2 h2
      · constructor
        · intro _ h; exact h2 h.2
        · intro _; rfl
      · intro out_len h; simp at h
    · rw [if_neg h2]
      refine ⟨trivial, ?_, ?_, ?_⟩
      · constructor
        · intro _; exact ⟨by omega, not_not.mp h2⟩
        · intro _; rfl
      · constructor
        · intro h; simp at h
        · intro h; exact absurd ⟨by omega, not_not.mp h2⟩ h
      · intro out_len h
        simp only [Option.some.injEq] at h
        exact h.symm

theorem strlen_append_nul (u rest : List Nat) (hu : ∀ c ∈ u, c ≠ 0) :
    strlen (u ++ 0 :: rest) = u.length := by
  unfold strlen
  have h : ∀ x ∈ u, (fun c => decide (c ≠ 0)) x = true := by
    intro x hx
    simpa using hu x hx
  rw [List.takeWhile_append, if_pos (by rw [List.takeWhile_eq_self_iff.mpr h])]
  simp

theorem takeWhile_append_nul (u rest : List Nat) (hu : ∀ c ∈ u, c ≠ 0) :
    (u ++ 0 :: rest).takeWhile (fun c => decide (c ≠ 0)) = u := by
  have h : ∀ x ∈ u, (fun c => decide (c ≠ 0)) x = true := by
    intro x hx
    simpa using hu x hx
  rw [List.takeWhile_append, if_pos (by rw [List.takeWhile_eq_self_iff.mpr h])]
  simp

/-- What `sc_scda_get_user_string_len` does without a length argument on a
string of `L` non-nul bytes followed by a nul byte: it returns 0 with
`out_len = L` for `L <= 57` and -1 for `L >= 58`. -/
theorem get_user_string_len_cstring (u rest : List Nat) (hu : ∀ c ∈ u, c ≠ 0) :
    sc_scda_get_user_string_len (u ++ 0 :: rest) none =
      if u.length ≤ 57 then some u.length else none := by
  unfold sc_scda_get_user_string_len SC_SCDA_USER_STRING_BYTES sc_strcopy
  simp only
  rw [takeWhile_append_nul u rest hu]
  have hu' : ∀ c ∈ u.take (58 + 1 - 1), c ≠ 0 := fun c hc => hu c (List.mem_of_mem_take hc)
  have e : (List.take (58 + 1 - 1) u ++ [0]) = List.take (58 + 1 - 1) u ++ 0 :: [] := rfl
  rw [e, strlen_append_nul _ _ hu', List.length_take]
  by_cases h : u.length ≤ 57
  · rw [if_pos h, if_pos (by omega)]
    congr 1
    omega
  · rw [if_neg h, if_neg (by omega)]
    have h57 : (u ++ 0 :: rest).getD (58 - 1) 0 ≠ 0 := by
      rw [List.getD_append _ _ _ _ (by omega)]
      have hm : u.getD (58 - 1) 0 ∈ u := by
        rw [List.getD_eq_getElem _ _ (by omega)]
        exact List.getElem_mem _
      exact hu _ hm
    rw [if_neg h57]

/-- C14 at its failing input: for the string of 58 bytes 'a' followed by a nul
byte, `sc_scda_get_user_string_len` without a length argument returns -1,
whereas the claim requires 0 with `out_len = 58`, the result of the binary-mode
call with `in_len = 58` on the same bytes; already 57 bytes are accepted. -/
theorem get_user_string_len_cstring_58 :
    sc_scda_get_user_string_len (List.replicate 58 97 ++ [0]) none = none ∧
    sc_scda_get_user_string_len (List.replicate 58 97 ++ [0]) (some 58) = some 58 ∧
    sc_scda_get_user_string_len (List.replicate 57 97 ++ [0]) none = some 57 := by
  refine ⟨by decide, by decide, by decide⟩

/-! ## What the decoders accept -/

theorem fix_len_scan_spec (p : List Nat) :
    ∀ s, fix_len_scan p s ≤ s ∧
      (∀ j, fix_len_scan p s < j → j ≤ s → p.getD j 0 = 45) ∧
      (fix_len_scan p s = 0 ∨ p.getD (fix_len_scan p s) 0 ≠ 45) := by
  intro s
  induction s with
  | zero =>
    refine ⟨le_refl _, ?_, Or.inl rfl⟩
    intro j h1 h2
    simp only [fix_len_scan] at h1
    omega
  | succ s ih =>
    unfold fix_len_scan
    by_cases h : p.getD (s + 1) 0 ≠ 45
    · rw [if_pos h]
      refine ⟨le_refl _, ?_, Or.inr h⟩
      intro j h1 h2
      omega
    · rw [if_neg h]
      obtain ⟨i1, i2, i3⟩ := ih
      refine ⟨by omega, ?_, i3⟩
      intro j h1 h2
      by_cases hj : j = s + 1
      · subst hj; exact not_not.mp h
      · exact i2 j h1 (by omega)

theorem fix_len_padded_at_unique (field : List Nat) (pad_len i : Nat)
    (h : fix_len_padded_at field pad_len i) : fix_len_scan field (pad_len - 2) = i := by
  obtain ⟨_, h2, h3, h4⟩ := h
  exact fix_len_scan_eq field i (pad_len - 2) h2 h4 (Or.inr (by rw [h3]; decide))

theorem get_pad_to_fix_len_eq_some (field : List Nat) (pad_len : Nat) (raw_data : List Nat)
    (out : List Nat) (raw_len : Nat) :
    sc_scda_get_pad_to_fix_len field pad_len raw_data = some (out, raw_len) ↔
      4 ≤ pad_len ∧ fix_len_padded_at field pad_len raw_len ∧
        out = sc_scda_copy_bytes raw_data field raw_len := by
  unfold sc_scda_get_pad_to_fix_len
  by_cases h1 : pad_len < 4
  · rw [if_pos h1]
    constructor
    · intro h; simp at h
    · intro h; omega
  rw [if_neg h1]
  by_cases h2 : field.getD (pad_len - 1) 0 ≠ 10
  · rw [if_pos h2]
    constructor
    · intro h; simp at h
    · intro h; exact absurd h.2.1.1 h2
  rw [if_neg h2]
  simp only
  obtain ⟨s1, s2, s3⟩ := fix_len_scan_spec field (pad_len - 2)
  by_cases h3 : field.getD (fix_len_scan field (pad_len - 2)) 0 ≠ 32
  · rw [if_pos h3]
    constructor
    · intro h; simp at h
    · intro h
      rw [fix_len_padded_at_unique field pad_len raw_len h.2.1] at h3
      exact absurd h.2.1.2.2.1 h3
  rw [if_neg h3]
  constructor
  · intro h
    simp only [Option.some.injEq, Prod.mk.injEq] at h
    obtain ⟨e1, e2⟩ := h
    subst e2
    exact ⟨by omega, ⟨not_not.mp h2, s1, not_not.mp h3, s2⟩, e1.symm⟩
  · intro h
    rw [fix_len_padded_at_unique field pad_len raw_len h.2.1, h.2.2]

theorem get_pad_to_fix_len_isSome_iff (field : List Nat) (pad_len : Nat) (raw_data : List Nat) :
    (sc_scda_get_pad_to_fix_len field pad_len raw_data).isSome = true ↔
      4 ≤ pad_len ∧ fix_len_padded field pad_len := by
  rw [Option.isSome_iff_exists]
  constructor
  · rintro ⟨⟨out, raw_len⟩, h⟩
    obtain ⟨h1, h2, _⟩ := (get_pad_to_fix_len_eq_some field pad_len raw_data out raw_len).mp h
    exact ⟨h1, raw_len, h2⟩
  · rintro ⟨h1, i, h2⟩
    exact ⟨(sc_scda_copy_bytes raw_data field i, i),
      (get_pad_to_fix_len_eq_some field pad_len raw_data _ i).mpr ⟨h1, h2, rfl⟩⟩

/-- The bound that `sc_scda_get_pad_to_fix_len` does guarantee: the extracted
length is at most `pad_len - 2`. -/
theorem get_pad_to_fix_len_bound (field : List Nat) (pad_len : Nat) (raw_data out : List Nat)
    (raw_len : Nat) (h : sc_scda_get_pad_to_fix_len field pad_len raw_data = some (out, raw_len)) :
    raw_len ≤ pad_len - 2 :=
  ((get_pad_to_fix_len_eq_some field pad_len raw_data out raw_len).mp h).2.1.2.1

/-- C12 at its failing input: `sc_scda_get_pad_to_fix_len` returns 0 with
`raw_len = 2 > pad_len - 4` on the four bytes "aa", blank, line break.  On the
128-byte header `overlong_header` it decodes 22 vendor bytes (more than
`SC_SCDA_VENDOR_STRING_BYTES = 20`) and 60 user bytes (more than
`SC_SCDA_USER_STRING_BYTES = 58`, and index 60 is outside the 59-byte user
buffer), so that `sc_scda_check_file_header` writes behind the end of its
buffers on this header. -/
theorem get_pad_to_fix_len_overlong :
    sc_scda_get_pad_to_fix_len [97, 97, 32, 10] 4 [0, 0] = some ([97, 97], 2) ∧
    ¬ (2 ≤ 4 - 4) ∧
    overlong_header.length = SC_SCDA_HEADER_BYTES ∧
    sc_scda_get_pad_to_fix_len (overlong_header.drop 8) SC_SCDA_VENDOR_STRING_FIELD
      (List.replicate SC_SCDA_VENDOR_STRING_BYTES 0) = some (List.replicate 22 97, 22) ∧
    ¬ (22 ≤ SC_SCDA_VENDOR_STRING_BYTES) ∧
    sc_scda_get_pad_to_fix_len (overlong_header.drop 34) SC_SCDA_USER_STRING_FIELD
      (List.replicate (SC_SCDA_USER_STRING_BYTES + 1) 0) = some (List.replicate 60 97, 60) ∧
    ¬ (60 ≤ SC_SCDA_USER_STRING_BYTES) ∧
    ¬ (60 < SC_SCDA_USER_STRING_BYTES + 1) ∧
    sc_scda_check_file_header overlong_header (List.replicate SC_SCDA_VENDOR_STRING_BYTES 0)
      (List.replicate (SC_SCDA_USER_STRING_BYTES + 1) 0) = none := by
  refine ⟨by decide, by decide, by decide, by decide, by decide, by decide, by decide,
    by decide, by decide⟩

theorem get_pad_to_mod_isSome_iff (p : List Nat) (padded_len raw_len : Nat) (raw_data : List Nat)
    (hpl : padded_len ≤ SIZE_MAX)
    (hrl : raw_len + sc_scda_pad_to_mod_len raw_len ≤ SIZE_MAX) :
    (sc_scda_get_pad_to_mod p padded_len raw_len raw_data).isSome = true ↔
      mod_padded p padded_len raw_len := by
  obtain ⟨hr1, hr2, _⟩ := pad_to_mod_len_bounds raw_len
  by_cases h1 : sc_scda_pad_to_mod_len raw_len + raw_len = padded_len
  swap
  · rw [get_pad_to_mod_of_ne p padded_len raw_len raw_data (by
      rw [to_size_t_of_le _ (by omega), to_size_t_of_le _ hpl]
      exact h1)]
    unfold mod_padded
    constructor
    · intro h; simp at h
    · intro h; omega
  rw [get_pad_to_mod_of_len p padded_len raw_len raw_data h1]
  unfold mod_padded
  generalize sc_scda_pad_to_mod_len raw_len = r at hr1 hr2 h1
  have e1 : padded_len = raw_len + r := by omega
  subst e1
  by_cases h2 : p.getD (raw_len + r - 1) 0 ≠ 10 ∨ p.getD (raw_len + r - 2) 0 ≠ 10
  · rw [if_pos h2]
    constructor
    · intro h; simp at h
    · intro h
      rcases h2 with h2 | h2
      · exact absurd h.2.1 h2
      · exact absurd h.2.2.1 h2
  rw [if_neg h2]
  push_neg at h2
  have hiff := mod_scan_iff p (r - 3) (raw_len + r - 3) (by omega)
  by_cases h3 : mod_scan p (r - 3) (raw_len + r - 3) = false
  · rw [if_pos h3]
    constructor
    · intro h; simp at h
    · intro h
      have := hiff.mpr (fun j hj1 hj2 => h.2.2.2.1 j (by omega) (by omega))
      rw [this] at h3
      simp at h3
  rw [if_neg h3]
  have h3' : mod_scan p (r - 3) (raw_len + r - 3) = true := by
    cases hm : mod_scan p (r - 3) (raw_len + r - 3) with
    | true => rfl
    | false => exact absurd hm h3
  have hs := hiff.mp h3'
  by_cases h4 : (p.getD raw_len 0 = 61 ∧ raw_len ≠ 0 ∧ p.getD (raw_len - 1) 0 = 10) ∨
      p.getD raw_len 0 = 10
  · rw [if_neg (not_not.mpr h4)]
    constructor
    · intro _
      exact ⟨rfl, h2.1, h2.2, fun j hj1 hj2 => hs j (by omega) (by omega), h4⟩
    · intro _
      split <;> rfl
  · rw [if_pos h4]
    constructor
    · intro h; simp at h
    · intro h; exact absurd h.2.2.2.2 h4

theorem get_pad_to_mod_eq_some (p : List Nat) (padded_len raw_len : Nat) (raw_data out : List Nat)
    (h : sc_scda_get_pad_to_mod p padded_len raw_len raw_data = some out) :
    out = if raw_len ≠ 0 then sc_scda_copy_bytes raw_data p raw_len else raw_data := by
  unfold sc_scda_get_pad_to_mod at h
  simp only at h
  split at h
  · simp at h
  · split at h
    · simp at h
    · split at h
      · simp at h
      · split at h
        · simp at h
        · split at h
          · rename_i h0
            rw [if_pos h0]
            exact (Option.some.inj h).symm
          · rename_i h0
            rw [if_neg h0]
            exact (Option.some.inj h).symm

theorem getD_take_of_lt (p : List Nat) (n j : Nat) (h : j < n) :
    (p.take n).getD j 0 = p.getD j 0 := by
  simp only [List.getD_eq_getElem?_getD, List.getElem?_take, if_pos h]

theorem eq_padded_of_getD (L d : List Nat) (c : Nat) (m : Nat)
    (hL : L.length = d.length + 1 + m + 2) (h1 : L.take d.length = d)
    (h2 : L.getD d.length 0 = c)
    (h3 : ∀ j, d.length < j → j ≤ d.length + m → L.getD j 0 = 61)
    (h4 : L.getD (d.length + m + 1) 0 = 10) (h5 : L.getD (d.length + m + 2) 0 = 10) :
    L = d ++ [c] ++ List.replicate m 61 ++ [10, 10] := by
  apply List.ext_getElem?
  intro i
  have hget : ∀ j, j < L.length → L[j]? = some (L.getD j 0) := by
    intro j hj
    rw [List.getD_eq_getElem?_getD, List.getElem?_eq_getElem hj]
    rfl
  simp only [List.getElem?_append, List.length_append, List.length_singleton,
    List.length_replicate, List.getElem?_replicate]
  by_cases c1 : i < d.length
  · have a1 : i < d.length + 1 + m := by omega
    have a2 : i < d.length + 1 := by omega
    rw [if_pos a1, if_pos a2, if_pos c1]
    have := congrArg (fun l => l[i]?) h1
    simp only [List.getElem?_take, if_pos c1] at this
    exact this
  · by_cases c2 : i = d.length
    · subst c2
      have a1 : d.length < d.length + 1 + m := by omega
      have a2 : d.length < d.length + 1 := by omega
      rw [if_pos a1, if_pos a2, if_neg c1, hget _ (by omega), h2]
      simp
    · by_cases c3 : i ≤ d.length + m
      · have a1 : i < d.length + 1 + m := by omega
        have a2 : ¬ i < d.length + 1 := by omega
        have a3 : i - (d.length + 1) < m := by omega
        rw [if_pos a1, if_neg a2, if_pos a3, hget _ (by omega), h3 i (by omega) c3]
      · have a1 : ¬ i < d.length + 1 + m := by omega
        rw [if_neg a1]
        by_cases c4 : i = d.length + m + 1
        · subst c4
          rw [hget _ (by omega), h4]
          have : d.length + m + 1 - (d.length + 1 + m) = 0 := by omega
          rw [this]
          rfl
        · by_cases c5 : i = d.length + m + 2
          · subst c5
            rw [hget _ (by omega), h5]
            have : d.length + m + 2 - (d.length + 1 + m) = 1 := by omega
            rw [this]
            rfl
          · rw [List.getElem?_eq_none (by omega)]
            have : 2 ≤ i - (d.length + 1 + m) := by omega
            rw [List.getElem?_eq_none (by simpa using this)]

/-- The padding that `sc_scda_get_pad_to_mod` accepts, as a layout: the first
`padded_len` bytes are the data, one byte `c`, which is a line break or, after
data ending in a line break, '=', then '=' bytes and two line breaks. -/
theorem mod_padded_iff_layout (p : List Nat) (padded_len raw_len : Nat)
    (hp : padded_len ≤ p.length) :
    mod_padded p padded_len raw_len ↔
      padded_len = raw_len + sc_scda_pad_to_mod_len raw_len ∧
      ∃ c, (c = 10 ∨ (c = 61 ∧ raw_len ≠ 0 ∧ p.getD (raw_len - 1) 0 = 10)) ∧
        p.take padded_len = p.take raw_len ++ [c] ++
          List.replicate (sc_scda_pad_to_mod_len raw_len - 3) 61 ++ [10, 10] := by
  obtain ⟨hr1, hr2, _⟩ := pad_to_mod_len_bounds raw_len
  unfold mod_padded
  generalize sc_scda_pad_to_mod_len raw_len = r at hr1 hr2
  constructor
  · rintro ⟨e, g1, g2, g3, g4⟩
    subst e
    refine ⟨rfl, p.getD raw_len 0, ?_, ?_⟩
    · rcases g4 with ⟨a, b, c⟩ | a
      · exact Or.inr ⟨a, b, c⟩
      · exact Or.inl a
    · have hd : (p.take raw_len).length = raw_len := by rw [List.length_take]; omega
      apply eq_padded_of_getD (p.take (raw_len + r)) (p.take raw_len) (p.getD raw_len 0) (r - 3)
      · rw [List.length_take, hd]; omega
      · rw [hd, List.take_take]; congr 1; omega
      · rw [hd, getD_take_of_lt _ _ _ (by omega)]
      · intro j hj1 hj2
        rw [hd] at hj1 hj2
        rw [getD_take_of_lt _ _ _ (by omega)]
        exact g3 j hj1 (by omega)
      · rw [hd, getD_take_of_lt _ _ _ (by omega)]
        have : raw_len + (r - 3) + 1 = raw_len + r - 2 := by omega
        rw [this]; exact g2
      · rw [hd, getD_take_of_lt _ _ _ (by omega)]
        have : raw_len + (r - 3) + 2 = raw_len + r - 1 := by omega
        rw [this]; exact g1
  · rintro ⟨e, c, hc, hl⟩
    subst e
    have hd : (p.take raw_len).length = raw_len := by rw [List.length_take]; omega
    have hshape : p.take raw_len ++ [c] ++ List.replicate (r - 3) 61 ++ [10, 10] =
        p.take raw_len ++ [c] ++ List.replicate (r - 3) 61 ++ [10] ++ ([10] ++ []) := by simp
    obtain ⟨g1, g2, g3, g4, _⟩ := getD_padded (p.take raw_len) c 61 10 (r - 3) ([10] ++ [])
    rw [← hshape, ← hl, hd] at g1 g2 g3 g4
    have g6 : (p.take (raw_len + r)).getD (raw_len + r - 1) 0 = 10 := by
      rw [hl, hshape]
      simp only [List.getD_eq_getElem?_getD, List.getElem?_append, List.length_append,
        List.length_singleton, List.length_replicate, hd]
      have c1 : ¬ raw_len + r - 1 < raw_len + 1 + (r - 3) + 1 := by omega
      have c2 : raw_len + r - 1 - (raw_len + 1 + (r - 3) + 1) = 0 := by omega
      simp [c1, c2]
    rw [getD_take_of_lt _ _ _ (by omega)] at g1 g3 g6
    have e1 : raw_len + (r - 3) + 1 = raw_len + r - 2 := by omega
    rw [e1] at g3
    refine ⟨rfl, g6, g3, ?_, ?_⟩
    · intro j hj1 hj2
      have := g2 j hj1 (by omega)
      rw [getD_take_of_lt _ _ _ (by omega)] at this
      exact this
    · rw [g1]
      rcases hc with hc | ⟨a, b, c'⟩
      · exact Or.inr hc
      · exact Or.inl ⟨a, b, c'⟩

theorem pad_to_mod_take (p : List Nat) (raw_len : Nat) (out : List Nat)
    (h : raw_len ≤ p.length) :
    (sc_scda_pad_to_mod p raw_len out).take (raw_len + sc_scda_pad_to_mod_len raw_len) =
      p.take raw_len ++ [if raw_len > 0 ∧ p.getD (raw_len - 1) 0 = 10 then 61 else 10] ++
        List.replicate (sc_scda_pad_to_mod_len raw_len - 3) 61 ++ [10, 10] ∧
    (buf_write (sc_scda_pad_to_mod p raw_len out) raw_len [10]).take
        (raw_len + sc_scda_pad_to_mod_len raw_len) =
      p.take raw_len ++ [10] ++
        List.replicate (sc_scda_pad_to_mod_len raw_len - 3) 61 ++ [10, 10] := by
  have hd : (p.take raw_len).length = raw_len := by rw [List.length_take]; omega
  rw [pad_to_mod_eq p raw_len out h]
  obtain ⟨hr1, hr2, _⟩ := pad_to_mod_len_bounds raw_len
  generalize sc_scda_pad_to_mod_len raw_len = r at hr1 hr2
  generalize (if raw_len > 0 ∧ p.getD (raw_len - 1) 0 = 10 then 61 else 10) = c
  have hlen : ∀ x : Nat, (p.take raw_len ++ [x] ++ List.replicate (r - 3) 61 ++ [10, 10]).length =
      raw_len + r := by
    intro x
    simp only [List.length_append, hd, List.length_singleton, List.length_replicate,
      List.length_cons, List.length_nil]
    omega
  constructor
  · exact take_append_length _ _ _ (hlen c)
  · have e0 : p.take raw_len ++ [c] ++ List.replicate (r - 3) 61 ++ [10, 10] ++
        List.drop (raw_len + r) out = p.take raw_len ++ ([c] ++ (List.replicate (r - 3) 61 ++
          [10, 10] ++ List.drop (raw_len + r) out)) := by simp
    rw [e0, buf_write_append _ _ [10] raw_len hd]
    have e1 : p.take raw_len ++ [10] ++ List.drop [10].length ([c] ++ (List.replicate (r - 3) 61 ++
        [10, 10] ++ List.drop (raw_len + r) out)) = (p.take raw_len ++ [10] ++
          List.replicate (r - 3) 61 ++ [10, 10]) ++ List.drop (raw_len + r) out := by simp
    rw [e1]
    exact take_append_length _ _ _ (hlen 10)

/-- C15 as stated fails: for `raw_len = 1` the decoder `sc_scda_get_pad_to_mod`
returns 0 on the 32 bytes of `lenient_mod_padded` (two line breaks, 28 times
'=', two line breaks), but these bytes are not what `sc_scda_pad_to_mod`
writes for the first byte, whatever the output buffer held before: the encoder
starts the padding after a line break with '='. -/
theorem get_pad_to_mod_not_exact :
    sc_scda_get_pad_to_mod lenient_mod_padded 32 1 [0] = some [10] ∧
    32 = 1 + sc_scda_pad_to_mod_len 1 ∧
    lenient_mod_padded.length = 32 ∧
    ∀ out, (sc_scda_pad_to_mod lenient_mod_padded 1 out).take 32 ≠ lenient_mod_padded := by
  refine ⟨by decide, by decide, by decide, ?_⟩
  intro out hcon
  have h1 := (pad_to_mod_take lenient_mod_padded 1 out (by decide)).1
  have e : 1 + sc_scda_pad_to_mod_len 1 = 32 := by decide
  rw [e, hcon] at h1
  revert h1
  decide

/-- The length test of `sc_scda_get_pad_to_mod` wraps around: for
`raw_len = SIZE_MAX` and `padded_len = 32` the sum `num_pad_bytes + raw_len`
is 32 as a `size_t`, so that the test passes although 32 is not
`raw_len + sc_scda_pad_to_mod_len raw_len`; the decoder then reads
`padded_data[padded_len - num_pad_bytes]` at the index `SIZE_MAX`. -/
theorem get_pad_to_mod_length_test_wraps :
    sc_scda_pad_to_mod_len SIZE_MAX = 33 ∧
    to_size_t (sc_scda_pad_to_mod_len SIZE_MAX + SIZE_MAX) = to_size_t 32 ∧
    32 ≠ SIZE_MAX + sc_scda_pad_to_mod_len SIZE_MAX ∧
    size_t_sub 32 (sc_scda_pad_to_mod_len SIZE_MAX) = SIZE_MAX := by
  refine ⟨by decide, by decide, by decide, by decide⟩

/-- C15, amended: for `size_t` values `padded_len` and `raw_len` whose sum
`raw_len + sc_scda_pad_to_mod_len raw_len` does not exceed `SIZE_MAX` (the
length test does not wrap around) and for a buffer of at least `padded_len`
bytes, `sc_scda_get_pad_to_mod` returns 0 exactly if `padded_len = raw_len +
sc_scda_pad_to_mod_len raw_len` and the first `padded_len` bytes are either the
output of `sc_scda_pad_to_mod` on the buffer's own first `raw_len` bytes, or
that output with its first padding byte (index `raw_len`) replaced by a line
break; in every other case it returns -1.  On return 0 the first `raw_len`
bytes are copied to `raw_data` when `raw_len` is not 0. -/
theorem get_pad_to_mod_iff (p : List Nat) (padded_len raw_len : Nat) (raw_data out : List Nat)
    (hp : padded_len ≤ p.length) (hpl : padded_len ≤ SIZE_MAX)
    (hrl : raw_len + sc_scda_pad_to_mod_len raw_len ≤ SIZE_MAX) :
    ((sc_scda_get_pad_to_mod p padded_len raw_len raw_data).isSome = true ↔
      padded_len = raw_len + sc_scda_pad_to_mod_len raw_len ∧
      (p.take padded_len = (sc_scda_pad_to_mod p raw_len out).take padded_len ∨
        p.take padded_len =
          (buf_write (sc_scda_pad_to_mod p raw_len out) raw_len [10]).take padded_len)) ∧
    (sc_scda_get_pad_to_mod p padded_len raw_len raw_data = none ↔
      ¬ (padded_len = raw_len + sc_scda_pad_to_mod_len raw_len ∧
        (p.take padded_len = (sc_scda_pad_to_mod p raw_len out).take padded_len ∨
          p.take padded_len =
            (buf_write (sc_scda_pad_to_mod p raw_len out) raw_len [10]).take padded_len))) ∧
    ∀ o, sc_scda_get_pad_to_mod p padded_len raw_len raw_data = some o →
      o = if raw_len ≠ 0 then sc_scda_copy_bytes raw_data p raw_len else raw_data := by
  have key : (sc_scda_get_pad_to_mod p padded_len raw_len raw_data).isSome = true ↔
      padded_len = raw_len + sc_scda_pad_to_mod_len raw_len ∧
      (p.take padded_len = (sc_scda_pad_to_mod p raw_len out).take padded_len ∨
        p.take padded_len =
          (buf_write (sc_scda_pad_to_mod p raw_len out) raw_len [10]).take padded_len) := by
    rw [get_pad_to_mod_isSome_iff p padded_len raw_len raw_data hpl hrl,
      mod_padded_iff_layout p padded_len raw_len hp]
    constructor
    · rintro ⟨e, c, hc, hl⟩
      refine ⟨e, ?_⟩
      obtain ⟨t1, t2⟩ := pad_to_mod_take p raw_len out (by omega)
      rw [← e] at t1 t2
      rw [t1, t2, hl]
      rcases hc with hc | ⟨hc1, hc2, hc3⟩
      · right; rw [hc]
      · left
        have : raw_len > 0 ∧ p.getD (raw_len - 1) 0 = 10 := ⟨by omega, hc3⟩
        rw [if_pos this, hc1]
    · rintro ⟨e, hl⟩
      refine ⟨e, ?_⟩
      obtain ⟨t1, t2⟩ := pad_to_mod_take p raw_len out (by omega)
      rw [← e] at t1 t2
      rw [t1, t2] at hl
      rcases hl with hl | hl
      · by_cases hc : raw_len > 0 ∧ p.getD (raw_len - 1) 0 = 10
        · rw [if_pos hc] at hl
          exact ⟨61, Or.inr ⟨rfl, by omega, hc.2⟩, hl⟩
        · rw [if_neg hc] at hl
          exact ⟨10, Or.inl rfl, hl⟩
      · exact ⟨10, Or.inl rfl, hl⟩
  refine ⟨key, ?_, ?_⟩
  · rw [← key]
    cases sc_scda_get_pad_to_mod p padded_len raw_len raw_data <;> simp
  · intro o ho
    exact get_pad_to_mod_eq_some p padded_len raw_len raw_data o ho

theorem get_pad_to_mod_iff_witness :
    32 ≤ mod_padded_example.length ∧ 32 ≤ SIZE_MAX ∧ 4 + sc_scda_pad_to_mod_len 4 ≤ SIZE_MAX ∧
    ((sc_scda_get_pad_to_mod mod_padded_example 32 4 [0, 0, 0, 0]).isSome = true ↔
      32 = 4 + sc_scda_pad_to_mod_len 4 ∧
      (mod_padded_example.take 32 =
          (sc_scda_pad_to_mod mod_padded_example 4 (List.replicate 32 0)).take 32 ∨
        mod_padded_example.take 32 =
          (buf_write (sc_scda_pad_to_mod mod_padded_example 4 (List.replicate 32 0)) 4
            [10]).take 32)) ∧
    sc_scda_get_pad_to_mod mod_padded_example 32 4 [0, 0, 0, 0] = some [84, 101, 115, 116] ∧
    mod_padded_example.take 32 =
      (sc_scda_pad_to_mod mod_padded_example 4 (List.replicate 32 0)).take 32 :=
  ⟨by decide, by decide, by decide,
    (get_pad_to_mod_iff mod_padded_example 32 4 [0, 0, 0, 0] (List.replicate 32 0)
      (by decide) (by decide) (by decide)).1,
    by decide, by decide⟩

theorem get_pad_to_mod_empty_iff (t : List Nat) (hl : t.length = 32) :
    (sc_scda_get_pad_to_mod t 32 0 []).isSome = true ↔
      t = [10] ++ List.replicate 29 61 ++ [10, 10] := by
  rw [get_pad_to_mod_isSome_iff t 32 0 [] (by decide) (by decide),
    mod_padded_iff_layout _ 32 0 (by omega)]
  have pl : sc_scda_pad_to_mod_len 0 = 32 := by decide
  have ht : t.take 32 = t := by
    rw [← hl]; exact List.take_length _
  rw [pl, ht]
  constructor
  · rintro ⟨_, c, hc, hl2⟩
    rcases hc with hc | ⟨_, hc, _⟩
    · rw [hl2, hc]; rfl
    · exact absurd rfl hc
  · intro h2
    exact ⟨rfl, 10, Or.inl rfl, by rw [h2]; rfl⟩

/-- C16, with the capacities of the buffers: the outcomes of
`sc_scda_check_file_header` on a buffer of `SC_SCDA_HEADER_BYTES = 128` bytes.
It returns 0 exactly if the header is well
formed (bytes 0..6 are "scdata0", byte 7 is a blank, byte 32 is 'F', byte 33 is
a blank, the vendor and the user field each end in a line break preceded by a
run of '-' preceded by a blank, and the last 32 bytes are a line break, 29
times '=' and two line breaks), the blank of the vendor field is at an index
`iv <= SC_SCDA_VENDOR_STRING_BYTES` and the blank of the user field at an
index `len` inside the user buffer; the outputs are then the `len` bytes of
the user field, followed by nul, and `len`.  It returns -1 only for a header
that is not well formed.  For a well formed header whose vendor blank is at
`iv` and whose user blank is at `iu`, it writes behind the end of a buffer
exactly if `iv` exceeds `SC_SCDA_VENDOR_STRING_BYTES` or `iu` is not inside
the user buffer. -/
theorem check_file_header_outcome (h vendor_string user_string : List Nat)
    (hlen : h.length = SC_SCDA_HEADER_BYTES) :
    (∀ out len, sc_scda_check_file_header h vendor_string user_string = some (some (out, len)) ↔
      scda_header_well_formed h ∧
      (∃ iv, fix_len_padded_at (h.drop 8) 24 iv ∧ iv ≤ SC_SCDA_VENDOR_STRING_BYTES) ∧
      fix_len_padded_at (h.drop 34) 62 len ∧ len < user_string.length ∧
      out = buf_write (sc_scda_copy_bytes user_string (h.drop 34) len) len [0]) ∧
    (sc_scda_check_file_header h vendor_string user_string = some none →
      ¬ scda_header_well_formed h) ∧
    (∀ iv iu, scda_header_well_formed h → fix_len_padded_at (h.drop 8) 24 iv →
      fix_len_padded_at (h.drop 34) 62 iu →
      (sc_scda_check_file_header h vendor_string user_string = none ↔
        SC_SCDA_VENDOR_STRING_BYTES < iv ∨ user_string.length ≤ iu)) := by
  have hlen' : h.length = 128 := hlen
  have hmod := get_pad_to_mod_empty_iff (h.drop 96) (by rw [List.length_drop]; omega)
  have hvs := fun out n => get_pad_to_fix_len_eq_some (h.drop 8) 24 vendor_string out n
  have hus := fun out n => get_pad_to_fix_len_eq_some (h.drop 34) 62 user_string out n
  have hvi := get_pad_to_fix_len_isSome_iff (h.drop 8) 24 vendor_string
  have hui := get_pad_to_fix_len_isSome_iff (h.drop 34) 62 user_string
  -- the value of the function on a well formed header
  have hwf : ∀ iv iu, scda_header_well_formed h → fix_len_padded_at (h.drop 8) 24 iv →
      fix_len_padded_at (h.drop 34) 62 iu →
      sc_scda_check_file_header h vendor_string user_string =
        if SC_SCDA_VENDOR_STRING_BYTES < iv then none
        else if user_string.length ≤ iu then none
        else some (some (buf_write (sc_scda_copy_bytes user_string (h.drop 34) iu) iu [0],
          iu)) := by
    intro iv iu hw hv hu
    obtain ⟨w1, w2, w3, w4, _, _, w7⟩ := hw
    have dv := (hvs _ iv).mpr ⟨by omega, hv, rfl⟩
    have du := (hus _ iu).mpr ⟨by omega, hu, rfl⟩
    have dm : ∃ c, sc_scda_get_pad_to_mod (h.drop 96) 32 0 [] = some c :=
      Option.isSome_iff_exists.mp (hmod.mpr w7)
    obtain ⟨c, dm⟩ := dm
    unfold sc_scda_check_file_header
    simp only [SC_SCDA_MAGIC_BYTES, SC_SCDA_VENDOR_STRING_FIELD, SC_SCDA_USER_STRING_FIELD,
      SC_SCDA_PADDING_MOD, SC_SCDA_MAGIC]
    rw [if_neg (not_not.mpr ⟨w2, w3, w4⟩), if_neg (not_not.mpr (by rw [w1]; rfl))]
    simp only [dv, du, dm]
  -- a header that the function does not reject is well formed up to the point it reaches
  have hrej : ¬ scda_header_well_formed h →
      sc_scda_check_file_header h vendor_string user_string = some none ∨
      sc_scda_check_file_header h vendor_string user_string = none := by
    intro hn
    unfold sc_scda_check_file_header
    simp only [SC_SCDA_MAGIC_BYTES, SC_SCDA_VENDOR_STRING_FIELD, SC_SCDA_USER_STRING_FIELD,
      SC_SCDA_PADDING_MOD, SC_SCDA_MAGIC]
    by_cases c1 : h.getD 7 0 = 32 ∧ h.getD (7 + 1 + 24) 0 = 70 ∧ h.getD (7 + 1 + 24 + 1) 0 = 32
    swap
    · rw [if_pos c1]; exact Or.inl rfl
    rw [if_neg (not_not.mpr c1)]
    by_cases c2 : List.take 7 [115, 99, 100, 97, 116, 97, 48] ≠ List.take 7 h
    · rw [if_pos c2]; exact Or.inl rfl
    rw [if_neg c2]
    have c2' : h.take 7 = [115, 99, 100, 97, 116, 97, 48] := (not_not.mp c2).symm
    cases hA : sc_scda_get_pad_to_fix_len (h.drop (7 + 1)) 24 vendor_string with
    | none => exact Or.inl rfl
    | some a =>
      obtain ⟨a1, a2⟩ := a
      simp only
      by_cases c3 : SC_SCDA_VENDOR_STRING_BYTES < a2
      · rw [if_pos c3]; exact Or.inr rfl
      rw [if_neg c3]
      have hva : fix_len_padded (h.drop 8) 24 := (hvi.mp (by rw [hA]; rfl)).2
      cases hB : sc_scda_get_pad_to_fix_len (h.drop (7 + 1 + (24 + 2))) 62 user_string with
      | none => exact Or.inl rfl
      | some b =>
        obtain ⟨b1, b2⟩ := b
        simp only
        by_cases c4 : user_string.length ≤ b2
        · rw [if_pos c4]; exact Or.inr rfl
        rw [if_neg c4]
        have hub : fix_len_padded (h.drop 34) 62 := (hui.mp (by rw [hB]; rfl)).2
        cases hC : sc_scda_get_pad_to_mod (h.drop (7 + 1 + (24 + 2) + 62)) 32 0 [] with
        | none => exact Or.inl rfl
        | some c =>
          exfalso
          exact hn ⟨c2', c1.1, c1.2.1, c1.2.2, hva, hub, hmod.mp (by rw [hC]; rfl)⟩
  refine ⟨?_, ?_, ?_⟩
  · intro out len
    constructor
    · intro hr
      have hw : scda_header_well_formed h := by
        by_contra hn
        rcases hrej hn with e | e
        · rw [e] at hr; simp at hr
        · rw [e] at hr; simp at hr
      obtain ⟨iv, hv⟩ := hw.2.2.2.2.1
      obtain ⟨iu, hu⟩ := hw.2.2.2.2.2.1
      rw [hwf iv iu hw hv hu] at hr
      by_cases c3 : SC_SCDA_VENDOR_STRING_BYTES < iv
      · rw [if_pos c3] at hr; simp at hr
      rw [if_neg c3] at hr
      by_cases c4 : user_string.length ≤ iu
      · rw [if_pos c4] at hr; simp at hr
      rw [if_neg c4] at hr
      simp only [Option.some.injEq, Prod.mk.injEq] at hr
      obtain ⟨e1, e2⟩ := hr
      subst e2
      exact ⟨hw, ⟨iv, hv, by omega⟩, hu, by omega, e1.symm⟩
    · rintro ⟨hw, ⟨iv, hv, hiv⟩, hu, hl, e⟩
      rw [hwf iv len hw hv hu, if_neg (by omega), if_neg (by omega), e]
  · intro hr hw
    obtain ⟨iv, hv⟩ := hw.2.2.2.2.1
    obtain ⟨iu, hu⟩ := hw.2.2.2.2.2.1
    rw [hwf iv iu hw hv hu] at hr
    by_cases c3 : SC_SCDA_VENDOR_STRING_BYTES < iv
    · rw [if_pos c3] at hr; simp at hr
    rw [if_neg c3] at hr
    by_cases c4 : user_string.length ≤ iu
    · rw [if_pos c4] at hr; simp at hr
    rw [if_neg c4] at hr
    simp at hr
  · intro iv iu hw hv hu
    rw [hwf iv iu hw hv hu]
    by_cases c3 : SC_SCDA_VENDOR_STRING_BYTES < iv
    · rw [if_pos c3]
      exact ⟨fun _ => Or.inl c3, fun _ => rfl⟩
    rw [if_neg c3]
    by_cases c4 : user_string.length ≤ iu
    · rw [if_pos c4]
      exact ⟨fun _ => Or.inr c4, fun _ => rfl⟩
    rw [if_neg c4]
    constructor
    · intro hh; simp at hh
    · intro hh
      rcases hh with hh | hh
      · exact absurd hh c3
      · exact absurd hh c4

theorem check_file_header_outcome_witness :
    test_file_header.length = SC_SCDA_HEADER_BYTES ∧
    (sc_scda_check_file_header test_file_header (List.replicate 20 0) (List.replicate 59 0) =
        some (some ([84, 104, 105, 115, 32, 105, 115, 32, 97, 32, 116, 101, 115, 116, 32, 102,
          105, 108, 101, 0] ++ List.replicate 39 0, 19)) ↔
      scda_header_well_formed test_file_header ∧
      (∃ iv, fix_len_padded_at (test_file_header.drop 8) 24 iv ∧
        iv ≤ SC_SCDA_VENDOR_STRING_BYTES) ∧
      fix_len_padded_at (test_file_header.drop 34) 62 19 ∧
      19 < (List.replicate 59 0).length ∧
      [84, 104, 105, 115, 32, 105, 115, 32, 97, 32, 116, 101, 115, 116, 32, 102,
          105, 108, 101, 0] ++ List.replicate 39 0 =
        buf_write (sc_scda_copy_bytes (List.replicate 59 0) (test_file_header.drop 34) 19) 19
          [0]) ∧
    sc_scda_check_file_header test_file_header (List.replicate 20 0) (List.replicate 59 0) =
      some (some ([84, 104, 105, 115, 32, 105, 115, 32, 97, 32, 116, 101, 115, 116, 32, 102,
        105, 108, 101, 0] ++ List.replicate 39 0, 19)) :=
  ⟨by decide,
    (check_file_header_outcome test_file_header (List.replicate 20 0) (List.replicate 59 0)
      (by decide)).1 _ _,
    by decide⟩

/-- C16 at its failing input: the 128-byte header `overlong_header` meets every
condition of the claim (bytes 0..6 are "scdata0", byte 7 is a blank, byte 32 is
'F', byte 33 is a blank, the vendor field and the user field each end in a line
break preceded by an empty run of '-' preceded by a blank, and the last 32
bytes are a line break, 29 times '=' and two line breaks), but
`sc_scda_check_file_header` does not return 0 on it: it copies the 22 bytes of
the vendor field into the array `vendor_string` of
`SC_SCDA_VENDOR_STRING_BYTES = 20` bytes.  With a vendor field of 20 bytes the
same happens for the 60 bytes of the user field and the user buffer of 59
bytes. -/
theorem check_file_header_overrun :
    overlong_header.length = SC_SCDA_HEADER_BYTES ∧
    scda_header_well_formed overlong_header ∧
    fix_len_padded_at (overlong_header.drop 8) 24 22 ∧
    fix_len_padded_at (overlong_header.drop 34) 62 60 ∧
    sc_scda_check_file_header overlong_header (List.replicate SC_SCDA_VENDOR_STRING_BYTES 0)
      (List.replicate (SC_SCDA_USER_STRING_BYTES + 1) 0) = none ∧
    overlong_user_header.length = SC_SCDA_HEADER_BYTES ∧
    scda_header_well_formed overlong_user_header ∧
    sc_scda_check_file_header overlong_user_header
      (List.replicate SC_SCDA_VENDOR_STRING_BYTES 0)
      (List.replicate (SC_SCDA_USER_STRING_BYTES + 1) 0) = none := by
  have hv : fix_len_padded_at (overlong_header.drop 8) 24 22 :=
    ⟨by decide, by decide, by decide, fun j h1 h2 => by omega⟩
  have hu : fix_len_padded_at (overlong_header.drop 34) 62 60 :=
    ⟨by decide, by decide, by decide, fun j h1 h2 => by omega⟩
  have hv2 : fix_len_padded_at (overlong_user_header.drop 8) 24 20 :=
    ⟨by decide, by decide, by decide, fun j h1 h2 => by
      have : j = 21 ∨ j = 22 := by omega
      rcases this with e | e <;> subst e <;> decide⟩
  have hu2 : fix_len_padded_at (overlong_user_header.drop 34) 62 60 :=
    ⟨by decide, by decide, by decide, fun j h1 h2 => by omega⟩
  exact ⟨by decide,
    ⟨by decide, by decide, by decide, by decide, ⟨22, hv⟩, ⟨60, hu⟩, by decide⟩,
    hv, hu, by decide, by decide,
    ⟨by decide, by decide, by decide, by decide, ⟨20, hv2⟩, ⟨60, hu2⟩, by decide⟩,
    by decide⟩

/-! ## The child tables -/

/-- C21: for every child id `c` and corner `k` in 0..7,
`p8est_child_corner_edges[c][k]` is the edge `e` whose `p8est_edge_corners[e]`
contains both `c` and `k` (the only such edge) when `c` and `k` differ in
exactly one bit, and -1 otherwise; `p8est_child_corner_faces[c][k]` is the face
`2a + (bit a of c)`, where `a` is the single bit position in which `c` and `k`
agree, when they differ in exactly two bits, and -1 otherwise. -/
theorem child_corner_tables :
    ∀ c < 8, ∀ k < 8,
      (if bits_differ c k = 1 then
        (joining_edges c k).length = 1 ∧
          aget2 p8est_child_corner_edges ((c : Nat) : Int) ((k : Nat) : Int) =
            (joining_edges c k).head?
      else aget2 p8est_child_corner_edges ((c : Nat) : Int) ((k : Nat) : Int) = some (-1)) ∧
      (if bits_differ c k = 2 then
        ∃ a < 3, corner_bit c a = corner_bit k a ∧
          (∀ b < 3, corner_bit c b = corner_bit k b → b = a) ∧
          aget2 p8est_child_corner_faces ((c : Nat) : Int) ((k : Nat) : Int) =
            some ((2 * a + corner_bit c a : Nat) : Int)
      else aget2 p8est_child_corner_faces ((c : Nat) : Int) ((k : Nat) : Int) = some (-1)) := by
  decide

theorem child_corner_tables_witness :
    (if bits_differ 5 7 = 1 then
      (joining_edges 5 7).length = 1 ∧
        aget2 p8est_child_corner_edges ((5 : Nat) : Int) ((7 : Nat) : Int) =
          (joining_edges 5 7).head?
    else aget2 p8est_child_corner_edges ((5 : Nat) : Int) ((7 : Nat) : Int) = some (-1)) ∧
    (if bits_differ 5 7 = 2 then
      ∃ a < 3, corner_bit 5 a = corner_bit 7 a ∧
        (∀ b < 3, corner_bit 5 b = corner_bit 7 b → b = a) ∧
        aget2 p8est_child_corner_faces ((5 : Nat) : Int) ((7 : Nat) : Int) =
          some ((2 * a + corner_bit 5 a : Nat) : Int)
    else aget2 p8est_child_corner_faces ((5 : Nat) : Int) ((7 : Nat) : Int) = some (-1)) :=
  child_corner_tables 5 (by decide) 7 (by decide)

/-- C22: for every child id `c` in 0..7 and edge `e` in 0..11,
`p8est_child_edge_faces[c][e]` is the unique face that belongs both to
`p8est_edge_faces[e]` and to `p8est_corner_faces[c]` when exactly one face
belongs to both, and it is -1 when no face or both faces of the edge belong to
`p8est_corner_faces[c]`. -/
theorem child_edge_faces_table :
    ∀ c < 8, ∀ e < 12,
      (common_faces c e).length ≤ 2 ∧
      if (common_faces c e).length = 1 then
        aget2 p8est_child_edge_faces ((c : Nat) : Int) ((e : Nat) : Int) =
          (common_faces c e).head?
      else aget2 p8est_child_edge_faces ((c : Nat) : Int) ((e : Nat) : Int) = some (-1) := by
  decide

theorem child_edge_faces_table_witness :
    (common_faces 6 2).length ≤ 2 ∧
    if (common_faces 6 2).length = 1 then
      aget2 p8est_child_edge_faces ((6 : Nat) : Int) ((2 : Nat) : Int) = (common_faces 6 2).head?
    else aget2 p8est_child_edge_faces ((6 : Nat) : Int) ((2 : Nat) : Int) = some (-1) :=
  child_edge_faces_table 6 (by decide) 2 (by decide)

/-! ## Ranges of the stored codes in the predefined connectivities -/

/-- C26: in each of unitcube, periodic, rotwrap, twocubes, twowrap, rotcubes,
shell and sphere every `tree_to_tree` entry lies in `[0, num_trees)`, every
`tree_to_face` entry in `[0, 24)`, every `tree_to_vertex` entry in
`[0, num_vertices)`, every `tree_to_edge` entry in `[-1, num_edges)`, every
`edge_to_tree` entry in `[0, num_trees)`, every `edge_to_edge` entry in
`[0, 24)`, every `corner_to_corner` entry in `[0, 8)`, the offset arrays start
at 0, are non-decreasing and end at the length of the reverse table, and every
face that connects a tree to the same face of itself has orientation 0. -/
theorem predefined_codes_in_range :
    codes_in_range p8est_connectivity_new_unitcube ∧
    codes_in_range p8est_connectivity_new_periodic ∧
    codes_in_range p8est_connectivity_new_rotwrap ∧
    codes_in_range p8est_connectivity_new_twocubes ∧
    codes_in_range p8est_connectivity_new_twowrap ∧
    codes_in_range p8est_connectivity_new_rotcubes ∧
    codes_in_range p8est_connectivity_new_shell ∧
    codes_in_range p8est_connectivity_new_sphere := by
  unfold codes_in_range offsets_valid
  refine ⟨by decide, by decide, by decide, by decide, by decide, by decide, by decide, by decide⟩

/-! ## The assertions of p8est_find_edge_transform on the predefined connectivities -/

theorem edge_asserts_of_check (conn : p4est_connectivity_t)
    (h : edge_asserts_check conn = true) : edge_asserts_hold conn := by
  intro t e ht he hne
  unfold edge_asserts_check at h
  rw [List.all_eq_true] at h
  have ht' : t ∈ List.range conn.num_trees.toNat := by
    rw [List.mem_range]; omega
  have h1 := h t ht'
  rw [List.all_eq_true] at h1
  have h2 := h1 e (List.mem_range.mpr he)
  unfold edge_asserts_at at h2
  simp only [Bool.or_eq_true, decide_eq_true_eq, hne, false_or] at h2
  cases ha : aget conn.tree_to_edge (12 * (t : Int) + (e : Int)) with
  | none => rw [ha] at h2; simp at h2
  | some aedge =>
    rw [ha] at h2
    refine ⟨aedge, rfl, ?_⟩
    intro hae
    simp only [hae, false_or] at h2
    cases hs : p8est_find_edge_transform_scan conn t e aedge with
    | none => rw [hs] at h2; simp at h2
    | some s =>
      rw [hs] at h2
      simp only [decide_False, Bool.false_or, Bool.and_eq_true, decide_eq_true_eq] at h2
      exact ⟨s, rfl, h2.1.1, h2.1.2, h2.2⟩

/-- C29: the consistency assertions of `p8est_find_edge_transform` hold for every
tree and every local edge 0..11 of every predefined connectivity: the caller's
own entry is found in the reverse list of its global edge (`ietree >= 0` and
`iflip >= 0`); whenever a bracketing face matches an entry, it has not matched
before and the other face does not match the same entry; and at the end the
number of entries of the reverse list equals the number of emitted transforms
+ 1 + the number of bracketing faces that are not domain boundaries -
`flipped`. -/
theorem predefined_edge_asserts_hold :
    edge_asserts_hold p8est_connectivity_new_unitcube ∧
    edge_asserts_hold p8est_connectivity_new_periodic ∧
    edge_asserts_hold p8est_connectivity_new_rotwrap ∧
    edge_asserts_hold p8est_connectivity_new_twocubes ∧
    edge_asserts_hold p8est_connectivity_new_twowrap ∧
    edge_asserts_hold p8est_connectivity_new_rotcubes ∧
    edge_asserts_hold p8est_connectivity_new_shell ∧
    edge_asserts_hold p8est_connectivity_new_sphere := by
  refine ⟨edge_asserts_of_check _ ?_, edge_asserts_of_check _ ?_, edge_asserts_of_check _ ?_,
    edge_asserts_of_check _ ?_, edge_asserts_of_check _ ?_, edge_asserts_of_check _ ?_,
    edge_asserts_of_check _ ?_, edge_asserts_of_check _ ?_⟩ <;> decide

/-! ## The transform list as a sub-list of the reverse table -/

theorem aget_some_range {α : Type} (a : List α) (i : Int) (x : α) (h : aget a i = some x) :
    0 ≤ i ∧ i < a.length := by
  unfold aget at h
  split at h
  · simp at h
  · rename_i hi
    have := List.get?_eq_some.mp h
    obtain ⟨hlt, _⟩ := this
    omega

theorem edge_face_corners_sign_tbl :
    ∀ e < 12, ∀ f < 6, edge_face_corners_sign_at e f = true := by decide

theorem edge_face_corners_sign (e f : Int) (row : List Int) (v : Int)
    (h1 : aget2 p8est_edge_face_corners e f = some row) (h2 : aget row 0 = some v) :
    (0 ≤ v ↔ edge_has_face e f = true) := by
  unfold aget2 at h1
  cases hr : aget p8est_edge_face_corners e with
  | none => simp [hr] at h1
  | some r6 =>
    rw [hr] at h1
    simp only [Option.some_bind] at h1
    have he := aget_some_range _ _ _ hr
    have hf := aget_some_range _ _ _ h1
    have hlen : ∀ r ∈ p8est_edge_face_corners, r.length = 6 := by decide
    have h6 := hlen r6 (aget_mem _ _ _ hr)
    have h12 : p8est_edge_face_corners.length = 12 := by decide
    rw [h12] at he
    rw [h6] at hf
    obtain ⟨he0, he1⟩ := he
    obtain ⟨hf0, hf1⟩ := hf
    lift e to ℕ using he0
    lift f to ℕ using hf0
    have ht := edge_face_corners_sign_tbl e (by omega) f (by omega)
    unfold edge_face_corners_sign_at at ht
    have h1' : aget2 p8est_edge_face_corners (e : Int) (f : Int) = some row := by
      unfold aget2; rw [hr]; exact h1
    rw [h1'] at ht
    simp only [h2] at ht
    rw [beq_iff_eq] at ht
    rw [← ht, decide_eq_true_eq]

/-- The corner comparison of the source agrees with the matching described for a
bracketing face, for an entry whose tree is not negative. -/
theorem face_check_iff_matches (fi : edge_face_t) (ntree nedge nflip : Int) (m : face_match_t)
    (hn : 0 ≤ ntree) (h : edge_face_check fi ntree nedge nflip = some m) :
    (bracket_face_matches fi (ntree, nedge, nflip) = true ↔ m = face_match_t.found) := by
  unfold edge_face_check at h
  unfold bracket_face_matches
  simp only
  by_cases hq : ntree = fi.ntree
  · rw [if_pos hq] at h
    have hb : fi.ntree ≠ -1 := by omega
    unfold edge_corner_check at h
    simp only [Option.bind_eq_bind] at h
    cases h1 : aget2 p8est_edge_face_corners nedge fi.nface with
    | none => simp [h1] at h
    | some nfc =>
      simp only [h1, Option.some_bind] at h
      cases h2 : aget nfc 0 with
      | none => simp [h2] at h
      | some v =>
        simp only [h2, Option.some_bind] at h
        have hsign := edge_face_corners_sign nedge fi.nface nfc v h1 h2
        by_cases hv : v ≥ 0
        · rw [if_pos hv] at h
          have hface : edge_has_face nedge fi.nface = true := hsign.mp hv
          cases h3 : aget2 p8est_face_permutation_refs fi.face fi.nface with
          | none => simp [h3] at h
          | some pref =>
            simp only [h3, Option.some_bind] at h
            cases h4 : aget2 p8est_face_permutation_sets pref fi.orient with
            | none => simp [h4] at h
            | some pset =>
              simp only [h4, Option.some_bind] at h
              cases h5 : aget fi.fcorners 0 with
              | none => simp [h5] at h
              | some c0 =>
                simp only [h5, Option.some_bind] at h
                cases h6 : aget2 p8est_face_permutations pset c0 with
                | none => simp [h6] at h
                | some fc0 =>
                  simp only [h6, Option.some_bind] at h
                  cases h7 : aget fi.fcorners 1 with
                  | none => simp [h7] at h
                  | some c1 =>
                    simp only [h7, Option.some_bind] at h
                    cases h8 : aget2 p8est_face_permutations pset c1 with
                    | none => simp [h8] at h
                    | some fc1 =>
                      simp only [h8, Option.some_bind] at h
                      cases h9 : aget nfc nflip with
                      | none => simp [h9] at h
                      | some a =>
                        simp only [h9, Option.some_bind] at h
                        cases h10 : aget nfc (c_not nflip) with
                        | none => simp [h10] at h
                        | some b =>
                          simp only [h10, Option.some_bind] at h
                          have p0 : face_permutation fi.face fi.nface fi.orient c0 = some fc0 := by
                            unfold face_permutation
                            simp only [h3, h4, Option.some_bind, h6]
                          have p1 : face_permutation fi.face fi.nface fi.orient c1 = some fc1 := by
                            unfold face_permutation
                            simp only [h3, h4, Option.some_bind, h8]
                          simp only [Option.some_bind, p0, p1, h9, h10, hface, hq,
                            Bool.and_true, decide_True, Bool.true_and, decide_eq_true_eq,
                            ne_eq, hb, not_false_eq_true]
                          by_cases hab : fc0 = a ∧ fc1 = b
                          · rw [if_pos hab] at h
                            simp only [Option.some.injEq] at h
                            exact ⟨fun _ => h.symm, fun _ => hab⟩
                          · rw [if_neg hab] at h
                            constructor
                            · intro hh; exact absurd hh hab
                            · intro hm
                              subst hm
                              split at h <;> simp at h
        · rw [if_neg hv] at h
          simp only [Option.some.injEq] at h
          have hface : edge_has_face nedge fi.nface = false := by
            cases hh : edge_has_face nedge fi.nface with
            | false => rfl
            | true => exact absurd (hsign.mpr hh) hv
          simp only [hface, Bool.and_false, Bool.false_and, Bool.false_eq_true, false_iff]
          intro hm
          rw [hm] at h
          exact absurd h (by decide)
  · rw [if_neg hq] at h
    simp only [Option.some.injEq] at h
    have : decide (ntree = fi.ntree) = false := decide_eq_false hq
    simp only [this, Bool.and_false, Bool.false_and, Bool.false_eq_true, false_iff]
    intro hm
    rw [hm] at h
    exact absurd h (by decide)

theorem edge_transform_sublist_cons (conn : p4est_connectivity_t) (off : Int)
    (f0 f1 : edge_face_t) (ietree iflip : Int) (j : Nat) (rest : List Nat) :
    edge_transform_sublist conn off f0 f1 ietree iflip (j :: rest) =
      (match edge_entry conn off iflip j with
       | some en =>
          if (decide ((j : Int) ≠ ietree) && !bracket_face_matches f0 en &&
              !bracket_face_matches f1 en) = true
          then [edge_transform_of en.1 en.2.1 en.2.2] else []
       | none => []) ++ edge_transform_sublist conn off f0 f1 ietree iflip rest := by
  unfold edge_transform_sublist reverse_entries
  cases he : edge_entry conn off iflip j with
  | none => simp [List.filterMap_cons, he]
  | some en =>
    simp only [List.filterMap_cons, he, Option.map_some', List.filter_cons]
    split <;> simp

theorem edge_transform_loop_sublist (conn : p4est_connectivity_t) (off : Int)
    (f0 f1 : edge_face_t) (ietree iflip : Int) (hvalid : ∀ x ∈ conn.edge_to_tree, 0 ≤ x) :
    ∀ (l : List Nat) (st st' : edge_loop_t),
      edge_transform_loop conn off f0 f1 ietree iflip st l = some st' →
      st'.ta = st.ta ++ edge_transform_sublist conn off f0 f1 ietree iflip l := by
  intro l
  induction l with
  | nil =>
    intro st st' h
    simp only [edge_transform_loop, Option.some.injEq] at h
    subst h
    simp [edge_transform_sublist, reverse_entries]
  | cons j rest ih =>
    intro st st' h
    simp only [edge_transform_loop] at h
    cases hs : edge_transform_step conn off f0 f1 ietree iflip st j with
    | none => simp [hs] at h
    | some st1 =>
      simp only [hs, Option.some_bind] at h
      rw [ih st1 st' h, edge_transform_sublist_cons, ← List.append_assoc]
      congr 1
      unfold edge_transform_step at hs
      by_cases hj : (j : Int) = ietree
      · rw [if_pos hj] at hs
        simp only [Option.some.injEq] at hs
        subst hs
        have hd : decide ((j : Int) ≠ ietree) = false := by simp [hj]
        cases he : edge_entry conn off iflip j with
        | none => simp
        | some en => simp [hd]
      · rw [if_neg hj] at hs
        simp only [Option.bind_eq_bind] at hs
        cases ht : aget conn.edge_to_tree (off + (j : Int)) with
        | none => simp [ht] at hs
        | some ntree =>
          cases hr : aget conn.edge_to_edge (off + (j : Int)) with
          | none => simp [ht, hr] at hs
          | some redge =>
            simp only [ht, hr, Option.some_bind] at hs
            have hn : 0 ≤ ntree := hvalid ntree (aget_mem _ _ _ ht)
            have he : edge_entry conn off iflip j =
                some (ntree, Int.tmod redge 12, Int.xor (Int.tdiv redge 12) iflip) := by
              unfold edge_entry
              simp only [ht, hr, Option.some_bind, Option.map_some']
            cases hm0 : edge_face_check f0 ntree (Int.tmod redge 12)
                (Int.xor (Int.tdiv redge 12) iflip) with
            | none => simp [hm0] at hs
            | some m0 =>
              cases hm1 : edge_face_check f1 ntree (Int.tmod redge 12)
                  (Int.xor (Int.tdiv redge 12) iflip) with
              | none => simp [hm0, hm1] at hs
              | some m1 =>
                simp only [hm0, hm1, Option.some_bind] at hs
                have e0 := face_check_iff_matches f0 ntree _ _ m0 hn hm0
                have e1 := face_check_iff_matches f1 ntree _ _ m1 hn hm1
                have hd : decide ((j : Int) ≠ ietree) = true := by simp [hj]
                rw [he]
                simp only [hd, Bool.true_and]
                by_cases hf : m0 = face_match_t.found ∨ m1 = face_match_t.found
                · rw [if_pos hf] at hs
                  simp only [Option.some.injEq] at hs
                  subst hs
                  have : (!bracket_face_matches f0 (ntree, Int.tmod redge 12,
                      Int.xor (Int.tdiv redge 12) iflip) &&
                    !bracket_face_matches f1 (ntree, Int.tmod redge 12,
                      Int.xor (Int.tdiv redge 12) iflip)) = false := by
                    rcases hf with hf | hf
                    · rw [e0.mpr hf]; rfl
                    · rw [e1.mpr hf]; simp
                  rw [this]
                  simp
                · rw [if_neg hf] at hs
                  simp only [Option.some.injEq] at hs
                  subst hs
                  push_neg at hf
                  have b0 : bracket_face_matches f0 (ntree, Int.tmod redge 12,
                      Int.xor (Int.tdiv redge 12) iflip) = false := by
                    cases hb : bracket_face_matches f0 (ntree, Int.tmod redge 12,
                      Int.xor (Int.tdiv redge 12) iflip) with
                    | false => rfl
                    | true => exact absurd (e0.mp hb) hf.1
                  have b1 : bracket_face_matches f1 (ntree, Int.tmod redge 12,
                      Int.xor (Int.tdiv redge 12) iflip) = false := by
                    cases hb : bracket_face_matches f1 (ntree, Int.tmod redge 12,
                      Int.xor (Int.tdiv redge 12) iflip) with
                    | false => rfl
                    | true => exact absurd (e1.mp hb) hf.2
                  rw [b0, b1]
                  simp

theorem edge_transform_sublist_length (conn : p4est_connectivity_t) (off : Int)
    (f0 f1 : edge_face_t) (ietree iflip : Int) (n k0 : Nat) (hk : k0 < n)
    (hie : ietree = (k0 : Int)) :
    (edge_transform_sublist conn off f0 f1 ietree iflip (List.range n)).length + 1 ≤ n := by
  unfold edge_transform_sublist reverse_entries
  rw [List.length_map]
  have hsub : ((List.filterMap (fun k => Option.map (fun en => (k, en)) (edge_entry conn off iflip k))
      (List.range n)).filter fun en =>
        decide ((en.1 : Int) ≠ ietree) && !bracket_face_matches f0 en.2 &&
          !bracket_face_matches f1 en.2).map Prod.fst
      |>.Sublist ((List.range n).erase k0) := by
    rw [List.Nodup.erase_eq_filter (List.nodup_range n)]
    have h1 : ∀ l : List Nat,
        ((List.filterMap (fun k => Option.map (fun en => (k, en)) (edge_entry conn off iflip k))
          l).filter fun en =>
            decide ((en.1 : Int) ≠ ietree) && !bracket_face_matches f0 en.2 &&
              !bracket_face_matches f1 en.2).map Prod.fst
          |>.Sublist (l.filter fun x => x != k0) := by
      intro l
      induction l with
      | nil => simp
      | cons a t ih =>
        cases he : edge_entry conn off iflip a with
        | none =>
          simp only [List.filterMap_cons, he, Option.map_none']
          rw [List.filter_cons]
          split
          · exact List.Sublist.cons _ ih
          · exact ih
        | some en =>
          simp only [List.filterMap_cons, he, Option.map_some']
          rw [List.filter_cons, List.filter_cons]
          by_cases ha : a = k0
          · subst ha
            have : decide (((a : Nat) : Int) ≠ ietree) = false := by simp [hie]
            simp only [this, Bool.false_and, Bool.false_eq_true, if_false, bne_self_eq_false]
            exact ih
          · have hne : (a != k0) = true := by simp [ha]
            rw [if_pos hne]
            split
            · simp only [List.map_cons]
              exact List.Sublist.cons₂ _ ih
            · exact List.Sublist.cons _ ih
    exact h1 _
  have hl := hsub.length_le
  rw [List.length_map, List.length_erase_of_mem (List.mem_range.mpr hk), List.length_range] at hl
  omega

/-- When `p8est_find_edge_transform` does not return early, the list it returns
is the sub-list `edge_transform_sublist` for the two faces, the slot `ietree`
and the flip `iflip` that its scan has computed; when the own entry is found,
the list has at most (entries of the global edge) - 1 elements.  The trees
stored in the reverse table are not negative. -/
theorem find_edge_transform_scan_sublist (conn : p4est_connectivity_t) (itree iedge aedge : Int)
    (ei : p8est_edge_info_t) (hvalid : ∀ x ∈ conn.edge_to_tree, 0 ≤ x)
    (hne : conn.num_edges ≠ 0)
    (ha : aget conn.tree_to_edge (12 * itree + iedge) = some aedge) (hae : aedge ≠ -1)
    (h : p8est_find_edge_transform conn itree iedge = some ei) :
    ∃ s off, p8est_find_edge_transform_scan conn itree iedge aedge = some s ∧
      aget conn.ett_offset aedge = some off ∧
      aget conn.ett_offset (aedge + 1) = some (off + s.edge_trees) ∧
      ei.edge_transforms =
        edge_transform_sublist conn off s.f0 s.f1 s.ietree s.iflip
          (List.range s.edge_trees.toNat) ∧
      ((((List.range s.edge_trees.toNat).filter (own_slot conn itree iedge off)) = [] ∧
          s.ietree = -1) ∨
        ∃ k0 : Nat, ((List.range s.edge_trees.toNat).filter
          (own_slot conn itree iedge off)).head? = some k0 ∧ s.ietree = (k0 : Int)) ∧
      (0 ≤ s.ietree → (ei.edge_transforms.length : Int) + 1 ≤ s.edge_trees) := by
  unfold p8est_find_edge_transform at h
  rw [if_neg hne] at h
  simp only [Option.bind_eq_bind, ha, Option.some_bind, if_neg hae] at h
  cases hs : p8est_find_edge_transform_scan conn itree iedge aedge with
  | none => simp [hs] at h
  | some s =>
    simp only [hs, Option.some_bind, Option.some.injEq] at h
    subst h
    simp only
    unfold p8est_find_edge_transform_scan at hs
    simp only [Option.bind_eq_bind] at hs
    cases hf0 : find_edge_face conn itree iedge 0 with
    | none => simp [hf0] at hs
    | some f0 =>
      cases hf1 : find_edge_face conn itree iedge 1 with
      | none => simp [hf0, hf1] at hs
      | some f1 =>
        cases hhi : aget conn.ett_offset (aedge + 1) with
        | none => simp [hf0, hf1, hhi] at hs
        | some hi =>
          cases hlo : aget conn.ett_offset aedge with
          | none => simp [hf0, hf1, hhi, hlo] at hs
          | some off =>
            simp only [hf0, hf1, hhi, hlo, Option.some_bind] at hs
            cases ho : find_edge_orientation conn itree iedge off
                (List.range (hi - off).toNat) with
            | none => simp [ho] at hs
            | some p =>
              obtain ⟨ietree, iflip⟩ := p
              simp only [ho, Option.some_bind] at hs
              cases hl : edge_transform_loop conn off f0 f1 ietree iflip
                  { ta := [], founds0 := 0, founds1 := 0, flipped := 0, bracket_ok := true }
                  (List.range (hi - off).toNat) with
              | none => simp [hl] at hs
              | some st =>
                simp only [hl, Option.some_bind, Option.some.injEq] at hs
                subst hs
                simp only
                have hsub := edge_transform_loop_sublist conn off f0 f1 ietree iflip hvalid
                  _ _ _ hl
                simp only [List.nil_append] at hsub
                have hor := find_edge_orientation_spec conn itree iedge off _ _ _ ho
                refine ⟨_, off, rfl, rfl, ?_, hsub, ?_, ?_⟩
                · simp only
                  congr 1
                  omega
                · simp only
                  rcases hor with ⟨k0, r0, g1, g2, _, _⟩ | ⟨g1, g2, _⟩
                  · exact Or.inr ⟨k0, g1, g2⟩
                  · exact Or.inl ⟨g1, g2⟩
                · simp only
                  intro hie
                  rcases hor with ⟨k0, r0, g1, g2, _, _⟩ | ⟨_, g2, _⟩
                  · have hmem : k0 ∈ (List.range (hi - off).toNat).filter
                        (own_slot conn itree iedge off) := List.mem_of_mem_head? g1
                    have hk : k0 < (hi - off).toNat :=
                      List.mem_range.mp (List.mem_filter.mp hmem).1
                    have := edge_transform_sublist_length conn off f0 f1 ietree iflip
                      (hi - off).toNat k0 hk g2
                    rw [hsub]
                    omega
                  · omega

/-! ## The transform list in terms of the connectivity arrays: theorems -/

/-- The record that `find_edge_face` computes for the face `i` matches an entry
exactly if the face matches it in terms of the connectivity arrays. -/
theorem bracket_face_matches_eq (conn : p4est_connectivity_t) (itree iedge i : Int)
    (f : edge_face_t) (hf : find_edge_face conn itree iedge i = some f)
    (en : Int × Int × Int) (hen : 0 ≤ en.1) :
    bracket_face_matches f en = face_matches_entry conn itree iedge i en := by
  unfold find_edge_face at hf
  simp only [Option.bind_eq_bind] at hf
  unfold face_matches_entry
  cases h1 : aget2 p8est_edge_faces iedge i with
  | none => simp [h1] at hf
  | some face =>
    cases h2 : aget conn.tree_to_tree (6 * itree + face) with
    | none => simp [h1, h2] at hf
    | some t' =>
      cases h3 : aget conn.tree_to_face (6 * itree + face) with
      | none => simp [h1, h2, h3] at hf
      | some x =>
        simp only [h1, h2, h3, Option.some_bind] at hf
        by_cases hb : t' = itree ∧ x = face
        · rw [if_pos hb] at hf
          simp only [Option.some.injEq] at hf
          subst hf
          unfold bracket_face_matches
          simp only [h2, h3]
          simp [hb]
        · rw [if_neg hb] at hf
          cases h4 : aget2 p8est_edge_face_corners iedge face with
          | none => simp [h4] at hf
          | some fc =>
            simp only [h4, Option.some_bind, Option.some.injEq] at hf
            subst hf
            unfold bracket_face_matches
            simp only [h2, h3, h4, Option.some_bind]
            have e1 : (decide (t' ≠ -1) && decide (en.1 = t')) = decide (en.1 = t') := by
              by_cases ht : t' = -1
              · subst ht
                have : ¬ en.1 = -1 := by omega
                simp [this]
              · simp [ht]
            have e2 : (!decide (t' = itree ∧ x = face)) = true := by simp [hb]
            rw [e1, e2, Bool.true_and]

theorem scan_faces (conn : p4est_connectivity_t) (itree iedge aedge : Int) (s : edge_scan_t)
    (h : p8est_find_edge_transform_scan conn itree iedge aedge = some s) :
    find_edge_face conn itree iedge 0 = some s.f0 ∧
    find_edge_face conn itree iedge 1 = some s.f1 ∧
    ∃ off hi, aget conn.ett_offset aedge = some off ∧
      aget conn.ett_offset (aedge + 1) = some hi ∧ s.edge_trees = hi - off ∧
      find_edge_orientation conn itree iedge off (List.range (hi - off).toNat) =
        some (s.ietree, s.iflip) := by
  unfold p8est_find_edge_transform_scan at h
  simp only [Option.bind_eq_bind] at h
  cases hf0 : find_edge_face conn itree iedge 0 with
  | none => simp [hf0] at h
  | some f0 =>
    cases hf1 : find_edge_face conn itree iedge 1 with
    | none => simp [hf0, hf1] at h
    | some f1 =>
      cases hhi : aget conn.ett_offset (aedge + 1) with
      | none => simp [hf0, hf1, hhi] at h
      | some hi =>
        cases hlo : aget conn.ett_offset aedge with
        | none => simp [hf0, hf1, hhi, hlo] at h
        | some off =>
          simp only [hf0, hf1, hhi, hlo, Option.some_bind] at h
          cases ho : find_edge_orientation conn itree iedge off
              (List.range (hi - off).toNat) with
          | none => simp [ho] at h
          | some p =>
            obtain ⟨ietree, iflip⟩ := p
            simp only [ho, Option.some_bind] at h
            cases hl : edge_transform_loop conn off f0 f1 ietree iflip
                { ta := [], founds0 := 0, founds1 := 0, flipped := 0, bracket_ok := true }
                (List.range (hi - off).toNat) with
            | none => simp [hl] at h
            | some st =>
              simp only [hl, Option.some_bind, Option.some.injEq] at h
              subst h
              exact ⟨rfl, rfl, off, hi, rfl, rfl, rfl, ho⟩

theorem edge_transform_sublist_eq_claimed (conn : p4est_connectivity_t)
    (itree iedge off ietree iflip : Int) (f0 f1 : edge_face_t)
    (hvalid : ∀ x ∈ conn.edge_to_tree, 0 ≤ x)
    (hf0 : find_edge_face conn itree iedge 0 = some f0)
    (hf1 : find_edge_face conn itree iedge 1 = some f1) (slots : List Nat) :
    edge_transform_sublist conn off f0 f1 ietree iflip slots =
      claimed_edge_transforms conn itree iedge off ietree iflip slots := by
  unfold edge_transform_sublist claimed_edge_transforms
  congr 1
  apply List.filter_congr
  intro en hen
  have hge : 0 ≤ en.2.1 := by
    unfold reverse_entries at hen
    rw [List.mem_filterMap] at hen
    obtain ⟨k, _, hk⟩ := hen
    unfold edge_entry at hk
    cases ht : aget conn.edge_to_tree (off + (k : Int)) with
    | none => simp [ht] at hk
    | some ntree =>
      cases hr : aget conn.edge_to_edge (off + (k : Int)) with
      | none => simp [ht, hr] at hk
      | some redge =>
        simp only [ht, hr, Option.some_bind, Option.map_some', Option.some.injEq] at hk
        subst hk
        exact hvalid ntree (aget_mem _ _ _ ht)
  rw [bracket_face_matches_eq conn itree iedge 0 f0 hf0 en.2 hge,
    bracket_face_matches_eq conn itree iedge 1 f1 hf1 en.2 hge]

/-- C30: when `p8est_find_edge_transform` does not return early, the list it
returns is exactly the sub-list, in reverse-table order, of the entries of the
caller's global edge other than the caller's own entry (the first entry with
the caller's tree and edge) for which neither bracketing face `i` in {0, 1}
matches.  Face `i` matches an entry `(ntree, nedge, nflip)` in the sense of
`face_matches_entry`, which reads the neighbor tree, the contact face and the
orientation of the face `p8est_edge_faces[iedge][i]` from `tree_to_tree` and
`tree_to_face`; the flip `nflip` of an entry is its stored flip XOR the stored
flip of the own entry.  Hence the list has at most (entries of the global
edge) - 1 elements.  When the reverse list does not hold the own entry, the
function compares with the slot -1 and the flip -1.  The trees stored in the
reverse table are not negative. -/
theorem find_edge_transform_sublist (conn : p4est_connectivity_t) (itree iedge aedge : Int)
    (ei : p8est_edge_info_t) (hvalid : ∀ x ∈ conn.edge_to_tree, 0 ≤ x)
    (hne : conn.num_edges ≠ 0)
    (ha : aget conn.tree_to_edge (12 * itree + iedge) = some aedge) (hae : aedge ≠ -1)
    (h : p8est_find_edge_transform conn itree iedge = some ei) :
    ∃ off hi, aget conn.ett_offset aedge = some off ∧
      aget conn.ett_offset (aedge + 1) = some hi ∧
      ((∃ (k0 : Nat) (r0 : Int),
          ((List.range (hi - off).toNat).filter (own_slot conn itree iedge off)).head? =
            some k0 ∧
          aget conn.edge_to_edge (off + (k0 : Int)) = some r0 ∧
          ei.edge_transforms =
            claimed_edge_transforms conn itree iedge off (k0 : Int) (Int.tdiv r0 12)
              (List.range (hi - off).toNat) ∧
          (ei.edge_transforms.length : Int) + 1 ≤ hi - off) ∨
        ((List.range (hi - off).toNat).filter (own_slot conn itree iedge off) = [] ∧
          ei.edge_transforms =
            claimed_edge_transforms conn itree iedge off (-1) (-1)
              (List.range (hi - off).toNat))) := by
  obtain ⟨s, off, hs, hoff, hhi, hlist, _, hlen⟩ :=
    find_edge_transform_scan_sublist conn itree iedge aedge ei hvalid hne ha hae h
  obtain ⟨hf0, hf1, off', hi, hoff', hhi', het, hor⟩ := scan_faces conn itree iedge aedge s hs
  rw [hoff] at hoff'
  simp only [Option.some.injEq] at hoff'
  subst hoff'
  rw [edge_transform_sublist_eq_claimed conn itree iedge off s.ietree s.iflip s.f0 s.f1 hvalid
    hf0 hf1, het] at hlist
  rw [het] at hlen
  refine ⟨off, hi, hoff, hhi', ?_⟩
  rcases find_edge_orientation_spec conn itree iedge off _ _ _ hor with
    ⟨k0, r0, g1, g2, g3, g4⟩ | ⟨g1, g2, g3⟩
  · left
    rw [g2, g4] at hlist
    exact ⟨k0, r0, g1, g3, hlist, hlen (by rw [g2]; omega)⟩
  · right
    rw [g2, g3] at hlist
    exact ⟨g1, hlist⟩

theorem find_edge_transform_sublist_witness :
    ∃ off hi, aget p8est_connectivity_new_rotcubes.ett_offset 0 = some off ∧
      aget p8est_connectivity_new_rotcubes.ett_offset (0 + 1) = some hi ∧
      ((∃ (k0 : Nat) (r0 : Int),
          ((List.range (hi - off).toNat).filter
            (own_slot p8est_connectivity_new_rotcubes 0 7 off)).head? = some k0 ∧
          aget p8est_connectivity_new_rotcubes.edge_to_edge (off + (k0 : Int)) = some r0 ∧
          ({ iedge := 7, edge_transforms := [edge_transform_of 4 0 1, edge_transform_of 5 6 1] } :
              p8est_edge_info_t).edge_transforms =
            claimed_edge_transforms p8est_connectivity_new_rotcubes 0 7 off (k0 : Int)
              (Int.tdiv r0 12) (List.range (hi - off).toNat) ∧
          ((({ iedge := 7,
               edge_transforms := [edge_transform_of 4 0 1, edge_transform_of 5 6 1] } :
              p8est_edge_info_t).edge_transforms.length : Int)) + 1 ≤ hi - off) ∨
        ((List.range (hi - off).toNat).filter
            (own_slot p8est_connectivity_new_rotcubes 0 7 off) = [] ∧
          ({ iedge := 7, edge_transforms := [edge_transform_of 4 0 1, edge_transform_of 5 6 1] } :
              p8est_edge_info_t).edge_transforms =
            claimed_edge_transforms p8est_connectivity_new_rotcubes 0 7 off (-1) (-1)
              (List.range (hi - off).toNat))) :=
  find_edge_transform_sublist p8est_connectivity_new_rotcubes 0 7 0
    { iedge := 7, edge_transforms := [edge_transform_of 4 0 1, edge_transform_of 5 6 1] }
    (by decide) (by decide) (by decide) (by decide) (by decide)

/-! ## The Morton index and its bits -/

theorem foldl_lor_testBit (f : Nat → Nat) (q : Nat) :
    ∀ (L init : Nat), ((List.range L).foldl (fun t k => t ||| f k) init).testBit q =
      (init.testBit q || (List.range L).any fun k => (f k).testBit q) := by
  intro L
  induction L with
  | zero => intro init; simp
  | succ L ih =>
    intro init
    rw [List.range_succ, List.foldl_append, List.any_append]
    simp only [List.foldl_cons, List.foldl_nil, List.any_cons, List.any_nil, Bool.or_false]
    rw [Nat.testBit_or, ih, Bool.or_assoc]

theorem any_range_eq (L : Nat) (g : Nat → Bool) (k0 : Nat) (v : Bool)
    (h0 : g k0 = v) (h : ∀ k, k ≠ k0 → g k = false) :
    ((List.range L).any g) = (decide (k0 < L) && v) := by
  by_cases hk : k0 < L
  · simp only [hk, decide_True, Bool.true_and]
    cases v with
    | true =>
      rw [List.any_eq_true]
      exact ⟨k0, List.mem_range.mpr hk, h0⟩
    | false =>
      rw [List.any_eq_false]
      intro k _
      by_cases hkk : k = k0
      · subst hkk; simp [h0]
      · simp [h k hkk]
  · simp only [hk, decide_False, Bool.false_and]
    rw [List.any_eq_false]
    intro k hkm
    have : k ≠ k0 := by
      intro e; subst e; exact hk (List.mem_range.mp hkm)
    simp [h k this]

theorem extract_bit_testBit (ti i d q : Nat) :
    ((ti &&& (1 <<< (3 * i + d))) >>> (2 * i + d)).testBit q =
      (decide (q = i) && ti.testBit (3 * i + d)) := by
  rw [Nat.testBit_shiftRight, Nat.testBit_and, Nat.one_shiftLeft, Nat.testBit_two_pow]
  by_cases h : q = i
  · subst h
    have e : 2 * q + d + q = 3 * q + d := by omega
    simp [e]
  · have : ¬ (3 * i + d = 2 * i + d + q) := by omega
    simp [h, this]

theorem place_bit_testBit (x k d q : Nat) :
    ((x &&& (1 <<< k)) <<< (2 * k + d)).testBit q =
      (decide (q = 3 * k + d) && x.testBit k) := by
  rw [Nat.testBit_shiftLeft, Nat.testBit_and, Nat.one_shiftLeft, Nat.testBit_two_pow]
  by_cases h : q = 3 * k + d
  · subst h
    have e : 3 * k + d - (2 * k + d) = k := by omega
    have e2 : 3 * k + d ≥ 2 * k + d := by omega
    simp [e, e2]
  · by_cases h2 : q ≥ 2 * k + d
    · have : ¬ (k = q - (2 * k + d)) := by omega
      simp [h, this]
    · simp [h, h2]

theorem brick_coords_eq (L ti : Nat) :
    brick_coords_exact L ti =
      ((List.range L).foldl (fun t i => t ||| ((ti &&& (1 <<< (3 * i))) >>> (2 * i))) 0,
       (List.range L).foldl (fun t i => t ||| ((ti &&& (1 <<< (3 * i + 1))) >>> (2 * i + 1))) 0,
       (List.range L).foldl (fun t i => t ||| ((ti &&& (1 <<< (3 * i + 2))) >>> (2 * i + 2))) 0) := by
  unfold brick_coords_exact
  induction L with
  | zero => rfl
  | succ L ih =>
    rw [List.range_succ, List.foldl_append, List.foldl_append, List.foldl_append,
      List.foldl_append, ih]
    rfl

theorem brick_coords_testBit (L ti q : Nat) :
    (brick_coords_exact L ti).1.testBit q = (decide (q < L) && ti.testBit (3 * q)) ∧
    (brick_coords_exact L ti).2.1.testBit q = (decide (q < L) && ti.testBit (3 * q + 1)) ∧
    (brick_coords_exact L ti).2.2.testBit q = (decide (q < L) && ti.testBit (3 * q + 2)) := by
  rw [brick_coords_eq]
  simp only
  refine ⟨?_, ?_, ?_⟩
  · rw [foldl_lor_testBit (fun i => (ti &&& (1 <<< (3 * i))) >>> (2 * i)) q L 0]
    simp only [Nat.zero_testBit, Bool.false_or]
    apply any_range_eq L _ q
    · have := extract_bit_testBit ti q 0 q
      simpa using this
    · intro k hk
      have := extract_bit_testBit ti k 0 q
      simp only [Nat.add_zero] at this
      rw [this]
      simp [Ne.symm hk]
  · rw [foldl_lor_testBit (fun i => (ti &&& (1 <<< (3 * i + 1))) >>> (2 * i + 1)) q L 0]
    simp only [Nat.zero_testBit, Bool.false_or]
    apply any_range_eq L _ q
    · have := extract_bit_testBit ti q 1 q
      simpa using this
    · intro k hk
      rw [extract_bit_testBit ti k 1 q]
      simp [Ne.symm hk]
  · rw [foldl_lor_testBit (fun i => (ti &&& (1 <<< (3 * i + 2))) >>> (2 * i + 2)) q L 0]
    simp only [Nat.zero_testBit, Bool.false_or]
    apply any_range_eq L _ q
    · have := extract_bit_testBit ti q 2 q
      simpa using this
    · intro k hk
      rw [extract_bit_testBit ti k 2 q]
      simp [Ne.symm hk]

theorem brick_linear_testBit (L x y z k : Nat) :
    (brick_linear_exact L x y z).testBit (3 * k) = (decide (k < L) && x.testBit k) ∧
    (brick_linear_exact L x y z).testBit (3 * k + 1) = (decide (k < L) && y.testBit k) ∧
    (brick_linear_exact L x y z).testBit (3 * k + 2) = (decide (k < L) && z.testBit k) := by
  have hfold : brick_linear_exact L x y z =
      (List.range L).foldl (fun t k => t ||| (((x &&& (1 <<< k)) <<< (2 * k)) |||
        (((y &&& (1 <<< k)) <<< (2 * k + 1)) ||| ((z &&& (1 <<< k)) <<< (2 * k + 2))))) 0 := by
    unfold brick_linear_exact
    congr 1
    funext t k
    simp only [Nat.lor_assoc]
  rw [hfold]
  have key : ∀ q d, d < 3 → q = 3 * k + d →
      ((List.range L).foldl (fun t k => t ||| (((x &&& (1 <<< k)) <<< (2 * k)) |||
        (((y &&& (1 <<< k)) <<< (2 * k + 1)) ||| ((z &&& (1 <<< k)) <<< (2 * k + 2))))) 0).testBit q
      = (decide (k < L) && (if d = 0 then x.testBit k else if d = 1 then y.testBit k
          else z.testBit k)) := by
    intro q d hd hq
    rw [foldl_lor_testBit (fun k => ((x &&& (1 <<< k)) <<< (2 * k)) |||
        (((y &&& (1 <<< k)) <<< (2 * k + 1)) ||| ((z &&& (1 <<< k)) <<< (2 * k + 2)))) q L 0]
    simp only [Nat.zero_testBit, Bool.false_or]
    apply any_range_eq L _ k
    · simp only [Nat.testBit_or]
      have a0 := place_bit_testBit x k 0 q
      have a1 := place_bit_testBit y k 1 q
      have a2 := place_bit_testBit z k 2 q
      simp only [Nat.add_zero] at a0
      rw [a0, a1, a2]
      have hd' : d = 0 ∨ d = 1 ∨ d = 2 := by omega
      rcases hd' with h | h | h <;> subst h <;> subst hq <;> simp
    · intro k' hk'
      simp only [Nat.testBit_or]
      have a0 := place_bit_testBit x k' 0 q
      have a1 := place_bit_testBit y k' 1 q
      have a2 := place_bit_testBit z k' 2 q
      simp only [Nat.add_zero] at a0
      rw [a0, a1, a2]
      have n0 : ¬ q = 3 * k' := by omega
      have n1 : ¬ q = 3 * k' + 1 := by omega
      have n2 : ¬ q = 3 * k' + 2 := by omega
      simp [n0, n1, n2]
  refine ⟨?_, ?_, ?_⟩
  · simpa using key (3 * k) 0 (by omega) (by omega)
  · simpa using key (3 * k + 1) 1 (by omega) rfl
  · simpa using key (3 * k + 2) 2 (by omega) rfl

theorem brick_coords_lt (L ti : Nat) :
    (brick_coords_exact L ti).1 < 2 ^ L ∧ (brick_coords_exact L ti).2.1 < 2 ^ L ∧
      (brick_coords_exact L ti).2.2 < 2 ^ L := by
  refine ⟨?_, ?_, ?_⟩ <;> apply Nat.lt_pow_two_of_testBit <;> intro i hi
  · rw [(brick_coords_testBit L ti i).1]
    have : ¬ i < L := by omega
    simp [this]
  · rw [(brick_coords_testBit L ti i).2.1]
    have : ¬ i < L := by omega
    simp [this]
  · rw [(brick_coords_testBit L ti i).2.2]
    have : ¬ i < L := by omega
    simp [this]

theorem brick_linear_lt (L x y z : Nat) : brick_linear_exact L x y z < 2 ^ (3 * L) := by
  apply Nat.lt_pow_two_of_testBit
  intro i hi
  have hq : i = 3 * (i / 3) + i % 3 := by omega
  have hk : ¬ i / 3 < L := by omega
  obtain ⟨h0, h1, h2⟩ := brick_linear_testBit L x y z (i / 3)
  have hd : i % 3 = 0 ∨ i % 3 = 1 ∨ i % 3 = 2 := by omega
  rcases hd with h | h | h
  · rw [hq, h, Nat.add_zero, h0]; simp [hk]
  · rw [hq, h, h1]; simp [hk]
  · rw [hq, h, h2]; simp [hk]

theorem brick_coords_linear (L x y z : Nat) (hx : x < 2 ^ L) (hy : y < 2 ^ L) (hz : z < 2 ^ L) :
    brick_coords_exact L (brick_linear_exact L x y z) = (x, y, z) := by
  have hbit : ∀ (v : Nat), v < 2 ^ L → ∀ q, ¬ q < L → v.testBit q = false := by
    intro v hv q hq
    apply Nat.testBit_lt_two_pow
    calc v < 2 ^ L := hv
      _ ≤ 2 ^ q := Nat.pow_le_pow_right (by decide) (by omega)
  have e1 : (brick_coords_exact L (brick_linear_exact L x y z)).1 = x := by
    apply Nat.eq_of_testBit_eq
    intro q
    rw [(brick_coords_testBit L _ q).1, (brick_linear_testBit L x y z q).1]
    by_cases hq : q < L
    · simp [hq]
    · simp [hq, hbit x hx q hq]
  have e2 : (brick_coords_exact L (brick_linear_exact L x y z)).2.1 = y := by
    apply Nat.eq_of_testBit_eq
    intro q
    rw [(brick_coords_testBit L _ q).2.1, (brick_linear_testBit L x y z q).2.1]
    by_cases hq : q < L
    · simp [hq]
    · simp [hq, hbit y hy q hq]
  have e3 : (brick_coords_exact L (brick_linear_exact L x y z)).2.2 = z := by
    apply Nat.eq_of_testBit_eq
    intro q
    rw [(brick_coords_testBit L _ q).2.2, (brick_linear_testBit L x y z q).2.2]
    by_cases hq : q < L
    · simp [hq]
    · simp [hq, hbit z hz q hq]
  exact Prod.ext e1 (Prod.ext e2 e3)

theorem brick_linear_coords (L ti : Nat) (h : ti < 2 ^ (3 * L)) :
    brick_linear_exact L (brick_coords_exact L ti).1 (brick_coords_exact L ti).2.1 (brick_coords_exact L ti).2.2 = ti := by
  apply Nat.eq_of_testBit_eq
  intro i
  have hq : i = 3 * (i / 3) + i % 3 := by omega
  obtain ⟨h0, h1, h2⟩ := brick_linear_testBit L (brick_coords_exact L ti).1 (brick_coords_exact L ti).2.1
    (brick_coords_exact L ti).2.2 (i / 3)
  obtain ⟨c0, c1, c2⟩ := brick_coords_testBit L ti (i / 3)
  have hhigh : ¬ i / 3 < L → ti.testBit i = false := by
    intro hk
    apply Nat.testBit_lt_two_pow
    calc ti < 2 ^ (3 * L) := h
      _ ≤ 2 ^ i := Nat.pow_le_pow_right (by decide) (by omega)
  have hd : i % 3 = 0 ∨ i % 3 = 1 ∨ i % 3 = 2 := by omega
  rcases hd with hh | hh | hh
  · have e : i = 3 * (i / 3) := by omega
    by_cases hk : i / 3 < L
    · rw [e, h0, c0]; simp [hk]
    · rw [hhigh hk, e, h0]; simp [hk]
  · have e : i = 3 * (i / 3) + 1 := by omega
    by_cases hk : i / 3 < L
    · rw [e, h1, c1]; simp [hk]
    · rw [hhigh hk, e, h1]; simp [hk]
  · have e : i = 3 * (i / 3) + 2 := by omega
    by_cases hk : i / 3 < L
    · rw [e, h2, c2]; simp [hk]
    · rw [hhigh hk, e, h2]; simp [hk]

/-! ## The numbering pass -/

theorem log2_floor_lt (fuel : Nat) : ∀ x, x ≤ fuel → 1 ≤ x → x < 2 ^ (log2_floor fuel x + 1) := by
  induction fuel with
  | zero => intro x h1 h2; omega
  | succ f ih =>
    intro x h1 h2
    unfold log2_floor
    by_cases hx : x < 2
    · rw [if_pos hx]; simp; omega
    · rw [if_neg hx]
      have := ih (x / 2) (by omega) (by omega)
      rw [Nat.pow_succ]
      omega

theorem sc_log2_bound (c : Int) (hc : 1 ≤ c) :
    0 ≤ SC_LOG2_32 (c - 1) + 1 ∧ c ≤ ((2 ^ (SC_LOG2_32 (c - 1) + 1).toNat : Nat) : Int) := by
  unfold SC_LOG2_32
  by_cases h : c - 1 ≤ 0
  · rw [if_pos h]
    have : c = 1 := by omega
    subst this
    simp
  · rw [if_neg h]
    have hlt := log2_floor_lt (c - 1).toNat (c - 1).toNat (le_refl _) (by omega)
    refine ⟨by omega, ?_⟩
    have e : ((log2_floor (c - 1).toNat (c - 1).toNat : Nat) : Int) + 1 =
        ((log2_floor (c - 1).toNat (c - 1).toNat + 1 : Nat) : Int) := by push_cast; rfl
    rw [e, Int.toNat_ofNat]
    have : c - 1 < ((2 ^ (log2_floor (c - 1).toNat (c - 1).toNat + 1) : Nat) : Int) := by
      have h2 : ((c - 1).toNat : Int) = c - 1 := Int.toNat_of_nonneg (by omega)
      rw [← h2]
      exact_mod_cast hlt
    omega

theorem brick_log_cl_bound (b : brick_t) (hm : 1 ≤ b.m) (_hn : 1 ≤ b.n) (_hp : 1 ≤ b.p) :
    0 ≤ b.log_cl ∧ b.m ≤ ((2 ^ b.log_cl.toNat : Nat) : Int) ∧
      b.n ≤ ((2 ^ b.log_cl.toNat : Nat) : Int) ∧ b.p ≤ ((2 ^ b.log_cl.toNat : Nat) : Int) := by
  unfold brick_t.log_cl
  simp only
  generalize hc : (if (if b.m > b.n then b.m else b.n) > b.p then (if b.m > b.n then b.m else b.n)
    else b.p) = c
  have hcm : b.m ≤ c ∧ b.n ≤ c ∧ b.p ≤ c := by
    rw [← hc]
    split <;> split <;> omega
  obtain ⟨h1, h2⟩ := sc_log2_bound c (by omega)
  exact ⟨h1, by omega, by omega, by omega⟩

theorem brick_n_iter_eq (b : brick_t) : b.n_iter_exact.toNat = 2 ^ (3 * b.log_cl.toNat) := by
  unfold brick_t.n_iter_exact
  simp only [Nat.one_shiftLeft]
  have : ((2 ^ b.log_cl.toNat : Nat) : Int) * ((2 ^ b.log_cl.toNat : Nat) : Int) *
      ((2 ^ b.log_cl.toNat : Nat) : Int) = ((2 ^ (3 * b.log_cl.toNat) : Nat) : Int) := by
    push_cast
    ring
  rw [this, Int.toNat_ofNat]

theorem brick_number_upto_succ (b : brick_t) (k : Nat) :
    brick_number_upto_exact b (k + 1) = brick_number_step_exact b (brick_number_upto_exact b k) k := by
  unfold brick_number_upto_exact
  rw [List.range_succ, List.foldl_append]
  rfl

theorem arr_set_some (a : Int → Option Int) (k : Int) (v : Option Int) (j : Int) :
    arr_set a (some k) v j = if j = k then v else a j := rfl

/-- The numbering step in one form for both branches of the corner test. -/
theorem brick_number_step_eq (b : brick_t) (s : brick_numbering_t) (ti : Nat) :
    brick_number_step_exact b s ti =
      if brick_inside b ti = true then
        { linear_to_tree := arr_set s.linear_to_tree (some (ti : Int)) (some s.tj),
          tree_to_corner2 := arr_set s.tree_to_corner2 (some s.tj)
            (some (if brick_corner_owned b ti = true then s.tk else -1)),
          tree_to_edge2 :=
            arr_set (arr_set (arr_set s.tree_to_edge2 (some (3 * s.tj))
              (some (if brick_edge_owned b ti 0 = true then s.tl else -1)))
              (some (3 * s.tj + 1))
              (some (if brick_edge_owned b ti 1 = true then
                s.tl + (if brick_edge_owned b ti 0 = true then 1 else 0) else -1)))
              (some (3 * s.tj + 2))
              (some (if brick_edge_owned b ti 2 = true then
                s.tl + (if brick_edge_owned b ti 0 = true then 1 else 0) +
                  (if brick_edge_owned b ti 1 = true then 1 else 0) else -1)),
          tj := s.tj + 1,
          tk := s.tk + (if brick_corner_owned b ti = true then 1 else 0),
          tl := s.tl + (if brick_edge_owned b ti 0 = true then 1 else 0) +
            (if brick_edge_owned b ti 1 = true then 1 else 0) +
            (if brick_edge_owned b ti 2 = true then 1 else 0) }
      else
        { s with linear_to_tree := arr_set s.linear_to_tree (some (ti : Int)) (some (-1)) } := by
  unfold brick_number_step_exact brick_inside brick_pos
  simp only [decide_eq_true_eq]
  split
  · rename_i hin
    have hu : ∀ d, brick_up b ti d = decide
        (brick_coord ((brick_coords_exact b.log_cl.toNat ti).1 : Int)
          ((brick_coords_exact b.log_cl.toNat ti).2.1 : Int)
          ((brick_coords_exact b.log_cl.toNat ti).2.2 : Int) d < b.max d ∨ b.periodic d ≠ 0) := by
      intro d; rfl
    have u0 : brick_up b ti 0 = decide
        (((brick_coords_exact b.log_cl.toNat ti).1 : Int) < b.m - 1 ∨ b.periodic_a ≠ 0) := by
      rw [hu]; rfl
    have u1 : brick_up b ti 1 = decide
        (((brick_coords_exact b.log_cl.toNat ti).2.1 : Int) < b.n - 1 ∨ b.periodic_b ≠ 0) := by
      rw [hu]; rfl
    have u2 : brick_up b ti 2 = decide
        (((brick_coords_exact b.log_cl.toNat ti).2.2 : Int) < b.p - 1 ∨ b.periodic_c ≠ 0) := by
      rw [hu]; rfl
    have e0 : brick_edge_owned b ti 0 = (brick_up b ti 1 && brick_up b ti 2) := rfl
    have e1 : brick_edge_owned b ti 1 = (brick_up b ti 0 && brick_up b ti 2) := rfl
    have e2 : brick_edge_owned b ti 2 = (brick_up b ti 0 && brick_up b ti 1) := rfl
    have ec : brick_corner_owned b ti = (brick_up b ti 0 && brick_up b ti 1 && brick_up b ti 2) :=
      rfl
    rw [e0, e1, e2, ec, u0, u1, u2]
    by_cases c0 : ((brick_coords_exact b.log_cl.toNat ti).1 : Int) < b.m - 1 ∨ b.periodic_a ≠ 0 <;>
    by_cases c1 : ((brick_coords_exact b.log_cl.toNat ti).2.1 : Int) < b.n - 1 ∨ b.periodic_b ≠ 0 <;>
    by_cases c2 : ((brick_coords_exact b.log_cl.toNat ti).2.2 : Int) < b.p - 1 ∨ b.periodic_c ≠ 0 <;>
    simp [c0, c1, c2, add_assoc]
  · rfl

theorem brick_counts_succ (b : brick_t) (k : Nat) :
    brick_tree_no b (k + 1) = brick_tree_no b k + (if brick_inside b k = true then 1 else 0) ∧
    brick_corner_no b (k + 1) = brick_corner_no b k +
      (if brick_inside b k = true ∧ brick_corner_owned b k = true then 1 else 0) ∧
    (brick_number_upto_exact b (k + 1)).tl = (brick_number_upto_exact b k).tl +
      (if brick_inside b k = true then
        (if brick_edge_owned b k 0 = true then 1 else 0) +
        (if brick_edge_owned b k 1 = true then 1 else 0) +
        (if brick_edge_owned b k 2 = true then 1 else 0) else 0) := by
  unfold brick_tree_no brick_corner_no
  rw [brick_number_upto_succ, brick_number_step_eq]
  by_cases h : brick_inside b k = true
  · rw [if_pos h]
    refine ⟨?_, ?_, ?_⟩
    · simp only [h, if_true]
    · simp only [h, true_and]
    · simp only [h, if_true, add_assoc]
  · rw [if_neg h]
    refine ⟨?_, ?_, ?_⟩
    · simp [h]
    · simp [h]
    · simp [h]

theorem brick_counts_mono (b : brick_t) (k1 : Nat) :
    ∀ k2, k1 ≤ k2 → brick_tree_no b k1 ≤ brick_tree_no b k2 ∧
      brick_corner_no b k1 ≤ brick_corner_no b k2 ∧
      (brick_number_upto_exact b k1).tl ≤ (brick_number_upto_exact b k2).tl := by
  intro k2 h
  induction k2 with
  | zero =>
    have : k1 = 0 := by omega
    subst this
    exact ⟨le_refl _, le_refl _, le_refl _⟩
  | succ k ih =>
    by_cases hk : k1 = k + 1
    · subst hk
      exact ⟨le_refl _, le_refl _, le_refl _⟩
    · obtain ⟨a1, a2, a3⟩ := ih (by omega)
      obtain ⟨s1, s2, s3⟩ := brick_counts_succ b k
      refine ⟨?_, ?_, ?_⟩
      · rw [s1]; split <;> omega
      · rw [s2]; split <;> omega
      · rw [s3]
        split
        · split <;> split <;> split <;> omega
        · omega

theorem brick_counts_zero (b : brick_t) :
    brick_tree_no b 0 = 0 ∧ brick_corner_no b 0 = 0 ∧ (brick_number_upto_exact b 0).tl = 0 :=
  ⟨rfl, rfl, rfl⟩

theorem brick_counts_nonneg (b : brick_t) (k : Nat) :
    0 ≤ brick_tree_no b k ∧ 0 ≤ brick_corner_no b k ∧ 0 ≤ (brick_number_upto_exact b k).tl := by
  obtain ⟨a1, a2, a3⟩ := brick_counts_mono b 0 k (by omega)
  obtain ⟨z1, z2, z3⟩ := brick_counts_zero b
  rw [z1] at a1; rw [z2] at a2; rw [z3] at a3
  exact ⟨a1, a2, a3⟩

/-- Trees are numbered in increasing order. -/
theorem brick_tree_no_lt (b : brick_t) (t1 t2 : Nat) (h : t1 < t2)
    (h1 : brick_inside b t1 = true) : brick_tree_no b t1 < brick_tree_no b t2 := by
  obtain ⟨s1, _, _⟩ := brick_counts_succ b t1
  obtain ⟨a1, _, _⟩ := brick_counts_mono b (t1 + 1) t2 (by omega)
  rw [s1, if_pos h1] at a1
  omega

theorem brick_tree_no_inj (b : brick_t) (t1 t2 : Nat) (h1 : brick_inside b t1 = true)
    (h2 : brick_inside b t2 = true) (h : brick_tree_no b t1 = brick_tree_no b t2) : t1 = t2 := by
  rcases Nat.lt_trichotomy t1 t2 with hlt | heq | hgt
  · have := brick_tree_no_lt b t1 t2 hlt h1; omega
  · exact heq
  · have := brick_tree_no_lt b t2 t1 hgt h2; omega

/-- What the numbering pass has stored after `K` iterations for a tree at
`ti < K`. -/
theorem brick_numbering_inv (b : brick_t) :
    ∀ K ti : Nat, ti < K → brick_inside b ti = true →
      (brick_number_upto_exact b K).linear_to_tree (ti : Int) = some (brick_tree_no b ti) ∧
      (brick_number_upto_exact b K).tree_to_corner2 (brick_tree_no b ti) =
        some (if brick_corner_owned b ti = true then brick_corner_no b ti else -1) ∧
      ∀ d : Nat, d < 3 →
        (brick_number_upto_exact b K).tree_to_edge2 (3 * brick_tree_no b ti + (d : Int)) =
          some (if brick_edge_owned b ti d = true then brick_edge_no b ti d else -1) := by
  intro K
  induction K with
  | zero => intro ti h; omega
  | succ K ih =>
    intro ti hti hin
    rw [brick_number_upto_succ, brick_number_step_eq]
    by_cases hK : brick_inside b K = true
    · rw [if_pos hK]
      simp only [arr_set_some]
      by_cases e : ti = K
      · subst e
        refine ⟨?_, ?_, ?_⟩
        · simp [brick_tree_no]
        · simp [brick_tree_no, brick_corner_no]
        · intro d hd
          have hd' : d = 0 ∨ d = 1 ∨ d = 2 := by omega
          unfold brick_edge_no brick_tree_no
          rcases hd' with h | h | h <;> subst h <;> simp
      · have hlt : ti < K := by omega
        obtain ⟨i1, i2, i3⟩ := ih ti hlt hin
        have hno := brick_tree_no_lt b ti K hlt hin
        have hK' : brick_tree_no b K = (brick_number_upto_exact b K).tj := rfl
        refine ⟨?_, ?_, ?_⟩
        · have : ((ti : Nat) : Int) ≠ (K : Int) := by omega
          rw [if_neg this]; exact i1
        · have : brick_tree_no b ti ≠ (brick_number_upto_exact b K).tj := by omega
          rw [if_neg this]; exact i2
        · intro d hd
          have n0 : 3 * brick_tree_no b ti + (d : Int) ≠ 3 * (brick_number_upto_exact b K).tj + 2 := by
            omega
          have n1 : 3 * brick_tree_no b ti + (d : Int) ≠ 3 * (brick_number_upto_exact b K).tj + 1 := by
            omega
          have n2 : 3 * brick_tree_no b ti + (d : Int) ≠ 3 * (brick_number_upto_exact b K).tj := by
            omega
          rw [if_neg n0, if_neg n1, if_neg n2]
          exact i3 d hd
    · rw [if_neg hK]
      simp only [arr_set_some]
      have e : ti ≠ K := by
        intro e; subst e; exact hK hin
      have hlt : ti < K := by omega
      obtain ⟨i1, i2, i3⟩ := ih ti hlt hin
      refine ⟨?_, i2, i3⟩
      have : ((ti : Nat) : Int) ≠ (K : Int) := by omega
      rw [if_neg this]; exact i1

/-! ## Counting over the Morton enumeration -/

theorem sum_morton (L : Nat) (F : Nat → Nat → Nat → Int) :
    (∑ ti in Finset.range (2 ^ (3 * L)),
        F (brick_coords_exact L ti).1 (brick_coords_exact L ti).2.1 (brick_coords_exact L ti).2.2) =
      ∑ x in Finset.range (2 ^ L), ∑ y in Finset.range (2 ^ L), ∑ z in Finset.range (2 ^ L),
        F x y z := by
  have h1 : (∑ x in Finset.range (2 ^ L), ∑ y in Finset.range (2 ^ L),
      ∑ z in Finset.range (2 ^ L), F x y z) =
      ∑ q in Finset.range (2 ^ L) ×ˢ (Finset.range (2 ^ L) ×ˢ Finset.range (2 ^ L)),
        F q.1 q.2.1 q.2.2 := by
    rw [Finset.sum_product]
    apply Finset.sum_congr rfl
    intro x _
    rw [Finset.sum_product]
  rw [h1]
  apply Finset.sum_nbij' (fun ti => brick_coords_exact L ti)
    (fun q => brick_linear_exact L q.1 q.2.1 q.2.2)
  · intro ti _
    obtain ⟨a, b, c⟩ := brick_coords_lt L ti
    simp only [Finset.mem_product, Finset.mem_range]
    exact ⟨a, b, c⟩
  · intro q _
    simp only [Finset.mem_range]
    exact brick_linear_lt L _ _ _
  · intro ti hti
    simp only [Finset.mem_range] at hti
    exact brick_linear_coords L ti hti
  · intro q hq
    simp only [Finset.mem_product, Finset.mem_range] at hq
    exact brick_coords_linear L q.1 q.2.1 q.2.2 hq.1 hq.2.1 hq.2.2
  · intro ti _
    rfl

theorem sum_morton_prod (L : Nat) (f g h : Nat → Int) :
    (∑ ti in Finset.range (2 ^ (3 * L)),
        f (brick_coords_exact L ti).1 * g (brick_coords_exact L ti).2.1 * h (brick_coords_exact L ti).2.2) =
      (∑ x in Finset.range (2 ^ L), f x) * (∑ y in Finset.range (2 ^ L), g y) *
        (∑ z in Finset.range (2 ^ L), h z) := by
  rw [sum_morton L (fun x y z => f x * g y * h z)]
  have e1 : ∀ x y, (∑ z in Finset.range (2 ^ L), f x * g y * h z) =
      f x * g y * ∑ z in Finset.range (2 ^ L), h z := by
    intro x y
    rw [Finset.mul_sum]
  have e2 : ∀ x, (∑ y in Finset.range (2 ^ L), f x * g y * ∑ z in Finset.range (2 ^ L), h z) =
      f x * ((∑ y in Finset.range (2 ^ L), g y) * ∑ z in Finset.range (2 ^ L), h z) := by
    intro x
    rw [← Finset.sum_mul, ← Finset.mul_sum, mul_assoc]
  simp only [e1, e2]
  rw [← Finset.sum_mul, mul_assoc]

theorem sum_below (M : Nat) (m : Int) (h0 : 0 ≤ m) (h : m ≤ (M : Int)) :
    (∑ x in Finset.range M, (if ((x : Nat) : Int) < m then (1 : Int) else 0)) = m := by
  have key : ∀ K : Nat, (∑ x in Finset.range K, (if ((x : Nat) : Int) < m then (1 : Int) else 0)) =
      if (K : Int) ≤ m then (K : Int) else m := by
    intro K
    induction K with
    | zero => simp [h0]
    | succ K ih =>
      rw [Finset.sum_range_succ, ih]
      push_cast
      split <;> split <;> split <;> omega
  rw [key M]
  split <;> omega

theorem sum_below_up (M : Nat) (m : Int) (per : Int) (h0 : 1 ≤ m) (h : m ≤ (M : Int)) :
    (∑ x in Finset.range M,
      (if ((x : Nat) : Int) < m ∧ (((x : Nat) : Int) < m - 1 ∨ per ≠ 0) then (1 : Int) else 0)) =
      if per ≠ 0 then m else m - 1 := by
  by_cases hp : per ≠ 0
  · rw [if_pos hp]
    refine Eq.trans ?_ (sum_below M m (by omega) h)
    apply Finset.sum_congr rfl
    intro x _
    by_cases hx : ((x : Nat) : Int) < m
    · simp [hx, hp]
    · simp [hx]
  · rw [if_neg hp]
    refine Eq.trans ?_ (sum_below M (m - 1) (by omega) (by omega))
    apply Finset.sum_congr rfl
    intro x _
    by_cases hx : ((x : Nat) : Int) < m - 1
    · have : ((x : Nat) : Int) < m := by omega
      simp [hx, this]
    · simp [hx, hp]

theorem sum_below_vertex (M : Nat) (m : Int) (h0 : 1 ≤ m) (h : m ≤ (M : Int)) :
    (∑ x in Finset.range M,
      (if ((x : Nat) : Int) < m then
        (if ((x : Nat) : Int) > 0 then (1 : Int) else 2) else 0)) = m + 1 := by
  have key : ∀ K : Nat, (∑ x in Finset.range K, (if ((x : Nat) : Int) < m then
        (if ((x : Nat) : Int) > 0 then (1 : Int) else 2) else 0)) =
      if K = 0 then 0 else if (K : Int) ≤ m then (K : Int) + 1 else m + 1 := by
    intro K
    induction K with
    | zero => simp
    | succ K ih =>
      rw [Finset.sum_range_succ, ih]
      push_cast
      by_cases hK : K = 0
      · subst hK
        simp
        omega
      · simp only [hK, if_false, Nat.succ_ne_zero]
        have : (K : Int) > 0 := by omega
        split <;> split <;> split <;> omega
  rw [key M]
  have : M ≠ 0 := by omega
  rw [if_neg this]
  split <;> omega

theorem brick_counts_sum (b : brick_t) (K : Nat) :
    brick_tree_no b K = (∑ ti in Finset.range K, (if brick_inside b ti = true then (1 : Int) else 0)) ∧
    brick_corner_no b K = (∑ ti in Finset.range K,
      (if brick_inside b ti = true ∧ brick_corner_owned b ti = true then (1 : Int) else 0)) ∧
    (brick_number_upto_exact b K).tl = (∑ ti in Finset.range K,
      (if brick_inside b ti = true then
        (if brick_edge_owned b ti 0 = true then (1 : Int) else 0) +
        (if brick_edge_owned b ti 1 = true then 1 else 0) +
        (if brick_edge_owned b ti 2 = true then 1 else 0) else 0)) := by
  induction K with
  | zero => exact ⟨rfl, rfl, rfl⟩
  | succ K ih =>
    obtain ⟨s1, s2, s3⟩ := brick_counts_succ b K
    obtain ⟨i1, i2, i3⟩ := ih
    rw [Finset.sum_range_succ, Finset.sum_range_succ, Finset.sum_range_succ, s1, s2, s3, i1, i2, i3]
    exact ⟨rfl, rfl, rfl⟩

theorem ind_and (P Q : Prop) [Decidable P] [Decidable Q] :
    (if P ∧ Q then (1 : Int) else 0) = (if P then 1 else 0) * (if Q then 1 else 0) := by
  by_cases hP : P <;> by_cases hQ : Q <;> simp [hP, hQ]

theorem ind_band (x y : Bool) :
    (if (x && y) = true then (1 : Int) else 0) =
      (if x = true then 1 else 0) * (if y = true then 1 else 0) := by
  cases x <;> cases y <;> simp

theorem ind_mul (P : Prop) [Decidable P] (v : Int) :
    (if P then v else 0) = (if P then 1 else 0) * v := by
  by_cases hP : P <;> simp [hP]

theorem sum_below_ind (M : Nat) (m : Int) (h0 : 0 ≤ m) (h : m ≤ (M : Int)) :
    (∑ x in Finset.range M, below_ind m x) = m :=
  sum_below M m h0 h

theorem sum_up_ind (M : Nat) (m : Int) (per : Int) (h0 : 1 ≤ m) (h : m ≤ (M : Int)) :
    (∑ x in Finset.range M, below_ind m x * up_ind m per x) = if per ≠ 0 then m else m - 1 := by
  refine Eq.trans ?_ (sum_below_up M m per h0 h)
  apply Finset.sum_congr rfl
  intro x _
  unfold below_ind up_ind
  rw [ind_and]

theorem brick_inside_ind (b : brick_t) (ti : Nat) :
    (if brick_inside b ti = true then (1 : Int) else 0) =
      below_ind b.m (brick_coords_exact b.log_cl.toNat ti).1 *
      below_ind b.n (brick_coords_exact b.log_cl.toNat ti).2.1 *
      below_ind b.p (brick_coords_exact b.log_cl.toNat ti).2.2 := by
  unfold brick_inside brick_pos below_ind
  simp only [decide_eq_true_eq]
  rw [ind_and, ind_and, mul_assoc]

theorem brick_up_ind (b : brick_t) (ti : Nat) :
    (if brick_up b ti 0 = true then (1 : Int) else 0) =
      up_ind b.m b.periodic_a (brick_coords_exact b.log_cl.toNat ti).1 ∧
    (if brick_up b ti 1 = true then (1 : Int) else 0) =
      up_ind b.n b.periodic_b (brick_coords_exact b.log_cl.toNat ti).2.1 ∧
    (if brick_up b ti 2 = true then (1 : Int) else 0) =
      up_ind b.p b.periodic_c (brick_coords_exact b.log_cl.toNat ti).2.2 := by
  refine ⟨?_, ?_, ?_⟩ <;>
  · unfold brick_up up_ind
    simp only [decide_eq_true_eq]
    rfl

/-- The numbering pass counts `m * n * p` trees, `mc * nc * pc` corners and
`m * nc * pc + mc * n * pc + mc * nc * p` edges. -/
theorem brick_numbering_counts (b : brick_t) (hm : 1 ≤ b.m) (hn : 1 ≤ b.n) (hp : 1 ≤ b.p) :
    (brick_numbering_exact b).tj = b.num_trees_exact ∧ (brick_numbering_exact b).tk = b.num_corners_exact ∧
      (brick_numbering_exact b).tl = b.num_edges_exact := by
  obtain ⟨_, bm, bn, bp⟩ := brick_log_cl_bound b hm hn hp
  obtain ⟨s1, s2, s3⟩ := brick_counts_sum b b.n_iter_exact.toNat
  have e1 : (brick_numbering_exact b).tj = brick_tree_no b b.n_iter_exact.toNat := rfl
  have e2 : (brick_numbering_exact b).tk = brick_corner_no b b.n_iter_exact.toNat := rfl
  have e3 : (brick_numbering_exact b).tl = (brick_number_upto_exact b b.n_iter_exact.toNat).tl := rfl
  rw [e1, e2, e3, s1, s2, s3, brick_n_iter_eq]
  have hI := brick_inside_ind b
  have hU := brick_up_ind b
  generalize b.log_cl.toNat = L at bm bn bp hI hU
  have fm := sum_below_ind (2 ^ L) b.m (by omega) bm
  have fn := sum_below_ind (2 ^ L) b.n (by omega) bn
  have fp := sum_below_ind (2 ^ L) b.p (by omega) bp
  have um := sum_up_ind (2 ^ L) b.m b.periodic_a hm bm
  have un := sum_up_ind (2 ^ L) b.n b.periodic_b hn bn
  have up := sum_up_ind (2 ^ L) b.p b.periodic_c hp bp
  refine ⟨?_, ?_, ?_⟩
  · refine Eq.trans (Finset.sum_congr rfl (fun ti _ => hI ti)) ?_
    rw [sum_morton_prod L (below_ind b.m) (below_ind b.n) (below_ind b.p), fm, fn, fp]
    rfl
  · have : ∀ ti, (if brick_inside b ti = true ∧ brick_corner_owned b ti = true then (1 : Int)
          else 0) =
        (fun x => below_ind b.m x * up_ind b.m b.periodic_a x) (brick_coords_exact L ti).1 *
        (fun y => below_ind b.n y * up_ind b.n b.periodic_b y) (brick_coords_exact L ti).2.1 *
        (fun z => below_ind b.p z * up_ind b.p b.periodic_c z) (brick_coords_exact L ti).2.2 := by
      intro ti
      obtain ⟨u0, u1, u2⟩ := hU ti
      unfold brick_corner_owned
      rw [ind_and, ind_band, ind_band, hI ti, u0, u1, u2]
      ring
    refine Eq.trans (Finset.sum_congr rfl (fun ti _ => this ti)) ?_
    rw [sum_morton_prod L (fun x => below_ind b.m x * up_ind b.m b.periodic_a x)
      (fun y => below_ind b.n y * up_ind b.n b.periodic_b y)
      (fun z => below_ind b.p z * up_ind b.p b.periodic_c z), um, un, up]
    rfl
  · have : ∀ ti, (if brick_inside b ti = true then
          (if brick_edge_owned b ti 0 = true then (1 : Int) else 0) +
          (if brick_edge_owned b ti 1 = true then 1 else 0) +
          (if brick_edge_owned b ti 2 = true then 1 else 0) else 0) =
        ((fun x => below_ind b.m x) (brick_coords_exact L ti).1 *
         (fun y => below_ind b.n y * up_ind b.n b.periodic_b y) (brick_coords_exact L ti).2.1 *
         (fun z => below_ind b.p z * up_ind b.p b.periodic_c z) (brick_coords_exact L ti).2.2) +
        ((fun x => below_ind b.m x * up_ind b.m b.periodic_a x) (brick_coords_exact L ti).1 *
         (fun y => below_ind b.n y) (brick_coords_exact L ti).2.1 *
         (fun z => below_ind b.p z * up_ind b.p b.periodic_c z) (brick_coords_exact L ti).2.2) +
        ((fun x => below_ind b.m x * up_ind b.m b.periodic_a x) (brick_coords_exact L ti).1 *
         (fun y => below_ind b.n y * up_ind b.n b.periodic_b y) (brick_coords_exact L ti).2.1 *
         (fun z => below_ind b.p z) (brick_coords_exact L ti).2.2) := by
      intro ti
      obtain ⟨u0, u1, u2⟩ := hU ti
      have d0 : brick_edge_owned b ti 0 = (brick_up b ti 1 && brick_up b ti 2) := rfl
      have d1 : brick_edge_owned b ti 1 = (brick_up b ti 0 && brick_up b ti 2) := rfl
      have d2 : brick_edge_owned b ti 2 = (brick_up b ti 0 && brick_up b ti 1) := rfl
      rw [ind_mul, d0, d1, d2, ind_band, ind_band, ind_band, hI ti, u0, u1, u2]
      ring
    refine Eq.trans (Finset.sum_congr rfl (fun ti _ => this ti)) ?_
    rw [Finset.sum_add_distrib, Finset.sum_add_distrib,
      sum_morton_prod L (fun x => below_ind b.m x)
        (fun y => below_ind b.n y * up_ind b.n b.periodic_b y)
        (fun z => below_ind b.p z * up_ind b.p b.periodic_c z),
      sum_morton_prod L (fun x => below_ind b.m x * up_ind b.m b.periodic_a x)
        (fun y => below_ind b.n y)
        (fun z => below_ind b.p z * up_ind b.p b.periodic_c z),
      sum_morton_prod L (fun x => below_ind b.m x * up_ind b.m b.periodic_a x)
        (fun y => below_ind b.n y * up_ind b.n b.periodic_b y)
        (fun z => below_ind b.p z), fm, fn, fp, um, un, up]
    rfl

/-! ## The vertex count -/

theorem brick_fill_upto_succ (b : brick_t) (k : Nat) :
    brick_fill_upto_exact b (k + 1) = brick_fill_step_exact b (brick_numbering_exact b) (brick_fill_upto_exact b k) k := by
  unfold brick_fill_upto_exact
  rw [List.range_succ, List.foldl_append]
  rfl

theorem brick_vertex_step_vcount (b : brick_t) (num : brick_numbering_t) (tx ty tz : Int)
    (tj : Option Int) (st : brick_arrays_t) (i : Nat) :
    (brick_vertex_step_exact b num tx ty tz tj st i).vcount = st.vcount +
      (if (tz > 0 ∧ i >>> 2 = 0) ∨ (ty > 0 ∧ (i >>> 1) &&& 1 = 0) ∨ (tx > 0 ∧ i &&& 1 = 0)
        then 0 else 1) := by
  unfold brick_vertex_step_exact
  simp only
  by_cases hz : tz > 0 ∧ i >>> 2 = 0
  · rw [if_pos hz, if_pos (Or.inl hz)]; simp
  · rw [if_neg hz]
    by_cases hy : ty > 0 ∧ (i >>> 1) &&& 1 = 0
    · rw [if_pos hy, if_pos (Or.inr (Or.inl hy))]; simp
    · rw [if_neg hy]
      by_cases hx : tx > 0 ∧ i &&& 1 = 0
      · rw [if_pos hx, if_pos (Or.inr (Or.inr hx))]; simp
      · rw [if_neg hx, if_neg (by tauto)]

theorem brick_vertex_fold_vcount (b : brick_t) (num : brick_numbering_t) (tx ty tz : Int)
    (tj : Option Int) :
    ∀ (l : List Nat) (st : brick_arrays_t),
      (l.foldl (brick_vertex_step_exact b num tx ty tz tj) st).vcount = st.vcount +
        (l.map fun i => (if (tz > 0 ∧ i >>> 2 = 0) ∨ (ty > 0 ∧ (i >>> 1) &&& 1 = 0) ∨
          (tx > 0 ∧ i &&& 1 = 0) then (0 : Int) else 1)).sum := by
  intro l
  induction l with
  | nil => intro st; simp
  | cons i rest ih =>
    intro st
    rw [List.foldl_cons, ih, brick_vertex_step_vcount, List.map_cons, List.sum_cons]
    omega

theorem vertex_corner_sum (tx ty tz : Nat) :
    ((List.range 8).map fun i => (if (((tz : Nat) : Int) > 0 ∧ i >>> 2 = 0) ∨
        (((ty : Nat) : Int) > 0 ∧ (i >>> 1) &&& 1 = 0) ∨
        (((tx : Nat) : Int) > 0 ∧ i &&& 1 = 0) then (0 : Int) else 1)).sum =
      vertex_ind tx * vertex_ind ty * vertex_ind tz := by
  have h8 : List.range 8 = [0, 1, 2, 3, 4, 5, 6, 7] := by decide
  rw [h8]
  unfold vertex_ind
  by_cases hx : ((tx : Nat) : Int) > 0 <;> by_cases hy : ((ty : Nat) : Int) > 0 <;>
    by_cases hz : ((tz : Nat) : Int) > 0 <;> simp [hx, hy, hz]

theorem brick_fill_step_vcount (b : brick_t) (st : brick_arrays_t) (ti : Nat) :
    (brick_fill_step_exact b (brick_numbering_exact b) st ti).vcount = st.vcount +
      (if brick_inside b ti = true then
        vertex_ind (brick_coords_exact b.log_cl.toNat ti).1 *
        vertex_ind (brick_coords_exact b.log_cl.toNat ti).2.1 *
        vertex_ind (brick_coords_exact b.log_cl.toNat ti).2.2 else 0) := by
  unfold brick_fill_step_exact brick_inside brick_pos
  simp only [decide_eq_true_eq]
  split
  · rw [brick_vertex_fold_vcount, vertex_corner_sum]
  · simp

theorem brick_vcount_sum (b : brick_t) (K : Nat) :
    (brick_fill_upto_exact b K).vcount = ∑ ti in Finset.range K,
      (if brick_inside b ti = true then
        vertex_ind (brick_coords_exact b.log_cl.toNat ti).1 *
        vertex_ind (brick_coords_exact b.log_cl.toNat ti).2.1 *
        vertex_ind (brick_coords_exact b.log_cl.toNat ti).2.2 else 0) := by
  induction K with
  | zero => rfl
  | succ K ih =>
    rw [brick_fill_upto_succ, brick_fill_step_vcount, ih, Finset.sum_range_succ]

theorem sum_vertex_ind (M : Nat) (m : Int) (h0 : 1 ≤ m) (h : m ≤ (M : Int)) :
    (∑ x in Finset.range M, below_ind m x * vertex_ind x) = m + 1 := by
  refine Eq.trans ?_ (sum_below_vertex M m h0 h)
  apply Finset.sum_congr rfl
  intro x _
  unfold below_ind vertex_ind
  by_cases hx : ((x : Nat) : Int) < m <;> simp [hx]

/-- The second pass creates `(m + 1) * (n + 1) * (p + 1)` vertices. -/
theorem brick_vertex_count (b : brick_t) (hm : 1 ≤ b.m) (hn : 1 ≤ b.n) (hp : 1 ≤ b.p) :
    (brick_arrays_exact b).vcount = b.num_vertices_exact := by
  obtain ⟨_, bm, bn, bp⟩ := brick_log_cl_bound b hm hn hp
  unfold brick_arrays_exact
  rw [brick_vcount_sum, brick_n_iter_eq]
  have hI := brick_inside_ind b
  generalize b.log_cl.toNat = L at bm bn bp hI
  have : ∀ ti, (if brick_inside b ti = true then
        vertex_ind (brick_coords_exact L ti).1 * vertex_ind (brick_coords_exact L ti).2.1 *
          vertex_ind (brick_coords_exact L ti).2.2 else 0) =
      (fun x => below_ind b.m x * vertex_ind x) (brick_coords_exact L ti).1 *
      (fun y => below_ind b.n y * vertex_ind y) (brick_coords_exact L ti).2.1 *
      (fun z => below_ind b.p z * vertex_ind z) (brick_coords_exact L ti).2.2 := by
    intro ti
    rw [ind_mul, hI ti]
    ring
  refine Eq.trans (Finset.sum_congr rfl (fun ti _ => this ti)) ?_
  rw [sum_morton_prod L (fun x => below_ind b.m x * vertex_ind x)
    (fun y => below_ind b.n y * vertex_ind y) (fun z => below_ind b.p z * vertex_ind z),
    sum_vertex_ind _ _ hm bm, sum_vertex_ind _ _ hn bn, sum_vertex_ind _ _ hp bp]
  rfl

/-! ## Sequences of array writes -/

theorem arr_writes_cons (a : Int → Option Int) (w : Option Int × Option Int)
    (ws : List (Option Int × Option Int)) :
    arr_writes a (w :: ws) = arr_writes (arr_set a w.1 w.2) ws := rfl

theorem arr_writes_append (a : Int → Option Int) (ws1 ws2 : List (Option Int × Option Int)) :
    arr_writes a (ws1 ++ ws2) = arr_writes (arr_writes a ws1) ws2 := by
  unfold arr_writes
  rw [List.foldl_append]

/-- A cell that no write addresses keeps its value. -/
theorem arr_writes_other (k : Int) :
    ∀ (ws : List (Option Int × Option Int)) (a : Int → Option Int),
      (∀ w ∈ ws, ∃ i, w.1 = some i ∧ i ≠ k) → arr_writes a ws k = a k := by
  intro ws
  induction ws with
  | nil => intro a _; rfl
  | cons w rest ih =>
    intro a h
    rw [arr_writes_cons, ih _ (fun w' hw' => h w' (List.mem_cons_of_mem _ hw'))]
    obtain ⟨i, hi, hne⟩ := h w (List.mem_cons_self _ _)
    rw [hi, arr_set_some, if_neg (Ne.symm hne)]

/-- A cell that is written, always with the same value, holds that value. -/
theorem arr_writes_value (k : Int) (v : Option Int) :
    ∀ (ws : List (Option Int × Option Int)) (a : Int → Option Int),
      (∀ w ∈ ws, ∃ i, w.1 = some i) → (∀ w ∈ ws, w.1 = some k → w.2 = v) →
      (∃ w ∈ ws, w.1 = some k) → arr_writes a ws k = v := by
  intro ws
  induction ws with
  | nil => intro a _ _ h; obtain ⟨w, hw, _⟩ := h; simp at hw
  | cons w rest ih =>
    intro a h1 h2 h3
    rw [arr_writes_cons]
    by_cases hr : ∃ w' ∈ rest, w'.1 = some k
    · exact ih _ (fun w' hw' => h1 w' (List.mem_cons_of_mem _ hw'))
        (fun w' hw' => h2 w' (List.mem_cons_of_mem _ hw')) hr
    · have hw : w.1 = some k := by
        obtain ⟨w', hw', hk⟩ := h3
        rcases List.mem_cons.mp hw' with e | e
        · rw [← e]; exact hk
        · exact absurd ⟨w', e, hk⟩ hr
      rw [arr_writes_other k rest]
      · rw [hw, arr_set_some, if_pos rfl]
        exact h2 w (List.mem_cons_self _ _) hw
      · intro w' hw'
        obtain ⟨i, hi⟩ := h1 w' (List.mem_cons_of_mem _ hw')
        refine ⟨i, hi, ?_⟩
        intro e
        exact hr ⟨w', hw', by rw [hi, e]⟩

/-- A cell holds a determinate value only if a write stored it there. -/
theorem arr_writes_source (k : Int) (v : Int) :
    ∀ (ws : List (Option Int × Option Int)) (a : Int → Option Int),
      arr_writes a ws k = some v → a k = some v ∨ ∃ w ∈ ws, w.1 = some k ∧ w.2 = some v := by
  intro ws
  induction ws with
  | nil => intro a h; exact Or.inl h
  | cons w rest ih =>
    intro a h
    rw [arr_writes_cons] at h
    rcases ih _ h with h' | ⟨w', hw', h'⟩
    · cases hw : w.1 with
      | none =>
        rw [hw] at h'
        simp [arr_set] at h'
      | some i =>
        rw [hw, arr_set_some] at h'
        by_cases e : k = i
        · rw [if_pos e] at h'
          right
          exact ⟨w, List.mem_cons_self _ _, by rw [hw, e], h'⟩
        · rw [if_neg e] at h'
          exact Or.inl h'
    · right
      exact ⟨w', List.mem_cons_of_mem _ hw', h'⟩

/-! ## The second pass as sequences of writes -/

theorem brick_vertex_fold_fields (b : brick_t) (num : brick_numbering_t) (tx ty tz : Int)
    (tj : Option Int) :
    ∀ (l : List Nat) (st : brick_arrays_t),
      (l.foldl (brick_vertex_step_exact b num tx ty tz tj) st).tree_to_tree = st.tree_to_tree ∧
      (l.foldl (brick_vertex_step_exact b num tx ty tz tj) st).tree_to_face = st.tree_to_face ∧
      (l.foldl (brick_vertex_step_exact b num tx ty tz tj) st).tree_to_edge = st.tree_to_edge ∧
      (l.foldl (brick_vertex_step_exact b num tx ty tz tj) st).edge_to_tree = st.edge_to_tree ∧
      (l.foldl (brick_vertex_step_exact b num tx ty tz tj) st).edge_to_edge = st.edge_to_edge ∧
      (l.foldl (brick_vertex_step_exact b num tx ty tz tj) st).tree_to_corner = st.tree_to_corner ∧
      (l.foldl (brick_vertex_step_exact b num tx ty tz tj) st).corner_to_tree = st.corner_to_tree ∧
      (l.foldl (brick_vertex_step_exact b num tx ty tz tj) st).corner_to_corner = st.corner_to_corner := by
  intro l
  induction l with
  | nil => intro st; exact ⟨rfl, rfl, rfl, rfl, rfl, rfl, rfl, rfl⟩
  | cons i rest ih =>
    intro st
    rw [List.foldl_cons]
    obtain ⟨h1, h2, h3, h4, h5, h6, h7, h8⟩ := ih (brick_vertex_step_exact b num tx ty tz tj st i)
    rw [h1, h2, h3, h4, h5, h6, h7, h8]
    unfold brick_vertex_step_exact
    simp only
    split
    · exact ⟨rfl, rfl, rfl, rfl, rfl, rfl, rfl, rfl⟩
    · split
      · exact ⟨rfl, rfl, rfl, rfl, rfl, rfl, rfl, rfl⟩
      · split
        · exact ⟨rfl, rfl, rfl, rfl, rfl, rfl, rfl, rfl⟩
        · exact ⟨rfl, rfl, rfl, rfl, rfl, rfl, rfl, rfl⟩

theorem arr_writes_nil (a : Int → Option Int) : arr_writes a [] = a := rfl

theorem brick_fill_step_fields (b : brick_t) (st : brick_arrays_t) (ti : Nat) :
    (brick_fill_step_exact b (brick_numbering_exact b) st ti).tree_to_tree =
      arr_writes st.tree_to_tree (brick_writes b 0 ti) ∧
    (brick_fill_step_exact b (brick_numbering_exact b) st ti).tree_to_face =
      arr_writes st.tree_to_face (brick_writes b 1 ti) ∧
    (brick_fill_step_exact b (brick_numbering_exact b) st ti).tree_to_edge =
      arr_writes st.tree_to_edge (brick_writes b 2 ti) ∧
    (brick_fill_step_exact b (brick_numbering_exact b) st ti).edge_to_tree =
      arr_writes st.edge_to_tree (brick_writes b 3 ti) ∧
    (brick_fill_step_exact b (brick_numbering_exact b) st ti).edge_to_edge =
      arr_writes st.edge_to_edge (brick_writes b 4 ti) ∧
    (brick_fill_step_exact b (brick_numbering_exact b) st ti).tree_to_corner =
      arr_writes st.tree_to_corner (brick_writes b 5 ti) ∧
    (brick_fill_step_exact b (brick_numbering_exact b) st ti).corner_to_tree =
      arr_writes st.corner_to_tree (brick_writes b 6 ti) ∧
    (brick_fill_step_exact b (brick_numbering_exact b) st ti).corner_to_corner =
      arr_writes st.corner_to_corner (brick_writes b 7 ti) := by
  by_cases hin : brick_inside b ti = true
  · have hin' : ((brick_coords_exact b.log_cl.toNat ti).1 : Int) < b.m ∧
        ((brick_coords_exact b.log_cl.toNat ti).2.1 : Int) < b.n ∧
        ((brick_coords_exact b.log_cl.toNat ti).2.2 : Int) < b.p := by
      unfold brick_inside brick_pos at hin
      exact of_decide_eq_true hin
    unfold brick_fill_step_exact brick_writes
    simp only [if_pos hin, if_pos hin']
    have hv := brick_vertex_fold_fields b (brick_numbering_exact b)
      ((brick_coords_exact b.log_cl.toNat ti).1 : Int) ((brick_coords_exact b.log_cl.toNat ti).2.1 : Int)
      ((brick_coords_exact b.log_cl.toNat ti).2.2 : Int)
      (arr_get (brick_numbering_exact b).linear_to_tree (some (ti : Int))) (List.range 8)
    rw [(hv _).1, (hv _).2.1, (hv _).2.2.1, (hv _).2.2.2.1, (hv _).2.2.2.2.1,
      (hv _).2.2.2.2.2.1, (hv _).2.2.2.2.2.2.1, (hv _).2.2.2.2.2.2.2]
    refine ⟨rfl, rfl, ?_, ?_, ?_, ?_, ?_, ?_⟩ <;>
    · simp only
      split <;> rfl
  · have hin' : ¬ (((brick_coords_exact b.log_cl.toNat ti).1 : Int) < b.m ∧
        ((brick_coords_exact b.log_cl.toNat ti).2.1 : Int) < b.n ∧
        ((brick_coords_exact b.log_cl.toNat ti).2.2 : Int) < b.p) := by
      intro h
      apply hin
      unfold brick_inside brick_pos
      exact decide_eq_true h
    unfold brick_fill_step_exact brick_writes
    simp only [if_neg hin, if_neg hin']
    exact ⟨rfl, rfl, rfl, rfl, rfl, rfl, rfl, rfl⟩

theorem brick_all_writes_succ (b : brick_t) (sel k : Nat) :
    brick_all_writes b sel (k + 1) = brick_all_writes b sel k ++ brick_writes b sel k := by
  unfold brick_all_writes
  rw [List.range_succ, List.map_append, List.flatten_append]
  simp

/-- Each array of the connectivity after `K` iterations of the second pass is
the result of the writes of these iterations. -/
theorem brick_fill_fields (b : brick_t) (K : Nat) :
    (brick_fill_upto_exact b K).tree_to_tree = arr_writes (fun _ => none) (brick_all_writes b 0 K) ∧
    (brick_fill_upto_exact b K).tree_to_face = arr_writes (fun _ => none) (brick_all_writes b 1 K) ∧
    (brick_fill_upto_exact b K).tree_to_edge = arr_writes (fun _ => none) (brick_all_writes b 2 K) ∧
    (brick_fill_upto_exact b K).edge_to_tree = arr_writes (fun _ => none) (brick_all_writes b 3 K) ∧
    (brick_fill_upto_exact b K).edge_to_edge = arr_writes (fun _ => none) (brick_all_writes b 4 K) ∧
    (brick_fill_upto_exact b K).tree_to_corner = arr_writes (fun _ => none) (brick_all_writes b 5 K) ∧
    (brick_fill_upto_exact b K).corner_to_tree = arr_writes (fun _ => none) (brick_all_writes b 6 K) ∧
    (brick_fill_upto_exact b K).corner_to_corner =
      arr_writes (fun _ => none) (brick_all_writes b 7 K) := by
  induction K with
  | zero => exact ⟨rfl, rfl, rfl, rfl, rfl, rfl, rfl, rfl⟩
  | succ K ih =>
    obtain ⟨i1, i2, i3, i4, i5, i6, i7, i8⟩ := ih
    obtain ⟨s1, s2, s3, s4, s5, s6, s7, s8⟩ := brick_fill_step_fields b (brick_fill_upto_exact b K) K
    rw [brick_fill_upto_succ, s1, s2, s3, s4, s5, s6, s7, s8, i1, i2, i3, i4, i5, i6, i7, i8]
    refine ⟨?_, ?_, ?_, ?_, ?_, ?_, ?_, ?_⟩ <;> rw [brick_all_writes_succ, arr_writes_append]

theorem mem_brick_all_writes (b : brick_t) (sel K : Nat) (w : Option Int × Option Int) :
    w ∈ brick_all_writes b sel K ↔ ∃ ti, ti < K ∧ w ∈ brick_writes b sel ti := by
  unfold brick_all_writes
  rw [List.mem_flatten]
  constructor
  · rintro ⟨l, hl, hw⟩
    obtain ⟨ti, hti, rfl⟩ := List.mem_map.mp hl
    exact ⟨ti, List.mem_range.mp hti, hw⟩
  · rintro ⟨ti, hti, hw⟩
    exact ⟨_, List.mem_map.mpr ⟨ti, List.mem_range.mpr hti, rfl⟩, hw⟩

/-! ## Neighbor positions -/

theorem brick_shift_val (size c : Int) (h1 : 1 ≤ size) (h2 : 0 ≤ c) (h3 : c < size) :
    brick_shift size c 0 = c ∧
    brick_shift size c (-1) = (if c = 0 then size - 1 else c - 1) ∧
    brick_shift size c 1 = (if c = size - 1 then 0 else c + 1) := by
  unfold brick_shift
  refine ⟨?_, ?_, ?_⟩
  · rw [Int.tmod_eq_emod (by omega) (by omega), add_zero, Int.add_emod_self,
      Int.emod_eq_of_lt h2 h3]
  · rw [Int.tmod_eq_emod (by omega) (by omega)]
    by_cases hc : c = 0
    · rw [if_pos hc, hc]
      have : (0 : Int) + -1 + size = size - 1 := by ring
      rw [this, Int.emod_eq_of_lt (by omega) (by omega)]
    · rw [if_neg hc, Int.add_emod_self, Int.emod_eq_of_lt (by omega) (by omega)]
      ring
  · rw [Int.tmod_eq_emod (by omega) (by omega)]
    by_cases hc : c = size - 1
    · rw [if_pos hc, hc]
      have : size - 1 + 1 + size = size + size := by ring
      rw [this, Int.add_emod_self, Int.emod_self]
    · rw [if_neg hc, Int.add_emod_self, Int.emod_eq_of_lt (by omega) (by omega)]

theorem brick_shift_range (size c d : Int) (h1 : 1 ≤ size) (h2 : 0 ≤ c) (h3 : c < size)
    (hd : d = -1 ∨ d = 0 ∨ d = 1) :
    0 ≤ brick_shift size c d ∧ brick_shift size c d < size := by
  obtain ⟨a0, a1, a2⟩ := brick_shift_val size c h1 h2 h3
  rcases hd with h | h | h <;> subst h
  · rw [a1]; split <;> omega
  · rw [a0]; omega
  · rw [a2]; split <;> omega

theorem brick_shift_inv (size c d : Int) (h1 : 1 ≤ size) (h2 : 0 ≤ c) (h3 : c < size)
    (hd : d = -1 ∨ d = 0 ∨ d = 1) :
    brick_shift size (brick_shift size c d) (-d) = c := by
  obtain ⟨r1, r2⟩ := brick_shift_range size c d h1 h2 h3 hd
  obtain ⟨a0, a1, a2⟩ := brick_shift_val size c h1 h2 h3
  obtain ⟨b0, b1, b2⟩ := brick_shift_val size (brick_shift size c d) h1 r1 r2
  rcases hd with h | h | h <;> subst h
  · rw [show (-(-1 : Int)) = 1 by norm_num, b2, a1]
    split <;> split <;> omega
  · rw [show (-(0 : Int)) = 0 by norm_num, b0, a0]
  · rw [b1, a2]
    split <;> split <;> omega

theorem brick_pos_eq (b : brick_t) (ti : Nat) :
    brick_pos b ti = (((brick_coords_exact b.log_cl.toNat ti).1 : Int),
      ((brick_coords_exact b.log_cl.toNat ti).2.1 : Int), ((brick_coords_exact b.log_cl.toNat ti).2.2 : Int)) :=
  rfl

/-- The neighbor position is a tree, and the numbering pass has stored its
number. -/
theorem brick_nb_spec (b : brick_t) (hm : 1 ≤ b.m) (hn : 1 ≤ b.n) (hp : 1 ≤ b.p)
    (tx ty tz dx dy dz : Int) (hx : 0 ≤ tx ∧ tx < b.m) (hy : 0 ≤ ty ∧ ty < b.n)
    (hz : 0 ≤ tz ∧ tz < b.p) (hdx : dx = -1 ∨ dx = 0 ∨ dx = 1) (hdy : dy = -1 ∨ dy = 0 ∨ dy = 1)
    (hdz : dz = -1 ∨ dz = 0 ∨ dz = 1) :
    brick_nb b tx ty tz dx dy dz < b.n_iter_exact.toNat ∧
    brick_pos b (brick_nb b tx ty tz dx dy dz) =
      (brick_shift b.m tx dx, brick_shift b.n ty dy, brick_shift b.p tz dz) ∧
    brick_inside b (brick_nb b tx ty tz dx dy dz) = true ∧
    (brick_numbering_exact b).linear_to_tree ((brick_nb b tx ty tz dx dy dz : Nat) : Int) =
      some (brick_tree_no b (brick_nb b tx ty tz dx dy dz)) := by
  obtain ⟨_, bm, bn, bp⟩ := brick_log_cl_bound b hm hn hp
  obtain ⟨x0, x1⟩ := brick_shift_range b.m tx dx hm hx.1 hx.2 hdx
  obtain ⟨y0, y1⟩ := brick_shift_range b.n ty dy hn hy.1 hy.2 hdy
  obtain ⟨z0, z1⟩ := brick_shift_range b.p tz dz hp hz.1 hz.2 hdz
  have hlt : brick_nb b tx ty tz dx dy dz < b.n_iter_exact.toNat := by
    rw [brick_n_iter_eq]
    exact brick_linear_lt _ _ _ _
  have hX : (brick_shift b.m tx dx).toNat < 2 ^ b.log_cl.toNat := by
    have : ((brick_shift b.m tx dx).toNat : Int) = brick_shift b.m tx dx := Int.toNat_of_nonneg x0
    have h2 : ((brick_shift b.m tx dx).toNat : Int) < ((2 ^ b.log_cl.toNat : Nat) : Int) := by omega
    exact_mod_cast h2
  have hY : (brick_shift b.n ty dy).toNat < 2 ^ b.log_cl.toNat := by
    have : ((brick_shift b.n ty dy).toNat : Int) = brick_shift b.n ty dy := Int.toNat_of_nonneg y0
    have h2 : ((brick_shift b.n ty dy).toNat : Int) < ((2 ^ b.log_cl.toNat : Nat) : Int) := by omega
    exact_mod_cast h2
  have hZ : (brick_shift b.p tz dz).toNat < 2 ^ b.log_cl.toNat := by
    have : ((brick_shift b.p tz dz).toNat : Int) = brick_shift b.p tz dz := Int.toNat_of_nonneg z0
    have h2 : ((brick_shift b.p tz dz).toNat : Int) < ((2 ^ b.log_cl.toNat : Nat) : Int) := by omega
    exact_mod_cast h2
  have hpos : brick_pos b (brick_nb b tx ty tz dx dy dz) =
      (brick_shift b.m tx dx, brick_shift b.n ty dy, brick_shift b.p tz dz) := by
    rw [brick_pos_eq]
    unfold brick_nb
    rw [brick_coords_linear _ _ _ _ hX hY hZ]
    simp only [Int.toNat_of_nonneg x0, Int.toNat_of_nonneg y0, Int.toNat_of_nonneg z0]
  have hin : brick_inside b (brick_nb b tx ty tz dx dy dz) = true := by
    unfold brick_inside
    rw [hpos]
    exact decide_eq_true ⟨x1, y1, z1⟩
  exact ⟨hlt, hpos, hin, (brick_numbering_inv b _ _ hlt hin).1⟩

/-- A tree of the brick: its position lies in the brick, its Morton index is
the one of its position, and the second pass reads its number. -/
theorem brick_tree_spec (b : brick_t) (ti : Nat) (hti : ti < b.n_iter_exact.toNat)
    (hin : brick_inside b ti = true) :
    (0 ≤ (brick_pos b ti).1 ∧ (brick_pos b ti).1 < b.m) ∧
    (0 ≤ (brick_pos b ti).2.1 ∧ (brick_pos b ti).2.1 < b.n) ∧
    (0 ≤ (brick_pos b ti).2.2 ∧ (brick_pos b ti).2.2 < b.p) ∧
    brick_nb b (brick_pos b ti).1 (brick_pos b ti).2.1 (brick_pos b ti).2.2 0 0 0 = ti ∧
    brick_tj b ti = some (brick_tree_no b ti) := by
  have hin' := hin
  unfold brick_inside at hin'
  have h3 := of_decide_eq_true hin'
  have p1 : 0 ≤ (brick_pos b ti).1 := by rw [brick_pos_eq]; exact Int.ofNat_nonneg _
  have p2 : 0 ≤ (brick_pos b ti).2.1 := by rw [brick_pos_eq]; exact Int.ofNat_nonneg _
  have p3 : 0 ≤ (brick_pos b ti).2.2 := by rw [brick_pos_eq]; exact Int.ofNat_nonneg _
  refine ⟨⟨p1, h3.1⟩, ⟨p2, h3.2.1⟩, ⟨p3, h3.2.2⟩, ?_, ?_⟩
  · unfold brick_nb
    have hm : 1 ≤ b.m := by omega
    have hn : 1 ≤ b.n := by omega
    have hp : 1 ≤ b.p := by omega
    rw [(brick_shift_val b.m _ hm p1 h3.1).1, (brick_shift_val b.n _ hn p2 h3.2.1).1,
      (brick_shift_val b.p _ hp p3 h3.2.2).1, brick_pos_eq]
    simp only [Int.toNat_ofNat]
    rw [brick_n_iter_eq] at hti
    exact brick_linear_coords _ _ hti
  · unfold brick_tj arr_get
    simp only [Option.some_bind]
    exact (brick_numbering_inv b _ _ hti hin).1

/-! ## The arrays that are written in blocks, one block per tree -/

theorem block_index_inj (a a' : Int) (w l l' : Nat) (hl : l < w) (hl' : l' < w)
    (h : a * (w : Int) + (l : Int) = a' * (w : Int) + (l' : Int)) : a = a' ∧ l = l' := by
  have hw : (0 : Int) < (w : Int) := by omega
  have ha : a = a' := by
    rcases lt_trichotomy a a' with h1 | h1 | h1
    · exfalso
      have : (a + 1) * (w : Int) ≤ a' * (w : Int) :=
        mul_le_mul_of_nonneg_right (by omega) (le_of_lt hw)
      have e : (a + 1) * (w : Int) = a * (w : Int) + (w : Int) := by ring
      omega
    · exact h1
    · exfalso
      have : (a' + 1) * (w : Int) ≤ a * (w : Int) :=
        mul_le_mul_of_nonneg_right (by omega) (le_of_lt hw)
      have e : (a' + 1) * (w : Int) = a' * (w : Int) + (w : Int) := by ring
      omega
  subst ha
  exact ⟨rfl, by omega⟩

/-- The final value of a cell of an array that every tree writes as one block
of `w` cells at `tj * w`. -/
theorem brick_block_value (b : brick_t) (sel w : Nat) (val : Nat → Nat → Option Int)
    (hW : ∀ ti, ti < b.n_iter_exact.toNat → brick_inside b ti = true →
      brick_writes b sel ti = (List.range w).map fun (l : Nat) =>
        ((brick_tj b ti).map fun t => t * (w : Int) + (l : Int), val ti l))
    (ti0 : Nat) (h0 : ti0 < b.n_iter_exact.toNat) (hin0 : brick_inside b ti0 = true)
    (l0 : Nat) (hl0 : l0 < w) :
    arr_writes (fun _ => none) (brick_all_writes b sel b.n_iter_exact.toNat)
      (brick_tree_no b ti0 * (w : Int) + (l0 : Int)) = val ti0 l0 := by
  have hmem : ∀ wr ∈ brick_all_writes b sel b.n_iter_exact.toNat, ∃ ti l, ti < b.n_iter_exact.toNat ∧
      brick_inside b ti = true ∧ l < w ∧
      wr = (some (brick_tree_no b ti * (w : Int) + (l : Int)), val ti l) := by
    intro wr hwr
    obtain ⟨ti, hti, hw⟩ := (mem_brick_all_writes b sel _ wr).mp hwr
    by_cases hin : brick_inside b ti = true
    · rw [hW ti hti hin] at hw
      obtain ⟨l, hl, rfl⟩ := List.mem_map.mp hw
      refine ⟨ti, l, hti, hin, List.mem_range.mp hl, ?_⟩
      rw [(brick_tree_spec b ti hti hin).2.2.2.2]
      rfl
    · unfold brick_writes at hw
      rw [if_neg hin] at hw
      simp at hw
  apply arr_writes_value
  · intro wr hwr
    obtain ⟨ti, l, _, _, _, rfl⟩ := hmem wr hwr
    exact ⟨_, rfl⟩
  · intro wr hwr hk
    obtain ⟨ti, l, hti, hin, hl, rfl⟩ := hmem wr hwr
    simp only [Option.some.injEq] at hk
    obtain ⟨e1, e2⟩ := block_index_inj _ _ w l l0 hl hl0 hk
    have := brick_tree_no_inj b ti ti0 hin hin0 e1
    subst this
    subst e2
    rfl
  · refine ⟨(some (brick_tree_no b ti0 * (w : Int) + (l0 : Int)), val ti0 l0), ?_, rfl⟩
    rw [mem_brick_all_writes]
    refine ⟨ti0, h0, ?_⟩
    rw [hW ti0 h0 hin0, (brick_tree_spec b ti0 h0 hin0).2.2.2.2]
    exact List.mem_map.mpr ⟨l0, List.mem_range.mpr hl0, rfl⟩

theorem brick_writes_inside (b : brick_t) (ti : Nat) (hin : brick_inside b ti = true) :
    brick_writes b 0 ti = (List.range 6).map (fun (l : Nat) =>
      ((brick_tj b ti).map fun t => t * ((6 : Nat) : Int) + (l : Int),
        brick_face_tree_exact b (brick_numbering_exact b).linear_to_tree (brick_pos b ti).1
          (brick_pos b ti).2.1 (brick_pos b ti).2.2 (brick_tj b ti) l)) ∧
    brick_writes b 1 ti = (List.range 6).map (fun (l : Nat) =>
      ((brick_tj b ti).map fun t => t * ((6 : Nat) : Int) + (l : Int),
        brick_face_code b (brick_pos b ti).1 (brick_pos b ti).2.1 (brick_pos b ti).2.2 l)) ∧
    (b.num_edges_exact > 0 → brick_writes b 2 ti = (List.range 12).map (fun (l : Nat) =>
      ((brick_tj b ti).map fun t => t * ((12 : Nat) : Int) + (l : Int),
        if brick_edge_boundary b (brick_pos b ti).1 (brick_pos b ti).2.1 (brick_pos b ti).2.2 l
        then some (-1)
        else brick_edge_ttemp_exact b (brick_numbering_exact b) (brick_pos b ti).1 (brick_pos b ti).2.1
          (brick_pos b ti).2.2 (brick_tj b ti) l))) ∧
    (b.num_corners_exact > 0 → brick_writes b 5 ti = (List.range 8).map (fun (i : Nat) =>
      ((brick_tj b ti).map fun t => t * ((8 : Nat) : Int) + (i : Int),
        if brick_corner_boundary b (brick_pos b ti).1 (brick_pos b ti).2.1 (brick_pos b ti).2.2 i
        then some (-1)
        else brick_corner_ttemp_exact b (brick_numbering_exact b) (brick_pos b ti).1 (brick_pos b ti).2.1
          (brick_pos b ti).2.2 (brick_tj b ti) i))) := by
  unfold brick_writes
  simp only [if_pos hin]
  refine ⟨rfl, rfl, ?_, ?_⟩
  · intro h; rw [if_pos h]; rfl
  · intro h; rw [if_pos h]; rfl

/-- The final entries of `tree_to_tree` and `tree_to_face` for the tree at `ti`. -/
theorem brick_face_final (b : brick_t) (ti : Nat) (hti : ti < b.n_iter_exact.toNat)
    (hin : brick_inside b ti = true) (l : Nat) (hl : l < 6) :
    (brick_arrays_exact b).tree_to_tree (brick_tree_no b ti * 6 + (l : Int)) =
      brick_face_tree_exact b (brick_numbering_exact b).linear_to_tree (brick_pos b ti).1
        (brick_pos b ti).2.1 (brick_pos b ti).2.2 (some (brick_tree_no b ti)) l ∧
    (brick_arrays_exact b).tree_to_face (brick_tree_no b ti * 6 + (l : Int)) =
      brick_face_code b (brick_pos b ti).1 (brick_pos b ti).2.1 (brick_pos b ti).2.2 l := by
  unfold brick_arrays_exact
  rw [(brick_fill_fields b _).1, (brick_fill_fields b _).2.1]
  constructor
  · have := brick_block_value b 0 6 (fun ti l =>
      brick_face_tree_exact b (brick_numbering_exact b).linear_to_tree (brick_pos b ti).1
        (brick_pos b ti).2.1 (brick_pos b ti).2.2 (brick_tj b ti) l)
      (fun ti _ hin => (brick_writes_inside b ti hin).1) ti hti hin l hl
    simp only [(brick_tree_spec b ti hti hin).2.2.2.2] at this
    exact this
  · exact brick_block_value b 1 6 (fun ti l =>
      brick_face_code b (brick_pos b ti).1 (brick_pos b ti).2.1 (brick_pos b ti).2.2 l)
      (fun ti _ hin => (brick_writes_inside b ti hin).2.1) ti hti hin l hl

/-- The final entries of `tree_to_edge` for the tree at `ti`. -/
theorem brick_edge_final (b : brick_t) (he : b.num_edges_exact > 0) (ti : Nat)
    (hti : ti < b.n_iter_exact.toNat) (hin : brick_inside b ti = true) (l : Nat) (hl : l < 12) :
    (brick_arrays_exact b).tree_to_edge (brick_tree_no b ti * 12 + (l : Int)) =
      if brick_edge_boundary b (brick_pos b ti).1 (brick_pos b ti).2.1 (brick_pos b ti).2.2 l
      then some (-1)
      else brick_edge_ttemp_exact b (brick_numbering_exact b) (brick_pos b ti).1 (brick_pos b ti).2.1
        (brick_pos b ti).2.2 (some (brick_tree_no b ti)) l := by
  unfold brick_arrays_exact
  rw [(brick_fill_fields b _).2.2.1]
  have := brick_block_value b 2 12 (fun ti l =>
      if brick_edge_boundary b (brick_pos b ti).1 (brick_pos b ti).2.1 (brick_pos b ti).2.2 l
      then some (-1)
      else brick_edge_ttemp_exact b (brick_numbering_exact b) (brick_pos b ti).1 (brick_pos b ti).2.1
        (brick_pos b ti).2.2 (brick_tj b ti) l)
      (fun ti _ hin => (brick_writes_inside b ti hin).2.2.1 he) ti hti hin l hl
  simp only [(brick_tree_spec b ti hti hin).2.2.2.2] at this
  exact this

/-- The final entries of `tree_to_corner` for the tree at `ti`. -/
theorem brick_corner_final (b : brick_t) (hc : b.num_corners_exact > 0) (ti : Nat)
    (hti : ti < b.n_iter_exact.toNat) (hin : brick_inside b ti = true) (i : Nat) (hi : i < 8) :
    (brick_arrays_exact b).tree_to_corner (brick_tree_no b ti * 8 + (i : Int)) =
      if brick_corner_boundary b (brick_pos b ti).1 (brick_pos b ti).2.1 (brick_pos b ti).2.2 i
      then some (-1)
      else brick_corner_ttemp_exact b (brick_numbering_exact b) (brick_pos b ti).1 (brick_pos b ti).2.1
        (brick_pos b ti).2.2 (some (brick_tree_no b ti)) i := by
  unfold brick_arrays_exact
  rw [(brick_fill_fields b _).2.2.2.2.2.1]
  have := brick_block_value b 5 8 (fun ti i =>
      if brick_corner_boundary b (brick_pos b ti).1 (brick_pos b ti).2.1 (brick_pos b ti).2.2 i
      then some (-1)
      else brick_corner_ttemp_exact b (brick_numbering_exact b) (brick_pos b ti).1 (brick_pos b ti).2.1
        (brick_pos b ti).2.2 (brick_tj b ti) i)
      (fun ti _ hin => (brick_writes_inside b ti hin).2.2.2 hc) ti hti hin i hi
  simp only [(brick_tree_spec b ti hti hin).2.2.2.2] at this
  exact this

/-! ## The face relation of a brick -/

theorem brick_tf_eq (b : brick_t) (ltt : Int → Option Int) (tx ty tz : Int) (l : Nat) :
    brick_tf_exact b ltt tx ty tz l =
      ltt ((brick_nb b tx ty tz (brick_face_step l 0) (brick_face_step l 1)
        (brick_face_step l 2) : Nat) : Int) := rfl

/-- The position `(x, y, z)` of a brick is a tree, and it is the position that
the passes compute from its Morton index. -/
theorem brick_at_spec (b : brick_t) (hm : 1 ≤ b.m) (hn : 1 ≤ b.n) (hp : 1 ≤ b.p)
    (x y z : Int) (hx : 0 ≤ x ∧ x < b.m) (hy : 0 ≤ y ∧ y < b.n) (hz : 0 ≤ z ∧ z < b.p) :
    brick_nb b x y z 0 0 0 < b.n_iter_exact.toNat ∧
    brick_pos b (brick_nb b x y z 0 0 0) = (x, y, z) ∧
    brick_inside b (brick_nb b x y z 0 0 0) = true := by
  obtain ⟨h1, h2, h3, _⟩ := brick_nb_spec b hm hn hp x y z 0 0 0 hx hy hz
    (Or.inr (Or.inl rfl)) (Or.inr (Or.inl rfl)) (Or.inr (Or.inl rfl))
  rw [(brick_shift_val b.m x hm hx.1 hx.2).1, (brick_shift_val b.n y hn hy.1 hy.2).1,
    (brick_shift_val b.p z hp hz.1 hz.2).1] at h2
  exact ⟨h1, h2, h3⟩

/-- A neighbor position, seen from the wrapped position. -/
theorem brick_nb_shift (b : brick_t) (hm : 1 ≤ b.m) (hn : 1 ≤ b.n) (hp : 1 ≤ b.p)
    (x y z dx dy dz : Int) (hx : 0 ≤ x ∧ x < b.m) (hy : 0 ≤ y ∧ y < b.n) (hz : 0 ≤ z ∧ z < b.p)
    (hdx : dx = -1 ∨ dx = 0 ∨ dx = 1) (hdy : dy = -1 ∨ dy = 0 ∨ dy = 1)
    (hdz : dz = -1 ∨ dz = 0 ∨ dz = 1) :
    brick_nb b (brick_shift b.m x dx) (brick_shift b.n y dy) (brick_shift b.p z dz) 0 0 0 =
      brick_nb b x y z dx dy dz := by
  obtain ⟨x0, x1⟩ := brick_shift_range b.m x dx hm hx.1 hx.2 hdx
  obtain ⟨y0, y1⟩ := brick_shift_range b.n y dy hn hy.1 hy.2 hdy
  obtain ⟨z0, z1⟩ := brick_shift_range b.p z dz hp hz.1 hz.2 hdz
  unfold brick_nb
  rw [(brick_shift_val b.m _ hm x0 x1).1, (brick_shift_val b.n _ hn y0 y1).1,
    (brick_shift_val b.p _ hp z0 z1).1]

/-- Every number below the count of the numbering pass is the number of a
tree. -/
theorem brick_tree_surj_upto (b : brick_t) :
    ∀ K : Nat, ∀ T : Int, 0 ≤ T → T < brick_tree_no b K →
      ∃ ti, ti < K ∧ brick_inside b ti = true ∧ brick_tree_no b ti = T := by
  intro K
  induction K with
  | zero =>
    intro T h0 h1
    rw [(brick_counts_zero b).1] at h1
    omega
  | succ K ih =>
    intro T h0 h1
    by_cases h : T < brick_tree_no b K
    · obtain ⟨ti, a, c, d⟩ := ih T h0 h
      exact ⟨ti, by omega, c, d⟩
    · rw [(brick_counts_succ b K).1] at h1
      by_cases hin : brick_inside b K = true
      · rw [if_pos hin] at h1
        exact ⟨K, by omega, hin, by omega⟩
      · rw [if_neg hin] at h1
        omega

theorem brick_tree_surj (b : brick_t) (hm : 1 ≤ b.m) (hn : 1 ≤ b.n) (hp : 1 ≤ b.p) (T : Int)
    (h0 : 0 ≤ T) (h1 : T < b.num_trees_exact) :
    ∃ ti, ti < b.n_iter_exact.toNat ∧ brick_inside b ti = true ∧ brick_tree_no b ti = T := by
  apply brick_tree_surj_upto b _ T h0
  have e1 : (brick_numbering_exact b).tj = brick_tree_no b b.n_iter_exact.toNat := rfl
  rw [← e1, (brick_numbering_counts b hm hn hp).1]
  exact h1

theorem brick_tree_no_range (b : brick_t) (hm : 1 ≤ b.m) (hn : 1 ≤ b.n) (hp : 1 ≤ b.p)
    (ti : Nat) (hti : ti < b.n_iter_exact.toNat) (hin : brick_inside b ti = true) :
    0 ≤ brick_tree_no b ti ∧ brick_tree_no b ti < b.num_trees_exact := by
  refine ⟨(brick_counts_nonneg b ti).1, ?_⟩
  have e1 : (brick_numbering_exact b).tj = brick_tree_no b b.n_iter_exact.toNat := rfl
  rw [← (brick_numbering_counts b hm hn hp).1, e1]
  exact brick_tree_no_lt b ti _ hti hin

theorem brick_face_step_cases (l d : Nat) :
    brick_face_step l d = -1 ∨ brick_face_step l d = 0 ∨ brick_face_step l d = 1 := by
  unfold brick_face_step
  split
  · rcases Nat.mod_two_eq_zero_or_one l with h | h <;> rw [h]
    · left; rfl
    · right; right; rfl
  · right; left; rfl

theorem to_int8_small (x : Int) (h0 : -128 ≤ x) (h1 : x < 128) : to_int8 x = x := by
  unfold to_int8
  omega

/-- The entries of `tree_to_tree` and `tree_to_face` for the tree at the
position `(x, y, z)`. -/
theorem brick_face_value (b : brick_t) (hm : 1 ≤ b.m) (hn : 1 ≤ b.n) (hp : 1 ≤ b.p)
    (x y z : Int) (hx : 0 ≤ x ∧ x < b.m) (hy : 0 ≤ y ∧ y < b.n) (hz : 0 ≤ z ∧ z < b.p)
    (l : Nat) (hl : l < 6) :
    (brick_arrays_exact b).tree_to_tree (brick_tree_at b x y z * 6 + (l : Int)) =
      some (if brick_on_boundary b x y z (l / 2) (l % 2) = true then brick_tree_at b x y z
        else brick_tree_at b (brick_shift b.m x (brick_face_step l 0))
          (brick_shift b.n y (brick_face_step l 1)) (brick_shift b.p z (brick_face_step l 2))) ∧
    (brick_arrays_exact b).tree_to_face (brick_tree_at b x y z * 6 + (l : Int)) =
      some (if brick_on_boundary b x y z (l / 2) (l % 2) = true then (l : Int)
        else ((l / 2 * 2 + (1 - l % 2) : Nat) : Int)) := by
  obtain ⟨a1, a2, a3⟩ := brick_at_spec b hm hn hp x y z hx hy hz
  obtain ⟨f1, f2⟩ := brick_face_final b _ a1 a3 l hl
  unfold brick_tree_at
  rw [f1, f2, a2]
  constructor
  · unfold brick_face_tree_exact
    by_cases hb : brick_on_boundary b x y z (l / 2) (l % 2) = true
    · rw [if_pos hb, if_pos hb]
    · rw [if_neg hb, if_neg hb, brick_tf_eq,
        brick_nb_shift b hm hn hp x y z _ _ _ hx hy hz (brick_face_step_cases l 0)
          (brick_face_step_cases l 1) (brick_face_step_cases l 2)]
      exact (brick_nb_spec b hm hn hp x y z _ _ _ hx hy hz (brick_face_step_cases l 0)
          (brick_face_step_cases l 1) (brick_face_step_cases l 2)).2.2.2
  · unfold brick_face_code
    by_cases hb : brick_on_boundary b x y z (l / 2) (l % 2) = true
    · rw [if_pos hb, if_pos hb, to_int8_small _ (by omega) (by omega)]
    · rw [if_neg hb, if_neg hb]
      interval_cases l <;> rfl

/-! ## The tree that numbers an edge or a corner -/

theorem brick_coord_range (b : brick_t) (x y z : Int) (hx : 0 ≤ x ∧ x < b.m)
    (hy : 0 ≤ y ∧ y < b.n) (hz : 0 ≤ z ∧ z < b.p) (d : Nat) :
    0 ≤ brick_coord x y z d ∧ brick_coord x y z d < b.max d + 1 := by
  unfold brick_coord brick_t.max
  split
  · omega
  · split <;> omega

theorem brick_max_ge (b : brick_t) (hm : 1 ≤ b.m) (hn : 1 ≤ b.n) (hp : 1 ≤ b.p) (d : Nat) :
    1 ≤ b.max d + 1 := by
  unfold brick_t.max
  split
  · omega
  · split <;> omega

theorem brick_coord_shift (b : brick_t) (x y z dx dy dz : Int) (d : Nat) :
    brick_coord (brick_shift b.m x dx) (brick_shift b.n y dy) (brick_shift b.p z dz) d =
      brick_shift (b.max d + 1) (brick_coord x y z d) (brick_coord dx dy dz d) := by
  unfold brick_coord brick_t.max
  split
  · rw [sub_add_cancel]
  · split <;> rw [sub_add_cancel]

theorem side_step_cases (s : Nat) (hs : s < 2) :
    (((s : Int) - 1 = -1 ∨ (s : Int) - 1 = 0 ∨ (s : Int) - 1 = 1)) ∧
    ((1 - (s : Int) = -1 ∨ 1 - (s : Int) = 0 ∨ 1 - (s : Int) = 1)) := by
  omega

/-- Along one axis: a side that is not a boundary of the domain is the upper
side of the tree one step down, or the upper side of the tree itself. -/
theorem up_of_not_boundary (size c per : Int) (s : Nat) (h1 : 1 ≤ size) (h2 : 0 ≤ c)
    (h3 : c < size) (hs : s < 2)
    (h : ¬ (per = 0 ∧ ((c = 0 ∧ s = 0) ∨ (c = size - 1 ∧ s = 1)))) :
    brick_shift size c ((s : Int) - 1) < size - 1 ∨ per ≠ 0 := by
  obtain ⟨a0, a1, _⟩ := brick_shift_val size c h1 h2 h3
  by_cases hp : per = 0
  · left
    have hs2 : s = 0 ∨ s = 1 := by omega
    rcases hs2 with e | e <;> subst e
    · have : ((0 : Nat) : Int) - 1 = -1 := by norm_num
      rw [this, a1]
      have : c ≠ 0 := fun hc => h ⟨hp, Or.inl ⟨hc, rfl⟩⟩
      rw [if_neg this]
      omega
    · have : ((1 : Nat) : Int) - 1 = 0 := by norm_num
      rw [this, a0]
      have : c ≠ size - 1 := fun hc => h ⟨hp, Or.inr ⟨hc, rfl⟩⟩
      omega
  · right; exact hp

/-- Along one axis: the upper side of a tree that has a neighbor above is not a
boundary of the domain, neither for the tree nor for the tree one step up. -/
theorem not_boundary_of_up (size c per : Int) (s : Nat) (h1 : 1 ≤ size) (h2 : 0 ≤ c)
    (h3 : c < size) (hs : s < 2) (h : c < size - 1 ∨ per ≠ 0) :
    ¬ (per = 0 ∧ ((brick_shift size c (1 - (s : Int)) = 0 ∧ s = 0) ∨
      (brick_shift size c (1 - (s : Int)) = size - 1 ∧ s = 1))) := by
  obtain ⟨a0, _, a2⟩ := brick_shift_val size c h1 h2 h3
  rintro ⟨hp, hb⟩
  have hc : c < size - 1 := by
    rcases h with h | h
    · exact h
    · exact absurd hp h
  rcases hb with ⟨e1, e2⟩ | ⟨e1, e2⟩
  · subst e2
    have : 1 - ((0 : Nat) : Int) = 1 := by norm_num
    rw [this, a2, if_neg (by omega)] at e1
    omega
  · subst e2
    have : 1 - ((1 : Nat) : Int) = 0 := by norm_num
    rw [this, a0] at e1
    omega

theorem brick_coord_sel (a0 a1 a2 : Int) (d : Nat) (hd : d < 3) (f : Nat → Int)
    (h0 : a0 = f 0) (h1 : a1 = f 1) (h2 : a2 = f 2) : brick_coord a0 a1 a2 d = f d := by
  unfold brick_coord
  interval_cases d
  · simp [h0]
  · simp [h1]
  · simp [h2]

/-- The tree that numbers the edge or corner on the sides `s` of the tree at
`(x, y, z)`. -/
theorem brick_owner_spec (b : brick_t) (hm : 1 ≤ b.m) (hn : 1 ≤ b.n) (hp : 1 ≤ b.p)
    (x y z : Int) (hx : 0 ≤ x ∧ x < b.m) (hy : 0 ≤ y ∧ y < b.n) (hz : 0 ≤ z ∧ z < b.p)
    (s : Nat → Nat) (hs : ∀ d, s d < 2) :
    brick_owner b x y z s < b.n_iter_exact.toNat ∧
    brick_inside b (brick_owner b x y z s) = true ∧
    (brick_numbering_exact b).linear_to_tree ((brick_owner b x y z s : Nat) : Int) =
      some (brick_tree_no b (brick_owner b x y z s)) ∧
    brick_user b (brick_pos b (brick_owner b x y z s)).1 (brick_pos b (brick_owner b x y z s)).2.1
      (brick_pos b (brick_owner b x y z s)).2.2 s = brick_nb b x y z 0 0 0 ∧
    ∀ d, d < 3 → brick_on_boundary b x y z d (s d) = false →
      brick_up b (brick_owner b x y z s) d = true := by
  have c0 := (side_step_cases (s 0) (hs 0)).1
  have c1 := (side_step_cases (s 1) (hs 1)).1
  have c2 := (side_step_cases (s 2) (hs 2)).1
  obtain ⟨h1, h2, h3, h4⟩ := brick_nb_spec b hm hn hp x y z _ _ _ hx hy hz c0 c1 c2
  refine ⟨h1, h3, h4, ?_, ?_⟩
  · unfold brick_owner
    rw [h2]
    unfold brick_user brick_nb
    have e0 : 1 - (s 0 : Int) = -((s 0 : Int) - 1) := by ring
    have e1 : 1 - (s 1 : Int) = -((s 1 : Int) - 1) := by ring
    have e2 : 1 - (s 2 : Int) = -((s 2 : Int) - 1) := by ring
    rw [e0, e1, e2, brick_shift_inv b.m x _ hm hx.1 hx.2 c0,
      brick_shift_inv b.n y _ hn hy.1 hy.2 c1, brick_shift_inv b.p z _ hp hz.1 hz.2 c2,
      (brick_shift_val b.m x hm hx.1 hx.2).1, (brick_shift_val b.n y hn hy.1 hy.2).1,
      (brick_shift_val b.p z hp hz.1 hz.2).1]
  · intro d hd hb
    unfold brick_owner brick_up
    rw [h2]
    apply decide_eq_true
    show brick_coord (brick_shift b.m x _) (brick_shift b.n y _) (brick_shift b.p z _) d <
      b.max d ∨ b.periodic d ≠ 0
    rw [brick_coord_shift,
      brick_coord_sel _ _ _ d hd (fun d => (s d : Int) - 1) rfl rfl rfl]
    obtain ⟨r0, r1⟩ := brick_coord_range b x y z hx hy hz d
    have := up_of_not_boundary (b.max d + 1) (brick_coord x y z d) (b.periodic d) (s d)
      (brick_max_ge b hm hn hp d) r0 r1 (hs d) (by
        unfold brick_on_boundary at hb
        have := of_decide_eq_false hb
        rw [add_sub_cancel_right]
        exact this)
    rw [add_sub_cancel_right] at this
    exact this

/-- The tree that sees, on its sides `s`, the edge or corner on the upper sides
of the tree at `(x, y, z)`. -/
theorem brick_user_spec (b : brick_t) (hm : 1 ≤ b.m) (hn : 1 ≤ b.n) (hp : 1 ≤ b.p)
    (x y z : Int) (hx : 0 ≤ x ∧ x < b.m) (hy : 0 ≤ y ∧ y < b.n) (hz : 0 ≤ z ∧ z < b.p)
    (s : Nat → Nat) (hs : ∀ d, s d < 2) :
    brick_user b x y z s < b.n_iter_exact.toNat ∧
    brick_inside b (brick_user b x y z s) = true ∧
    brick_owner b (brick_pos b (brick_user b x y z s)).1 (brick_pos b (brick_user b x y z s)).2.1
      (brick_pos b (brick_user b x y z s)).2.2 s = brick_nb b x y z 0 0 0 ∧
    ∀ d, d < 3 → brick_up b (brick_nb b x y z 0 0 0) d = true →
      brick_on_boundary b (brick_pos b (brick_user b x y z s)).1
        (brick_pos b (brick_user b x y z s)).2.1 (brick_pos b (brick_user b x y z s)).2.2
        d (s d) = false := by
  have c0 := (side_step_cases (s 0) (hs 0)).2
  have c1 := (side_step_cases (s 1) (hs 1)).2
  have c2 := (side_step_cases (s 2) (hs 2)).2
  obtain ⟨h1, h2, h3, _⟩ := brick_nb_spec b hm hn hp x y z _ _ _ hx hy hz c0 c1 c2
  refine ⟨h1, h3, ?_, ?_⟩
  · unfold brick_user
    rw [h2]
    unfold brick_owner brick_nb
    have e0 : (s 0 : Int) - 1 = -(1 - (s 0 : Int)) := by ring
    have e1 : (s 1 : Int) - 1 = -(1 - (s 1 : Int)) := by ring
    have e2 : (s 2 : Int) - 1 = -(1 - (s 2 : Int)) := by ring
    rw [e0, e1, e2, brick_shift_inv b.m x _ hm hx.1 hx.2 c0,
      brick_shift_inv b.n y _ hn hy.1 hy.2 c1, brick_shift_inv b.p z _ hp hz.1 hz.2 c2,
      (brick_shift_val b.m x hm hx.1 hx.2).1, (brick_shift_val b.n y hn hy.1 hy.2).1,
      (brick_shift_val b.p z hp hz.1 hz.2).1]
  · intro d hd hu
    unfold brick_user brick_on_boundary
    rw [h2]
    apply decide_eq_false
    show ¬ (b.periodic d = 0 ∧
      ((brick_coord (brick_shift b.m x _) (brick_shift b.n y _) (brick_shift b.p z _) d = 0 ∧
          s d = 0) ∨
        (brick_coord (brick_shift b.m x _) (brick_shift b.n y _) (brick_shift b.p z _) d =
          b.max d ∧ s d = 1)))
    rw [brick_coord_shift,
      brick_coord_sel _ _ _ d hd (fun d => 1 - (s d : Int)) rfl rfl rfl]
    obtain ⟨r0, r1⟩ := brick_coord_range b x y z hx hy hz d
    obtain ⟨_, q2, _⟩ := brick_at_spec b hm hn hp x y z hx hy hz
    unfold brick_up at hu
    rw [q2] at hu
    have hu2 := of_decide_eq_true hu
    have := not_boundary_of_up (b.max d + 1) (brick_coord x y z d) (b.periodic d) (s d)
      (brick_max_ge b hm hn hp d) r0 r1 (hs d) (by rw [add_sub_cancel_right]; exact hu2)
    rw [add_sub_cancel_right] at this
    exact this

/-! ## The numbers of the edges and corners of a brick -/

theorem ite_01_cases (c : Prop) [Decidable c] : (if c then (1 : Int) else 0) = 1 ∧ c ∨
    (if c then (1 : Int) else 0) = 0 ∧ ¬ c := by
  by_cases h : c
  · left; exact ⟨if_pos h, h⟩
  · right; exact ⟨if_neg h, h⟩

/-- The numbers of the edges that one tree numbers lie between the counter
before and after the tree, in the order of the axes. -/
theorem brick_edge_no_bounds (b : brick_t) (t d : Nat) (hd : d < 3)
    (hin : brick_inside b t = true) (ho : brick_edge_owned b t d = true) :
    (brick_number_upto_exact b t).tl ≤ brick_edge_no b t d ∧
    brick_edge_no b t d < (brick_number_upto_exact b (t + 1)).tl ∧
    ∀ d2, d2 < 3 → brick_edge_owned b t d2 = true → brick_edge_no b t d = brick_edge_no b t d2 →
      d = d2 := by
  have hs := (brick_counts_succ b t).2.2
  rw [if_pos hin] at hs
  rw [hs]
  unfold brick_edge_no
  refine ⟨?_, ?_, ?_⟩
  · rcases ite_01_cases (0 < d ∧ brick_edge_owned b t 0 = true) with ⟨e, _⟩ | ⟨e, _⟩ <;>
    rcases ite_01_cases (1 < d ∧ brick_edge_owned b t 1 = true) with ⟨f, _⟩ | ⟨f, _⟩ <;>
    rw [e, f] <;> omega
  · interval_cases d
    · simp only [ho, if_true, lt_self_iff_false, false_and, if_false, Nat.not_lt_zero]
      rcases ite_01_cases (brick_edge_owned b t 1 = true) with ⟨e, _⟩ | ⟨e, _⟩ <;>
      rcases ite_01_cases (brick_edge_owned b t 2 = true) with ⟨f, _⟩ | ⟨f, _⟩ <;>
      rw [e, f] <;> omega
    · simp only [ho, if_true, lt_self_iff_false, false_and, if_false, Nat.lt_one_iff,
        zero_lt_one, true_and]
      rcases ite_01_cases (brick_edge_owned b t 0 = true) with ⟨e, _⟩ | ⟨e, _⟩ <;>
      rcases ite_01_cases (brick_edge_owned b t 2 = true) with ⟨f, _⟩ | ⟨f, _⟩ <;>
      rw [e, f] <;> omega
    · simp only [ho, if_true, Nat.lt_add_one, Nat.ofNat_pos, true_and, Nat.one_lt_ofNat]
      rcases ite_01_cases (brick_edge_owned b t 0 = true) with ⟨e, _⟩ | ⟨e, _⟩ <;>
      rcases ite_01_cases (brick_edge_owned b t 1 = true) with ⟨f, _⟩ | ⟨f, _⟩ <;>
      rw [e, f] <;> omega
  · intro d2 hd2 ho2 he
    interval_cases d <;> interval_cases d2 <;> first
      | rfl
      | (exfalso
         simp only [ho, ho2, lt_self_iff_false, false_and, if_false, Nat.lt_one_iff,
           zero_lt_one, true_and, Nat.lt_add_one, Nat.ofNat_pos, Nat.one_lt_ofNat,
           Nat.not_lt_zero, if_true, and_self, and_true] at he
         revert he
         rcases ite_01_cases (brick_edge_owned b t 0 = true) with ⟨e, _⟩ | ⟨e, _⟩ <;>
         rcases ite_01_cases (brick_edge_owned b t 1 = true) with ⟨f, _⟩ | ⟨f, _⟩ <;>
         simp_all <;> omega)

/-- Different edges get different numbers. -/
theorem brick_edge_no_inj (b : brick_t) (t1 t2 d1 d2 : Nat) (hd1 : d1 < 3) (hd2 : d2 < 3)
    (hin1 : brick_inside b t1 = true) (hin2 : brick_inside b t2 = true)
    (ho1 : brick_edge_owned b t1 d1 = true) (ho2 : brick_edge_owned b t2 d2 = true)
    (h : brick_edge_no b t1 d1 = brick_edge_no b t2 d2) : t1 = t2 ∧ d1 = d2 := by
  obtain ⟨a1, a2, a3⟩ := brick_edge_no_bounds b t1 d1 hd1 hin1 ho1
  obtain ⟨c1, c2, _⟩ := brick_edge_no_bounds b t2 d2 hd2 hin2 ho2
  have ht : t1 = t2 := by
    rcases Nat.lt_trichotomy t1 t2 with hlt | heq | hgt
    · have := (brick_counts_mono b (t1 + 1) t2 (by omega)).2.2
      omega
    · exact heq
    · have := (brick_counts_mono b (t2 + 1) t1 (by omega)).2.2
      omega
  subst ht
  exact ⟨rfl, a3 d2 hd2 ho2 h⟩

theorem pick_owned (f : Nat → Bool) (r : Int) (h0 : 0 ≤ r)
    (h1 : r < (if f 0 = true then 1 else 0) + (if f 1 = true then 1 else 0) +
      (if f 2 = true then 1 else 0)) :
    ∃ d, d < 3 ∧ f d = true ∧
      r = (if 0 < d ∧ f 0 = true then 1 else 0) + (if 1 < d ∧ f 1 = true then 1 else 0) := by
  rcases Bool.eq_false_or_eq_true (f 0) with a | a <;>
  rcases Bool.eq_false_or_eq_true (f 1) with c | c <;>
  rcases Bool.eq_false_or_eq_true (f 2) with e | e <;>
  simp only [a, c, e, if_true, if_false, Bool.false_eq_true] at h1 <;>
  (have hr : r = 0 ∨ r = 1 ∨ r = 2 := by omega) <;>
  rcases hr with hr | hr | hr <;> subst hr <;>
  first
    | (exfalso; omega)
    | (refine ⟨0, by norm_num, a, ?_⟩; rw [a, c]; decide)
    | (refine ⟨1, by norm_num, c, ?_⟩; rw [a, c]; decide)
    | (refine ⟨2, by norm_num, e, ?_⟩; rw [a, c]; decide)

/-- Every number below the edge counter is the number of an edge. -/
theorem brick_edge_surj_upto (b : brick_t) :
    ∀ K : Nat, ∀ g : Int, 0 ≤ g → g < (brick_number_upto_exact b K).tl →
      ∃ t d, t < K ∧ d < 3 ∧ brick_inside b t = true ∧ brick_edge_owned b t d = true ∧
        brick_edge_no b t d = g := by
  intro K
  induction K with
  | zero =>
    intro g h0 h1
    rw [(brick_counts_zero b).2.2] at h1
    omega
  | succ K ih =>
    intro g h0 h1
    by_cases h : g < (brick_number_upto_exact b K).tl
    · obtain ⟨t, d, a, c, e, f, k⟩ := ih g h0 h
      exact ⟨t, d, by omega, c, e, f, k⟩
    · rw [(brick_counts_succ b K).2.2] at h1
      by_cases hin : brick_inside b K = true
      · rw [if_pos hin] at h1
        obtain ⟨d, hd, ho, hr⟩ := pick_owned (brick_edge_owned b K)
          (g - (brick_number_upto_exact b K).tl) (by omega) (by omega)
        refine ⟨K, d, by omega, hd, hin, ho, ?_⟩
        unfold brick_edge_no
        omega
      · rw [if_neg hin] at h1
        omega

theorem brick_edge_no_range (b : brick_t) (hm : 1 ≤ b.m) (hn : 1 ≤ b.n) (hp : 1 ≤ b.p)
    (t d : Nat) (ht : t < b.n_iter_exact.toNat) (hd : d < 3) (hin : brick_inside b t = true)
    (ho : brick_edge_owned b t d = true) :
    0 ≤ brick_edge_no b t d ∧ brick_edge_no b t d < b.num_edges_exact := by
  obtain ⟨a1, a2, _⟩ := brick_edge_no_bounds b t d hd hin ho
  have e1 : (brick_numbering_exact b).tl = (brick_number_upto_exact b b.n_iter_exact.toNat).tl := rfl
  have := (brick_counts_mono b (t + 1) b.n_iter_exact.toNat (by omega)).2.2
  have := (brick_counts_nonneg b t).2.2
  rw [← (brick_numbering_counts b hm hn hp).2.2, e1]
  omega

theorem brick_edge_surj (b : brick_t) (hm : 1 ≤ b.m) (hn : 1 ≤ b.n) (hp : 1 ≤ b.p) (g : Int)
    (h0 : 0 ≤ g) (h1 : g < b.num_edges_exact) :
    ∃ t d, t < b.n_iter_exact.toNat ∧ d < 3 ∧ brick_inside b t = true ∧
      brick_edge_owned b t d = true ∧ brick_edge_no b t d = g := by
  apply brick_edge_surj_upto b _ g h0
  have e1 : (brick_numbering_exact b).tl = (brick_number_upto_exact b b.n_iter_exact.toNat).tl := rfl
  rw [← e1, (brick_numbering_counts b hm hn hp).2.2]
  exact h1

theorem brick_corner_no_lt (b : brick_t) (t1 t2 : Nat) (h : t1 < t2)
    (h1 : brick_inside b t1 = true) (ho : brick_corner_owned b t1 = true) :
    brick_corner_no b t1 < brick_corner_no b t2 := by
  obtain ⟨_, s1, _⟩ := brick_counts_succ b t1
  obtain ⟨_, a1, _⟩ := brick_counts_mono b (t1 + 1) t2 (by omega)
  rw [s1, if_pos ⟨h1, ho⟩] at a1
  omega

/-- Different corners get different numbers. -/
theorem brick_corner_no_inj (b : brick_t) (t1 t2 : Nat) (h1 : brick_inside b t1 = true)
    (h2 : brick_inside b t2 = true) (o1 : brick_corner_owned b t1 = true)
    (o2 : brick_corner_owned b t2 = true) (h : brick_corner_no b t1 = brick_corner_no b t2) :
    t1 = t2 := by
  rcases Nat.lt_trichotomy t1 t2 with hlt | heq | hgt
  · have := brick_corner_no_lt b t1 t2 hlt h1 o1; omega
  · exact heq
  · have := brick_corner_no_lt b t2 t1 hgt h2 o2; omega

/-- Every number below the corner counter is the number of a corner. -/
theorem brick_corner_surj_upto (b : brick_t) :
    ∀ K : Nat, ∀ c : Int, 0 ≤ c → c < brick_corner_no b K →
      ∃ t, t < K ∧ brick_inside b t = true ∧ brick_corner_owned b t = true ∧
        brick_corner_no b t = c := by
  intro K
  induction K with
  | zero =>
    intro c h0 h1
    rw [(brick_counts_zero b).2.1] at h1
    omega
  | succ K ih =>
    intro c h0 h1
    by_cases h : c < brick_corner_no b K
    · obtain ⟨t, a, e, f, k⟩ := ih c h0 h
      exact ⟨t, by omega, e, f, k⟩
    · rw [(brick_counts_succ b K).2.1] at h1
      by_cases hin : brick_inside b K = true ∧ brick_corner_owned b K = true
      · rw [if_pos hin] at h1
        exact ⟨K, by omega, hin.1, hin.2, by omega⟩
      · rw [if_neg hin] at h1
        omega

theorem brick_corner_no_range (b : brick_t) (hm : 1 ≤ b.m) (hn : 1 ≤ b.n) (hp : 1 ≤ b.p)
    (t : Nat) (ht : t < b.n_iter_exact.toNat) (hin : brick_inside b t = true)
    (ho : brick_corner_owned b t = true) :
    0 ≤ brick_corner_no b t ∧ brick_corner_no b t < b.num_corners_exact := by
  refine ⟨(brick_counts_nonneg b t).2.1, ?_⟩
  have e1 : (brick_numbering_exact b).tk = brick_corner_no b b.n_iter_exact.toNat := rfl
  rw [← (brick_numbering_counts b hm hn hp).2.1, e1]
  exact brick_corner_no_lt b t _ ht hin ho

theorem brick_corner_surj (b : brick_t) (hm : 1 ≤ b.m) (hn : 1 ≤ b.n) (hp : 1 ≤ b.p) (c : Int)
    (h0 : 0 ≤ c) (h1 : c < b.num_corners_exact) :
    ∃ t, t < b.n_iter_exact.toNat ∧ brick_inside b t = true ∧ brick_corner_owned b t = true ∧
      brick_corner_no b t = c := by
  apply brick_corner_surj_upto b _ c h0
  have e1 : (brick_numbering_exact b).tk = brick_corner_no b b.n_iter_exact.toNat := rfl
  rw [← e1, (brick_numbering_counts b hm hn hp).2.1]
  exact h1

/-! ## The forward tables of edges and corners -/

theorem brick_edge_side_lt (l d : Nat) : brick_edge_side l d < 2 := by
  unfold brick_edge_side
  split
  · exact Nat.lt_of_le_of_lt Nat.and_le_right (by norm_num)
  · split
    · omega
    · norm_num

theorem brick_corner_side_lt (i d : Nat) : brick_corner_side i d < 2 := by
  unfold brick_corner_side
  exact Nat.lt_of_le_of_lt Nat.and_le_right (by norm_num)

theorem brick_dir_lt (i : Nat) : brick_dir1 i < 3 ∧ brick_dir2 i < 3 ∧
    brick_dir2 i ≠ brick_dir1 i := by
  unfold brick_dir1 brick_dir2
  refine ⟨?_, ?_, ?_⟩
  · split <;> omega
  · split <;> omega
  · split <;> split <;> omega

theorem brick_edge_side_dir (l : Nat) :
    brick_edge_side l (brick_dir1 (l / 4)) = (l % 4) &&& 1 ∧
    brick_edge_side l (brick_dir2 (l / 4)) = (l % 4) / 2 := by
  unfold brick_edge_side
  exact ⟨if_pos rfl, by rw [if_neg (brick_dir_lt (l / 4)).2.2, if_pos rfl]⟩

/-- The tree whose entry of `tree_to_edge2` the `switch (j)` reads is the tree
that numbers the edge. -/
theorem brick_edge_switch (b : brick_t) (ltt : Int → Option Int) (x y z : Int)
    (tj : Option Int) (htj : tj = ltt ((brick_nb b x y z 0 0 0 : Nat) : Int)) (l : Nat)
    (hl : l < 12) :
    (if l % 4 = 0 then brick_te_exact b ltt x y z l
      else if l % 4 = 1 then brick_tf_exact b ltt x y z (brick_dir2 (l / 4) * 2)
      else if l % 4 = 2 then brick_tf_exact b ltt x y z (brick_dir1 (l / 4) * 2)
      else tj) = ltt ((brick_owner b x y z (brick_edge_side l) : Nat) : Int) := by
  interval_cases l <;> first
    | rfl
    | exact htj

/-- The tree whose entry of `tree_to_corner2` the `switch (i)` reads is the
tree that numbers the corner. -/
theorem brick_corner_switch (b : brick_t) (ltt : Int → Option Int) (x y z : Int)
    (tj : Option Int) (htj : tj = ltt ((brick_nb b x y z 0 0 0 : Nat) : Int)) (i : Nat)
    (hi : i < 8) :
    (if i = 0 then brick_tc_exact b ltt x y z 0
      else if i = 1 then brick_te_exact b ltt x y z 0
      else if i = 2 then brick_te_exact b ltt x y z 4
      else if i = 3 then brick_tf_exact b ltt x y z 4
      else if i = 4 then brick_te_exact b ltt x y z 8
      else if i = 5 then brick_tf_exact b ltt x y z 2
      else if i = 6 then brick_tf_exact b ltt x y z 0
      else tj) = ltt ((brick_owner b x y z (brick_corner_side i) : Nat) : Int) := by
  interval_cases i <;> first
    | rfl
    | exact htj

/-- The value `ttemp` for an edge: the number of the edge in the tree that
numbers it, or -1 if that tree does not number an edge along this axis. -/
theorem brick_edge_ttemp_eq (b : brick_t) (hm : 1 ≤ b.m) (hn : 1 ≤ b.n) (hp : 1 ≤ b.p)
    (x y z : Int) (hx : 0 ≤ x ∧ x < b.m) (hy : 0 ≤ y ∧ y < b.n) (hz : 0 ≤ z ∧ z < b.p)
    (l : Nat) (hl : l < 12) :
    brick_edge_ttemp_exact b (brick_numbering_exact b) x y z (some (brick_tree_at b x y z)) l =
      some (if brick_edge_owned b (brick_owner b x y z (brick_edge_side l)) (l / 4) = true
        then brick_edge_no b (brick_owner b x y z (brick_edge_side l)) (l / 4) else -1) := by
  obtain ⟨o1, o2, o3, _, _⟩ := brick_owner_spec b hm hn hp x y z hx hy hz (brick_edge_side l)
    (brick_edge_side_lt l)
  have htj : some (brick_tree_at b x y z) =
      (brick_numbering_exact b).linear_to_tree ((brick_nb b x y z 0 0 0 : Nat) : Int) :=
    ((brick_nb_spec b hm hn hp x y z 0 0 0 hx hy hz (Or.inr (Or.inl rfl)) (Or.inr (Or.inl rfl))
      (Or.inr (Or.inl rfl))).2.2.2).symm
  unfold brick_edge_ttemp_exact
  simp only []
  rw [brick_edge_switch b _ x y z _ htj l hl, o3]
  have := (brick_numbering_inv b b.n_iter_exact.toNat _ o1 o2).2.2 (l / 4) (by omega)
  have e : brick_tree_no b (brick_owner b x y z (brick_edge_side l)) * 3 + ((l / 4 : Nat) : Int) =
      3 * brick_tree_no b (brick_owner b x y z (brick_edge_side l)) + ((l / 4 : Nat) : Int) := by
    ring
  show (brick_numbering_exact b).tree_to_edge2
    (brick_tree_no b (brick_owner b x y z (brick_edge_side l)) * 3 + ((l / 4 : Nat) : Int)) = _
  rw [e]
  exact this

/-- The value `ttemp` for a corner. -/
theorem brick_corner_ttemp_eq (b : brick_t) (hm : 1 ≤ b.m) (hn : 1 ≤ b.n) (hp : 1 ≤ b.p)
    (x y z : Int) (hx : 0 ≤ x ∧ x < b.m) (hy : 0 ≤ y ∧ y < b.n) (hz : 0 ≤ z ∧ z < b.p)
    (i : Nat) (hi : i < 8) :
    brick_corner_ttemp_exact b (brick_numbering_exact b) x y z (some (brick_tree_at b x y z)) i =
      some (if brick_corner_owned b (brick_owner b x y z (brick_corner_side i)) = true
        then brick_corner_no b (brick_owner b x y z (brick_corner_side i)) else -1) := by
  obtain ⟨o1, o2, o3, _, _⟩ := brick_owner_spec b hm hn hp x y z hx hy hz (brick_corner_side i)
    (brick_corner_side_lt i)
  have htj : some (brick_tree_at b x y z) =
      (brick_numbering_exact b).linear_to_tree ((brick_nb b x y z 0 0 0 : Nat) : Int) :=
    ((brick_nb_spec b hm hn hp x y z 0 0 0 hx hy hz (Or.inr (Or.inl rfl)) (Or.inr (Or.inl rfl))
      (Or.inr (Or.inl rfl))).2.2.2).symm
  unfold brick_corner_ttemp_exact
  simp only []
  rw [brick_corner_switch b _ x y z _ htj i hi, o3]
  exact (brick_numbering_inv b b.n_iter_exact.toNat _ o1 o2).2.1

/-- An edge that is not on a boundary is numbered by its owner. -/
theorem brick_edge_owner_owned (b : brick_t) (hm : 1 ≤ b.m) (hn : 1 ≤ b.n) (hp : 1 ≤ b.p)
    (x y z : Int) (hx : 0 ≤ x ∧ x < b.m) (hy : 0 ≤ y ∧ y < b.n) (hz : 0 ≤ z ∧ z < b.p)
    (l : Nat) (hb : brick_edge_boundary b x y z l = false) :
    brick_edge_owned b (brick_owner b x y z (brick_edge_side l)) (l / 4) = true := by
  obtain ⟨_, _, _, _, o5⟩ := brick_owner_spec b hm hn hp x y z hx hy hz (brick_edge_side l)
    (brick_edge_side_lt l)
  unfold brick_edge_boundary at hb
  rw [Bool.or_eq_false_iff] at hb
  unfold brick_edge_owned
  rw [Bool.and_eq_true]
  obtain ⟨s1, s2⟩ := brick_edge_side_dir l
  obtain ⟨d1, d2, _⟩ := brick_dir_lt (l / 4)
  exact ⟨o5 _ d1 (by rw [s1]; exact hb.1), o5 _ d2 (by rw [s2]; exact hb.2)⟩

theorem brick_corner_side_val (i : Nat) (hi : i < 8) :
    brick_corner_side i 0 = i &&& 1 ∧ brick_corner_side i 1 = (i >>> 1) &&& 1 ∧
    brick_corner_side i 2 = i >>> 2 := by
  interval_cases i <;> exact ⟨rfl, rfl, rfl⟩

/-- A corner that is not on a boundary is numbered by its owner. -/
theorem brick_corner_owner_owned (b : brick_t) (hm : 1 ≤ b.m) (hn : 1 ≤ b.n) (hp : 1 ≤ b.p)
    (x y z : Int) (hx : 0 ≤ x ∧ x < b.m) (hy : 0 ≤ y ∧ y < b.n) (hz : 0 ≤ z ∧ z < b.p)
    (i : Nat) (hi : i < 8) (hb : brick_corner_boundary b x y z i = false) :
    brick_corner_owned b (brick_owner b x y z (brick_corner_side i)) = true := by
  obtain ⟨_, _, _, _, o5⟩ := brick_owner_spec b hm hn hp x y z hx hy hz (brick_corner_side i)
    (brick_corner_side_lt i)
  unfold brick_corner_boundary at hb
  rw [Bool.or_eq_false_iff, Bool.or_eq_false_iff] at hb
  unfold brick_corner_owned
  rw [Bool.and_eq_true, Bool.and_eq_true]
  obtain ⟨s0, s1, s2⟩ := brick_corner_side_val i hi
  exact ⟨⟨o5 0 (by norm_num) (by rw [s0]; exact hb.1.1),
    o5 1 (by norm_num) (by rw [s1]; exact hb.1.2)⟩, o5 2 (by norm_num) (by rw [s2]; exact hb.2)⟩

/-! ## The reverse tables of edges and corners -/

/-- The final value of a cell of an array that the trees write at cells that
determine the tree and its edge or corner. -/
theorem brick_reverse_value (b : brick_t) (sel W : Nat) (ok : Nat → Nat → Bool)
    (key : Nat → Nat → Int) (val : Nat → Nat → Option Int)
    (hW : ∀ ti, ti < b.n_iter_exact.toNat → brick_inside b ti = true →
      brick_writes b sel ti = ((List.range W).filter (ok ti)).map fun (l : Nat) =>
        (some (key ti l), val ti l))
    (hinj : ∀ ti l ti2 l2, ti < b.n_iter_exact.toNat → brick_inside b ti = true → l < W →
      ok ti l = true → ti2 < b.n_iter_exact.toNat → brick_inside b ti2 = true → l2 < W →
      ok ti2 l2 = true → key ti l = key ti2 l2 → ti = ti2 ∧ l = l2)
    (ti0 : Nat) (h0 : ti0 < b.n_iter_exact.toNat) (hin0 : brick_inside b ti0 = true) (l0 : Nat)
    (hl0 : l0 < W) (hok : ok ti0 l0 = true) :
    arr_writes (fun _ => none) (brick_all_writes b sel b.n_iter_exact.toNat) (key ti0 l0) =
      val ti0 l0 := by
  have hmem : ∀ wr ∈ brick_all_writes b sel b.n_iter_exact.toNat, ∃ ti l, ti < b.n_iter_exact.toNat ∧
      brick_inside b ti = true ∧ l < W ∧ ok ti l = true ∧
      wr = (some (key ti l), val ti l) := by
    intro wr hwr
    obtain ⟨ti, hti, hw⟩ := (mem_brick_all_writes b sel _ wr).mp hwr
    by_cases hin : brick_inside b ti = true
    · rw [hW ti hti hin] at hw
      obtain ⟨l, hl, rfl⟩ := List.mem_map.mp hw
      obtain ⟨hl1, hl2⟩ := List.mem_filter.mp hl
      exact ⟨ti, l, hti, hin, List.mem_range.mp hl1, hl2, rfl⟩
    · unfold brick_writes at hw
      rw [if_neg hin] at hw
      simp at hw
  apply arr_writes_value
  · intro wr hwr
    obtain ⟨ti, l, _, _, _, _, rfl⟩ := hmem wr hwr
    exact ⟨_, rfl⟩
  · intro wr hwr hk
    obtain ⟨ti, l, hti, hin, hl, hokl, rfl⟩ := hmem wr hwr
    simp only [Option.some.injEq] at hk
    obtain ⟨e1, e2⟩ := hinj ti l ti0 l0 hti hin hl hokl h0 hin0 hl0 hok hk
    subst e1
    subst e2
    rfl
  · refine ⟨(some (key ti0 l0), val ti0 l0), ?_, rfl⟩
    rw [mem_brick_all_writes]
    refine ⟨ti0, h0, ?_⟩
    rw [hW ti0 h0 hin0]
    exact List.mem_map.mpr ⟨l0, List.mem_filter.mpr ⟨List.mem_range.mpr hl0, hok⟩, rfl⟩

theorem brick_tree_at_pos (b : brick_t) (ti : Nat) (hti : ti < b.n_iter_exact.toNat)
    (hin : brick_inside b ti = true) :
    brick_tree_at b (brick_pos b ti).1 (brick_pos b ti).2.1 (brick_pos b ti).2.2 =
      brick_tree_no b ti := by
  unfold brick_tree_at
  rw [(brick_tree_spec b ti hti hin).2.2.2.1]

/-- The writes of one tree to `edge_to_tree` and `edge_to_edge`. -/
theorem brick_edge_writes_eq (b : brick_t) (hm : 1 ≤ b.m) (hn : 1 ≤ b.n) (hp : 1 ≤ b.p)
    (he : b.num_edges_exact > 0) (ti : Nat) (hti : ti < b.n_iter_exact.toNat)
    (hin : brick_inside b ti = true) :
    brick_writes b 3 ti = ((List.range 12).filter fun l =>
        !brick_edge_boundary b (brick_pos b ti).1 (brick_pos b ti).2.1 (brick_pos b ti).2.2 l).map
      (fun (l : Nat) => (some (brick_edge_slot b ti l), some (brick_tree_no b ti))) ∧
    brick_writes b 4 ti = ((List.range 12).filter fun l =>
        !brick_edge_boundary b (brick_pos b ti).1 (brick_pos b ti).2.1 (brick_pos b ti).2.2 l).map
      (fun (l : Nat) => (some (brick_edge_slot b ti l), some ((l : Nat) : Int))) := by
  obtain ⟨px, py, pz, _, htj⟩ := brick_tree_spec b ti hti hin
  have key : ∀ l ∈ (List.range 12).filter (fun l =>
      !brick_edge_boundary b (brick_pos b ti).1 (brick_pos b ti).2.1 (brick_pos b ti).2.2 l),
      l < 12 ∧ (brick_edge_ttemp_exact b (brick_numbering_exact b) (brick_pos b ti).1 (brick_pos b ti).2.1
        (brick_pos b ti).2.2 (brick_tj b ti) l).map
          (fun g => 4 * g + (3 - ((l % 4 : Nat) : Int))) = some (brick_edge_slot b ti l) := by
    intro l hl
    obtain ⟨hl1, hl2⟩ := List.mem_filter.mp hl
    have hl12 := List.mem_range.mp hl1
    have hb : brick_edge_boundary b (brick_pos b ti).1 (brick_pos b ti).2.1
        (brick_pos b ti).2.2 l = false := by
      simpa using hl2
    refine ⟨hl12, ?_⟩
    rw [htj, ← brick_tree_at_pos b ti hti hin, brick_edge_ttemp_eq b hm hn hp _ _ _ px py pz l hl12,
      if_pos (brick_edge_owner_owned b hm hn hp _ _ _ px py pz l hb)]
    rfl
  unfold brick_writes
  simp only [if_pos hin, if_pos he]
  constructor
  · unfold brick_edge_to_tree_writes_exact
    apply List.map_congr_left
    intro l hl
    rw [(key l hl).2, htj]
  · unfold brick_edge_to_edge_writes_exact
    apply List.map_congr_left
    intro l hl
    rw [(key l hl).2, to_int8_small _ (by omega) (by have := (key l hl).1; omega)]

/-- The writes of one tree to `corner_to_tree` and `corner_to_corner`. -/
theorem brick_corner_writes_eq (b : brick_t) (hm : 1 ≤ b.m) (hn : 1 ≤ b.n) (hp : 1 ≤ b.p)
    (hc : b.num_corners_exact > 0) (ti : Nat) (hti : ti < b.n_iter_exact.toNat)
    (hin : brick_inside b ti = true) :
    brick_writes b 6 ti = ((List.range 8).filter fun i =>
        !brick_corner_boundary b (brick_pos b ti).1 (brick_pos b ti).2.1
          (brick_pos b ti).2.2 i).map
      (fun (i : Nat) => (some (brick_corner_slot b ti i), some (brick_tree_no b ti))) ∧
    brick_writes b 7 ti = ((List.range 8).filter fun i =>
        !brick_corner_boundary b (brick_pos b ti).1 (brick_pos b ti).2.1
          (brick_pos b ti).2.2 i).map
      (fun (i : Nat) => (some (brick_corner_slot b ti i), some ((i : Nat) : Int))) := by
  obtain ⟨px, py, pz, _, htj⟩ := brick_tree_spec b ti hti hin
  have key : ∀ i ∈ (List.range 8).filter (fun i =>
      !brick_corner_boundary b (brick_pos b ti).1 (brick_pos b ti).2.1 (brick_pos b ti).2.2 i),
      i < 8 ∧ (brick_corner_ttemp_exact b (brick_numbering_exact b) (brick_pos b ti).1 (brick_pos b ti).2.1
        (brick_pos b ti).2.2 (brick_tj b ti) i).map
          (fun c => c * 8 + (7 - (i : Int))) = some (brick_corner_slot b ti i) := by
    intro i hi
    obtain ⟨hl1, hl2⟩ := List.mem_filter.mp hi
    have hi8 := List.mem_range.mp hl1
    have hb : brick_corner_boundary b (brick_pos b ti).1 (brick_pos b ti).2.1
        (brick_pos b ti).2.2 i = false := by
      simpa using hl2
    refine ⟨hi8, ?_⟩
    rw [htj, ← brick_tree_at_pos b ti hti hin,
      brick_corner_ttemp_eq b hm hn hp _ _ _ px py pz i hi8,
      if_pos (brick_corner_owner_owned b hm hn hp _ _ _ px py pz i hi8 hb)]
    rfl
  unfold brick_writes
  simp only [if_pos hin, if_pos hc]
  constructor
  · unfold brick_corner_to_tree_writes_exact
    apply List.map_congr_left
    intro i hi
    rw [(key i hi).2, htj]
  · unfold brick_corner_to_corner_writes_exact
    apply List.map_congr_left
    intro i hi
    rw [(key i hi).2, to_int8_small _ (by omega) (by have := (key i hi).1; omega)]

/-- The tree is found back from the tree that numbers its edge or corner. -/
theorem brick_user_owner (b : brick_t) (hm : 1 ≤ b.m) (hn : 1 ≤ b.n) (hp : 1 ≤ b.p)
    (ti : Nat) (hti : ti < b.n_iter_exact.toNat) (hin : brick_inside b ti = true) (s : Nat → Nat)
    (hs : ∀ d, s d < 2) (o : Nat)
    (ho : o = brick_owner b (brick_pos b ti).1 (brick_pos b ti).2.1 (brick_pos b ti).2.2 s) :
    brick_user b (brick_pos b o).1 (brick_pos b o).2.1 (brick_pos b o).2.2 s = ti := by
  obtain ⟨px, py, pz, e, _⟩ := brick_tree_spec b ti hti hin
  subst ho
  rw [(brick_owner_spec b hm hn hp _ _ _ px py pz s hs).2.2.2.1, e]

theorem brick_edge_slot_inj (b : brick_t) (hm : 1 ≤ b.m) (hn : 1 ≤ b.n) (hp : 1 ≤ b.p)
    (ti l ti2 l2 : Nat) (hti : ti < b.n_iter_exact.toNat) (hin : brick_inside b ti = true)
    (hl : l < 12)
    (hb : brick_edge_boundary b (brick_pos b ti).1 (brick_pos b ti).2.1 (brick_pos b ti).2.2 l =
      false)
    (hti2 : ti2 < b.n_iter_exact.toNat) (hin2 : brick_inside b ti2 = true) (hl2 : l2 < 12)
    (hb2 : brick_edge_boundary b (brick_pos b ti2).1 (brick_pos b ti2).2.1
      (brick_pos b ti2).2.2 l2 = false)
    (h : brick_edge_slot b ti l = brick_edge_slot b ti2 l2) : ti = ti2 ∧ l = l2 := by
  obtain ⟨px, py, pz, _, _⟩ := brick_tree_spec b ti hti hin
  obtain ⟨qx, qy, qz, _, _⟩ := brick_tree_spec b ti2 hti2 hin2
  obtain ⟨_, o2, _, _, _⟩ := brick_owner_spec b hm hn hp _ _ _ px py pz (brick_edge_side l)
    (brick_edge_side_lt l)
  obtain ⟨_, r2, _, _, _⟩ := brick_owner_spec b hm hn hp _ _ _ qx qy qz (brick_edge_side l2)
    (brick_edge_side_lt l2)
  have w1 := brick_edge_owner_owned b hm hn hp _ _ _ px py pz l hb
  have w2 := brick_edge_owner_owned b hm hn hp _ _ _ qx qy qz l2 hb2
  unfold brick_edge_slot at h
  have hg : brick_edge_no b (brick_owner b (brick_pos b ti).1 (brick_pos b ti).2.1
      (brick_pos b ti).2.2 (brick_edge_side l)) (l / 4) =
      brick_edge_no b (brick_owner b (brick_pos b ti2).1 (brick_pos b ti2).2.1
      (brick_pos b ti2).2.2 (brick_edge_side l2)) (l2 / 4) ∧ l % 4 = l2 % 4 := by
    omega
  obtain ⟨e1, e2⟩ := brick_edge_no_inj b _ _ _ _ (by omega) (by omega) o2 r2 w1 w2 hg.1
  have el : l = l2 := by omega
  subst el
  refine ⟨?_, rfl⟩
  rw [← brick_user_owner b hm hn hp ti hti hin (brick_edge_side l) (brick_edge_side_lt l) _ rfl,
    ← brick_user_owner b hm hn hp ti2 hti2 hin2 (brick_edge_side l) (brick_edge_side_lt l) _ rfl,
    e1]

theorem brick_corner_slot_inj (b : brick_t) (hm : 1 ≤ b.m) (hn : 1 ≤ b.n) (hp : 1 ≤ b.p)
    (ti i ti2 i2 : Nat) (hti : ti < b.n_iter_exact.toNat) (hin : brick_inside b ti = true)
    (hi : i < 8)
    (hb : brick_corner_boundary b (brick_pos b ti).1 (brick_pos b ti).2.1 (brick_pos b ti).2.2
      i = false)
    (hti2 : ti2 < b.n_iter_exact.toNat) (hin2 : brick_inside b ti2 = true) (hi2 : i2 < 8)
    (hb2 : brick_corner_boundary b (brick_pos b ti2).1 (brick_pos b ti2).2.1
      (brick_pos b ti2).2.2 i2 = false)
    (h : brick_corner_slot b ti i = brick_corner_slot b ti2 i2) : ti = ti2 ∧ i = i2 := by
  obtain ⟨px, py, pz, _, _⟩ := brick_tree_spec b ti hti hin
  obtain ⟨qx, qy, qz, _, _⟩ := brick_tree_spec b ti2 hti2 hin2
  obtain ⟨_, o2, _, _, _⟩ := brick_owner_spec b hm hn hp _ _ _ px py pz (brick_corner_side i)
    (brick_corner_side_lt i)
  obtain ⟨_, r2, _, _, _⟩ := brick_owner_spec b hm hn hp _ _ _ qx qy qz (brick_corner_side i2)
    (brick_corner_side_lt i2)
  have w1 := brick_corner_owner_owned b hm hn hp _ _ _ px py pz i hi hb
  have w2 := brick_corner_owner_owned b hm hn hp _ _ _ qx qy qz i2 hi2 hb2
  unfold brick_corner_slot at h
  have hg : brick_corner_no b (brick_owner b (brick_pos b ti).1 (brick_pos b ti).2.1
      (brick_pos b ti).2.2 (brick_corner_side i)) =
      brick_corner_no b (brick_owner b (brick_pos b ti2).1 (brick_pos b ti2).2.1
      (brick_pos b ti2).2.2 (brick_corner_side i2)) ∧ i = i2 := by
    omega
  have e1 := brick_corner_no_inj b _ _ o2 r2 w1 w2 hg.1
  have el := hg.2
  subst el
  refine ⟨?_, rfl⟩
  rw [← brick_user_owner b hm hn hp ti hti hin (brick_corner_side i) (brick_corner_side_lt i) _
      rfl,
    ← brick_user_owner b hm hn hp ti2 hti2 hin2 (brick_corner_side i) (brick_corner_side_lt i) _
      rfl, e1]

/-- The entries of `edge_to_tree` and `edge_to_edge` that a tree writes for an
edge that is not on a boundary, and the entry of `tree_to_edge` that leads back
to the same cell. -/
theorem brick_edge_entry (b : brick_t) (hm : 1 ≤ b.m) (hn : 1 ≤ b.n) (hp : 1 ≤ b.p)
    (he : b.num_edges_exact > 0) (ti l : Nat) (hti : ti < b.n_iter_exact.toNat)
    (hin : brick_inside b ti = true) (hl : l < 12)
    (hb : brick_edge_boundary b (brick_pos b ti).1 (brick_pos b ti).2.1 (brick_pos b ti).2.2 l =
      false) :
    (brick_arrays_exact b).edge_to_tree (brick_edge_slot b ti l) = some (brick_tree_no b ti) ∧
    (brick_arrays_exact b).edge_to_edge (brick_edge_slot b ti l) = some ((l : Nat) : Int) ∧
    (brick_arrays_exact b).tree_to_edge (brick_tree_no b ti * 12 + (l : Int)) =
      some (brick_edge_no b (brick_owner b (brick_pos b ti).1 (brick_pos b ti).2.1
        (brick_pos b ti).2.2 (brick_edge_side l)) (l / 4)) := by
  obtain ⟨px, py, pz, _, _⟩ := brick_tree_spec b ti hti hin
  have hinj : ∀ ti l ti2 l2, ti < b.n_iter_exact.toNat → brick_inside b ti = true → l < 12 →
      (!brick_edge_boundary b (brick_pos b ti).1 (brick_pos b ti).2.1 (brick_pos b ti).2.2 l) =
        true → ti2 < b.n_iter_exact.toNat → brick_inside b ti2 = true → l2 < 12 →
      (!brick_edge_boundary b (brick_pos b ti2).1 (brick_pos b ti2).2.1 (brick_pos b ti2).2.2 l2) =
        true → brick_edge_slot b ti l = brick_edge_slot b ti2 l2 → ti = ti2 ∧ l = l2 := by
    intro ti l ti2 l2 a1 a2 a3 a4 c1 c2 c3 c4 h
    exact brick_edge_slot_inj b hm hn hp ti l ti2 l2 a1 a2 a3 (by simpa using a4) c1 c2 c3
      (by simpa using c4) h
  refine ⟨?_, ?_, ?_⟩
  · unfold brick_arrays_exact
    rw [(brick_fill_fields b _).2.2.2.1]
    exact brick_reverse_value b 3 12
      (fun ti l => !brick_edge_boundary b (brick_pos b ti).1 (brick_pos b ti).2.1
        (brick_pos b ti).2.2 l)
      (brick_edge_slot b) (fun ti _ => some (brick_tree_no b ti))
      (fun ti h1 h2 => (brick_edge_writes_eq b hm hn hp he ti h1 h2).1) hinj ti hti hin l hl
      (by simpa using hb)
  · unfold brick_arrays_exact
    rw [(brick_fill_fields b _).2.2.2.2.1]
    exact brick_reverse_value b 4 12
      (fun ti l => !brick_edge_boundary b (brick_pos b ti).1 (brick_pos b ti).2.1
        (brick_pos b ti).2.2 l)
      (brick_edge_slot b) (fun _ l => some ((l : Nat) : Int))
      (fun ti h1 h2 => (brick_edge_writes_eq b hm hn hp he ti h1 h2).2) hinj ti hti hin l hl
      (by simpa using hb)
  · rw [brick_edge_final b he ti hti hin l hl, hb, ← brick_tree_at_pos b ti hti hin,
      brick_edge_ttemp_eq b hm hn hp _ _ _ px py pz l hl,
      if_pos (brick_edge_owner_owned b hm hn hp _ _ _ px py pz l hb)]
    rfl

/-- The entries of `corner_to_tree` and `corner_to_corner` that a tree writes
for a corner that is not on a boundary, and the entry of `tree_to_corner` that
leads back to the same cell. -/
theorem brick_corner_entry (b : brick_t) (hm : 1 ≤ b.m) (hn : 1 ≤ b.n) (hp : 1 ≤ b.p)
    (hc : b.num_corners_exact > 0) (ti i : Nat) (hti : ti < b.n_iter_exact.toNat)
    (hin : brick_inside b ti = true) (hi : i < 8)
    (hb : brick_corner_boundary b (brick_pos b ti).1 (brick_pos b ti).2.1 (brick_pos b ti).2.2
      i = false) :
    (brick_arrays_exact b).corner_to_tree (brick_corner_slot b ti i) = some (brick_tree_no b ti) ∧
    (brick_arrays_exact b).corner_to_corner (brick_corner_slot b ti i) = some ((i : Nat) : Int) ∧
    (brick_arrays_exact b).tree_to_corner (brick_tree_no b ti * 8 + (i : Int)) =
      some (brick_corner_no b (brick_owner b (brick_pos b ti).1 (brick_pos b ti).2.1
        (brick_pos b ti).2.2 (brick_corner_side i))) := by
  obtain ⟨px, py, pz, _, _⟩ := brick_tree_spec b ti hti hin
  have hinj : ∀ ti i ti2 i2, ti < b.n_iter_exact.toNat → brick_inside b ti = true → i < 8 →
      (!brick_corner_boundary b (brick_pos b ti).1 (brick_pos b ti).2.1 (brick_pos b ti).2.2 i) =
        true → ti2 < b.n_iter_exact.toNat → brick_inside b ti2 = true → i2 < 8 →
      (!brick_corner_boundary b (brick_pos b ti2).1 (brick_pos b ti2).2.1 (brick_pos b ti2).2.2
        i2) = true → brick_corner_slot b ti i = brick_corner_slot b ti2 i2 →
      ti = ti2 ∧ i = i2 := by
    intro ti i ti2 i2 a1 a2 a3 a4 c1 c2 c3 c4 h
    exact brick_corner_slot_inj b hm hn hp ti i ti2 i2 a1 a2 a3 (by simpa using a4) c1 c2 c3
      (by simpa using c4) h
  refine ⟨?_, ?_, ?_⟩
  · unfold brick_arrays_exact
    rw [(brick_fill_fields b _).2.2.2.2.2.2.1]
    exact brick_reverse_value b 6 8
      (fun ti i => !brick_corner_boundary b (brick_pos b ti).1 (brick_pos b ti).2.1
        (brick_pos b ti).2.2 i)
      (brick_corner_slot b) (fun ti _ => some (brick_tree_no b ti))
      (fun ti h1 h2 => (brick_corner_writes_eq b hm hn hp hc ti h1 h2).1) hinj ti hti hin i hi
      (by simpa using hb)
  · unfold brick_arrays_exact
    rw [(brick_fill_fields b _).2.2.2.2.2.2.2]
    exact brick_reverse_value b 7 8
      (fun ti i => !brick_corner_boundary b (brick_pos b ti).1 (brick_pos b ti).2.1
        (brick_pos b ti).2.2 i)
      (brick_corner_slot b) (fun _ i => some ((i : Nat) : Int))
      (fun ti h1 h2 => (brick_corner_writes_eq b hm hn hp hc ti h1 h2).2) hinj ti hti hin i hi
      (by simpa using hb)
  · rw [brick_corner_final b hc ti hti hin i hi, hb, ← brick_tree_at_pos b ti hti hin,
      brick_corner_ttemp_eq b hm hn hp _ _ _ px py pz i hi,
      if_pos (brick_corner_owner_owned b hm hn hp _ _ _ px py pz i hi hb)]
    rfl

/-- Every cell `4 * g + k` of the reverse edge tables is written by a tree. -/
theorem brick_edge_slot_surj (b : brick_t) (hm : 1 ≤ b.m) (hn : 1 ≤ b.n) (hp : 1 ≤ b.p)
    (g : Int) (h0 : 0 ≤ g) (h1 : g < b.num_edges_exact) (k : Nat) (hk : k < 4) :
    ∃ ti l, ti < b.n_iter_exact.toNat ∧ brick_inside b ti = true ∧ l < 12 ∧
      brick_edge_boundary b (brick_pos b ti).1 (brick_pos b ti).2.1 (brick_pos b ti).2.2 l =
        false ∧ brick_edge_slot b ti l = 4 * g + (k : Int) := by
  obtain ⟨o, d, ho, hd, hin, hown, hg⟩ := brick_edge_surj b hm hn hp g h0 h1
  obtain ⟨px, py, pz, pe, _⟩ := brick_tree_spec b o ho hin
  have hl4 : (4 * d + (3 - k)) / 4 = d := by omega
  have hl3 : (4 * d + (3 - k)) % 4 = 3 - k := by omega
  obtain ⟨u1, u2, u3, u4⟩ := brick_user_spec b hm hn hp _ _ _ px py pz
    (brick_edge_side (4 * d + (3 - k))) (brick_edge_side_lt _)
  rw [pe] at u3 u4
  refine ⟨_, 4 * d + (3 - k), u1, u2, by omega, ?_, ?_⟩
  · unfold brick_edge_owned at hown
    rw [Bool.and_eq_true] at hown
    obtain ⟨s1, s2⟩ := brick_edge_side_dir (4 * d + (3 - k))
    obtain ⟨d1, d2, _⟩ := brick_dir_lt ((4 * d + (3 - k)) / 4)
    have a1 := u4 _ d1 (by rw [hl4]; exact hown.1)
    have a2 := u4 _ d2 (by rw [hl4]; exact hown.2)
    rw [s1] at a1
    rw [s2] at a2
    unfold brick_edge_boundary
    rw [a1, a2]
    rfl
  · unfold brick_edge_slot
    rw [u3, hl4, hl3, hg]
    omega

/-- Every cell `8 * c + k` of the reverse corner tables is written by a
tree. -/
theorem brick_corner_slot_surj (b : brick_t) (hm : 1 ≤ b.m) (hn : 1 ≤ b.n) (hp : 1 ≤ b.p)
    (c : Int) (h0 : 0 ≤ c) (h1 : c < b.num_corners_exact) (k : Nat) (hk : k < 8) :
    ∃ ti i, ti < b.n_iter_exact.toNat ∧ brick_inside b ti = true ∧ i < 8 ∧
      brick_corner_boundary b (brick_pos b ti).1 (brick_pos b ti).2.1 (brick_pos b ti).2.2 i =
        false ∧ brick_corner_slot b ti i = c * 8 + (k : Int) := by
  obtain ⟨o, ho, hin, hown, hg⟩ := brick_corner_surj b hm hn hp c h0 h1
  obtain ⟨px, py, pz, pe, _⟩ := brick_tree_spec b o ho hin
  obtain ⟨u1, u2, u3, u4⟩ := brick_user_spec b hm hn hp _ _ _ px py pz
    (brick_corner_side (7 - k)) (brick_corner_side_lt _)
  rw [pe] at u3 u4
  refine ⟨_, 7 - k, u1, u2, by omega, ?_, ?_⟩
  · unfold brick_corner_owned at hown
    rw [Bool.and_eq_true, Bool.and_eq_true] at hown
    obtain ⟨s0, s1, s2⟩ := brick_corner_side_val (7 - k) (by omega)
    have a0 := u4 0 (by norm_num) hown.1.1
    have a1 := u4 1 (by norm_num) hown.1.2
    have a2 := u4 2 (by norm_num) hown.2
    rw [s0] at a0
    rw [s1] at a1
    rw [s2] at a2
    unfold brick_corner_boundary
    rw [a0, a1, a2]
    rfl
  · unfold brick_corner_slot
    rw [u3, hg]
    omega

/-! ## The cells of the connectivity of a brick are all written -/

theorem arr_set_det (a : Int → Option Int) (k v : Int) (j : Int)
    (h : ∃ w, a j = some w) : ∃ w, arr_set a (some k) (some v) j = some w := by
  rw [arr_set_some]
  split
  · exact ⟨v, rfl⟩
  · exact h

theorem brick_vertex_copy (b : brick_t) (st st2 : brick_arrays_t) (T T2 : Int) (i : Nat)
    (c : Int) (hT2 : 0 ≤ T2 ∧ T2 < b.num_trees_exact) (hc : 0 ≤ (i : Int) + c ∧ (i : Int) + c < 8)
    (hinv : brick_vertex_inv b st)
    (e1 : st2.tree_to_vertex = arr_set st.tree_to_vertex (some (T * 8 + (i : Int)))
      (st.tree_to_vertex (T2 * 8 + (i : Int) + c)))
    (e2 : st2.vertices = st.vertices) (e3 : st2.vicount = st.vicount)
    (e4 : st2.vcount = st.vcount) : brick_vertex_inv b st2 := by
  obtain ⟨h1, h2, h3, h4⟩ := hinv
  unfold brick_vertex_inv
  rw [e1, e2, e3, e4]
  refine ⟨?_, h2, h3, h4⟩
  intro k k0 k1
  obtain ⟨v, hv⟩ := h1 (T2 * 8 + (i : Int) + c) (by omega) (by omega)
  rw [hv]
  exact arr_set_det _ _ _ _ (h1 k k0 k1)

theorem brick_vertex_step_inv (b : brick_t) (hm : 1 ≤ b.m) (hn : 1 ≤ b.n) (hp : 1 ≤ b.p)
    (x y z : Int) (hx : 0 ≤ x ∧ x < b.m) (hy : 0 ≤ y ∧ y < b.n) (hz : 0 ≤ z ∧ z < b.p)
    (T : Int) (st : brick_arrays_t) (i : Nat) (hi : i < 8) (hinv : brick_vertex_inv b st) :
    brick_vertex_inv b (brick_vertex_step_exact b (brick_numbering_exact b) x y z (some T) st i) := by
  have htf : ∀ l, l < 6 → ∃ T2, brick_tf_exact b (brick_numbering_exact b).linear_to_tree x y z l = some T2 ∧
      0 ≤ T2 ∧ T2 < b.num_trees_exact := by
    intro l _
    obtain ⟨n1, _, n3, n4⟩ := brick_nb_spec b hm hn hp x y z _ _ _ hx hy hz
      (brick_face_step_cases l 0) (brick_face_step_cases l 1) (brick_face_step_cases l 2)
    exact ⟨_, by rw [brick_tf_eq]; exact n4, brick_tree_no_range b hm hn hp _ n1 n3⟩
  unfold brick_vertex_step_exact
  simp only []
  by_cases c1 : z > 0 ∧ i >>> 2 = 0
  · rw [if_pos c1]
    obtain ⟨T2, e, r⟩ := htf 4 (by norm_num)
    rw [e]
    have : i < 4 := by
      have := c1.2
      interval_cases i <;> simp_all
    exact brick_vertex_copy b st _ T T2 i 4 r (by omega) hinv rfl rfl rfl rfl
  · rw [if_neg c1]
    by_cases c2 : y > 0 ∧ (i >>> 1) &&& 1 = 0
    · rw [if_pos c2]
      obtain ⟨T2, e, r⟩ := htf 2 (by norm_num)
      rw [e]
      have : (i : Int) + 2 < 8 := by
        have := c2.2
        interval_cases i <;> simp_all
      exact brick_vertex_copy b st _ T T2 i 2 r (by omega) hinv rfl rfl rfl rfl
    · rw [if_neg c2]
      by_cases c3 : x > 0 ∧ i &&& 1 = 0
      · rw [if_pos c3]
        obtain ⟨T2, e, r⟩ := htf 0 (by norm_num)
        rw [e]
        have : (i : Int) + 1 < 8 := by
          have := c3.2
          interval_cases i <;> simp_all
        exact brick_vertex_copy b st _ T T2 i 1 r (by omega) hinv rfl rfl rfl rfl
      · rw [if_neg c3]
        obtain ⟨h1, h2, h3, h4⟩ := hinv
        refine ⟨?_, ?_, ?_, ?_⟩
        · intro k k0 k1
          exact arr_set_det _ _ _ _ (h1 k k0 k1)
        · intro k k0 k1
          show ∃ v, arr_set (arr_set (arr_set st.vertices (some st.vicount) (some _))
            (some (st.vicount + 1)) (some _)) (some (st.vicount + 2)) (some _) k = some v
          rw [arr_set_some, arr_set_some, arr_set_some]
          by_cases e2 : k = st.vicount + 2
          · rw [if_pos e2]; exact ⟨_, rfl⟩
          · rw [if_neg e2]
            by_cases e1 : k = st.vicount + 1
            · rw [if_pos e1]; exact ⟨_, rfl⟩
            · rw [if_neg e1]
              by_cases e0 : k = st.vicount
              · rw [if_pos e0]; exact ⟨_, rfl⟩
              · rw [if_neg e0]
                exact h2 k k0 (by
                  have : k < st.vicount + 3 := k1
                  omega)
        · show st.vicount + 3 = 3 * (st.vcount + 1)
          omega
        · show 0 ≤ st.vcount + 1
          omega

theorem brick_vertex_fold_inv (b : brick_t) (hm : 1 ≤ b.m) (hn : 1 ≤ b.n) (hp : 1 ≤ b.p)
    (x y z : Int) (hx : 0 ≤ x ∧ x < b.m) (hy : 0 ≤ y ∧ y < b.n) (hz : 0 ≤ z ∧ z < b.p)
    (T : Int) :
    ∀ (l : List Nat) (st : brick_arrays_t), (∀ i ∈ l, i < 8) → brick_vertex_inv b st →
      brick_vertex_inv b (l.foldl (brick_vertex_step_exact b (brick_numbering_exact b) x y z (some T)) st) := by
  intro l
  induction l with
  | nil => intro st _ h; exact h
  | cons i rest ih =>
    intro st hl h
    rw [List.foldl_cons]
    exact ih _ (fun j hj => hl j (List.mem_cons_of_mem _ hj))
      (brick_vertex_step_inv b hm hn hp x y z hx hy hz T st i (hl i (List.mem_cons_self _ _)) h)

theorem brick_fill_step_inv (b : brick_t) (hm : 1 ≤ b.m) (hn : 1 ≤ b.n) (hp : 1 ≤ b.p)
    (st : brick_arrays_t) (ti : Nat) (hti : ti < b.n_iter_exact.toNat)
    (hinv : brick_vertex_inv b st) :
    brick_vertex_inv b (brick_fill_step_exact b (brick_numbering_exact b) st ti) := by
  by_cases hin : brick_inside b ti = true
  · obtain ⟨px, py, pz, _, htj⟩ := brick_tree_spec b ti hti hin
    have h3 : (brick_pos b ti).1 < b.m ∧ (brick_pos b ti).2.1 < b.n ∧ (brick_pos b ti).2.2 < b.p :=
      ⟨px.2, py.2, pz.2⟩
    unfold brick_fill_step_exact
    simp only []
    rw [brick_pos_eq] at h3 px py pz
    rw [if_pos h3]
    have e : arr_get (brick_numbering_exact b).linear_to_tree (some (ti : Int)) =
        some (brick_tree_no b ti) := htj
    rw [e]
    apply brick_vertex_fold_inv b hm hn hp _ _ _ px py pz
    · intro i hi; exact List.mem_range.mp hi
    · exact hinv
  · have h3 : ¬ ((brick_pos b ti).1 < b.m ∧ (brick_pos b ti).2.1 < b.n ∧
        (brick_pos b ti).2.2 < b.p) := by
      intro h
      apply hin
      unfold brick_inside
      exact decide_eq_true h
    unfold brick_fill_step_exact
    simp only []
    rw [brick_pos_eq] at h3
    rw [if_neg h3]
    exact hinv

theorem brick_fill_upto_inv (b : brick_t) (hm : 1 ≤ b.m) (hn : 1 ≤ b.n) (hp : 1 ≤ b.p) :
    ∀ K, K ≤ b.n_iter_exact.toNat → brick_vertex_inv b (brick_fill_upto_exact b K) := by
  intro K
  induction K with
  | zero =>
    intro _
    refine ⟨?_, ?_, rfl, le_refl _⟩
    · intro k k0 k1
      refine ⟨-1, ?_⟩
      show (if 0 ≤ k ∧ k < 8 * b.num_trees_exact then some (-1) else none) = some (-1)
      rw [if_pos ⟨k0, k1⟩]
    · intro k k0 k1
      have : k < 0 := k1
      omega
  | succ K ih =>
    intro hK
    rw [brick_fill_upto_succ]
    exact brick_fill_step_inv b hm hn hp _ K (by omega) (ih (by omega))

/-- All cells of `vertices` and `tree_to_vertex` are written. -/
theorem brick_vertex_det (b : brick_t) (hm : 1 ≤ b.m) (hn : 1 ≤ b.n) (hp : 1 ≤ b.p) :
    (∀ k : Int, 0 ≤ k → k < 8 * b.num_trees_exact → ∃ v, (brick_arrays_exact b).tree_to_vertex k = some v) ∧
    (∀ k : Int, 0 ≤ k → k < 3 * b.num_vertices_exact → ∃ v, (brick_arrays_exact b).vertices k = some v) := by
  obtain ⟨h1, h2, h3, _⟩ := brick_fill_upto_inv b hm hn hp b.n_iter_exact.toNat (le_refl _)
  refine ⟨h1, ?_⟩
  intro k k0 k1
  apply h2 k k0
  rw [h3]
  have := brick_vertex_count b hm hn hp
  unfold brick_arrays_exact at this
  rw [this]
  exact k1

/-- Every cell of an array with `w` cells per tree belongs to a tree. -/
theorem brick_tree_cell (b : brick_t) (hm : 1 ≤ b.m) (hn : 1 ≤ b.n) (hp : 1 ≤ b.p) (w : Nat)
    (hw : 0 < w) (k : Int) (k0 : 0 ≤ k) (k1 : k < (w : Int) * b.num_trees_exact) :
    ∃ ti l, ti < b.n_iter_exact.toNat ∧ brick_inside b ti = true ∧ l < w ∧
      k = brick_tree_no b ti * (w : Int) + (l : Int) := by
  have hw2 : (0 : Int) < (w : Int) := by omega
  have q0 : 0 ≤ k / (w : Int) := Int.ediv_nonneg k0 (le_of_lt hw2)
  have q1 : k / (w : Int) < b.num_trees_exact := by
    apply Int.ediv_lt_of_lt_mul hw2
    rw [mul_comm]
    exact k1
  obtain ⟨ti, a1, a2, a3⟩ := brick_tree_surj b hm hn hp _ q0 q1
  have r0 := Int.emod_nonneg k (ne_of_gt hw2)
  have r1 := Int.emod_lt_of_pos k hw2
  refine ⟨ti, (k % (w : Int)).toNat, a1, a2, by omega, ?_⟩
  rw [a3, Int.toNat_of_nonneg r0, mul_comm]
  exact (Int.emod_add_ediv' k w).symm.trans (by ring)

/-- Every cell of `tree_to_tree` holds a tree number and every cell of
`tree_to_face` a face number. -/
theorem brick_face_det (b : brick_t) (hm : 1 ≤ b.m) (hn : 1 ≤ b.n) (hp : 1 ≤ b.p) (k : Int)
    (k0 : 0 ≤ k) (k1 : k < 6 * b.num_trees_exact) :
    (∃ v, (brick_arrays_exact b).tree_to_tree k = some v ∧ 0 ≤ v ∧ v < b.num_trees_exact) ∧
    ∃ f, (brick_arrays_exact b).tree_to_face k = some f ∧ 0 ≤ f ∧ f < 6 := by
  obtain ⟨ti, l, a1, a2, a3, a4⟩ := brick_tree_cell b hm hn hp 6 (by norm_num) k k0 k1
  obtain ⟨px, py, pz, _, _⟩ := brick_tree_spec b ti a1 a2
  obtain ⟨f1, f2⟩ := brick_face_value b hm hn hp _ _ _ px py pz l a3
  rw [brick_tree_at_pos b ti a1 a2] at f1 f2
  have e : k = brick_tree_no b ti * 6 + (l : Int) := a4
  rw [e, f1, f2]
  constructor
  · refine ⟨_, rfl, ?_⟩
    split
    · exact brick_tree_no_range b hm hn hp ti a1 a2
    · obtain ⟨x0, x1⟩ := brick_shift_range b.m _ _ hm px.1 px.2 (brick_face_step_cases l 0)
      obtain ⟨y0, y1⟩ := brick_shift_range b.n _ _ hn py.1 py.2 (brick_face_step_cases l 1)
      obtain ⟨z0, z1⟩ := brick_shift_range b.p _ _ hp pz.1 pz.2 (brick_face_step_cases l 2)
      obtain ⟨c1, _, c3⟩ := brick_at_spec b hm hn hp _ _ _ ⟨x0, x1⟩ ⟨y0, y1⟩ ⟨z0, z1⟩
      exact brick_tree_no_range b hm hn hp _ c1 c3
  · refine ⟨_, rfl, ?_⟩
    split <;> omega

/-- Every cell of `tree_to_edge` holds -1 or the number of an edge. -/
theorem brick_tree_to_edge_det (b : brick_t) (hm : 1 ≤ b.m) (hn : 1 ≤ b.n) (hp : 1 ≤ b.p)
    (he : b.num_edges_exact > 0) (k : Int) (k0 : 0 ≤ k) (k1 : k < 12 * b.num_trees_exact) :
    ∃ v, (brick_arrays_exact b).tree_to_edge k = some v ∧ -1 ≤ v ∧ v < b.num_edges_exact := by
  obtain ⟨ti, l, a1, a2, a3, a4⟩ := brick_tree_cell b hm hn hp 12 (by norm_num) k k0 k1
  obtain ⟨px, py, pz, _, _⟩ := brick_tree_spec b ti a1 a2
  have e : k = brick_tree_no b ti * 12 + (l : Int) := a4
  rw [e, brick_edge_final b he ti a1 a2 l a3]
  by_cases hb : brick_edge_boundary b (brick_pos b ti).1 (brick_pos b ti).2.1
      (brick_pos b ti).2.2 l = true
  · rw [if_pos hb]
    exact ⟨_, rfl, by omega, by omega⟩
  · rw [if_neg hb, ← brick_tree_at_pos b ti a1 a2,
      brick_edge_ttemp_eq b hm hn hp _ _ _ px py pz l a3]
    have hb2 : brick_edge_boundary b (brick_pos b ti).1 (brick_pos b ti).2.1
      (brick_pos b ti).2.2 l = false := by simpa using hb
    obtain ⟨o1, o2, _, _, _⟩ := brick_owner_spec b hm hn hp _ _ _ px py pz (brick_edge_side l)
      (brick_edge_side_lt l)
    have w1 := brick_edge_owner_owned b hm hn hp _ _ _ px py pz l hb2
    rw [if_pos w1]
    obtain ⟨r0, r1⟩ := brick_edge_no_range b hm hn hp _ (l / 4) o1 (by omega) o2 w1
    exact ⟨_, rfl, by omega, r1⟩

/-- Every cell of `tree_to_corner` holds -1 or the number of a corner. -/
theorem brick_tree_to_corner_det (b : brick_t) (hm : 1 ≤ b.m) (hn : 1 ≤ b.n) (hp : 1 ≤ b.p)
    (hc : b.num_corners_exact > 0) (k : Int) (k0 : 0 ≤ k) (k1 : k < 8 * b.num_trees_exact) :
    ∃ v, (brick_arrays_exact b).tree_to_corner k = some v ∧ -1 ≤ v ∧ v < b.num_corners_exact := by
  obtain ⟨ti, i, a1, a2, a3, a4⟩ := brick_tree_cell b hm hn hp 8 (by norm_num) k k0 k1
  obtain ⟨px, py, pz, _, _⟩ := brick_tree_spec b ti a1 a2
  have e : k = brick_tree_no b ti * 8 + (i : Int) := a4
  rw [e, brick_corner_final b hc ti a1 a2 i a3]
  by_cases hb : brick_corner_boundary b (brick_pos b ti).1 (brick_pos b ti).2.1
      (brick_pos b ti).2.2 i = true
  · rw [if_pos hb]
    exact ⟨_, rfl, by omega, by omega⟩
  · rw [if_neg hb, ← brick_tree_at_pos b ti a1 a2,
      brick_corner_ttemp_eq b hm hn hp _ _ _ px py pz i a3]
    have hb2 : brick_corner_boundary b (brick_pos b ti).1 (brick_pos b ti).2.1
      (brick_pos b ti).2.2 i = false := by simpa using hb
    obtain ⟨o1, o2, _, _, _⟩ := brick_owner_spec b hm hn hp _ _ _ px py pz (brick_corner_side i)
      (brick_corner_side_lt i)
    have w1 := brick_corner_owner_owned b hm hn hp _ _ _ px py pz i a3 hb2
    rw [if_pos w1]
    obtain ⟨r0, r1⟩ := brick_corner_no_range b hm hn hp _ o1 o2 w1
    exact ⟨_, rfl, by omega, r1⟩

/-- Every cell of the reverse edge tables is written, and its entry leads back
to the edge through `tree_to_edge`. -/
theorem brick_edge_round_trip (b : brick_t) (hm : 1 ≤ b.m) (hn : 1 ≤ b.n) (hp : 1 ≤ b.p)
    (g : Int) (g0 : 0 ≤ g) (g1 : g < b.num_edges_exact) (k : Nat) (hk : k < 4) :
    ∃ t e : Int, (brick_arrays_exact b).edge_to_tree (4 * g + (k : Int)) = some t ∧
      (brick_arrays_exact b).edge_to_edge (4 * g + (k : Int)) = some e ∧
      (0 ≤ t ∧ t < b.num_trees_exact) ∧ (0 ≤ e ∧ e < 12) ∧
      (brick_arrays_exact b).tree_to_edge (t * 12 + e) = some g := by
  obtain ⟨ti, l, a1, a2, a3, a4, a5⟩ := brick_edge_slot_surj b hm hn hp g g0 g1 k hk
  obtain ⟨e1, e2, e3⟩ := brick_edge_entry b hm hn hp (by omega) ti l a1 a2 a3 a4
  rw [a5] at e1 e2
  refine ⟨_, _, e1, e2, brick_tree_no_range b hm hn hp ti a1 a2, by omega, ?_⟩
  rw [e3]
  unfold brick_edge_slot at a5
  congr 1
  omega

/-- Every cell of the reverse corner tables is written, and its entry leads
back to the corner through `tree_to_corner`. -/
theorem brick_corner_round_trip (b : brick_t) (hm : 1 ≤ b.m) (hn : 1 ≤ b.n) (hp : 1 ≤ b.p)
    (c : Int) (c0 : 0 ≤ c) (c1 : c < b.num_corners_exact) (k : Nat) (hk : k < 8) :
    ∃ t e : Int, (brick_arrays_exact b).corner_to_tree (c * 8 + (k : Int)) = some t ∧
      (brick_arrays_exact b).corner_to_corner (c * 8 + (k : Int)) = some e ∧
      (0 ≤ t ∧ t < b.num_trees_exact) ∧ (0 ≤ e ∧ e < 8) ∧
      (brick_arrays_exact b).tree_to_corner (t * 8 + e) = some c := by
  obtain ⟨ti, i, a1, a2, a3, a4, a5⟩ := brick_corner_slot_surj b hm hn hp c c0 c1 k hk
  obtain ⟨e1, e2, e3⟩ := brick_corner_entry b hm hn hp (by omega) ti i a1 a2 a3 a4
  rw [a5] at e1 e2
  refine ⟨_, _, e1, e2, brick_tree_no_range b hm hn hp ti a1 a2, by omega, ?_⟩
  rw [e3]
  unfold brick_corner_slot at a5
  congr 1
  omega

/-! ## The connectivity of a brick -/

theorem mapM_option_eq {α β : Type} (f : α → Option β) (g : α → β) :
    ∀ l : List α, (∀ x ∈ l, f x = some (g x)) → l.mapM f = some (l.map g) := by
  intro l
  induction l with
  | nil => intro _; rfl
  | cons x rest ih =>
    intro h
    rw [List.mapM_cons, h x (List.mem_cons_self _ _),
      ih (fun y hy => h y (List.mem_cons_of_mem _ hy))]
    rfl

/-- An array whose first `len` cells are written is a list of length `len`. -/
theorem arr_list_of_det (a : Int → Option Int) (len : Int)
    (h : ∀ k : Int, 0 ≤ k → k < len → ∃ v, a k = some v) :
    ∃ xs, arr_list a len = some xs ∧ xs.length = len.toNat ∧
      ∀ k : Int, 0 ≤ k → k < len → aget xs k = a k := by
  refine ⟨(List.range len.toNat).map fun (i : Nat) => (a ((i : Nat) : Int)).getD 0, ?_, ?_, ?_⟩
  · unfold arr_list
    apply mapM_option_eq
    intro i hi
    obtain ⟨v, hv⟩ := h (i : Int) (by omega) (by have := List.mem_range.mp hi; omega)
    rw [hv]
    rfl
  · rw [List.length_map, List.length_range]
  · intro k k0 k1
    obtain ⟨v, hv⟩ := h k k0 k1
    unfold aget
    rw [if_neg (by omega), List.get?_eq_getElem?, List.getElem?_map,
      List.getElem?_range (by omega)]
    simp only [Option.map_some']
    rw [Int.toNat_of_nonneg k0, hv]
    rfl

/-- For every brick with positive sides the generator returns a connectivity,
whose arrays hold the cells that the second pass has written. -/
theorem brick_conn_spec (b : brick_t) (hm : 1 ≤ b.m) (hn : 1 ≤ b.n) (hp : 1 ≤ b.p) :
    ∃ conn, brick_connectivity_exact b = some conn ∧
      (conn.num_vertices = b.num_vertices_exact ∧ conn.num_trees = b.num_trees_exact ∧
        conn.num_edges = b.num_edges_exact ∧ conn.num_corners = b.num_corners_exact) ∧
      (conn.ett_offset =
          (List.range (b.num_edges_exact + 1).toNat).map (fun (ti : Nat) => 4 * ((ti : Nat) : Int)) ∧
        conn.ctt_offset =
          (List.range (b.num_corners_exact + 1).toNat).map (fun (ti : Nat) => 8 * ((ti : Nat) : Int))) ∧
      (conn.tree_to_tree.length = (6 * b.num_trees_exact).toNat ∧
        conn.tree_to_face.length = (6 * b.num_trees_exact).toNat ∧
        conn.edge_to_tree.length = (4 * b.num_edges_exact).toNat ∧
        conn.edge_to_edge.length = (4 * b.num_edges_exact).toNat ∧
        conn.corner_to_tree.length = (8 * b.num_corners_exact).toNat ∧
        conn.corner_to_corner.length = (8 * b.num_corners_exact).toNat) ∧
      (∀ k : Int, 0 ≤ k → k < 6 * b.num_trees_exact →
        aget conn.tree_to_tree k = (brick_arrays_exact b).tree_to_tree k ∧
        aget conn.tree_to_face k = (brick_arrays_exact b).tree_to_face k) ∧
      (∀ k : Int, 0 ≤ k → k < 12 * b.num_trees_exact → b.num_edges_exact > 0 →
        aget conn.tree_to_edge k = (brick_arrays_exact b).tree_to_edge k) ∧
      (∀ k : Int, 0 ≤ k → k < 4 * b.num_edges_exact →
        aget conn.edge_to_tree k = (brick_arrays_exact b).edge_to_tree k ∧
        aget conn.edge_to_edge k = (brick_arrays_exact b).edge_to_edge k) ∧
      (∀ k : Int, 0 ≤ k → k < 8 * b.num_trees_exact → b.num_corners_exact > 0 →
        aget conn.tree_to_corner k = (brick_arrays_exact b).tree_to_corner k) ∧
      (∀ k : Int, 0 ≤ k → k < 8 * b.num_corners_exact →
        aget conn.corner_to_tree k = (brick_arrays_exact b).corner_to_tree k ∧
        aget conn.corner_to_corner k = (brick_arrays_exact b).corner_to_corner k) := by
  obtain ⟨v1, v2⟩ := brick_vertex_det b hm hn hp
  obtain ⟨xv, hv, _, _⟩ := arr_list_of_det _ _ v2
  obtain ⟨xttv, httv, _, _⟩ := arr_list_of_det _ _ v1
  obtain ⟨xttt, httt, lttt, gttt⟩ := arr_list_of_det (brick_arrays_exact b).tree_to_tree
    (6 * b.num_trees_exact) (fun k k0 k1 => by
      obtain ⟨⟨v, e, _⟩, _⟩ := brick_face_det b hm hn hp k k0 k1
      exact ⟨v, e⟩)
  obtain ⟨xttf, httf, lttf, gttf⟩ := arr_list_of_det (brick_arrays_exact b).tree_to_face
    (6 * b.num_trees_exact) (fun k k0 k1 => by
      obtain ⟨_, ⟨v, e, _⟩⟩ := brick_face_det b hm hn hp k k0 k1
      exact ⟨v, e⟩)
  have hett : ∀ k : Int, 0 ≤ k → k < 4 * b.num_edges_exact →
      ∃ t e : Int, (brick_arrays_exact b).edge_to_tree k = some t ∧
        (brick_arrays_exact b).edge_to_edge k = some e := by
    intro k k0 k1
    obtain ⟨t, e, a1, a2, _⟩ := brick_edge_round_trip b hm hn hp (k / 4) (by omega) (by omega)
      (k % 4).toNat (by omega)
    have ek : 4 * (k / 4) + (((k % 4).toNat : Nat) : Int) = k := by omega
    rw [ek] at a1 a2
    exact ⟨t, e, a1, a2⟩
  have hctt : ∀ k : Int, 0 ≤ k → k < 8 * b.num_corners_exact →
      ∃ t e : Int, (brick_arrays_exact b).corner_to_tree k = some t ∧
        (brick_arrays_exact b).corner_to_corner k = some e := by
    intro k k0 k1
    obtain ⟨t, e, a1, a2, _⟩ := brick_corner_round_trip b hm hn hp (k / 8) (by omega) (by omega)
      (k % 8).toNat (by omega)
    have ek : (k / 8) * 8 + (((k % 8).toNat : Nat) : Int) = k := by omega
    rw [ek] at a1 a2
    exact ⟨t, e, a1, a2⟩
  obtain ⟨xett, hxett, lett, gett⟩ := arr_list_of_det (brick_arrays_exact b).edge_to_tree
    (4 * b.num_edges_exact) (fun k k0 k1 => by
      obtain ⟨t, _, e, _⟩ := hett k k0 k1
      exact ⟨t, e⟩)
  obtain ⟨xete, hxete, lete, gete⟩ := arr_list_of_det (brick_arrays_exact b).edge_to_edge
    (4 * b.num_edges_exact) (fun k k0 k1 => by
      obtain ⟨_, t, _, e⟩ := hett k k0 k1
      exact ⟨t, e⟩)
  obtain ⟨xctt, hxctt, lctt, gctt⟩ := arr_list_of_det (brick_arrays_exact b).corner_to_tree
    (8 * b.num_corners_exact) (fun k k0 k1 => by
      obtain ⟨t, _, e, _⟩ := hctt k k0 k1
      exact ⟨t, e⟩)
  obtain ⟨xctc, hxctc, lctc, gctc⟩ := arr_list_of_det (brick_arrays_exact b).corner_to_corner
    (8 * b.num_corners_exact) (fun k k0 k1 => by
      obtain ⟨_, t, _, e⟩ := hctt k k0 k1
      exact ⟨t, e⟩)
  have htte : ∃ xtte, (if decide (b.num_edges_exact > 0) = true then arr_list (brick_arrays_exact b).tree_to_edge
        (12 * b.num_trees_exact) else some []) = some xtte ∧
      ∀ k : Int, 0 ≤ k → k < 12 * b.num_trees_exact → b.num_edges_exact > 0 →
        aget xtte k = (brick_arrays_exact b).tree_to_edge k := by
    by_cases he : b.num_edges_exact > 0
    · obtain ⟨x, h1, _, h3⟩ := arr_list_of_det (brick_arrays_exact b).tree_to_edge
        (12 * b.num_trees_exact) (fun k k0 k1 => by
          obtain ⟨v, e, _⟩ := brick_tree_to_edge_det b hm hn hp he k k0 k1
          exact ⟨v, e⟩)
      exact ⟨x, by rw [if_pos (decide_eq_true he)]; exact h1, fun k k0 k1 _ => h3 k k0 k1⟩
    · exact ⟨[], by rw [if_neg (by simpa using he)], fun k _ _ h => absurd h he⟩
  have httc : ∃ xttc, (if decide (b.num_corners_exact > 0) = true then arr_list (brick_arrays_exact b).tree_to_corner
        (8 * b.num_trees_exact) else some []) = some xttc ∧
      ∀ k : Int, 0 ≤ k → k < 8 * b.num_trees_exact → b.num_corners_exact > 0 →
        aget xttc k = (brick_arrays_exact b).tree_to_corner k := by
    by_cases hc : b.num_corners_exact > 0
    · obtain ⟨x, h1, _, h3⟩ := arr_list_of_det (brick_arrays_exact b).tree_to_corner
        (8 * b.num_trees_exact) (fun k k0 k1 => by
          obtain ⟨v, e, _⟩ := brick_tree_to_corner_det b hm hn hp hc k k0 k1
          exact ⟨v, e⟩)
      exact ⟨x, by rw [if_pos (decide_eq_true hc)]; exact h1, fun k k0 k1 _ => h3 k k0 k1⟩
    · exact ⟨[], by rw [if_neg (by simpa using hc)], fun k _ _ h => absurd h hc⟩
  obtain ⟨xtte, hxtte, gtte⟩ := htte
  obtain ⟨xttc, hxttc, gttc⟩ := httc
  have hE : (if decide (b.num_edges_exact > 0) = true then arr_list (brick_arrays_exact b).edge_to_tree (4 * b.num_edges_exact)
      else some []) = some xett ∧
      (if decide (b.num_edges_exact > 0) = true then arr_list (brick_arrays_exact b).edge_to_edge (4 * b.num_edges_exact)
      else some []) = some xete := by
    by_cases he : b.num_edges_exact > 0
    · rw [if_pos (decide_eq_true he), if_pos (decide_eq_true he)]; exact ⟨hxett, hxete⟩
    · rw [if_neg (by simpa using he), if_neg (by simpa using he)]
      have z : (4 * b.num_edges_exact).toNat = 0 := by omega
      rw [z] at lett lete
      rw [List.length_eq_zero.mp lett, List.length_eq_zero.mp lete]
      exact ⟨rfl, rfl⟩
  have hC : (if decide (b.num_corners_exact > 0) = true then arr_list (brick_arrays_exact b).corner_to_tree
      (8 * b.num_corners_exact) else some []) = some xctt ∧
      (if decide (b.num_corners_exact > 0) = true then arr_list (brick_arrays_exact b).corner_to_corner
      (8 * b.num_corners_exact) else some []) = some xctc := by
    by_cases hc : b.num_corners_exact > 0
    · rw [if_pos (decide_eq_true hc), if_pos (decide_eq_true hc)]; exact ⟨hxctt, hxctc⟩
    · rw [if_neg (by simpa using hc), if_neg (by simpa using hc)]
      have z : (8 * b.num_corners_exact).toNat = 0 := by omega
      rw [z] at lctt lctc
      rw [List.length_eq_zero.mp lctt, List.length_eq_zero.mp lctc]
      exact ⟨rfl, rfl⟩
  refine ⟨p4est_connectivity_t.mk b.num_vertices_exact b.num_trees_exact b.num_edges_exact b.num_corners_exact
      (xv.map (fun (v : Int) => ((v : Int) : Rat))) xttv xttt xttf xtte
      ((List.range (b.num_edges_exact + 1).toNat).map (fun (ti : Nat) => 4 * ((ti : Nat) : Int)))
      xett xete xttc
      ((List.range (b.num_corners_exact + 1).toNat).map (fun (ti : Nat) => 8 * ((ti : Nat) : Int)))
      xctt xctc, ?_, ⟨rfl, rfl, rfl, rfl⟩, ⟨rfl, rfl⟩, ⟨lttt, lttf, lett, lete, lctt, lctc⟩,
    fun k k0 k1 => ⟨gttt k k0 k1, gttf k k0 k1⟩, gtte,
    fun k k0 k1 => ⟨gett k k0 k1, gete k k0 k1⟩, gttc,
    fun k k0 k1 => ⟨gctt k k0 k1, gctc k k0 k1⟩⟩
  unfold brick_connectivity_exact
  simp only []
  rw [hv, httv, httt, httf, hxtte, hxttc, hE.1, hE.2, hC.1, hC.2]
  rfl

/-! ## Symmetry of the face relation of a brick -/

/-- Along one axis: seen from the neighbor across a side that is not a
boundary, the opposite side is not a boundary either, and the neighbor across
it is the tree itself. -/
theorem face_back (size c per : Int) (j : Nat) (h1 : 1 ≤ size) (h2 : 0 ≤ c) (h3 : c < size)
    (hj : j < 2) (h : ¬ (per = 0 ∧ ((c = 0 ∧ j = 0) ∨ (c = size - 1 ∧ j = 1)))) :
    ¬ (per = 0 ∧ ((brick_shift size c (2 * (j : Int) - 1) = 0 ∧ 1 - j = 0) ∨
      (brick_shift size c (2 * (j : Int) - 1) = size - 1 ∧ 1 - j = 1))) := by
  obtain ⟨_, a1, a2⟩ := brick_shift_val size c h1 h2 h3
  have hj2 : j = 0 ∨ j = 1 := by omega
  rcases hj2 with e | e <;> subst e
  · have : 2 * ((0 : Nat) : Int) - 1 = -1 := by norm_num
    rw [this, a1]
    rintro ⟨hp, hb⟩
    have hc : c ≠ 0 := fun hc => h ⟨hp, Or.inl ⟨hc, rfl⟩⟩
    rw [if_neg hc] at hb
    omega
  · have : 2 * ((1 : Nat) : Int) - 1 = 1 := by norm_num
    rw [this, a2]
    rintro ⟨hp, hb⟩
    have hc : c ≠ size - 1 := fun hc => h ⟨hp, Or.inr ⟨hc, rfl⟩⟩
    rw [if_neg hc] at hb
    omega

theorem brick_face_step_flip (l d : Nat) (hl : l < 6) :
    brick_face_step (l / 2 * 2 + (1 - l % 2)) d = -brick_face_step l d ∧
    (l / 2 * 2 + (1 - l % 2)) / 2 = l / 2 ∧ (l / 2 * 2 + (1 - l % 2)) % 2 = 1 - l % 2 ∧
    (l / 2 * 2 + (1 - l % 2)) / 2 * 2 + (1 - (l / 2 * 2 + (1 - l % 2)) % 2) = l ∧
    l / 2 * 2 + (1 - l % 2) < 6 := by
  have e1 : (l / 2 * 2 + (1 - l % 2)) / 2 = l / 2 := by omega
  have e2 : (l / 2 * 2 + (1 - l % 2)) % 2 = 1 - l % 2 := by omega
  refine ⟨?_, e1, e2, by omega, by omega⟩
  unfold brick_face_step
  rw [e1, e2]
  by_cases h : l / 2 = d
  · rw [if_pos h, if_pos h]
    rcases Nat.mod_two_eq_zero_or_one l with h2 | h2 <;> rw [h2] <;> rfl
  · rw [if_neg h, if_neg h]
    rfl

/-- Seen from the neighbor across a face that is not a boundary, the opposite
face is not a boundary and leads back to the tree. -/
theorem brick_face_back (b : brick_t) (hm : 1 ≤ b.m) (hn : 1 ≤ b.n) (hp : 1 ≤ b.p)
    (x y z : Int) (hx : 0 ≤ x ∧ x < b.m) (hy : 0 ≤ y ∧ y < b.n) (hz : 0 ≤ z ∧ z < b.p)
    (l : Nat) (hl : l < 6) (hb : brick_on_boundary b x y z (l / 2) (l % 2) = false) :
    brick_on_boundary b (brick_shift b.m x (brick_face_step l 0))
      (brick_shift b.n y (brick_face_step l 1)) (brick_shift b.p z (brick_face_step l 2))
      ((l / 2 * 2 + (1 - l % 2)) / 2) ((l / 2 * 2 + (1 - l % 2)) % 2) = false ∧
    brick_shift b.m (brick_shift b.m x (brick_face_step l 0))
      (brick_face_step (l / 2 * 2 + (1 - l % 2)) 0) = x ∧
    brick_shift b.n (brick_shift b.n y (brick_face_step l 1))
      (brick_face_step (l / 2 * 2 + (1 - l % 2)) 1) = y ∧
    brick_shift b.p (brick_shift b.p z (brick_face_step l 2))
      (brick_face_step (l / 2 * 2 + (1 - l % 2)) 2) = z := by
  refine ⟨?_, ?_, ?_, ?_⟩
  · obtain ⟨_, f2, f3, _, _⟩ := brick_face_step_flip l 0 hl
    rw [f2, f3]
    unfold brick_on_boundary
    apply decide_eq_false
    rw [brick_coord_shift,
      brick_coord_sel _ _ _ (l / 2) (by omega) (fun d => brick_face_step l d) rfl rfl rfl]
    obtain ⟨r0, r1⟩ := brick_coord_range b x y z hx hy hz (l / 2)
    have e : brick_face_step l (l / 2) = 2 * ((l % 2 : Nat) : Int) - 1 := by
      unfold brick_face_step
      rw [if_pos rfl]
    rw [e]
    have := face_back (b.max (l / 2) + 1) (brick_coord x y z (l / 2)) (b.periodic (l / 2)) (l % 2)
      (brick_max_ge b hm hn hp _) r0 r1 (Nat.mod_lt _ (by norm_num)) (by
        unfold brick_on_boundary at hb
        have := of_decide_eq_false hb
        rw [add_sub_cancel_right]
        exact this)
    rw [add_sub_cancel_right] at this
    exact this
  · rw [(brick_face_step_flip l 0 hl).1]
    exact brick_shift_inv b.m x _ hm hx.1 hx.2 (brick_face_step_cases l 0)
  · rw [(brick_face_step_flip l 1 hl).1]
    exact brick_shift_inv b.n y _ hn hy.1 hy.2 (brick_face_step_cases l 1)
  · rw [(brick_face_step_flip l 2 hl).1]
    exact brick_shift_inv b.p z _ hp hz.1 hz.2 (brick_face_step_cases l 2)

/-- The step across a face, in terms of the remainder modulo the size. -/
theorem brick_shift_face (size c : Int) (h1 : 1 ≤ size) (h2 : 0 ≤ c) (h3 : c < size) (i j d : Nat)
    (hj : j < 2) :
    brick_shift size c (brick_face_step (2 * i + j) d) =
      if i = d then (c + (2 * (j : Int) - 1)) % size else c := by
  have e1 : (2 * i + j) / 2 = i := by omega
  have e2 : (2 * i + j) % 2 = j := by omega
  unfold brick_face_step
  rw [e1, e2]
  by_cases h : i = d
  · rw [if_pos h, if_pos h]
    unfold brick_shift
    rw [Int.tmod_eq_emod (by omega) (by omega), Int.add_emod_self]
  · rw [if_neg h, if_neg h]
    exact (brick_shift_val size c h1 h2 h3).1

/-- The face relation stored in the arrays is symmetric. -/
theorem brick_face_sym (b : brick_t) (hm : 1 ≤ b.m) (hn : 1 ≤ b.n) (hp : 1 ≤ b.p)
    (t : Int) (t0 : 0 ≤ t) (t1 : t < b.num_trees_exact) (f : Nat) (hf : f < 6) :
    ∃ t2 : Int, ∃ f2 : Nat, (0 ≤ t2 ∧ t2 < b.num_trees_exact) ∧ f2 < 6 ∧
      (brick_arrays_exact b).tree_to_tree (t * 6 + (f : Int)) = some t2 ∧
      (brick_arrays_exact b).tree_to_face (t * 6 + (f : Int)) = some ((f2 : Nat) : Int) ∧
      (brick_arrays_exact b).tree_to_tree (t2 * 6 + (f2 : Int)) = some t ∧
      (brick_arrays_exact b).tree_to_face (t2 * 6 + (f2 : Int)) = some ((f : Nat) : Int) := by
  obtain ⟨ti, a1, a2, a3⟩ := brick_tree_surj b hm hn hp t t0 t1
  obtain ⟨px, py, pz, _, _⟩ := brick_tree_spec b ti a1 a2
  obtain ⟨f1, f2⟩ := brick_face_value b hm hn hp _ _ _ px py pz f hf
  rw [brick_tree_at_pos b ti a1 a2, a3] at f1 f2
  by_cases hb : brick_on_boundary b (brick_pos b ti).1 (brick_pos b ti).2.1 (brick_pos b ti).2.2
      (f / 2) (f % 2) = true
  · rw [if_pos hb] at f1 f2
    exact ⟨t, f, ⟨t0, t1⟩, hf, f1, f2, f1, f2⟩
  · rw [if_neg hb] at f1 f2
    have hb2 : brick_on_boundary b (brick_pos b ti).1 (brick_pos b ti).2.1 (brick_pos b ti).2.2
      (f / 2) (f % 2) = false := by simpa using hb
    obtain ⟨x0, x1⟩ := brick_shift_range b.m _ _ hm px.1 px.2 (brick_face_step_cases f 0)
    obtain ⟨y0, y1⟩ := brick_shift_range b.n _ _ hn py.1 py.2 (brick_face_step_cases f 1)
    obtain ⟨z0, z1⟩ := brick_shift_range b.p _ _ hp pz.1 pz.2 (brick_face_step_cases f 2)
    obtain ⟨c1, _, c3⟩ := brick_at_spec b hm hn hp _ _ _ ⟨x0, x1⟩ ⟨y0, y1⟩ ⟨z0, z1⟩
    obtain ⟨_, _, _, k4, k5⟩ := brick_face_step_flip f 0 hf
    obtain ⟨g1, g2⟩ := brick_face_value b hm hn hp _ _ _ ⟨x0, x1⟩ ⟨y0, y1⟩ ⟨z0, z1⟩
      (f / 2 * 2 + (1 - f % 2)) k5
    obtain ⟨w1, w2, w3, w4⟩ := brick_face_back b hm hn hp _ _ _ px py pz f hf hb2
    rw [w1, w2, w3, w4, brick_tree_at_pos b ti a1 a2, a3] at g1
    rw [w1, k4] at g2
    exact ⟨_, _, brick_tree_no_range b hm hn hp _ c1 c3, k5, f1, f2, g1, g2⟩

/-- In exact integer arithmetic (brick face relation): for all sides `m, n, p >= 1` and all
periodicity flags `p8est_connectivity_new_brick_exact` returns a connectivity with
`m * n * p` trees.  The tree at the lattice position `(x, y, z)` is the entry of
`linear_to_tree` at the Morton index of the position; the positions and the
tree numbers correspond one to one.  Across the face `2 * i + j` the tree is
connected to itself with the same face when the axis `i` is not periodic and
the tree lies on the boundary of the domain on that side, and otherwise to the
tree one step along the axis `i` (minus for `j = 0`, plus for `j = 1`, modulo
the size) at the face `2 * i + (1 - j)` with orientation 0.  The face relation
of the connectivity is symmetric. -/
theorem brick_face_relation_exact (b : brick_t) (hm : 1 ≤ b.m) (hn : 1 ≤ b.n) (hp : 1 ≤ b.p) :
    ∃ conn, p8est_connectivity_new_brick_exact b.m b.n b.p b.periodic_a b.periodic_b b.periodic_c =
        some conn ∧
      conn.num_trees = b.m * b.n * b.p ∧
      (∀ x y z : Int, 0 ≤ x ∧ x < b.m → 0 ≤ y ∧ y < b.n → 0 ≤ z ∧ z < b.p →
        (brick_numbering_exact b).linear_to_tree
            ((brick_linear_exact b.log_cl.toNat x.toNat y.toNat z.toNat : Nat) : Int) =
          some (brick_tree_at b x y z) ∧
        (0 ≤ brick_tree_at b x y z ∧ brick_tree_at b x y z < conn.num_trees) ∧
        ∀ i j : Nat, i < 3 → j < 2 →
          ((b.periodic i = 0 ∧ ((brick_coord x y z i = 0 ∧ j = 0) ∨
              (brick_coord x y z i = b.max i ∧ j = 1))) →
            aget conn.tree_to_tree (6 * brick_tree_at b x y z + ((2 * i + j : Nat) : Int)) =
              some (brick_tree_at b x y z) ∧
            aget conn.tree_to_face (6 * brick_tree_at b x y z + ((2 * i + j : Nat) : Int)) =
              some ((2 * i + j : Nat) : Int)) ∧
          (¬ (b.periodic i = 0 ∧ ((brick_coord x y z i = 0 ∧ j = 0) ∨
              (brick_coord x y z i = b.max i ∧ j = 1))) →
            aget conn.tree_to_tree (6 * brick_tree_at b x y z + ((2 * i + j : Nat) : Int)) =
              some (brick_tree_at b
                (if i = 0 then (x + (2 * (j : Int) - 1)) % b.m else x)
                (if i = 1 then (y + (2 * (j : Int) - 1)) % b.n else y)
                (if i = 2 then (z + (2 * (j : Int) - 1)) % b.p else z)) ∧
            aget conn.tree_to_face (6 * brick_tree_at b x y z + ((2 * i + j : Nat) : Int)) =
              some (6 * 0 + ((2 * i + (1 - j) : Nat) : Int)))) ∧
      (∀ T : Int, 0 ≤ T → T < conn.num_trees →
        ∃ x y z : Int, (0 ≤ x ∧ x < b.m) ∧ (0 ≤ y ∧ y < b.n) ∧ (0 ≤ z ∧ z < b.p) ∧
          brick_tree_at b x y z = T) ∧
      (∀ x y z x2 y2 z2 : Int, 0 ≤ x ∧ x < b.m → 0 ≤ y ∧ y < b.n → 0 ≤ z ∧ z < b.p →
        0 ≤ x2 ∧ x2 < b.m → 0 ≤ y2 ∧ y2 < b.n → 0 ≤ z2 ∧ z2 < b.p →
        brick_tree_at b x y z = brick_tree_at b x2 y2 z2 → x = x2 ∧ y = y2 ∧ z = z2) ∧
      face_symmetric conn := by
  obtain ⟨conn, h, ⟨_, hnt, _, _⟩, _, _, gf, _⟩ := brick_conn_spec b hm hn hp
  refine ⟨conn, h, hnt, ?_, ?_, ?_, ?_⟩
  · intro x y z hx hy hz
    obtain ⟨q1, _, q3⟩ := brick_at_spec b hm hn hp x y z hx hy hz
    have hnb : brick_nb b x y z 0 0 0 = brick_linear_exact b.log_cl.toNat x.toNat y.toNat z.toNat := by
      unfold brick_nb
      rw [(brick_shift_val b.m x hm hx.1 hx.2).1, (brick_shift_val b.n y hn hy.1 hy.2).1,
        (brick_shift_val b.p z hp hz.1 hz.2).1]
    have hr := brick_tree_no_range b hm hn hp _ q1 q3
    refine ⟨?_, ?_, ?_⟩
    · rw [← hnb]
      exact (brick_nb_spec b hm hn hp x y z 0 0 0 hx hy hz (Or.inr (Or.inl rfl))
        (Or.inr (Or.inl rfl)) (Or.inr (Or.inl rfl))).2.2.2
    · rw [hnt]
      exact hr
    · intro i j hi hj
      have e1 : (2 * i + j) / 2 = i := by omega
      have e2 : (2 * i + j) % 2 = j := by omega
      obtain ⟨f1, f2⟩ := brick_face_value b hm hn hp x y z hx hy hz (2 * i + j) (by omega)
      rw [e1, e2] at f1 f2
      have hk : 6 * brick_tree_at b x y z + ((2 * i + j : Nat) : Int) =
          brick_tree_at b x y z * 6 + ((2 * i + j : Nat) : Int) := by ring
      have k0 : 0 ≤ brick_tree_at b x y z * 6 + ((2 * i + j : Nat) : Int) := by
        have := hr.1
        unfold brick_tree_at
        omega
      have k1 : brick_tree_at b x y z * 6 + ((2 * i + j : Nat) : Int) < 6 * b.num_trees_exact := by
        have := hr.2
        unfold brick_tree_at
        omega
      rw [hk, (gf _ k0 k1).1, (gf _ k0 k1).2, f1, f2]
      constructor
      · intro hb
        have hb2 : brick_on_boundary b x y z i j = true := decide_eq_true hb
        rw [if_pos hb2, if_pos hb2]
        exact ⟨rfl, rfl⟩
      · intro hb
        have hb2 : ¬ brick_on_boundary b x y z i j = true := fun h => hb (of_decide_eq_true h)
        rw [if_neg hb2, if_neg hb2, brick_shift_face b.m x hm hx.1 hx.2 i j 0 hj,
          brick_shift_face b.n y hn hy.1 hy.2 i j 1 hj,
          brick_shift_face b.p z hp hz.1 hz.2 i j 2 hj]
        refine ⟨rfl, ?_⟩
        congr 1
        omega
  · intro T T0 T1
    rw [hnt] at T1
    obtain ⟨ti, a1, a2, a3⟩ := brick_tree_surj b hm hn hp T T0 T1
    obtain ⟨px, py, pz, _, _⟩ := brick_tree_spec b ti a1 a2
    exact ⟨_, _, _, px, py, pz, by rw [brick_tree_at_pos b ti a1 a2, a3]⟩
  · intro x y z x2 y2 z2 hx hy hz hx2 hy2 hz2 he
    obtain ⟨_, q2, q3⟩ := brick_at_spec b hm hn hp x y z hx hy hz
    obtain ⟨_, r2, r3⟩ := brick_at_spec b hm hn hp x2 y2 z2 hx2 hy2 hz2
    have := brick_tree_no_inj b _ _ q3 r3 he
    rw [this, r2] at q2
    have e1 : x2 = x := congrArg Prod.fst q2
    have e2 : y2 = y := congrArg (fun q => q.2.1) q2
    have e3 : z2 = z := congrArg (fun q => q.2.2) q2
    exact ⟨e1.symm, e2.symm, e3.symm⟩
  · intro t f o f2 ht hf ho hf2 t2 h1 h2
    rw [hnt] at ht
    obtain ⟨u, g, hu, hg, s1, s2, s3, s4⟩ := brick_face_sym b hm hn hp (t : Int) (by omega) ht f hf
    have hk : 6 * (t : Int) + (f : Int) = (t : Int) * 6 + (f : Int) := by ring
    have k0 : 0 ≤ (t : Int) * 6 + (f : Int) := by omega
    have k1 : (t : Int) * 6 + (f : Int) < 6 * b.num_trees_exact := by omega
    rw [hk, (gf _ k0 k1).1, s1] at h1
    rw [hk, (gf _ k0 k1).2, s2] at h2
    have e1 : u = t2 := Option.some.inj h1
    have e2 : (g : Int) = 6 * (o : Int) + (f2 : Int) := Option.some.inj h2
    have e3 : o = 0 := by omega
    have e4 : g = f2 := by omega
    subst e1
    subst e3
    subst e4
    have hk2 : 6 * u + (g : Int) = u * 6 + (g : Int) := by ring
    have k2 : 0 ≤ u * 6 + (g : Int) := by omega
    have k3 : u * 6 + (g : Int) < 6 * b.num_trees_exact := by omega
    rw [hk2, (gf _ k2 k3).1, (gf _ k2 k3).2, s3, s4]
    exact ⟨rfl, by simp⟩

theorem brick_counts_ge (b : brick_t) (hm : 1 ≤ b.m) (hn : 1 ≤ b.n) (hp : 1 ≤ b.p) :
    0 ≤ b.num_trees_exact ∧ 0 ≤ b.num_corners_exact ∧ 0 ≤ b.num_edges_exact := by
  obtain ⟨c1, c2, c3⟩ := brick_numbering_counts b hm hn hp
  obtain ⟨n1, n2, n3⟩ := brick_counts_nonneg b b.n_iter_exact.toNat
  have e1 : (brick_numbering_exact b).tj = brick_tree_no b b.n_iter_exact.toNat := rfl
  have e2 : (brick_numbering_exact b).tk = brick_corner_no b b.n_iter_exact.toNat := rfl
  have e3 : (brick_numbering_exact b).tl = (brick_number_upto_exact b b.n_iter_exact.toNat).tl := rfl
  rw [← c1, ← c2, ← c3, e1, e2, e3]
  exact ⟨n1, n2, n3⟩

/-- The offsets `w * ti` of a reverse table with `w` entries per number. -/
theorem aget_offsets (w n : Int) (g : Int) (g0 : 0 ≤ g) (g1 : g < n + 1) :
    aget ((List.range (n + 1).toNat).map (fun (ti : Nat) => w * ((ti : Nat) : Int))) g =
      some (w * g) := by
  unfold aget
  rw [if_neg (by omega), List.get?_eq_getElem?, List.getElem?_map,
    List.getElem?_range (by omega)]
  simp only [Option.map_some']
  rw [Int.toNat_of_nonneg g0]

/-- In exact integer arithmetic (brick reverse tables): for all sides `m, n, p >= 1` and all
periodicity flags, in the connectivity that `p8est_connectivity_new_brick_exact`
returns every global edge `g` has the four reverse entries `4 * g .. 4 * g + 3`
and every global corner `c` the eight reverse entries `8 * c .. 8 * c + 7`, the
reverse tables consist of these entries, every one of them is written, and
every one leads back through the forward table:
`tree_to_edge[12 * edge_to_tree[4 * g + k] + edge_to_edge[4 * g + k]] = g` and
`tree_to_corner[8 * corner_to_tree[8 * c + k] + corner_to_corner[8 * c + k]] = c`.
All stored edge codes are below 12, so that the flip is 0. -/
theorem brick_reverse_tables_exact (b : brick_t) (hm : 1 ≤ b.m) (hn : 1 ≤ b.n) (hp : 1 ≤ b.p) :
    ∃ conn, p8est_connectivity_new_brick_exact b.m b.n b.p b.periodic_a b.periodic_b b.periodic_c =
        some conn ∧
      (conn.num_trees = b.num_trees_exact ∧ conn.num_edges = b.num_edges_exact ∧
        conn.num_corners = b.num_corners_exact) ∧
      (∀ g : Int, 0 ≤ g → g < conn.num_edges →
        aget conn.ett_offset g = some (4 * g) ∧ aget conn.ett_offset (g + 1) = some (4 * g + 4)) ∧
      (∀ c : Int, 0 ≤ c → c < conn.num_corners →
        aget conn.ctt_offset c = some (8 * c) ∧ aget conn.ctt_offset (c + 1) = some (8 * c + 8)) ∧
      ((conn.edge_to_tree.length : Int) = 4 * conn.num_edges ∧
        (conn.edge_to_edge.length : Int) = 4 * conn.num_edges ∧
        (conn.corner_to_tree.length : Int) = 8 * conn.num_corners ∧
        (conn.corner_to_corner.length : Int) = 8 * conn.num_corners) ∧
      (∀ g : Int, 0 ≤ g → g < conn.num_edges → ∀ k : Nat, k < 4 →
        ∃ t e : Int, aget conn.edge_to_tree (4 * g + (k : Int)) = some t ∧
          aget conn.edge_to_edge (4 * g + (k : Int)) = some e ∧
          (0 ≤ t ∧ t < conn.num_trees) ∧ (0 ≤ e ∧ e < 12) ∧
          aget conn.tree_to_edge (12 * t + e) = some g) ∧
      (∀ c : Int, 0 ≤ c → c < conn.num_corners → ∀ k : Nat, k < 8 →
        ∃ t e : Int, aget conn.corner_to_tree (8 * c + (k : Int)) = some t ∧
          aget conn.corner_to_corner (8 * c + (k : Int)) = some e ∧
          (0 ≤ t ∧ t < conn.num_trees) ∧ (0 ≤ e ∧ e < 8) ∧
          aget conn.tree_to_corner (8 * t + e) = some c) ∧
      edge_round_trip conn ∧ corner_round_trip conn := by
  obtain ⟨conn, h, ⟨_, hnt, hne, hnc⟩, ⟨hoe, hoc⟩, ⟨_, _, l1, l2, l3, l4⟩, _, gtte, gett, gttc,
    gctt⟩ := brick_conn_spec b hm hn hp
  obtain ⟨_, nc0, ne0⟩ := brick_counts_ge b hm hn hp
  have edges : ∀ g : Int, 0 ≤ g → g < conn.num_edges → ∀ k : Nat, k < 4 →
      ∃ t e : Int, aget conn.edge_to_tree (4 * g + (k : Int)) = some t ∧
        aget conn.edge_to_edge (4 * g + (k : Int)) = some e ∧
        (0 ≤ t ∧ t < conn.num_trees) ∧ (0 ≤ e ∧ e < 12) ∧
        aget conn.tree_to_edge (12 * t + e) = some g := by
    intro g g0 g1 k hk
    rw [hne] at g1
    obtain ⟨t, e, a1, a2, a3, a4, a5⟩ := brick_edge_round_trip b hm hn hp g g0 g1 k hk
    refine ⟨t, e, ?_, ?_, by rw [hnt]; exact a3, a4, ?_⟩
    · rw [(gett _ (by omega) (by omega)).1]; exact a1
    · rw [(gett _ (by omega) (by omega)).2]; exact a2
    · have hk2 : 12 * t + e = t * 12 + e := by ring
      rw [hk2, gtte _ (by omega) (by omega) (by omega)]
      exact a5
  have corners : ∀ c : Int, 0 ≤ c → c < conn.num_corners → ∀ k : Nat, k < 8 →
      ∃ t e : Int, aget conn.corner_to_tree (8 * c + (k : Int)) = some t ∧
        aget conn.corner_to_corner (8 * c + (k : Int)) = some e ∧
        (0 ≤ t ∧ t < conn.num_trees) ∧ (0 ≤ e ∧ e < 8) ∧
        aget conn.tree_to_corner (8 * t + e) = some c := by
    intro c c0 c1 k hk
    rw [hnc] at c1
    obtain ⟨t, e, a1, a2, a3, a4, a5⟩ := brick_corner_round_trip b hm hn hp c c0 c1 k hk
    have hk1 : 8 * c + (k : Int) = c * 8 + (k : Int) := by ring
    refine ⟨t, e, ?_, ?_, by rw [hnt]; exact a3, a4, ?_⟩
    · rw [hk1, (gctt _ (by omega) (by omega)).1]; exact a1
    · rw [hk1, (gctt _ (by omega) (by omega)).2]; exact a2
    · have hk2 : 8 * t + e = t * 8 + e := by ring
      rw [hk2, gttc _ (by omega) (by omega) (by omega)]
      exact a5
  have offe : ∀ g : Int, 0 ≤ g → g < conn.num_edges →
      aget conn.ett_offset g = some (4 * g) ∧
      aget conn.ett_offset (g + 1) = some (4 * g + 4) := by
    intro g g0 g1
    rw [hne] at g1
    rw [hoe, aget_offsets 4 _ g g0 (by omega), aget_offsets 4 _ (g + 1) (by omega) (by omega)]
    exact ⟨rfl, by congr 1; ring⟩
  have offc : ∀ c : Int, 0 ≤ c → c < conn.num_corners →
      aget conn.ctt_offset c = some (8 * c) ∧
      aget conn.ctt_offset (c + 1) = some (8 * c + 8) := by
    intro c c0 c1
    rw [hnc] at c1
    rw [hoc, aget_offsets 8 _ c c0 (by omega), aget_offsets 8 _ (c + 1) (by omega) (by omega)]
    exact ⟨rfl, by congr 1; ring⟩
  refine ⟨conn, h, ⟨hnt, hne, hnc⟩, offe, offc, ?_, edges, corners, ?_, ?_⟩
  · rw [l1, l2, l3, l4, hne, hnc]
    refine ⟨?_, ?_, ?_, ?_⟩ <;> omega
  · intro a ha
    obtain ⟨o1, o2⟩ := offe (a : Int) (by omega) ha
    refine ⟨_, _, o1, o2, ?_⟩
    intro k k0 k1
    obtain ⟨t, e, a1, a2, _, a4, a5⟩ := edges (a : Int) (by omega) ha (k - 4 * (a : Int)).toNat
      (by omega)
    have ek : 4 * (a : Int) + (((k - 4 * (a : Int)).toNat : Nat) : Int) = k := by omega
    rw [ek] at a1 a2
    refine ⟨t, e, a1, a2, ?_⟩
    unfold edge_of_entry
    rw [Int.emod_eq_of_lt a4.1 a4.2]
    exact a5
  · intro c hc
    obtain ⟨o1, o2⟩ := offc (c : Int) (by omega) hc
    refine ⟨_, _, o1, o2, ?_⟩
    intro k k0 k1
    obtain ⟨t, e, a1, a2, _, _, a5⟩ := corners (c : Int) (by omega) hc
      (k - 8 * (c : Int)).toNat (by omega)
    have ek : 8 * (c : Int) + (((k - 8 * (c : Int)).toNat : Nat) : Int) = k := by omega
    rw [ek] at a1 a2
    exact ⟨t, e, a1, a2, a5⟩

/-- In exact integer arithmetic (brick counting assertions): for all sides `m, n, p >= 1` and all
periodicity flags, with `mc = m` if `periodic_a` and `m - 1` otherwise (`nc`,
`pc` likewise), the numbering pass of `p8est_connectivity_new_brick_exact` counts
exactly `m * n * p` trees, `mc * nc * pc` corners and
`m * nc * pc + mc * n * pc + mc * nc * p` edges, and the second pass creates
exactly `(m + 1) * (n + 1) * (p + 1)` vertices: the assertions
`tj == num_trees`, `tk == num_corners`, `tl == num_edges` and
`vcount == num_vertices` hold. -/
theorem brick_counting_exact (b : brick_t) (hm : 1 ≤ b.m) (hn : 1 ≤ b.n) (hp : 1 ≤ b.p) :
    ((brick_numbering_exact b).tj = b.num_trees_exact ∧ (brick_numbering_exact b).tk = b.num_corners_exact ∧
      (brick_numbering_exact b).tl = b.num_edges_exact ∧ (brick_arrays_exact b).vcount = b.num_vertices_exact) ∧
    b.num_trees_exact = b.m * b.n * b.p ∧
    b.num_corners_exact = (if b.periodic_a ≠ 0 then b.m else b.m - 1) *
      (if b.periodic_b ≠ 0 then b.n else b.n - 1) * (if b.periodic_c ≠ 0 then b.p else b.p - 1) ∧
    b.num_edges_exact = b.m * (if b.periodic_b ≠ 0 then b.n else b.n - 1) *
        (if b.periodic_c ≠ 0 then b.p else b.p - 1) +
      (if b.periodic_a ≠ 0 then b.m else b.m - 1) * b.n *
        (if b.periodic_c ≠ 0 then b.p else b.p - 1) +
      (if b.periodic_a ≠ 0 then b.m else b.m - 1) *
        (if b.periodic_b ≠ 0 then b.n else b.n - 1) * b.p ∧
    b.num_vertices_exact = (b.m + 1) * (b.n + 1) * (b.p + 1) := by
  obtain ⟨c1, c2, c3⟩ := brick_numbering_counts b hm hn hp
  exact ⟨⟨c1, c2, c3, brick_vertex_count b hm hn hp⟩, rfl, rfl, rfl, rfl⟩

/-! ## The 32-bit arithmetic of the brick agrees with exact arithmetic on bricks that fit -/

theorem to_topidx_of_range (x : Int) (h0 : -2147483648 ≤ x) (h1 : x ≤ 2147483647) :
    to_topidx x = x := by
  unfold to_topidx
  omega

theorem int_shl1_eq (s : Nat) (h : s < 32) : int_shl1 s = 1 <<< s := by
  unfold int_shl1
  apply Nat.mod_eq_of_lt
  rw [Nat.one_shiftLeft]
  calc 2 ^ s < 2 ^ 32 := Nat.pow_lt_pow_right (by norm_num) h
    _ = 4294967296 := by norm_num

theorem int_shl_eq (x k s : Nat) (h : k + s < 32) :
    int_shl (x &&& 1 <<< k) s = (x &&& 1 <<< k) <<< s := by
  unfold int_shl
  apply Nat.mod_eq_of_lt
  rw [Nat.shiftLeft_eq, Nat.one_shiftLeft]
  have h1 : x &&& 2 ^ k ≤ 2 ^ k := Nat.and_le_right
  calc (x &&& 2 ^ k) * 2 ^ s ≤ 2 ^ k * 2 ^ s := Nat.mul_le_mul_right _ h1
    _ = 2 ^ (k + s) := (pow_add 2 k s).symm
    _ < 2 ^ 32 := Nat.pow_lt_pow_right (by norm_num) h
    _ = 4294967296 := by norm_num

theorem brick_coords_fits (L ti : Nat) (hL : L ≤ 10) :
    brick_coords L ti = brick_coords_exact L ti := by
  unfold brick_coords brick_coords_exact
  apply List.foldl_ext
  intro c i hi
  rw [List.mem_range] at hi
  rw [int_shl1_eq (3 * i) (by omega), int_shl1_eq (3 * i + 1) (by omega),
    int_shl1_eq (3 * i + 2) (by omega)]

theorem brick_linear_fits (L x y z : Nat) (hL : L ≤ 10) :
    brick_linear L x y z = brick_linear_exact L x y z := by
  unfold brick_linear brick_linear_exact
  apply List.foldl_ext
  intro t k hk
  rw [List.mem_range] at hk
  rw [int_shl1_eq k (by omega), int_shl_eq x k (2 * k) (by omega),
    int_shl_eq y k (2 * k + 1) (by omega), int_shl_eq z k (2 * k + 2) (by omega)]

theorem log2_floor_le (fuel : Nat) : ∀ x k, x < 2 ^ (k + 1) → log2_floor fuel x ≤ k := by
  induction fuel with
  | zero => intro x k _; unfold log2_floor; omega
  | succ f ih =>
    intro x k h
    unfold log2_floor
    by_cases hx : x < 2
    · rw [if_pos hx]; omega
    · rw [if_neg hx]
      cases k with
      | zero => simp at h; omega
      | succ k =>
        have := ih (x / 2) k (by rw [Nat.pow_succ] at h; omega)
        omega

theorem brick_log_cl_le (b : brick_t) (hm : 1 ≤ b.m) (h1 : b.m ≤ 1024) (h2 : b.n ≤ 1024)
    (h3 : b.p ≤ 1024) : b.log_cl.toNat ≤ 10 := by
  unfold brick_t.log_cl
  simp only
  generalize hc : (if (if b.m > b.n then b.m else b.n) > b.p then (if b.m > b.n then b.m else b.n)
    else b.p) = c
  have hcm : 1 ≤ c ∧ c ≤ 1024 := by
    rw [← hc]
    split <;> split <;> omega
  unfold SC_LOG2_32
  by_cases h : c - 1 ≤ 0
  · rw [if_pos h]
    simp
  · rw [if_neg h]
    have := log2_floor_le (c - 1).toNat (c - 1).toNat 9 (by norm_num; omega)
    omega

theorem brick_n_iter_fits (b : brick_t) (hm : 1 ≤ b.m) (h1 : b.m ≤ 1024) (h2 : b.n ≤ 1024)
    (h3 : b.p ≤ 1024) : b.n_iter = b.n_iter_exact := by
  have hL := brick_log_cl_le b hm h1 h2 h3
  unfold brick_t.n_iter brick_t.n_iter_exact
  simp only [Nat.one_shiftLeft]
  have hp : (2 : Nat) ^ b.log_cl.toNat ≤ 2 ^ 10 := Nat.pow_le_pow_right (by norm_num) hL
  have hp0 : 0 < (2 : Nat) ^ b.log_cl.toNat := Nat.two_pow_pos _
  generalize (2 : Nat) ^ b.log_cl.toNat = c at hp hp0
  have hc : ((c : Nat) : Int) ≤ 1024 := by norm_num at hp; exact_mod_cast hp
  have hc0 : (0 : Int) < ((c : Nat) : Int) := by exact_mod_cast hp0
  generalize ((c : Nat) : Int) = d at hc hc0
  rw [to_topidx_of_range d (by omega) (by omega)]
  have e1 : d * d ≤ 1024 * 1024 := by nlinarith
  have e2 : 0 ≤ d * d := by nlinarith
  have e3 : d * d * d ≤ 1024 * 1024 * 1024 := by nlinarith
  have e4 : 0 ≤ d * d * d := by nlinarith
  exact to_topidx_of_range _ (by omega) (by omega)

theorem mul3_le (a b c a2 b2 c2 : Int) (ha : 0 ≤ a) (hb : 0 ≤ b) (hc : 0 ≤ c) (h1 : a ≤ a2)
    (h2 : b ≤ b2) (h3 : c ≤ c2) : 0 ≤ a * b * c ∧ a * b * c ≤ a2 * b2 * c2 := by
  have e0 : 0 ≤ a * b := mul_nonneg ha hb
  have e1 : a * b ≤ a2 * b2 := mul_le_mul h1 h2 hb (by omega)
  have e2 : 0 ≤ a2 * b2 := by omega
  exact ⟨mul_nonneg e0 hc, mul_le_mul e1 h3 hc e2⟩

/-- The counts of a brick that fits are their exact values, and they are small enough for
every index that the two passes compute from them. -/
theorem brick_sizes_fit (b : brick_t) (hm : 1 ≤ b.m) (hn : 1 ≤ b.n) (hp : 1 ≤ b.p)
    (hfit : brick_fits b) :
    (b.num_trees = b.num_trees_exact ∧ b.num_vertices = b.num_vertices_exact ∧
      b.num_corners = b.num_corners_exact ∧ b.num_edges = b.num_edges_exact) ∧
    (1 ≤ b.num_trees_exact ∧ 12 * b.num_trees_exact ≤ 2147483647) ∧
    (8 ≤ b.num_vertices_exact ∧ 3 * b.num_vertices_exact ≤ 2147483647) ∧
    (0 ≤ b.num_corners_exact ∧ b.num_corners_exact ≤ b.num_trees_exact) ∧
    (0 ≤ b.num_edges_exact ∧ b.num_edges_exact ≤ 3 * b.num_trees_exact) := by
  obtain ⟨f1, f2, f3, f4, f5⟩ := hfit
  have hmc : 0 ≤ b.mc ∧ b.mc ≤ b.m := by unfold brick_t.mc; split <;> omega
  have hnc : 0 ≤ b.nc ∧ b.nc ≤ b.n := by unfold brick_t.nc; split <;> omega
  have hpc : 0 ≤ b.pc ∧ b.pc ≤ b.p := by unfold brick_t.pc; split <;> omega
  have t1 := mul3_le 1 1 1 b.m b.n b.p (by omega) (by omega) (by omega) hm hn hp
  have v1 := mul3_le 2 2 2 (b.m + 1) (b.n + 1) (b.p + 1) (by omega) (by omega) (by omega)
    (by omega) (by omega) (by omega)
  have c1 := mul3_le b.mc b.nc b.pc b.m b.n b.p hmc.1 hnc.1 hpc.1 hmc.2 hnc.2 hpc.2
  have ea := mul3_le b.m b.nc b.pc b.m b.n b.p (by omega) hnc.1 hpc.1 (le_refl _) hnc.2 hpc.2
  have eb := mul3_le b.mc b.n b.pc b.m b.n b.p hmc.1 (by omega) hpc.1 hmc.2 (le_refl _) hpc.2
  have ec := mul3_le b.mc b.nc b.p b.m b.n b.p hmc.1 hnc.1 (by omega) hmc.2 hnc.2 (le_refl _)
  unfold brick_t.num_trees brick_t.num_vertices brick_t.num_corners brick_t.num_edges
    brick_t.num_trees_exact brick_t.num_vertices_exact brick_t.num_corners_exact
    brick_t.num_edges_exact
  norm_num at t1 v1
  refine ⟨⟨to_topidx_of_range _ (by omega) (by omega), to_topidx_of_range _ (by omega) (by omega),
    to_topidx_of_range _ (by omega) (by omega), to_topidx_of_range _ (by omega) (by omega)⟩,
    ⟨by omega, by omega⟩, ⟨by omega, by omega⟩, ⟨by omega, by omega⟩, by omega, by omega⟩

theorem brick_number_step_fits (b : brick_t) (hL : b.log_cl.toNat ≤ 10) (s : brick_numbering_t)
    (ti : Nat) (h0 : 0 ≤ s.tj ∧ 0 ≤ s.tk ∧ 0 ≤ s.tl)
    (h1 : 3 * s.tj + 3 ≤ 2147483647 ∧ s.tk + 1 ≤ 2147483647 ∧ s.tl + 3 ≤ 2147483647) :
    brick_number_step b s ti = brick_number_step_exact b s ti := by
  obtain ⟨a1, a2, a3⟩ := h0
  obtain ⟨a4, a5, a6⟩ := h1
  have w1 : to_topidx (3 * s.tj) = 3 * s.tj := to_topidx_of_range _ (by omega) (by omega)
  have w2 : to_topidx (3 * s.tj + 1) = 3 * s.tj + 1 := to_topidx_of_range _ (by omega) (by omega)
  have w3 : to_topidx (3 * s.tj + 2) = 3 * s.tj + 2 := to_topidx_of_range _ (by omega) (by omega)
  have w4 : to_topidx (s.tj + 1) = s.tj + 1 := to_topidx_of_range _ (by omega) (by omega)
  have w5 : to_topidx (s.tk + 1) = s.tk + 1 := to_topidx_of_range _ (by omega) (by omega)
  have w6 : to_topidx (s.tl + 1) = s.tl + 1 := to_topidx_of_range _ (by omega) (by omega)
  have w7 : to_topidx (s.tl + 2) = s.tl + 2 := to_topidx_of_range _ (by omega) (by omega)
  have w8 : to_topidx (s.tl + 3) = s.tl + 3 := to_topidx_of_range _ (by omega) (by omega)
  have w9 : ∀ c : Bool, to_topidx ((if c = true then s.tl + 1 else s.tl) + 1) =
      (if c = true then s.tl + 1 else s.tl) + 1 := by
    intro c
    cases c <;> simp only [if_true, Bool.false_eq_true, if_false] <;>
      exact to_topidx_of_range _ (by omega) (by omega)
  have w10 : ∀ c d : Bool,
      to_topidx ((if d = true then (if c = true then s.tl + 1 else s.tl) + 1
        else (if c = true then s.tl + 1 else s.tl)) + 1) =
      (if d = true then (if c = true then s.tl + 1 else s.tl) + 1
        else (if c = true then s.tl + 1 else s.tl)) + 1 := by
    intro c d
    cases c <;> cases d <;> simp only [if_true, Bool.false_eq_true, if_false] <;>
      exact to_topidx_of_range _ (by omega) (by omega)
  unfold brick_number_step brick_number_step_exact
  rw [brick_coords_fits _ _ hL]
  simp only [w1, w2, w3, w4, w5, w6, w7, w8, w9, w10]

theorem brick_counts_le_final (b : brick_t) (hm : 1 ≤ b.m) (hn : 1 ≤ b.n) (hp : 1 ≤ b.p) (k : Nat)
    (hk : k ≤ b.n_iter_exact.toNat) :
    (0 ≤ (brick_number_upto_exact b k).tj ∧
      (brick_number_upto_exact b k).tj ≤ b.num_trees_exact) ∧
    (0 ≤ (brick_number_upto_exact b k).tk ∧
      (brick_number_upto_exact b k).tk ≤ b.num_corners_exact) ∧
    (0 ≤ (brick_number_upto_exact b k).tl ∧
      (brick_number_upto_exact b k).tl ≤ b.num_edges_exact) := by
  obtain ⟨n1, n2, n3⟩ := brick_counts_nonneg b k
  obtain ⟨m1, m2, m3⟩ := brick_counts_mono b k _ hk
  obtain ⟨c1, c2, c3⟩ := brick_numbering_counts b hm hn hp
  have e1 : (brick_numbering_exact b).tj = brick_tree_no b b.n_iter_exact.toNat := rfl
  have e2 : (brick_numbering_exact b).tk = brick_corner_no b b.n_iter_exact.toNat := rfl
  have e3 : (brick_numbering_exact b).tl = (brick_number_upto_exact b b.n_iter_exact.toNat).tl :=
    rfl
  have f1 : brick_tree_no b k = (brick_number_upto_exact b k).tj := rfl
  have f2 : brick_corner_no b k = (brick_number_upto_exact b k).tk := rfl
  rw [← c1, ← c2, ← c3, e1, e2, e3, ← f1, ← f2]
  exact ⟨⟨n1, m1⟩, ⟨n2, m2⟩, ⟨n3, m3⟩⟩

theorem brick_number_upto_fits (b : brick_t) (hm : 1 ≤ b.m) (hn : 1 ≤ b.n) (hp : 1 ≤ b.p)
    (hfit : brick_fits b) :
    ∀ k, k ≤ b.n_iter_exact.toNat → brick_number_upto b k = brick_number_upto_exact b k := by
  have hL := brick_log_cl_le b hm hfit.1 hfit.2.1 hfit.2.2.1
  obtain ⟨_, ⟨t1, t2⟩, _, ⟨c1, c2⟩, e1, e2⟩ := brick_sizes_fit b hm hn hp hfit
  intro k
  induction k with
  | zero => intro _; rfl
  | succ k ih =>
    intro hk
    have e : brick_number_upto b (k + 1) = brick_number_step b (brick_number_upto b k) k := by
      unfold brick_number_upto
      rw [List.range_succ, List.foldl_append]
      rfl
    rw [e, ih (by omega), brick_number_upto_succ]
    obtain ⟨⟨a1, a2⟩, ⟨a3, a4⟩, a5, a6⟩ := brick_counts_le_final b hm hn hp k (by omega)
    exact brick_number_step_fits b hL _ k ⟨a1, a3, a5⟩ ⟨by omega, by omega, by omega⟩

theorem brick_numbering_fits (b : brick_t) (hm : 1 ≤ b.m) (hn : 1 ≤ b.n) (hp : 1 ≤ b.p)
    (hfit : brick_fits b) : brick_numbering b = brick_numbering_exact b := by
  unfold brick_numbering brick_numbering_exact
  rw [brick_n_iter_fits b hm hfit.1 hfit.2.1 hfit.2.2.1]
  exact brick_number_upto_fits b hm hn hp hfit _ (le_refl _)

/-- Every value in the work arrays of the numbering pass is -1 or a number below the
counter of its kind. -/
theorem brick_number_values (b : brick_t) (K : Nat) :
    (∀ i v, (brick_number_upto_exact b K).linear_to_tree i = some v →
      -1 ≤ v ∧ v < (brick_number_upto_exact b K).tj) ∧
    (∀ i v, (brick_number_upto_exact b K).tree_to_corner2 i = some v →
      -1 ≤ v ∧ v < (brick_number_upto_exact b K).tk) ∧
    (∀ i v, (brick_number_upto_exact b K).tree_to_edge2 i = some v →
      -1 ≤ v ∧ v < (brick_number_upto_exact b K).tl) := by
  induction K with
  | zero =>
    refine ⟨?_, ?_, ?_⟩ <;> intro i v h <;> exact absurd h (by
      simp [brick_number_upto_exact, brick_numbering_init])
  | succ K ih =>
    obtain ⟨n1, n2, n3⟩ := brick_counts_nonneg b K
    have f1 : brick_tree_no b K = (brick_number_upto_exact b K).tj := rfl
    have f2 : brick_corner_no b K = (brick_number_upto_exact b K).tk := rfl
    rw [f1] at n1
    rw [f2] at n2
    obtain ⟨i1, i2, i3⟩ := ih
    rw [brick_number_upto_succ, brick_number_step_eq]
    generalize brick_number_upto_exact b K = s at *
    by_cases hin : brick_inside b K = true
    · rw [if_pos hin]
      simp only [arr_set_some]
      refine ⟨?_, ?_, ?_⟩
      · intro i v h
        split_ifs at h
        · injection h with h; omega
        · have := i1 i v h; omega
      · intro i v h
        split_ifs at h ⊢ <;>
          first
          | (injection h with h; omega)
          | (have hb := i2 i v h; omega)
      · intro i v h
        split_ifs at h ⊢ <;>
          first
          | (injection h with h; omega)
          | (have hb := i3 i v h; omega)
    · rw [if_neg hin]
      simp only [arr_set_some]
      refine ⟨?_, i2, i3⟩
      intro i v h
      split_ifs at h
      · injection h with h; omega
      · exact i1 i v h

theorem brick_numbering_values (b : brick_t) (hm : 1 ≤ b.m) (hn : 1 ≤ b.n) (hp : 1 ≤ b.p)
    (hfit : brick_fits b) :
    (∀ i v, (brick_numbering_exact b).linear_to_tree i = some v →
      -1 ≤ v ∧ 12 * v + 12 ≤ 2147483647) ∧
    (∀ i v, (brick_numbering_exact b).tree_to_corner2 i = some v →
      -1 ≤ v ∧ 8 * v + 8 ≤ 2147483647) ∧
    (∀ i v, (brick_numbering_exact b).tree_to_edge2 i = some v →
      -1 ≤ v ∧ 4 * v + 4 ≤ 2147483647) := by
  obtain ⟨_, ⟨t1, t2⟩, _, ⟨c1, c2⟩, e1, e2⟩ := brick_sizes_fit b hm hn hp hfit
  obtain ⟨v1, v2, v3⟩ := brick_number_values b b.n_iter_exact.toNat
  obtain ⟨d1, d2, d3⟩ := brick_numbering_counts b hm hn hp
  unfold brick_numbering_exact at d1 d2 d3 ⊢
  rw [d1] at v1
  rw [d2] at v2
  rw [d3] at v3
  refine ⟨?_, ?_, ?_⟩
  · intro i v h
    have := v1 i v h
    omega
  · intro i v h
    have := v2 i v h
    omega
  · intro i v h
    have := v3 i v h
    omega

theorem to_topidx_linear (L x y z : Nat) (hL : L ≤ 10) :
    to_topidx ((brick_linear_exact L x y z : Nat) : Int) =
      ((brick_linear_exact L x y z : Nat) : Int) := by
  have h := brick_linear_lt L x y z
  have h2 : (2 : Nat) ^ (3 * L) ≤ 2 ^ 30 := Nat.pow_le_pow_right (by norm_num) (by omega)
  norm_num at h2
  exact to_topidx_of_range _ (by omega) (by omega)

theorem option_map_topidx (o : Option Int) (f : Int → Int)
    (h : ∀ v, o = some v → -2147483648 ≤ f v ∧ f v ≤ 2147483647) :
    (o.map fun t => to_topidx (f t)) = o.map f := by
  cases o with
  | none => rfl
  | some v =>
    simp only [Option.map_some']
    rw [to_topidx_of_range _ (h v rfl).1 (h v rfl).2]

theorem arr_get_bound (a : Int → Option Int) (P : Int → Prop) (h : ∀ i v, a i = some v → P v)
    (o : Option Int) (v : Int) (hv : arr_get a o = some v) : P v := by
  cases o with
  | none => exact absurd hv (by simp [arr_get])
  | some i => exact h i v hv

theorem brick_tf_fits (b : brick_t) (hL : b.log_cl.toNat ≤ 10) (hfit : brick_fits b)
    (ltt : Int → Option Int) (tx ty tz : Int) (hx : 0 ≤ tx ∧ tx < b.m) (hy : 0 ≤ ty ∧ ty < b.n)
    (hz : 0 ≤ tz ∧ tz < b.p) (l : Nat) :
    brick_tf b ltt tx ty tz l = brick_tf_exact b ltt tx ty tz l := by
  obtain ⟨f1, f2, f3, _, _⟩ := hfit
  unfold brick_tf brick_tf_exact
  simp only [brick_linear_fits _ _ _ _ hL, to_topidx_linear _ _ _ _ hL]
  simp (disch := first | omega | (split_ifs <;> omega)) only [to_topidx_of_range]

theorem brick_te_fits (b : brick_t) (hL : b.log_cl.toNat ≤ 10) (hfit : brick_fits b)
    (ltt : Int → Option Int) (tx ty tz : Int) (hx : 0 ≤ tx ∧ tx < b.m) (hy : 0 ≤ ty ∧ ty < b.n)
    (hz : 0 ≤ tz ∧ tz < b.p) (l : Nat) :
    brick_te b ltt tx ty tz l = brick_te_exact b ltt tx ty tz l := by
  obtain ⟨f1, f2, f3, _, _⟩ := hfit
  have hj1 : l % 4 &&& 1 ≤ 1 := Nat.and_le_right
  unfold brick_te brick_te_exact
  simp only [brick_linear_fits _ _ _ _ hL, to_topidx_linear _ _ _ _ hL]
  simp (disch := first | omega | (split_ifs <;> omega)) only [to_topidx_of_range]

theorem brick_tc_fits (b : brick_t) (hL : b.log_cl.toNat ≤ 10) (hfit : brick_fits b)
    (ltt : Int → Option Int) (tx ty tz : Int) (hx : 0 ≤ tx ∧ tx < b.m) (hy : 0 ≤ ty ∧ ty < b.n)
    (hz : 0 ≤ tz ∧ tz < b.p) (i : Nat) :
    brick_tc b ltt tx ty tz i = brick_tc_exact b ltt tx ty tz i := by
  obtain ⟨f1, f2, f3, _, _⟩ := hfit
  unfold brick_tc brick_tc_exact
  simp only [brick_linear_fits _ _ _ _ hL, to_topidx_linear _ _ _ _ hL]
  simp (disch := first | omega | (split_ifs <;> omega)) only [to_topidx_of_range]

theorem brick_tf_bound (b : brick_t) (ltt : Int → Option Int) (P : Int → Prop)
    (h : ∀ i v, ltt i = some v → P v) (tx ty tz : Int) (l : Nat) (v : Int)
    (hv : brick_tf_exact b ltt tx ty tz l = some v) : P v :=
  arr_get_bound ltt P h _ v hv

theorem brick_te_bound (b : brick_t) (ltt : Int → Option Int) (P : Int → Prop)
    (h : ∀ i v, ltt i = some v → P v) (tx ty tz : Int) (l : Nat) (v : Int)
    (hv : brick_te_exact b ltt tx ty tz l = some v) : P v :=
  arr_get_bound ltt P h _ v hv

theorem brick_tc_bound (b : brick_t) (ltt : Int → Option Int) (P : Int → Prop)
    (h : ∀ i v, ltt i = some v → P v) (tx ty tz : Int) (l : Nat) (v : Int)
    (hv : brick_tc_exact b ltt tx ty tz l = some v) : P v :=
  arr_get_bound ltt P h _ v hv

theorem brick_face_tree_fits (b : brick_t) (hL : b.log_cl.toNat ≤ 10) (hfit : brick_fits b)
    (ltt : Int → Option Int) (tx ty tz : Int) (hx : 0 ≤ tx ∧ tx < b.m) (hy : 0 ≤ ty ∧ ty < b.n)
    (hz : 0 ≤ tz ∧ tz < b.p) (tj : Option Int) (l : Nat) :
    brick_face_tree b ltt tx ty tz tj l = brick_face_tree_exact b ltt tx ty tz tj l := by
  unfold brick_face_tree brick_face_tree_exact
  rw [brick_tf_fits b hL hfit ltt tx ty tz hx hy hz]

theorem brick_edge_ttemp_fits (b : brick_t) (hL : b.log_cl.toNat ≤ 10) (hfit : brick_fits b)
    (num : brick_numbering_t) (tx ty tz : Int) (hx : 0 ≤ tx ∧ tx < b.m)
    (hy : 0 ≤ ty ∧ ty < b.n) (hz : 0 ≤ tz ∧ tz < b.p) (tj : Option Int)
    (hltt : ∀ i v, num.linear_to_tree i = some v → -1 ≤ v ∧ 12 * v + 12 ≤ 2147483647)
    (htj : ∀ v, tj = some v → -1 ≤ v ∧ 12 * v + 12 ≤ 2147483647) (l : Nat) (hl : l < 12) :
    brick_edge_ttemp b num tx ty tz tj l = brick_edge_ttemp_exact b num tx ty tz tj l := by
  unfold brick_edge_ttemp brick_edge_ttemp_exact
  simp only [brick_tf_fits b hL hfit _ tx ty tz hx hy hz,
    brick_te_fits b hL hfit _ tx ty tz hx hy hz]
  rw [option_map_topidx _ (fun t => t * 3 + ((l / 4 : Nat) : Int))]
  intro v hv
  have hb : -1 ≤ v ∧ 12 * v + 12 ≤ 2147483647 := by
    split_ifs at hv
    · exact brick_te_bound b _ _ hltt _ _ _ _ v hv
    · exact brick_tf_bound b _ _ hltt _ _ _ _ v hv
    · exact brick_tf_bound b _ _ hltt _ _ _ _ v hv
    · exact htj v hv
  omega

theorem brick_corner_ttemp_fits (b : brick_t) (hL : b.log_cl.toNat ≤ 10) (hfit : brick_fits b)
    (num : brick_numbering_t) (tx ty tz : Int) (hx : 0 ≤ tx ∧ tx < b.m)
    (hy : 0 ≤ ty ∧ ty < b.n) (hz : 0 ≤ tz ∧ tz < b.p) (tj : Option Int) (i : Nat) :
    brick_corner_ttemp b num tx ty tz tj i = brick_corner_ttemp_exact b num tx ty tz tj i := by
  unfold brick_corner_ttemp brick_corner_ttemp_exact
  simp only [brick_tf_fits b hL hfit _ tx ty tz hx hy hz,
    brick_te_fits b hL hfit _ tx ty tz hx hy hz, brick_tc_fits b hL hfit _ tx ty tz hx hy hz]

theorem brick_edge_ttemp_bound (b : brick_t) (num : brick_numbering_t) (P : Int → Prop)
    (h : ∀ i v, num.tree_to_edge2 i = some v → P v) (tx ty tz : Int) (tj : Option Int) (l : Nat)
    (v : Int) (hv : brick_edge_ttemp_exact b num tx ty tz tj l = some v) : P v :=
  arr_get_bound _ P h _ v hv

theorem brick_corner_ttemp_bound (b : brick_t) (num : brick_numbering_t) (P : Int → Prop)
    (h : ∀ i v, num.tree_to_corner2 i = some v → P v) (tx ty tz : Int) (tj : Option Int) (l : Nat)
    (v : Int) (hv : brick_corner_ttemp_exact b num tx ty tz tj l = some v) : P v :=
  arr_get_bound _ P h _ v hv

/-- The assignments of one iteration of the second pass are those of exact arithmetic. -/
theorem brick_writes_fit (b : brick_t) (hL : b.log_cl.toNat ≤ 10) (hfit : brick_fits b)
    (num : brick_numbering_t) (tx ty tz : Int) (hx : 0 ≤ tx ∧ tx < b.m)
    (hy : 0 ≤ ty ∧ ty < b.n) (hz : 0 ≤ tz ∧ tz < b.p) (tj : Option Int)
    (hltt : ∀ i v, num.linear_to_tree i = some v → -1 ≤ v ∧ 12 * v + 12 ≤ 2147483647)
    (hc2 : ∀ i v, num.tree_to_corner2 i = some v → -1 ≤ v ∧ 8 * v + 8 ≤ 2147483647)
    (he2 : ∀ i v, num.tree_to_edge2 i = some v → -1 ≤ v ∧ 4 * v + 4 ≤ 2147483647)
    (htj : ∀ v, tj = some v → -1 ≤ v ∧ 12 * v + 12 ≤ 2147483647) :
    brick_tree_to_tree_writes b num tx ty tz tj =
      brick_tree_to_tree_writes_exact b num tx ty tz tj ∧
    brick_tree_to_face_writes b tx ty tz tj = brick_tree_to_face_writes_exact b tx ty tz tj ∧
    brick_tree_to_edge_writes b num tx ty tz tj =
      brick_tree_to_edge_writes_exact b num tx ty tz tj ∧
    brick_edge_to_tree_writes b num tx ty tz tj =
      brick_edge_to_tree_writes_exact b num tx ty tz tj ∧
    brick_edge_to_edge_writes b num tx ty tz tj =
      brick_edge_to_edge_writes_exact b num tx ty tz tj ∧
    brick_tree_to_corner_writes b num tx ty tz tj =
      brick_tree_to_corner_writes_exact b num tx ty tz tj ∧
    brick_corner_to_tree_writes b num tx ty tz tj =
      brick_corner_to_tree_writes_exact b num tx ty tz tj ∧
    brick_corner_to_corner_writes b num tx ty tz tj =
      brick_corner_to_corner_writes_exact b num tx ty tz tj := by
  have k6 : ∀ l : Nat, l < 6 → (tj.map fun t => to_topidx (t * 6 + (l : Int))) =
      tj.map fun t => t * 6 + (l : Int) := by
    intro l hl
    exact option_map_topidx _ _ (fun v hv => by have := htj v hv; omega)
  have k12 : ∀ l : Nat, l < 12 → (tj.map fun t => to_topidx (t * 12 + (l : Int))) =
      tj.map fun t => t * 12 + (l : Int) := by
    intro l hl
    exact option_map_topidx _ _ (fun v hv => by have := htj v hv; omega)
  have k8 : ∀ l : Nat, l < 8 → (tj.map fun t => to_topidx (t * 8 + (l : Int))) =
      tj.map fun t => t * 8 + (l : Int) := by
    intro l hl
    exact option_map_topidx _ _ (fun v hv => by have := htj v hv; omega)
  have ke : ∀ l : Nat, l < 12 →
      ((brick_edge_ttemp_exact b num tx ty tz tj l).map fun g =>
        to_topidx (4 * g + (3 - ((l % 4 : Nat) : Int)))) =
      (brick_edge_ttemp_exact b num tx ty tz tj l).map fun g =>
        4 * g + (3 - ((l % 4 : Nat) : Int)) := by
    intro l hl
    exact option_map_topidx _ _ (fun v hv => by
      have := brick_edge_ttemp_bound b num _ he2 tx ty tz tj l v hv
      omega)
  have kc : ∀ i : Nat, i < 8 →
      ((brick_corner_ttemp_exact b num tx ty tz tj i).map fun c =>
        to_topidx (c * 8 + (7 - (i : Int)))) =
      (brick_corner_ttemp_exact b num tx ty tz tj i).map fun c => c * 8 + (7 - (i : Int)) := by
    intro i hi
    exact option_map_topidx _ _ (fun v hv => by
      have := brick_corner_ttemp_bound b num _ hc2 tx ty tz tj i v hv
      omega)
  refine ⟨?_, ?_, ?_, ?_, ?_, ?_, ?_, ?_⟩
  · unfold brick_tree_to_tree_writes brick_tree_to_tree_writes_exact
    apply List.map_congr_left
    intro l hl
    rw [List.mem_range] at hl
    rw [k6 l hl, brick_face_tree_fits b hL hfit _ tx ty tz hx hy hz]
  · unfold brick_tree_to_face_writes brick_tree_to_face_writes_exact
    apply List.map_congr_left
    intro l hl
    rw [List.mem_range] at hl
    rw [k6 l hl]
  · unfold brick_tree_to_edge_writes brick_tree_to_edge_writes_exact
    apply List.map_congr_left
    intro l hl
    rw [List.mem_range] at hl
    rw [k12 l hl, brick_edge_ttemp_fits b hL hfit num tx ty tz hx hy hz tj hltt htj l hl]
  · unfold brick_edge_to_tree_writes brick_edge_to_tree_writes_exact
    apply List.map_congr_left
    intro l hl
    have hl := (List.mem_range.mp (List.mem_filter.mp hl).1)
    rw [brick_edge_ttemp_fits b hL hfit num tx ty tz hx hy hz tj hltt htj l hl, ke l hl]
  · unfold brick_edge_to_edge_writes brick_edge_to_edge_writes_exact
    apply List.map_congr_left
    intro l hl
    have hl := (List.mem_range.mp (List.mem_filter.mp hl).1)
    rw [brick_edge_ttemp_fits b hL hfit num tx ty tz hx hy hz tj hltt htj l hl, ke l hl]
  · unfold brick_tree_to_corner_writes brick_tree_to_corner_writes_exact
    apply List.map_congr_left
    intro l hl
    rw [List.mem_range] at hl
    rw [k8 l hl, brick_corner_ttemp_fits b hL hfit num tx ty tz hx hy hz tj]
  · unfold brick_corner_to_tree_writes brick_corner_to_tree_writes_exact
    apply List.map_congr_left
    intro l hl
    have hl := (List.mem_range.mp (List.mem_filter.mp hl).1)
    rw [brick_corner_ttemp_fits b hL hfit num tx ty tz hx hy hz tj, kc l hl]
  · unfold brick_corner_to_corner_writes brick_corner_to_corner_writes_exact
    apply List.map_congr_left
    intro l hl
    have hl := (List.mem_range.mp (List.mem_filter.mp hl).1)
    rw [brick_corner_ttemp_fits b hL hfit num tx ty tz hx hy hz tj, kc l hl]

theorem brick_vertex_step_vicount (b : brick_t) (num : brick_numbering_t) (tx ty tz : Int)
    (tj : Option Int) (st : brick_arrays_t) (i : Nat) (h : st.vicount = 3 * st.vcount) :
    (brick_vertex_step_exact b num tx ty tz tj st i).vicount =
      3 * (brick_vertex_step_exact b num tx ty tz tj st i).vcount := by
  unfold brick_vertex_step_exact
  simp only
  split_ifs <;> first | exact h | (simp only [h]; ring)

theorem brick_vertex_fold_mono (b : brick_t) (num : brick_numbering_t) (tx ty tz : Int)
    (tj : Option Int) :
    ∀ (l : List Nat) (st : brick_arrays_t), st.vicount = 3 * st.vcount →
      st.vcount ≤ (l.foldl (brick_vertex_step_exact b num tx ty tz tj) st).vcount ∧
      (l.foldl (brick_vertex_step_exact b num tx ty tz tj) st).vicount =
        3 * (l.foldl (brick_vertex_step_exact b num tx ty tz tj) st).vcount := by
  intro l
  induction l with
  | nil => intro st h; exact ⟨le_refl _, h⟩
  | cons i l ih =>
    intro st h
    simp only [List.foldl_cons]
    obtain ⟨a1, a2⟩ := ih _ (brick_vertex_step_vicount b num tx ty tz tj st i h)
    refine ⟨?_, a2⟩
    rw [brick_vertex_step_vcount] at a1
    split_ifs at a1 <;> omega

theorem brick_vertex_step_fits (b : brick_t) (hL : b.log_cl.toNat ≤ 10) (hfit : brick_fits b)
    (num : brick_numbering_t) (tx ty tz : Int) (hx : 0 ≤ tx ∧ tx < b.m)
    (hy : 0 ≤ ty ∧ ty < b.n) (hz : 0 ≤ tz ∧ tz < b.p) (tj : Option Int)
    (hltt : ∀ i v, num.linear_to_tree i = some v → -1 ≤ v ∧ 12 * v + 12 ≤ 2147483647)
    (htj : ∀ v, tj = some v → -1 ≤ v ∧ 12 * v + 12 ≤ 2147483647)
    (st : brick_arrays_t) (i : Nat) (hi : i < 8) (h0 : 0 ≤ st.vcount)
    (h3 : st.vicount = 3 * st.vcount)
    (h1 : 3 * (brick_vertex_step_exact b num tx ty tz tj st i).vcount ≤ 2147483647) :
    brick_vertex_step b num tx ty tz tj st i = brick_vertex_step_exact b num tx ty tz tj st i := by
  have f1 := hfit.1
  have f2 := hfit.2.1
  have f3 := hfit.2.2.1
  rw [brick_vertex_step_vcount] at h1
  have m0 : (tj.map fun t => to_topidx (t * 8 + (i : Int))) = tj.map fun t => t * 8 + (i : Int) :=
    option_map_topidx _ _ (fun v hv => by have := htj v hv; omega)
  have m4 : ((brick_tf_exact b num.linear_to_tree tx ty tz 4).map fun t =>
      to_topidx (t * 8 + (i : Int) + 4)) =
      (brick_tf_exact b num.linear_to_tree tx ty tz 4).map fun t => t * 8 + (i : Int) + 4 :=
    option_map_topidx _ _ (fun v hv => by
      have := brick_tf_bound b _ _ hltt _ _ _ _ v hv
      omega)
  have m2 : ((brick_tf_exact b num.linear_to_tree tx ty tz 2).map fun t =>
      to_topidx (t * 8 + (i : Int) + 2)) =
      (brick_tf_exact b num.linear_to_tree tx ty tz 2).map fun t => t * 8 + (i : Int) + 2 :=
    option_map_topidx _ _ (fun v hv => by
      have := brick_tf_bound b _ _ hltt _ _ _ _ v hv
      omega)
  have m1 : ((brick_tf_exact b num.linear_to_tree tx ty tz 0).map fun t =>
      to_topidx (t * 8 + (i : Int) + 1)) =
      (brick_tf_exact b num.linear_to_tree tx ty tz 0).map fun t => t * 8 + (i : Int) + 1 :=
    option_map_topidx _ _ (fun v hv => by
      have := brick_tf_bound b _ _ hltt _ _ _ _ v hv
      omega)
  have s1 : i &&& 1 ≤ 1 := Nat.and_le_right
  have s2 : (i >>> 1) &&& 1 ≤ 1 := Nat.and_le_right
  have s3 : i >>> 2 ≤ 1 := by rw [Nat.shiftRight_eq_div_pow]; omega
  unfold brick_vertex_step brick_vertex_step_exact
  simp only [brick_tf_fits b hL hfit _ tx ty tz hx hy hz, m0, m4, m2, m1]
  split_ifs with c1 c2 c3
  · rfl
  · rfl
  · rfl
  · rw [if_neg (by tauto)] at h1
    simp (disch := omega) only [to_topidx_of_range]

theorem brick_vertex_fold_fits (b : brick_t) (hL : b.log_cl.toNat ≤ 10) (hfit : brick_fits b)
    (num : brick_numbering_t) (tx ty tz : Int) (hx : 0 ≤ tx ∧ tx < b.m)
    (hy : 0 ≤ ty ∧ ty < b.n) (hz : 0 ≤ tz ∧ tz < b.p) (tj : Option Int)
    (hltt : ∀ i v, num.linear_to_tree i = some v → -1 ≤ v ∧ 12 * v + 12 ≤ 2147483647)
    (htj : ∀ v, tj = some v → -1 ≤ v ∧ 12 * v + 12 ≤ 2147483647) :
    ∀ (l : List Nat), (∀ i ∈ l, i < 8) → ∀ (st : brick_arrays_t), 0 ≤ st.vcount →
      st.vicount = 3 * st.vcount →
      3 * (l.foldl (brick_vertex_step_exact b num tx ty tz tj) st).vcount ≤ 2147483647 →
      l.foldl (brick_vertex_step b num tx ty tz tj) st =
        l.foldl (brick_vertex_step_exact b num tx ty tz tj) st := by
  intro l
  induction l with
  | nil => intro _ st _ _ _; rfl
  | cons i l ih =>
    intro hl st h0 h3 h1
    simp only [List.foldl_cons] at h1 ⊢
    have h3' := brick_vertex_step_vicount b num tx ty tz tj st i h3
    have hm := (brick_vertex_fold_mono b num tx ty tz tj l _ h3').1
    have hs : st.vcount ≤ (brick_vertex_step_exact b num tx ty tz tj st i).vcount := by
      rw [brick_vertex_step_vcount]
      split_ifs <;> omega
    rw [brick_vertex_step_fits b hL hfit num tx ty tz hx hy hz tj hltt htj st i
      (hl i (List.mem_cons_self _ _)) h0 h3 (by omega)]
    exact ih (fun j hj => hl j (List.mem_cons_of_mem _ hj)) _ (by omega) h3' h1

theorem brick_vertex_fold_counters (b : brick_t) (num : brick_numbering_t) (tx ty tz : Int)
    (tj : Option Int) (l : List Nat) (st : brick_arrays_t) (c : Int)
    (h : st.vicount = 3 * st.vcount) (h0 : c ≤ st.vcount) :
    (l.foldl (brick_vertex_step_exact b num tx ty tz tj) st).vicount =
        3 * (l.foldl (brick_vertex_step_exact b num tx ty tz tj) st).vcount ∧
      c ≤ (l.foldl (brick_vertex_step_exact b num tx ty tz tj) st).vcount := by
  obtain ⟨a1, a2⟩ := brick_vertex_fold_mono b num tx ty tz tj l st h
  exact ⟨a2, le_trans h0 a1⟩

theorem brick_fill_step_vicount (b : brick_t) (num : brick_numbering_t) (st : brick_arrays_t)
    (ti : Nat) (h : st.vicount = 3 * st.vcount) (h0 : 0 ≤ st.vcount) :
    (brick_fill_step_exact b num st ti).vicount = 3 * (brick_fill_step_exact b num st ti).vcount ∧
      0 ≤ (brick_fill_step_exact b num st ti).vcount := by
  unfold brick_fill_step_exact
  simp only
  by_cases hin : ((brick_coords_exact b.log_cl.toNat ti).1 : Int) < b.m ∧
      ((brick_coords_exact b.log_cl.toNat ti).2.1 : Int) < b.n ∧
      ((brick_coords_exact b.log_cl.toNat ti).2.2 : Int) < b.p
  · rw [if_pos hin]
    refine brick_vertex_fold_counters b num _ _ _ _ (List.range 8) _ 0 ?_ ?_
    · exact h
    · exact h0
  · rw [if_neg hin]
    exact ⟨h, h0⟩

theorem brick_fill_upto_vicount (b : brick_t) (K : Nat) :
    (brick_fill_upto_exact b K).vicount = 3 * (brick_fill_upto_exact b K).vcount ∧
      0 ≤ (brick_fill_upto_exact b K).vcount := by
  induction K with
  | zero => exact ⟨rfl, le_refl _⟩
  | succ K ih =>
    rw [brick_fill_upto_succ]
    exact brick_fill_step_vicount b _ _ K ih.1 ih.2

theorem brick_fill_step_fits (b : brick_t) (hm : 1 ≤ b.m) (hn : 1 ≤ b.n) (hp : 1 ≤ b.p)
    (hfit : brick_fits b) (st : brick_arrays_t) (ti : Nat) (h0 : 0 ≤ st.vcount)
    (h3 : st.vicount = 3 * st.vcount)
    (h1 : 3 * (brick_fill_step_exact b (brick_numbering_exact b) st ti).vcount ≤ 2147483647) :
    brick_fill_step b (brick_numbering_exact b) st ti =
      brick_fill_step_exact b (brick_numbering_exact b) st ti := by
  have hL := brick_log_cl_le b hm hfit.1 hfit.2.1 hfit.2.2.1
  obtain ⟨⟨s1, s2, s3, s4⟩, _⟩ := brick_sizes_fit b hm hn hp hfit
  obtain ⟨hltt, hc2, he2⟩ := brick_numbering_values b hm hn hp hfit
  unfold brick_fill_step
  unfold brick_fill_step_exact at h1 ⊢
  rw [brick_coords_fits _ _ hL]
  simp only at h1 ⊢
  by_cases hin : ((brick_coords_exact b.log_cl.toNat ti).1 : Int) < b.m ∧
      ((brick_coords_exact b.log_cl.toNat ti).2.1 : Int) < b.n ∧
      ((brick_coords_exact b.log_cl.toNat ti).2.2 : Int) < b.p
  · rw [if_pos hin] at h1
    rw [if_pos hin, if_pos hin]
    have hx : 0 ≤ ((brick_coords_exact b.log_cl.toNat ti).1 : Int) ∧
        ((brick_coords_exact b.log_cl.toNat ti).1 : Int) < b.m := ⟨by omega, hin.1⟩
    have hy : 0 ≤ ((brick_coords_exact b.log_cl.toNat ti).2.1 : Int) ∧
        ((brick_coords_exact b.log_cl.toNat ti).2.1 : Int) < b.n := ⟨by omega, hin.2.1⟩
    have hz : 0 ≤ ((brick_coords_exact b.log_cl.toNat ti).2.2 : Int) ∧
        ((brick_coords_exact b.log_cl.toNat ti).2.2 : Int) < b.p := ⟨by omega, hin.2.2⟩
    have htj : ∀ v, arr_get (brick_numbering_exact b).linear_to_tree (some (ti : Int)) = some v →
        -1 ≤ v ∧ 12 * v + 12 ≤ 2147483647 := fun v hv => hltt _ v hv
    obtain ⟨w1, w2, w3, w4, w5, w6, w7, w8⟩ := brick_writes_fit b hL hfit
      (brick_numbering_exact b) _ _ _ hx hy hz _ hltt hc2 he2 htj
    rw [w1, w2, w3, w4, w5, w6, w7, w8, s3, s4]
    refine brick_vertex_fold_fits b hL hfit (brick_numbering_exact b) _ _ _ hx hy hz _ hltt htj
      (List.range 8) (fun i hi => List.mem_range.mp hi) _ ?_ ?_ ?_
    · exact h0
    · exact h3
    · exact h1
  · rw [if_neg hin, if_neg hin]

theorem brick_vcount_le_final (b : brick_t) (hm : 1 ≤ b.m) (hn : 1 ≤ b.n) (hp : 1 ≤ b.p) (k : Nat)
    (hk : k ≤ b.n_iter_exact.toNat) :
    (brick_fill_upto_exact b k).vcount ≤ b.num_vertices_exact := by
  rw [← brick_vertex_count b hm hn hp]
  unfold brick_arrays_exact
  rw [brick_vcount_sum, brick_vcount_sum]
  apply Finset.sum_le_sum_of_subset_of_nonneg
  · exact Finset.range_subset.mpr hk
  · intro i _ _
    split_ifs
    · unfold vertex_ind
      apply mul_nonneg
      · apply mul_nonneg <;> split_ifs <;> omega
      · split_ifs <;> omega
    · exact le_refl _

theorem brick_fill_upto_fits (b : brick_t) (hm : 1 ≤ b.m) (hn : 1 ≤ b.n) (hp : 1 ≤ b.p)
    (hfit : brick_fits b) :
    ∀ k, k ≤ b.n_iter_exact.toNat → brick_fill_upto b k = brick_fill_upto_exact b k := by
  obtain ⟨⟨s1, s2, s3, s4⟩, ⟨t1, t2⟩, ⟨v1, v2⟩, _⟩ := brick_sizes_fit b hm hn hp hfit
  intro k
  induction k with
  | zero =>
    intro _
    unfold brick_fill_upto brick_fill_upto_exact brick_arrays_init brick_arrays_init_exact
    rw [List.range_zero, List.foldl_nil, List.foldl_nil, s1,
      to_topidx_of_range _ (by omega) (by omega)]
  | succ k ih =>
    intro hk
    have e : brick_fill_upto b (k + 1) =
        brick_fill_step b (brick_numbering b) (brick_fill_upto b k) k := by
      unfold brick_fill_upto
      rw [List.range_succ, List.foldl_append]
      rfl
    rw [e, ih (by omega), brick_numbering_fits b hm hn hp hfit, brick_fill_upto_succ]
    obtain ⟨a1, a2⟩ := brick_fill_upto_vicount b k
    have a3 := brick_vcount_le_final b hm hn hp (k + 1) hk
    rw [brick_fill_upto_succ] at a3
    exact brick_fill_step_fits b hm hn hp hfit _ k a2 a1 (by omega)

theorem brick_arrays_fits (b : brick_t) (hm : 1 ≤ b.m) (hn : 1 ≤ b.n) (hp : 1 ≤ b.p)
    (hfit : brick_fits b) : brick_arrays b = brick_arrays_exact b := by
  unfold brick_arrays brick_arrays_exact
  rw [brick_n_iter_fits b hm hfit.1 hfit.2.1 hfit.2.2.1]
  exact brick_fill_upto_fits b hm hn hp hfit _ (le_refl _)

theorem brick_connectivity_fits (b : brick_t) (hm : 1 ≤ b.m) (hn : 1 ≤ b.n) (hp : 1 ≤ b.p)
    (hfit : brick_fits b) : brick_connectivity b = brick_connectivity_exact b := by
  obtain ⟨⟨s1, s2, s3, s4⟩, ⟨t1, t2⟩, ⟨v1, v2⟩, ⟨c1, c2⟩, e1, e2⟩ :=
    brick_sizes_fit b hm hn hp hfit
  have o1 : ∀ ti : Nat, ti ∈ List.range (b.num_edges_exact + 1).toNat →
      to_topidx (4 * ((ti : Nat) : Int)) = 4 * ((ti : Nat) : Int) := by
    intro ti hti
    rw [List.mem_range] at hti
    exact to_topidx_of_range _ (by omega) (by omega)
  have o2 : ∀ ti : Nat, ti ∈ List.range (b.num_corners_exact + 1).toNat →
      to_topidx (8 * ((ti : Nat) : Int)) = 8 * ((ti : Nat) : Int) := by
    intro ti hti
    rw [List.mem_range] at hti
    exact to_topidx_of_range _ (by omega) (by omega)
  unfold brick_connectivity brick_connectivity_exact brick_t.num_ett brick_t.num_ctt
  rw [brick_arrays_fits b hm hn hp hfit, s1, s2, s3, s4,
    to_topidx_of_range (4 * b.num_edges_exact) (by omega) (by omega),
    to_topidx_of_range (8 * b.num_corners_exact) (by omega) (by omega),
    to_topidx_of_range (b.num_edges_exact + 1) (by omega) (by omega),
    to_topidx_of_range (b.num_corners_exact + 1) (by omega) (by omega),
    List.map_congr_left o1, List.map_congr_left o2]

theorem p8est_connectivity_new_brick_fits (b : brick_t) (hm : 1 ≤ b.m) (hn : 1 ≤ b.n)
    (hp : 1 ≤ b.p) (hfit : brick_fits b) :
    p8est_connectivity_new_brick b.m b.n b.p b.periodic_a b.periodic_b b.periodic_c =
      p8est_connectivity_new_brick_exact b.m b.n b.p b.periodic_a b.periodic_b b.periodic_c :=
  brick_connectivity_fits b hm hn hp hfit

/-- C23 (brick face relation): for all sides `m, n, p >= 1` that fit
32-bit arithmetic (`brick_fits`: no count, index or loop bound of the function
leaves the range of `p4est_topidx_t`) and all periodicity flags
`p8est_connectivity_new_brick` returns a connectivity with `m * n * p` trees.
The tree at the lattice position `(x, y, z)` is the entry of
`linear_to_tree` at the Morton index of the position; the positions and the
tree numbers correspond one to one.  Across the face `2 * i + j` the tree is
connected to itself with the same face when the axis `i` is not periodic and
the tree lies on the boundary of the domain on that side, and otherwise to the
tree one step along the axis `i` (minus for `j = 0`, plus for `j = 1`, modulo
the size) at the face `2 * i + (1 - j)` with orientation 0.  The face relation
of the connectivity is symmetric. -/
theorem brick_face_relation (b : brick_t) (hm : 1 ≤ b.m) (hn : 1 ≤ b.n) (hp : 1 ≤ b.p)
    (hfit : brick_fits b) :
    ∃ conn, p8est_connectivity_new_brick b.m b.n b.p b.periodic_a b.periodic_b b.periodic_c =
        some conn ∧
      conn.num_trees = b.m * b.n * b.p ∧
      (∀ x y z : Int, 0 ≤ x ∧ x < b.m → 0 ≤ y ∧ y < b.n → 0 ≤ z ∧ z < b.p →
        (brick_numbering b).linear_to_tree
            ((brick_linear b.log_cl.toNat x.toNat y.toNat z.toNat : Nat) : Int) =
          some (brick_tree_at b x y z) ∧
        (0 ≤ brick_tree_at b x y z ∧ brick_tree_at b x y z < conn.num_trees) ∧
        ∀ i j : Nat, i < 3 → j < 2 →
          ((b.periodic i = 0 ∧ ((brick_coord x y z i = 0 ∧ j = 0) ∨
              (brick_coord x y z i = b.max i ∧ j = 1))) →
            aget conn.tree_to_tree (6 * brick_tree_at b x y z + ((2 * i + j : Nat) : Int)) =
              some (brick_tree_at b x y z) ∧
            aget conn.tree_to_face (6 * brick_tree_at b x y z + ((2 * i + j : Nat) : Int)) =
              some ((2 * i + j : Nat) : Int)) ∧
          (¬ (b.periodic i = 0 ∧ ((brick_coord x y z i = 0 ∧ j = 0) ∨
              (brick_coord x y z i = b.max i ∧ j = 1))) →
            aget conn.tree_to_tree (6 * brick_tree_at b x y z + ((2 * i + j : Nat) : Int)) =
              some (brick_tree_at b
                (if i = 0 then (x + (2 * (j : Int) - 1)) % b.m else x)
                (if i = 1 then (y + (2 * (j : Int) - 1)) % b.n else y)
                (if i = 2 then (z + (2 * (j : Int) - 1)) % b.p else z)) ∧
            aget conn.tree_to_face (6 * brick_tree_at b x y z + ((2 * i + j : Nat) : Int)) =
              some (6 * 0 + ((2 * i + (1 - j) : Nat) : Int)))) ∧
      (∀ T : Int, 0 ≤ T → T < conn.num_trees →
        ∃ x y z : Int, (0 ≤ x ∧ x < b.m) ∧ (0 ≤ y ∧ y < b.n) ∧ (0 ≤ z ∧ z < b.p) ∧
          brick_tree_at b x y z = T) ∧
      (∀ x y z x2 y2 z2 : Int, 0 ≤ x ∧ x < b.m → 0 ≤ y ∧ y < b.n → 0 ≤ z ∧ z < b.p →
        0 ≤ x2 ∧ x2 < b.m → 0 ≤ y2 ∧ y2 < b.n → 0 ≤ z2 ∧ z2 < b.p →
        brick_tree_at b x y z = brick_tree_at b x2 y2 z2 → x = x2 ∧ y = y2 ∧ z = z2) ∧
      face_symmetric conn := by
  have hL := brick_log_cl_le b hm hfit.1 hfit.2.1 hfit.2.2.1
  rw [p8est_connectivity_new_brick_fits b hm hn hp hfit, brick_numbering_fits b hm hn hp hfit]
  simp only [brick_linear_fits _ _ _ _ hL]
  exact brick_face_relation_exact b hm hn hp

theorem brick_face_relation_witness :
    ∃ conn, p8est_connectivity_new_brick 2 1 1 0 0 0 = some conn ∧
      conn.num_trees = 2 * 1 * 1 ∧ face_symmetric conn :=
  (brick_face_relation (brick_t.mk 2 1 1 0 0 0) (by decide) (by decide) (by decide)
    (by decide)).imp fun _ h => ⟨h.1, h.2.1, h.2.2.2.2.2⟩

/-- The first `len` cells of an array are not all determinate when the first one is not. -/
theorem arr_list_first_none (a : Int → Option Int) (len : Int) (h0 : 0 < len)
    (h : a 0 = none) : arr_list a len = none := by
  unfold arr_list
  obtain ⟨n, hn⟩ : ∃ n, len.toNat = n + 1 := ⟨len.toNat - 1, by omega⟩
  rw [hn, List.range_succ_eq_map, List.mapM_cons]
  simp [h]

/-- A brick of 1025 by 1 by 1 trees: `log_cl` is 11, the product
`cube_length * cube_length * cube_length = 2^33` wraps to `n_iter = 0`, no
iteration of either pass runs, the cell `tree_to_tree[0]` of the tree at the
position `(0, 0, 0)` is never written, and the connectivity is not determined. -/
theorem brick_face_relation_wraps :
    (brick_t.mk 1025 1 1 0 0 0).log_cl = 11 ∧ (brick_t.mk 1025 1 1 0 0 0).n_iter = 0 ∧
    (brick_arrays (brick_t.mk 1025 1 1 0 0 0)).tree_to_tree 0 = none ∧
    p8est_connectivity_new_brick 1025 1 1 0 0 0 = none := by
  refine ⟨by decide, by decide, by decide, ?_⟩
  have h : arr_list (brick_arrays (brick_t.mk 1025 1 1 0 0 0)).vertices
      (3 * (brick_t.mk 1025 1 1 0 0 0).num_vertices) = none :=
    arr_list_first_none _ _ (by decide) (by decide)
  unfold p8est_connectivity_new_brick brick_connectivity
  simp only [h, Option.none_bind]

/-- C24 (brick reverse tables): for all sides `m, n, p >= 1` that fit
32-bit arithmetic (`brick_fits`: no count, index or loop bound of the function
leaves the range of `p4est_topidx_t`) and all periodicity flags, in the
connectivity that `p8est_connectivity_new_brick`
returns every global edge `g` has the four reverse entries `4 * g .. 4 * g + 3`
and every global corner `c` the eight reverse entries `8 * c .. 8 * c + 7`, the
reverse tables consist of these entries, every one of them is written, and
every one leads back through the forward table:
`tree_to_edge[12 * edge_to_tree[4 * g + k] + edge_to_edge[4 * g + k]] = g` and
`tree_to_corner[8 * corner_to_tree[8 * c + k] + corner_to_corner[8 * c + k]] = c`.
All stored edge codes are below 12, so that the flip is 0. -/
theorem brick_reverse_tables (b : brick_t) (hm : 1 ≤ b.m) (hn : 1 ≤ b.n) (hp : 1 ≤ b.p)
    (hfit : brick_fits b) :
    ∃ conn, p8est_connectivity_new_brick b.m b.n b.p b.periodic_a b.periodic_b b.periodic_c =
        some conn ∧
      (conn.num_trees = b.num_trees ∧ conn.num_edges = b.num_edges ∧
        conn.num_corners = b.num_corners) ∧
      (∀ g : Int, 0 ≤ g → g < conn.num_edges →
        aget conn.ett_offset g = some (4 * g) ∧ aget conn.ett_offset (g + 1) = some (4 * g + 4)) ∧
      (∀ c : Int, 0 ≤ c → c < conn.num_corners →
        aget conn.ctt_offset c = some (8 * c) ∧ aget conn.ctt_offset (c + 1) = some (8 * c + 8)) ∧
      ((conn.edge_to_tree.length : Int) = 4 * conn.num_edges ∧
        (conn.edge_to_edge.length : Int) = 4 * conn.num_edges ∧
        (conn.corner_to_tree.length : Int) = 8 * conn.num_corners ∧
        (conn.corner_to_corner.length : Int) = 8 * conn.num_corners) ∧
      (∀ g : Int, 0 ≤ g → g < conn.num_edges → ∀ k : Nat, k < 4 →
        ∃ t e : Int, aget conn.edge_to_tree (4 * g + (k : Int)) = some t ∧
          aget conn.edge_to_edge (4 * g + (k : Int)) = some e ∧
          (0 ≤ t ∧ t < conn.num_trees) ∧ (0 ≤ e ∧ e < 12) ∧
          aget conn.tree_to_edge (12 * t + e) = some g) ∧
      (∀ c : Int, 0 ≤ c → c < conn.num_corners → ∀ k : Nat, k < 8 →
        ∃ t e : Int, aget conn.corner_to_tree (8 * c + (k : Int)) = some t ∧
          aget conn.corner_to_corner (8 * c + (k : Int)) = some e ∧
          (0 ≤ t ∧ t < conn.num_trees) ∧ (0 ≤ e ∧ e < 8) ∧
          aget conn.tree_to_corner (8 * t + e) = some c) ∧
      edge_round_trip conn ∧ corner_round_trip conn := by
  obtain ⟨⟨s1, _, s3, s4⟩, _⟩ := brick_sizes_fit b hm hn hp hfit
  rw [p8est_connectivity_new_brick_fits b hm hn hp hfit, s1, s3, s4]
  exact brick_reverse_tables_exact b hm hn hp

theorem brick_reverse_tables_witness :
    ∃ conn, p8est_connectivity_new_brick 1 1 1 1 1 1 = some conn ∧
      edge_round_trip conn ∧ corner_round_trip conn :=
  (brick_reverse_tables (brick_t.mk 1 1 1 1 1 1) (by decide) (by decide) (by decide)
    (by decide)).imp fun _ h => ⟨h.1, h.2.2.2.2.2.2.2.1, h.2.2.2.2.2.2.2.2⟩

/-- A periodic brick of 1025 by 1 by 1 trees has 3075 global edges and 1025
global corners, but `n_iter` wraps to 0: the reverse entries `edge_to_tree[0]`
and `corner_to_tree[0]` of the first edge and the first corner are never
written, and the connectivity is not determined. -/
theorem brick_reverse_tables_wraps :
    (brick_t.mk 1025 1 1 1 1 1).n_iter = 0 ∧
    ((brick_t.mk 1025 1 1 1 1 1).num_edges = 3075 ∧
      (brick_t.mk 1025 1 1 1 1 1).num_corners = 1025) ∧
    ((brick_arrays (brick_t.mk 1025 1 1 1 1 1)).edge_to_tree 0 = none ∧
      (brick_arrays (brick_t.mk 1025 1 1 1 1 1)).corner_to_tree 0 = none) ∧
    p8est_connectivity_new_brick 1025 1 1 1 1 1 = none := by
  refine ⟨by decide, by decide, by decide, ?_⟩
  have h : arr_list (brick_arrays (brick_t.mk 1025 1 1 1 1 1)).vertices
      (3 * (brick_t.mk 1025 1 1 1 1 1).num_vertices) = none :=
    arr_list_first_none _ _ (by decide) (by decide)
  unfold p8est_connectivity_new_brick brick_connectivity
  simp only [h, Option.none_bind]

/-- C25 (brick counting assertions): for all sides `m, n, p >= 1` that fit
32-bit arithmetic (`brick_fits`: no count, index or loop bound of the function
leaves the range of `p4est_topidx_t`) and all periodicity flags, with
`mc = m` if `periodic_a` and `m - 1` otherwise (`nc`,
`pc` likewise), the numbering pass of `p8est_connectivity_new_brick` counts
exactly `m * n * p` trees, `mc * nc * pc` corners and
`m * nc * pc + mc * n * pc + mc * nc * p` edges, and the second pass creates
exactly `(m + 1) * (n + 1) * (p + 1)` vertices: the assertions
`tj == num_trees`, `tk == num_corners`, `tl == num_edges` and
`vcount == num_vertices` hold. -/
theorem brick_counting_assertions (b : brick_t) (hm : 1 ≤ b.m) (hn : 1 ≤ b.n) (hp : 1 ≤ b.p)
    (hfit : brick_fits b) :
    ((brick_numbering b).tj = b.num_trees ∧ (brick_numbering b).tk = b.num_corners ∧
      (brick_numbering b).tl = b.num_edges ∧ (brick_arrays b).vcount = b.num_vertices) ∧
    b.num_trees = b.m * b.n * b.p ∧
    b.num_corners = (if b.periodic_a ≠ 0 then b.m else b.m - 1) *
      (if b.periodic_b ≠ 0 then b.n else b.n - 1) * (if b.periodic_c ≠ 0 then b.p else b.p - 1) ∧
    b.num_edges = b.m * (if b.periodic_b ≠ 0 then b.n else b.n - 1) *
        (if b.periodic_c ≠ 0 then b.p else b.p - 1) +
      (if b.periodic_a ≠ 0 then b.m else b.m - 1) * b.n *
        (if b.periodic_c ≠ 0 then b.p else b.p - 1) +
      (if b.periodic_a ≠ 0 then b.m else b.m - 1) *
        (if b.periodic_b ≠ 0 then b.n else b.n - 1) * b.p ∧
    b.num_vertices = (b.m + 1) * (b.n + 1) * (b.p + 1) := by
  obtain ⟨⟨s1, s2, s3, s4⟩, _⟩ := brick_sizes_fit b hm hn hp hfit
  rw [brick_numbering_fits b hm hn hp hfit, brick_arrays_fits b hm hn hp hfit, s1, s2, s3, s4]
  exact brick_counting_exact b hm hn hp

theorem brick_counting_assertions_witness :
    (brick_numbering (brick_t.mk 3 2 2 0 1 0)).tj = 12 ∧
    (brick_numbering (brick_t.mk 3 2 2 0 1 0)).tk = 4 ∧
    (brick_numbering (brick_t.mk 3 2 2 0 1 0)).tl = 18 ∧
    (brick_arrays (brick_t.mk 3 2 2 0 1 0)).vcount = 36 :=
  (brick_counting_assertions (brick_t.mk 3 2 2 0 1 0) (by decide) (by decide) (by decide)
    (by decide)).1

/-- A brick of 1025 by 1 by 1 trees: `n_iter` wraps to 0, so that the numbering
pass ends with `tj = 0` while `num_trees = 1025`, and the second pass with
`vcount = 0` while `num_vertices = 4104`: the assertions `tj == num_trees` and
`vcount == num_vertices` fail. -/
theorem brick_counting_wraps :
    (brick_t.mk 1025 1 1 0 0 0).n_iter = 0 ∧
    ((brick_numbering (brick_t.mk 1025 1 1 0 0 0)).tj = 0 ∧
      (brick_t.mk 1025 1 1 0 0 0).num_trees = 1025) ∧
    ((brick_arrays (brick_t.mk 1025 1 1 0 0 0)).vcount = 0 ∧
      (brick_t.mk 1025 1 1 0 0 0).num_vertices = 4104) := by
  decide

/-! ## Owner search and ghost layer (p4est_ghost.h) -/

theorem aget_of_lt {α : Type} (a : List α) (i : Int) (h0 : 0 ≤ i) (h1 : i < a.length) :
    ∃ x, aget a i = some x := by
  unfold aget
  rw [if_neg (by omega), List.get?_eq_getElem?]
  exact ⟨a.get ⟨i.toNat, by omega⟩, List.getElem?_eq_getElem (by omega)⟩

/-! ## The order of the ghost layer -/

theorem aget_eq_getElem {α : Type} (a : List α) (i : Nat) (h : i < a.length) :
    aget a (i : Int) = some (a.get ⟨i, h⟩) := by
  unfold aget
  rw [if_neg (by omega), List.get?_eq_getElem?]
  simp only [Int.toNat_ofNat]
  exact List.getElem?_eq_getElem h

theorem aget_nat {α : Type} (a : List α) (i : Int) (x : α) (h : aget a i = some x) :
    ∃ n : Nat, i = (n : Int) ∧ ∃ hn : n < a.length, a.get ⟨n, hn⟩ = x := by
  obtain ⟨h0, h1⟩ := aget_some_range a i x h
  refine ⟨i.toNat, by omega, by omega, ?_⟩
  have e : i = ((i.toNat : Nat) : Int) := by omega
  rw [e, aget_eq_getElem a i.toNat (by omega)] at h
  exact Option.some.inj h

/-- Binary search in a range of a sorted array finds a key that the range
holds. -/
theorem sc_array_bsearch_finds (keys : List Int) (k : Int) :
    ∀ (fuel : Nat) (lo hi : Int), 0 ≤ lo → hi ≤ keys.length → (hi - lo).toNat < fuel →
      (∀ i j vi vj, lo ≤ i → i ≤ j → j < hi → aget keys i = some vi → aget keys j = some vj →
        vi ≤ vj) →
      (∃ i, lo ≤ i ∧ i < hi ∧ aget keys i = some k) →
      lo ≤ sc_array_bsearch keys k fuel lo hi ∧ sc_array_bsearch keys k fuel lo hi < hi ∧
        aget keys (sc_array_bsearch keys k fuel lo hi) = some k := by
  intro fuel
  induction fuel with
  | zero => intro lo hi _ _ h; omega
  | succ fuel ih =>
    intro lo hi h0 h1 hf hs hex
    obtain ⟨i, i0, i1, hki⟩ := hex
    obtain ⟨v, hv⟩ := aget_of_lt keys (lo + (hi - lo) / 2) (by omega) (by omega)
    unfold sc_array_bsearch
    rw [if_neg (by omega)]
    simp only [hv]
    by_cases c1 : k < v
    · rw [if_pos c1]
      have him : i < lo + (hi - lo) / 2 := by
        by_contra hc
        have := hs _ _ v k (by omega) (by omega) i1 hv hki
        omega
      exact (fun r => ⟨r.1, by omega, r.2.2⟩) (ih lo (lo + (hi - lo) / 2) h0 (by omega) (by omega)
        (fun a b va vb a0 ab b1 => hs a b va vb a0 ab (by omega)) ⟨i, i0, him, hki⟩)
    · rw [if_neg c1]
      by_cases c2 : v < k
      · rw [if_pos c2]
        have him : lo + (hi - lo) / 2 < i := by
          by_contra hc
          have := hs _ _ k v i0 (by omega) (by omega) hki hv
          omega
        exact (fun r => ⟨by omega, r.2.1, r.2.2⟩) (ih (lo + (hi - lo) / 2 + 1) hi (by omega) h1
          (by omega) (fun a b va vb a0 ab b1 => hs a b va vb (by omega) ab b1)
          ⟨i, by omega, i1, hki⟩)
      · rw [if_neg c2]
        have e : v = k := by omega
        rw [← e]
        exact ⟨by omega, by omega, hv⟩

/-- In a sorted list of ids the entries with an id below `t` are the entries
before the offset of `t`. -/
theorem countP_lt_sorted (t : Int) :
    ∀ (l : List Int), l.Pairwise (fun a b => a ≤ b) → ∀ (i : Nat) (h : i < l.length),
      (l.get ⟨i, h⟩ < t ↔ i < l.countP fun x => decide (x < t)) := by
  intro l
  induction l with
  | nil => intro _ i h; simp at h
  | cons a rest ih =>
    intro hs i h
    obtain ⟨ha, hr⟩ := List.pairwise_cons.mp hs
    by_cases c : a < t
    · rw [List.countP_cons_of_pos _ _ (by simpa using c)]
      cases i with
      | zero => simp [c]
      | succ i =>
        have := ih hr i (by simpa using h)
        simp only [List.get_eq_getElem, List.getElem_cons_succ] at this ⊢
        omega
    · rw [List.countP_cons_of_neg _ _ (by simpa using c)]
      have hz : rest.countP (fun x => decide (x < t)) = 0 := by
        rw [List.countP_eq_zero]
        intro x hx
        have := ha x hx
        simp only [decide_eq_true_eq]
        omega
      rw [hz]
      cases i with
      | zero => simp [c]
      | succ i =>
        have hm : rest.get ⟨i, by simpa using h⟩ ∈ rest := List.get_mem _ _ _
        have := ha _ hm
        simp only [List.get_eq_getElem, List.getElem_cons_succ] at this ⊢
        omega

theorem countP_lt_mono (l : List Int) (t t2 : Int) (h : t ≤ t2) :
    (l.countP fun x => decide (x < t)) ≤ l.countP fun x => decide (x < t2) := by
  apply List.countP_mono_left
  intro x _ hx
  simp only [decide_eq_true_eq] at hx ⊢
  omega

/-- The entries of the offsets of the ids `0 .. n - 1`. -/
theorem aget_ghost_offsets (n : Int) (ids : List Int) (t : Int) (t0 : 0 ≤ t) (t1 : t ≤ n) :
    aget (ghost_offsets n ids) t =
      some ((ids.countP fun x => decide (x < t) : Nat) : Int) := by
  unfold ghost_offsets aget
  rw [if_neg (by omega), List.get?_eq_getElem?, List.getElem?_map,
    List.getElem?_range (by omega)]
  simp only [Option.map_some']
  rw [Int.toNat_of_nonneg t0]

/-- The offsets of the ids `0 .. n - 1`: there are `n + 1`, they do not
decrease, they start at 0 and they end at the number of entries. -/
theorem ghost_offsets_spec (n : Int) (ids : List Int) (hn : 0 ≤ n)
    (hr : ∀ x ∈ ids, 0 ≤ x ∧ x < n) :
    ((ghost_offsets n ids).length : Int) = n + 1 ∧
    (∀ t : Int, 0 ≤ t → t < n → ∃ a b, aget (ghost_offsets n ids) t = some a ∧
      aget (ghost_offsets n ids) (t + 1) = some b ∧ a ≤ b) ∧
    aget (ghost_offsets n ids) 0 = some 0 ∧
    aget (ghost_offsets n ids) n = some (ids.length : Int) := by
  refine ⟨?_, ?_, ?_, ?_⟩
  · unfold ghost_offsets
    rw [List.length_map, List.length_range]
    omega
  · intro t t0 t1
    refine ⟨_, _, aget_ghost_offsets n ids t t0 (by omega),
      aget_ghost_offsets n ids (t + 1) (by omega) (by omega), ?_⟩
    have := countP_lt_mono ids t (t + 1) (by omega)
    omega
  · rw [aget_ghost_offsets n ids 0 (le_refl _) hn]
    have hz : ids.countP (fun x => decide (x < 0)) = 0 := by
      rw [List.countP_eq_zero]
      intro x hx
      have := (hr x hx).1
      simp only [decide_eq_true_eq]
      omega
    rw [hz]
    rfl
  · rw [aget_ghost_offsets n ids n hn (le_refl _)]
    have hz : ids.countP (fun x => decide (x < n)) = ids.length := by
      rw [List.countP_eq_length]
      intro x hx
      have := (hr x hx).2
      simpa using this
    rw [hz]

theorem ghost_key_le_total (key : p4est_quadrant_t → Int) (a b : Int × p4est_quadrant_t) :
    ghost_key_le key a b ∨ ghost_key_le key b a := by
  unfold ghost_key_le
  omega

theorem ghost_key_le_trans (key : p4est_quadrant_t → Int) (a b c : Int × p4est_quadrant_t)
    (h1 : ghost_key_le key a b) (h2 : ghost_key_le key b c) : ghost_key_le key a c := by
  unfold ghost_key_le at h1 h2 ⊢
  omega

/-- The received quadrants after the removal of duplicates and the sort: they
are the received quadrants, in the order of the canonical key. -/
theorem ghost_sorted_spec (key : p4est_quadrant_t → Int)
    (received : List (Int × p4est_quadrant_t)) :
    ((received.dedup).insertionSort (ghost_key_le key)).Pairwise (ghost_key_le key) ∧
    ∀ g, g ∈ (received.dedup).insertionSort (ghost_key_le key) ↔ g ∈ received := by
  haveI : IsTotal (Int × p4est_quadrant_t) (ghost_key_le key) := ⟨ghost_key_le_total key⟩
  haveI : IsTrans (Int × p4est_quadrant_t) (ghost_key_le key) := ⟨ghost_key_le_trans key⟩
  refine ⟨List.sorted_insertionSort (ghost_key_le key) _, ?_⟩
  intro g
  rw [(List.perm_insertionSort (ghost_key_le key) _).mem_iff, List.mem_dedup]

theorem aget_map {α β : Type} (f : α → β) (a : List α) (i : Int) :
    aget (a.map f) i = (aget a i).map f := by
  unfold aget
  split
  · rfl
  · rw [List.get?_eq_getElem?, List.get?_eq_getElem?, List.getElem?_map]

/-- In a list of quadrants in the order of tree and key, with the offsets of
the trees, the binary search in the range of the tree of an entry finds an
entry with the same tree and the same key. -/
theorem ghost_tree_bsearch_finds (key : p4est_quadrant_t → Int) (num_trees : Int)
    (gs : List p4est_quadrant_t) (po : List Int)
    (hp : gs.Pairwise fun a b => a.which_tree < b.which_tree ∨
      (a.which_tree = b.which_tree ∧ key a ≤ key b))
    (hr : ∀ q ∈ gs, 0 ≤ q.which_tree ∧ q.which_tree < num_trees)
    (i : Int) (q : p4est_quadrant_t) (hq : aget gs i = some q) :
    ∃ a b q2,
      aget (ghost_offsets num_trees (gs.map fun g => g.which_tree)) q.which_tree = some a ∧
      aget (ghost_offsets num_trees (gs.map fun g => g.which_tree)) (q.which_tree + 1) = some b ∧
      a ≤ p4est_ghost_tree_bsearch key
        { ghosts := gs, tree_offsets := ghost_offsets num_trees (gs.map fun g => g.which_tree),
          proc_offsets := po } q.which_tree q ∧
      p4est_ghost_tree_bsearch key
        { ghosts := gs, tree_offsets := ghost_offsets num_trees (gs.map fun g => g.which_tree),
          proc_offsets := po } q.which_tree q < b ∧
      aget gs (p4est_ghost_tree_bsearch key
        { ghosts := gs, tree_offsets := ghost_offsets num_trees (gs.map fun g => g.which_tree),
          proc_offsets := po } q.which_tree q) = some q2 ∧
      p4est_quadrant_compare_piggy key q2 q = 0 := by
  obtain ⟨n, hin, hn, hget⟩ := aget_nat gs i q hq
  have hqm : q ∈ gs := by rw [← hget]; exact List.get_mem _ _ _
  obtain ⟨t0, t1⟩ := hr q hqm
  have hids : (gs.map fun g => g.which_tree).Pairwise (fun a b => a ≤ b) := by
    rw [List.pairwise_map]
    exact hp.imp (fun h => by omega)
  have hlen : (gs.map fun g => g.which_tree).length = gs.length := List.length_map _ _
  -- the trees of the entries, by their index
  have htree : ∀ (m : Nat) (hm : m < gs.length) (t : Int),
      ((gs.get ⟨m, hm⟩).which_tree < t ↔
        m < (gs.map fun g => g.which_tree).countP fun x => decide (x < t)) := by
    intro m hm t
    have := countP_lt_sorted t _ hids m (by rw [hlen]; exact hm)
    simp only [List.get_eq_getElem, List.getElem_map] at this ⊢
    exact this
  have ha := aget_ghost_offsets num_trees (gs.map fun g => g.which_tree) q.which_tree t0
    (by omega)
  have hb := aget_ghost_offsets num_trees (gs.map fun g => g.which_tree) (q.which_tree + 1)
    (by omega) (by omega)
  have hbl : (gs.map fun g => g.which_tree).countP (fun x => decide (x < q.which_tree + 1)) ≤
      gs.length := by
    rw [← hlen]
    exact List.countP_le_length _
  have hna : (gs.map fun g => g.which_tree).countP (fun x => decide (x < q.which_tree)) ≤ n := by
    have := (htree n hn q.which_tree)
    rw [hget] at this
    by_contra hc
    have := this.mpr (by omega)
    omega
  have hnb : n < (gs.map fun g => g.which_tree).countP
      (fun x => decide (x < q.which_tree + 1)) := by
    have := (htree n hn (q.which_tree + 1))
    rw [hget] at this
    exact this.mp (by omega)
  -- an entry in the range of the tree belongs to the tree
  have hin_range : ∀ (m : Nat) (hm : m < gs.length),
      (gs.map fun g => g.which_tree).countP (fun x => decide (x < q.which_tree)) ≤ m →
      m < (gs.map fun g => g.which_tree).countP (fun x => decide (x < q.which_tree + 1)) →
      (gs.get ⟨m, hm⟩).which_tree = q.which_tree := by
    intro m hm m0 m1
    have h1 := htree m hm q.which_tree
    have h2 := htree m hm (q.which_tree + 1)
    have h3 := h2.mpr m1
    have h4 : ¬ (gs.get ⟨m, hm⟩).which_tree < q.which_tree := fun h => by
      have := h1.mp h
      omega
    omega
  have hfind := sc_array_bsearch_finds (gs.map key) (key q)
    ((((gs.map fun g => g.which_tree).countP (fun x => decide (x < q.which_tree + 1)) : Nat) : Int) -
      (((gs.map fun g => g.which_tree).countP (fun x => decide (x < q.which_tree)) : Nat) :
        Int)).toNat.succ
    (((gs.map fun g => g.which_tree).countP (fun x => decide (x < q.which_tree)) : Nat) : Int)
    (((gs.map fun g => g.which_tree).countP (fun x => decide (x < q.which_tree + 1)) : Nat) : Int)
    (by omega) (by rw [List.length_map]; omega) (by omega)
    (by
      intro i1 j1 vi vj i10 ij j11 hvi hvj
      rw [aget_map] at hvi hvj
      obtain ⟨qi, hqi, rfl⟩ := Option.map_eq_some'.mp hvi
      obtain ⟨qj, hqj, rfl⟩ := Option.map_eq_some'.mp hvj
      obtain ⟨ni, e1, hni, gi⟩ := aget_nat gs i1 qi hqi
      obtain ⟨nj, e2, hnj, gj⟩ := aget_nat gs j1 qj hqj
      have ti := hin_range ni hni (by omega) (by omega)
      have tj := hin_range nj hnj (by omega) (by omega)
      by_cases hij : ni = nj
      · subst hij
        rw [← gi, ← gj]
      · have hlt : ni < nj := by omega
        have := List.pairwise_iff_get.mp hp ⟨ni, hni⟩ ⟨nj, hnj⟩ hlt
        rw [← gi, ← gj]
        omega)
    ⟨i, by omega, by omega, by rw [aget_map, hq]; rfl⟩
  obtain ⟨r0, r1, r2⟩ := hfind
  have hbs : p4est_ghost_tree_bsearch key
      { ghosts := gs, tree_offsets := ghost_offsets num_trees (gs.map fun g => g.which_tree),
        proc_offsets := po } q.which_tree q =
      sc_array_bsearch (gs.map key) (key q)
        ((((gs.map fun g => g.which_tree).countP (fun x => decide (x < q.which_tree + 1)) : Nat) :
          Int) -
        (((gs.map fun g => g.which_tree).countP (fun x => decide (x < q.which_tree)) : Nat) :
          Int)).toNat.succ
        (((gs.map fun g => g.which_tree).countP (fun x => decide (x < q.which_tree)) : Nat) : Int)
        (((gs.map fun g => g.which_tree).countP (fun x => decide (x < q.which_tree + 1)) : Nat) :
          Int) := by
    unfold p4est_ghost_tree_bsearch
    simp only [ha, hb]
  rw [hbs]
  rw [aget_map] at r2
  obtain ⟨q2, hq2, hk2⟩ := Option.map_eq_some'.mp r2
  obtain ⟨n2, e2, hn2, g2⟩ := aget_nat gs _ q2 hq2
  have t2 := hin_range n2 hn2 (by omega) (by omega)
  rw [g2] at t2
  refine ⟨_, _, q2, ha, hb, r0, r1, hq2, ?_⟩
  unfold p4est_quadrant_compare_piggy
  rw [if_neg (by simp [t2]), hk2]
  omega

/-- C27 (ghost layer ordering): let the ghost layer be built by
`p4est_ghost_new` from received quadrants whose owner ranks lie in
`0 .. num_procs - 1` and whose trees lie in `0 .. num_trees - 1`, the owner
rank not decreasing along the space filling curve (the order of tree and key),
as the partition collaborator assigns it.  Then `tree_offsets` has
`num_trees + 1` and `proc_offsets` has `num_procs + 1` entries, both do not
decrease, start at 0 and end at the number of ghosts; the ghosts are the
received quadrants, sorted in `p4est_quadrant_compare_piggy` order; and for
every ghost entry `p4est_ghost_tree_bsearch` in the range of the tree of the
entry returns an index in this range that holds an entry equal to it in this
order. -/
theorem ghost_layer_ordering (key : p4est_quadrant_t → Int) (num_trees num_procs : Int)
    (received : List (Int × p4est_quadrant_t)) (hn : 0 ≤ num_trees) (hp : 0 ≤ num_procs)
    (hrange : ∀ g ∈ received, (0 ≤ g.1 ∧ g.1 < num_procs) ∧
      (0 ≤ g.2.which_tree ∧ g.2.which_tree < num_trees))
    (hpart : ∀ g1 ∈ received, ∀ g2 ∈ received,
      (g1.2.which_tree < g2.2.which_tree ∨
        (g1.2.which_tree = g2.2.which_tree ∧ key g1.2 ≤ key g2.2)) → g1.1 ≤ g2.1) :
    (((p4est_ghost_new key num_trees num_procs received).tree_offsets.length : Int) =
        num_trees + 1 ∧
      ((p4est_ghost_new key num_trees num_procs received).proc_offsets.length : Int) =
        num_procs + 1) ∧
    (∀ t : Int, 0 ≤ t → t < num_trees → ∃ a b,
      aget (p4est_ghost_new key num_trees num_procs received).tree_offsets t = some a ∧
      aget (p4est_ghost_new key num_trees num_procs received).tree_offsets (t + 1) = some b ∧
      a ≤ b) ∧
    (∀ r : Int, 0 ≤ r → r < num_procs → ∃ a b,
      aget (p4est_ghost_new key num_trees num_procs received).proc_offsets r = some a ∧
      aget (p4est_ghost_new key num_trees num_procs received).proc_offsets (r + 1) = some b ∧
      a ≤ b) ∧
    (aget (p4est_ghost_new key num_trees num_procs received).tree_offsets 0 = some 0 ∧
      aget (p4est_ghost_new key num_trees num_procs received).tree_offsets num_trees =
        some ((p4est_ghost_new key num_trees num_procs received).ghosts.length : Int) ∧
      aget (p4est_ghost_new key num_trees num_procs received).proc_offsets 0 = some 0 ∧
      aget (p4est_ghost_new key num_trees num_procs received).proc_offsets num_procs =
        some ((p4est_ghost_new key num_trees num_procs received).ghosts.length : Int)) ∧
    (∀ q, q ∈ (p4est_ghost_new key num_trees num_procs received).ghosts ↔
      ∃ r, (r, q) ∈ received) ∧
    (∀ (i j : Int) (qi qj : p4est_quadrant_t), i ≤ j →
      aget (p4est_ghost_new key num_trees num_procs received).ghosts i = some qi →
      aget (p4est_ghost_new key num_trees num_procs received).ghosts j = some qj →
      p4est_quadrant_compare_piggy key qi qj ≤ 0) ∧
    (∀ (i : Int) (q : p4est_quadrant_t),
      aget (p4est_ghost_new key num_trees num_procs received).ghosts i = some q →
      ∃ a b q2,
        aget (p4est_ghost_new key num_trees num_procs received).tree_offsets q.which_tree =
          some a ∧
        aget (p4est_ghost_new key num_trees num_procs received).tree_offsets
          (q.which_tree + 1) = some b ∧
        a ≤ p4est_ghost_tree_bsearch key (p4est_ghost_new key num_trees num_procs received)
          q.which_tree q ∧
        p4est_ghost_tree_bsearch key (p4est_ghost_new key num_trees num_procs received)
          q.which_tree q < b ∧
        aget (p4est_ghost_new key num_trees num_procs received).ghosts
          (p4est_ghost_tree_bsearch key (p4est_ghost_new key num_trees num_procs received)
            q.which_tree q) = some q2 ∧
        p4est_quadrant_compare_piggy key q2 q = 0) := by
  obtain ⟨hs, hmem⟩ := ghost_sorted_spec key received
  generalize hS : (received.dedup).insertionSort (ghost_key_le key) = s at hs hmem
  have hnew : p4est_ghost_new key num_trees num_procs received =
      { ghosts := s.map fun g => g.2,
        tree_offsets := ghost_offsets num_trees ((s.map fun g => g.2).map fun g => g.which_tree),
        proc_offsets := ghost_offsets num_procs (s.map fun g => g.1) } := by
    unfold p4est_ghost_new
    simp only [hS, List.map_map]
    rfl
  rw [hnew]
  simp only []
  -- the order of tree and key follows from the canonical order
  have hpig : s.Pairwise fun a b => a.2.which_tree < b.2.which_tree ∨
      (a.2.which_tree = b.2.which_tree ∧ key a.2 ≤ key b.2) := by
    apply hs.imp_of_mem
    intro a b ha hb hab
    unfold ghost_key_le at hab
    rcases hab with h | h
    · by_contra hc
      have := hpart b ((hmem b).mp hb) a ((hmem a).mp ha) (by omega)
      omega
    · exact h.2
  have hpq : (s.map fun g => g.2).Pairwise fun a b => a.which_tree < b.which_tree ∨
      (a.which_tree = b.which_tree ∧ key a ≤ key b) := by
    rw [List.pairwise_map]
    exact hpig
  have hrq : ∀ q ∈ s.map (fun g => g.2), 0 ≤ q.which_tree ∧ q.which_tree < num_trees := by
    intro q hq
    obtain ⟨g, hg, rfl⟩ := List.mem_map.mp hq
    exact (hrange g ((hmem g).mp hg)).2
  have hrt : ∀ x ∈ (s.map fun g => g.2).map (fun g => g.which_tree), 0 ≤ x ∧ x < num_trees := by
    intro x hx
    obtain ⟨q, hq, rfl⟩ := List.mem_map.mp hx
    exact hrq q hq
  have hrp : ∀ x ∈ s.map (fun g => g.1), 0 ≤ x ∧ x < num_procs := by
    intro x hx
    obtain ⟨g, hg, rfl⟩ := List.mem_map.mp hx
    exact (hrange g ((hmem g).mp hg)).1
  obtain ⟨a1, a2, a3, a4⟩ := ghost_offsets_spec num_trees _ hn hrt
  obtain ⟨c1, c2, c3, c4⟩ := ghost_offsets_spec num_procs _ hp hrp
  rw [List.length_map, List.length_map] at a4
  rw [List.length_map] at c4
  refine ⟨⟨a1, c1⟩, a2, c2, ⟨a3, by rw [List.length_map]; exact a4, c3,
    by rw [List.length_map]; exact c4⟩, ?_, ?_, ?_⟩
  · intro q
    constructor
    · intro hq
      obtain ⟨g, hg, rfl⟩ := List.mem_map.mp hq
      exact ⟨g.1, (hmem g).mp hg⟩
    · rintro ⟨r, hr⟩
      exact List.mem_map.mpr ⟨(r, q), (hmem (r, q)).mpr hr, rfl⟩
  · intro i j qi qj hij hqi hqj
    obtain ⟨ni, e1, hni, gi⟩ := aget_nat _ i qi hqi
    obtain ⟨nj, e2, hnj, gj⟩ := aget_nat _ j qj hqj
    unfold p4est_quadrant_compare_piggy
    by_cases hne : ni = nj
    · subst hne
      rw [← gi, ← gj]
      simp
    · have := List.pairwise_iff_get.mp hpq ⟨ni, hni⟩ ⟨nj, hnj⟩ (by
        show ni < nj
        omega)
      rw [gi, gj] at this
      split <;> omega
  · intro i q hq
    exact ghost_tree_bsearch_finds key num_trees (s.map fun g => g.2) _ hpq hrq i q hq

theorem ghost_layer_ordering_witness :
    (((p4est_ghost_new (fun q => q.x) 3 2
        [(1, { x := 5, y := 0, z := 0, level := 1, which_tree := 2, local_num := 0 }),
          (0, { x := 7, y := 0, z := 0, level := 1, which_tree := 0, local_num := 1 }),
          (1, { x := 1, y := 0, z := 0, level := 1, which_tree := 2, local_num := 2 }),
          (0, { x := 7, y := 0, z := 0, level := 1, which_tree := 0, local_num := 1 }),
          (1, { x := 9, y := 0, z := 0, level := 1, which_tree := 1, local_num := 3 })]
        ).tree_offsets.length : Int) = 3 + 1 ∧
      ((p4est_ghost_new (fun q => q.x) 3 2
        [(1, { x := 5, y := 0, z := 0, level := 1, which_tree := 2, local_num := 0 }),
          (0, { x := 7, y := 0, z := 0, level := 1, which_tree := 0, local_num := 1 }),
          (1, { x := 1, y := 0, z := 0, level := 1, which_tree := 2, local_num := 2 }),
          (0, { x := 7, y := 0, z := 0, level := 1, which_tree := 0, local_num := 1 }),
          (1, { x := 9, y := 0, z := 0, level := 1, which_tree := 1, local_num := 3 })]
        ).proc_offsets.length : Int) = 2 + 1) :=
  (ghost_layer_ordering (fun q => q.x) 3 2
    [(1, { x := 5, y := 0, z := 0, level := 1, which_tree := 2, local_num := 0 }),
      (0, { x := 7, y := 0, z := 0, level := 1, which_tree := 0, local_num := 1 }),
      (1, { x := 1, y := 0, z := 0, level := 1, which_tree := 2, local_num := 2 }),
      (0, { x := 7, y := 0, z := 0, level := 1, which_tree := 0, local_num := 1 }),
      (1, { x := 9, y := 0, z := 0, level := 1, which_tree := 1, local_num := 3 })]
    (by decide) (by decide) (by decide) (by decide)).1

/-! ## The owner of a quadrant across a face -/

/-- The search of the partition boundary table ends at a rank whose range holds
the position. -/
theorem comm_find_owner_loop_spec (first : List (Int × Int)) (p : Int × Int) :
    ∀ (fuel : Nat) (lo hi : Int), 0 ≤ lo → lo ≤ hi → hi + 1 < first.length →
      (hi - lo).toNat < fuel →
      (∃ a, aget first lo = some a ∧ position_le a p = true) →
      (∃ c, aget first (hi + 1) = some c ∧ position_le c p = false) →
      ∃ a c, lo ≤ p4est_comm_find_owner_loop first p fuel lo hi ∧
        p4est_comm_find_owner_loop first p fuel lo hi ≤ hi ∧
        aget first (p4est_comm_find_owner_loop first p fuel lo hi) = some a ∧
        aget first (p4est_comm_find_owner_loop first p fuel lo hi + 1) = some c ∧
        position_le a p = true ∧ position_le c p = false := by
  intro fuel
  induction fuel with
  | zero => intro lo hi _ _ _ h; omega
  | succ fuel ih =>
    intro lo hi h0 h1 h2 hf hlo hhi
    obtain ⟨cur, hcur⟩ := aget_of_lt first ((lo + hi) / 2) (by omega) (by omega)
    obtain ⟨next, hnext⟩ := aget_of_lt first ((lo + hi) / 2 + 1) (by omega) (by omega)
    unfold p4est_comm_find_owner_loop
    simp only [hcur, hnext]
    by_cases c1 : position_le cur p = true
    · by_cases c2 : position_le next p = true
      · simp only [c1, c2, Bool.not_true, Bool.false_eq_true, if_false, if_true]
        have hne : (lo + hi) / 2 ≠ hi := by
          intro e
          obtain ⟨c, hc1, hc2⟩ := hhi
          rw [e] at hnext
          rw [hnext] at hc1
          rw [← Option.some.inj hc1, c2] at hc2
          exact Bool.noConfusion hc2
        obtain ⟨a, c, r1, r2, r3, r4, r5, r6⟩ := ih ((lo + hi) / 2 + 1) hi (by omega) (by omega)
          h2 (by omega) ⟨next, hnext, c2⟩ hhi
        exact ⟨a, c, by omega, r2, r3, r4, r5, r6⟩
      · simp only [c1, c2, Bool.not_true, Bool.false_eq_true, if_false]
        exact ⟨cur, next, by omega, by omega, hcur, hnext, c1, by simpa using c2⟩
    · have c1f : position_le cur p = false := by simpa using c1
      simp only [c1f, Bool.not_false, if_true]
      have hne : (lo + hi) / 2 ≠ lo := by
        intro e
        obtain ⟨a, ha1, ha2⟩ := hlo
        rw [e] at hcur
        rw [hcur] at ha1
        rw [← Option.some.inj ha1, c1f] at ha2
        exact Bool.noConfusion ha2
      have e1 : (lo + hi) / 2 - 1 + 1 = (lo + hi) / 2 := by ring
      obtain ⟨a, c, r1, r2, r3, r4, r5, r6⟩ := ih lo ((lo + hi) / 2 - 1) h0 (by omega)
        (by omega) (by omega) hlo ⟨cur, by rw [e1]; exact hcur, c1f⟩
      exact ⟨a, c, r1, by omega, r3, r4, r5, r6⟩

/-- The search of a partition boundary table whose first entry is not above
the position and whose last entry is above it returns a rank, and the position
lies in the range of this rank. -/
theorem comm_find_owner_spec (first : List (Int × Int)) (p : Int × Int)
    (h2 : 2 ≤ first.length)
    (hlo : ∃ a, aget first 0 = some a ∧ position_le a p = true)
    (hhi : ∃ c, aget first ((first.length : Int) - 1) = some c ∧ position_le c p = false) :
    ∃ a c, 0 ≤ p4est_comm_find_owner first p ∧
      p4est_comm_find_owner first p + 1 < first.length ∧
      aget first (p4est_comm_find_owner first p) = some a ∧
      aget first (p4est_comm_find_owner first p + 1) = some c ∧
      position_le a p = true ∧ position_le c p = false := by
  have e : (first.length : Int) - 2 + 1 = (first.length : Int) - 1 := by ring
  obtain ⟨a, c, r1, r2, r3, r4, r5, r6⟩ := comm_find_owner_loop_spec first p first.length 0
    ((first.length : Int) - 2) (le_refl _) (by omega) (by omega) (by omega) hlo
    (by rw [e]; exact hhi)
  exact ⟨a, c, r1, by unfold p4est_comm_find_owner; omega, r3, r4, r5, r6⟩

/-- C28 (owner across a face): for a quadrant that lies outside its tree
across the face `f` (the face supplied, or the face found from the coordinates
when -1 is supplied), `p4est_quadrant_find_owner` returns -1 when the
connectivity records the tree as its own neighbor across the same face `f`,
which is a domain boundary.  Otherwise it returns the rank that owns the
quadrant transformed into the neighbor tree: the rank whose range of the
partition boundary table holds the position of the transformed quadrant,
provided that the table starts at or below this position and ends above it. -/
theorem find_owner_boundary_or_rank (conn : p4est_connectivity_t) (root_len : Int)
    (key : p4est_quadrant_t → Int)
    (transform : Int → Int → p4est_quadrant_t → p4est_quadrant_t)
    (first : List (Int × Int)) (treeid face : Int) (q : p4est_quadrant_t)
    (ntreeid nface : Int)
    (hout : p4est_quadrant_is_inside_root root_len q = false)
    (h1 : aget conn.tree_to_tree
      (6 * treeid + (if face = -1 then quadrant_contact_face root_len q else face)) =
        some ntreeid)
    (h2 : aget conn.tree_to_face
      (6 * treeid + (if face = -1 then quadrant_contact_face root_len q else face)) =
        some nface) :
    ((ntreeid = treeid ∧
        nface = (if face = -1 then quadrant_contact_face root_len q else face)) →
      p4est_quadrant_find_owner conn root_len key transform first treeid face q = some (-1)) ∧
    (¬ (ntreeid = treeid ∧
        nface = (if face = -1 then quadrant_contact_face root_len q else face)) →
      2 ≤ first.length →
      (∃ a, aget first 0 = some a ∧
        position_le a (ntreeid, key (transform treeid
          (if face = -1 then quadrant_contact_face root_len q else face) q)) = true) →
      (∃ c, aget first ((first.length : Int) - 1) = some c ∧
        position_le c (ntreeid, key (transform treeid
          (if face = -1 then quadrant_contact_face root_len q else face) q)) = false) →
      ∃ r a c, p4est_quadrant_find_owner conn root_len key transform first treeid face q =
          some r ∧
        (0 ≤ r ∧ r + 1 < first.length) ∧
        aget first r = some a ∧ aget first (r + 1) = some c ∧
        position_le a (ntreeid, key (transform treeid
          (if face = -1 then quadrant_contact_face root_len q else face) q)) = true ∧
        position_le c (ntreeid, key (transform treeid
          (if face = -1 then quadrant_contact_face root_len q else face) q)) = false) := by
  constructor
  · intro hb
    unfold p4est_quadrant_find_owner
    simp only [hout, Bool.false_eq_true, if_false, h1, h2, if_pos hb]
  · intro hb hlen hlo hhi
    obtain ⟨a, c, r1, r2, r3, r4, r5, r6⟩ := comm_find_owner_spec first _ hlen hlo hhi
    refine ⟨_, a, c, ?_, ⟨r1, r2⟩, r3, r4, r5, r6⟩
    unfold p4est_quadrant_find_owner
    simp only [hout, Bool.false_eq_true, if_false, h1, h2, if_neg hb]

theorem find_owner_boundary_or_rank_witness :
    p4est_quadrant_is_inside_root 8
      { x := 8, y := 0, z := 0, level := 0, which_tree := 0, local_num := 0 } = false ∧
    ∃ r a c, p4est_quadrant_find_owner p8est_connectivity_new_twocubes 8 (fun q => q.x)
        (fun _ _ q => { q with x := q.x - 8 }) [(0, 0), (1, 0), (2, 0)] 0 (-1)
        { x := 8, y := 0, z := 0, level := 0, which_tree := 0, local_num := 0 } = some r ∧
      (0 ≤ r ∧ r + 1 < ([((0 : Int), (0 : Int)), (1, 0), (2, 0)].length : Int)) ∧
      aget [((0 : Int), (0 : Int)), (1, 0), (2, 0)] r = some a ∧
      aget [((0 : Int), (0 : Int)), (1, 0), (2, 0)] (r + 1) = some c ∧
      position_le a (1, 0) = true ∧ position_le c (1, 0) = false :=
  ⟨by decide,
    (find_owner_boundary_or_rank p8est_connectivity_new_twocubes 8 (fun q => q.x)
      (fun _ _ q => { q with x := q.x - 8 }) [(0, 0), (1, 0), (2, 0)] 0 (-1)
      { x := 8, y := 0, z := 0, level := 0, which_tree := 0, local_num := 0 } 1 0
      (by decide) (by decide) (by decide)).2 (by decide) (by decide)
      ⟨(0, 0), rfl, by decide⟩ ⟨(2, 0), rfl, by decide⟩⟩

/-! ## Index safety of p8est_find_edge_transform: theorems -/

/-- C31, counterexample: the connectivity `missing_own_entry_conn` has all its
indices in range and its reverse list maps forward to the global edge, and its
face relation is symmetric; for tree 0 and edge 5 the search for the own entry
ends with `ietree = -1` and `iflip = -1`, and the function then reads a
face-corner pair at index `-1`. -/
theorem find_edge_transform_own_entry_missing :
    conn_indices_valid missing_own_entry_conn ∧ edge_round_trip missing_own_entry_conn ∧
    face_symmetric missing_own_entry_conn ∧
    (0 : Int) < missing_own_entry_conn.num_trees ∧
    aget missing_own_entry_conn.tree_to_edge (12 * 0 + 5) = some 0 ∧
    find_edge_orientation missing_own_entry_conn 0 5 0 (List.range 1) = some (-1, -1) ∧
    (p8est_find_edge_transform_scan missing_own_entry_conn 0 5 0).isNone = true ∧
    p8est_find_edge_transform missing_own_entry_conn 0 5 = none :=
  ⟨conn_indices_valid_of_check _ (by decide), edge_round_trip_of_check _ (by decide),
   face_symmetric_of_check _ (by decide), by decide, by decide, by decide, by decide, by decide⟩

/-- C31, amended: if all indices of the connectivity are in range and the entry
`(itree, iedge)` occurs in the reverse list of its global edge, then
`p8est_find_edge_transform` reads every array within its bounds (the model
returns a value), and the search for the own entry ends with
`0 <= ietree < edge_trees` and `iflip` in {0, 1}. -/
theorem find_edge_transform_index_safe (conn : p4est_connectivity_t)
    (hv : conn_indices_valid conn) (A ea : Nat) (hA : (A : Int) < conn.num_trees) (hea : ea < 12)
    (hown : ∀ aedge : Int, conn.num_edges ≠ 0 →
      aget conn.tree_to_edge (12 * (A : Int) + ea) = some aedge → aedge ≠ -1 →
      own_entry_present conn A ea aedge) :
    (∃ ei, p8est_find_edge_transform conn A ea = some ei) ∧
    ∀ aedge : Int, conn.num_edges ≠ 0 →
      aget conn.tree_to_edge (12 * (A : Int) + ea) = some aedge → aedge ≠ -1 →
      ∃ s, p8est_find_edge_transform_scan conn A ea aedge = some s ∧
        0 ≤ s.ietree ∧ s.ietree < s.edge_trees ∧ (s.iflip = 0 ∨ s.iflip = 1) := by
  have hscan : ∀ aedge : Int, conn.num_edges ≠ 0 →
      aget conn.tree_to_edge (12 * (A : Int) + ea) = some aedge → aedge ≠ -1 →
      ∃ s, p8est_find_edge_transform_scan conn A ea aedge = some s ∧
        0 ≤ s.ietree ∧ s.ietree < s.edge_trees ∧ (s.iflip = 0 ∨ s.iflip = 1) := by
    intro aedge h0 ha hne
    obtain ⟨a, ha1, ha2, ha3⟩ := hv.2.1 h0 A ea hA hea
    rw [ha] at ha1
    simp only [Option.some.injEq] at ha1
    subst ha1
    have ha0 : 0 ≤ aedge := by omega
    obtain ⟨lo', hi', hlo', hhi', hlen⟩ := hown aedge h0 ha hne
    lift aedge to ℕ using ha0
    obtain ⟨lo, hi, hlo, hhi, hle, hslots⟩ := hv.2.2 aedge ha3
    rw [hlo] at hlo'
    rw [hhi] at hhi'
    simp only [Option.some.injEq] at hlo' hhi'
    subst hlo'
    subst hhi'
    obtain ⟨k0, rest, hk0⟩ := List.exists_cons_of_ne_nil hlen
    have hmem : k0 ∈ reverse_slots conn.edge_to_tree conn.edge_to_edge edge_of_entry lo hi A ea := by
      rw [hk0]; exact List.mem_cons_self _ _
    unfold reverse_slots at hmem
    rw [List.mem_filter, List.mem_range] at hmem
    obtain ⟨hk0r, _⟩ := hmem
    obtain ⟨t0, r0, s1, s2, s3, s4, s5, s6⟩ := hslots (lo + (k0 : Int)) (by omega) (by omega)
    obtain ⟨face0, row0, t0', x0, p1, p2, p3, p4, p5, p6, p7, p8, p9, p10⟩ :=
      find_edge_face_valid conn hv A hA ea 0 (by omega) (by omega) (by decide) (by decide)
    obtain ⟨face1, row1, t1', x1, q1, q2, q3, q4, q5, q6, q7, q8, q9, q10⟩ :=
      find_edge_face_valid conn hv A hA ea 1 (by omega) (by omega) (by decide) (by decide)
    have hreads : ∀ j ∈ List.range (hi - lo).toNat,
        ∃ t r, aget conn.edge_to_tree (lo + (j : Int)) = some t ∧ 0 ≤ t ∧
          aget conn.edge_to_edge (lo + (j : Int)) = some r ∧ 0 ≤ r ∧ r < 24 := by
      intro j hj
      rw [List.mem_range] at hj
      obtain ⟨t, r, u1, u2, _, u4, u5, u6⟩ := hslots (lo + (j : Int)) (by omega) (by omega)
      exact ⟨t, r, u1, u2, u4, u5, u6⟩
    obtain ⟨p, hp⟩ := find_edge_orientation_total conn A ea lo (List.range (hi - lo).toNat)
      (fun j hj => by
        obtain ⟨t, r, u1, _, u4, _, _⟩ := hreads j hj
        exact ⟨t, r, u1, u4⟩)
    obtain ⟨ie, ifl⟩ := p
    have hsp := find_edge_orientation_spec conn A ea lo _ ie ifl hp
    rw [own_slot_eq_reverse_of_slots conn A ea lo hi (fun k hk1 hk2 r hr => by
      obtain ⟨t, r', _, _, _, u4, u5, _⟩ := hslots k hk1 hk2
      rw [u4] at hr
      simp only [Option.some.injEq] at hr
      omega), hk0] at hsp
    rcases hsp with ⟨k0', r0', g1, g2, g3, g4⟩ | ⟨g1, _, _⟩
    swap
    · simp at g1
    simp only [List.head?_cons, Option.some.injEq] at g1
    subst g1
    rw [s4] at g3
    simp only [Option.some.injEq] at g3
    subst g3
    obtain ⟨a1, a2, a3, a4, a5⟩ := tmod_tdiv_of_range r0 s5 s6
    rw [a2] at g4
    subst g4
    subst g2
    obtain ⟨st, hst⟩ := edge_transform_loop_total conn lo A ea (by omega) (by omega)
      face0 face1 t0' t1' x0 x1 row0 row1 p1 q1 ⟨p8, p9⟩ ⟨q8, q9⟩ (k0 : Int) (r0 / 12) a3
      (List.range (hi - lo).toNat) edge_loop_init hreads
    unfold edge_loop_init at hst
    refine ⟨edge_scan_t.mk (edge_face_of A face0 t0' x0 row0) (edge_face_of A face1 t1' x1 row1)
      (hi - lo) k0 (r0 / 12) st, ?_, ?_⟩
    · unfold p8est_find_edge_transform_scan
      simp only [Option.bind_eq_bind, p10, q10, hlo, hhi, Option.some_bind, hp, hst]
    · refine ⟨?_, ?_, a3⟩
      · show (0 : Int) ≤ (k0 : Int)
        omega
      · show (k0 : Int) < hi - lo
        omega
  refine ⟨?_, hscan⟩
  unfold p8est_find_edge_transform
  by_cases h0 : conn.num_edges = 0
  · rw [if_pos h0]
    exact ⟨_, rfl⟩
  rw [if_neg h0]
  obtain ⟨a, ha1, ha2, ha3⟩ := hv.2.1 h0 A ea hA hea
  simp only [Option.bind_eq_bind, ha1, Option.some_bind]
  by_cases hne : a = -1
  · rw [if_pos hne]
    exact ⟨_, rfl⟩
  rw [if_neg hne]
  obtain ⟨s, hs, _⟩ := hscan a h0 ha1 hne
  rw [hs]
  exact ⟨_, rfl⟩

theorem find_edge_transform_index_safe_witness :
    (∃ ei, p8est_find_edge_transform p8est_connectivity_new_rotcubes (0 : Nat) (7 : Nat) = some ei) ∧
    ∀ aedge : Int, p8est_connectivity_new_rotcubes.num_edges ≠ 0 →
      aget p8est_connectivity_new_rotcubes.tree_to_edge (12 * ((0 : Nat) : Int) + (7 : Nat)) =
        some aedge → aedge ≠ -1 →
      ∃ s, p8est_find_edge_transform_scan p8est_connectivity_new_rotcubes (0 : Nat) (7 : Nat) aedge
          = some s ∧
        0 ≤ s.ietree ∧ s.ietree < s.edge_trees ∧ (s.iflip = 0 ∨ s.iflip = 1) :=
  find_edge_transform_index_safe p8est_connectivity_new_rotcubes
    (conn_indices_valid_of_check _ (by decide)) 0 7 (by decide) (by decide)
    (fun aedge _ ha _ => by
      have e : aget p8est_connectivity_new_rotcubes.tree_to_edge (12 * ((0 : Nat) : Int) + (7 : Nat))
          = some 0 := by decide
      rw [e] at ha
      simp only [Option.some.injEq] at ha
      subst ha
      exact ⟨0, 5, by decide, by decide, by decide⟩)

/-! ## Meaning of the orientation code -/

/-- C32: in the face permutation lookup the orientation code is the face-corner
number of the higher-numbered face that meets face-corner 0 of the
lower-numbered face: for faces `f <= g` the permutation selected by `(f, g, o)`
maps 0 to `o`, and for faces `f >= g` it maps `o` to 0.  The reference table
has `refs[f][g] = 0` exactly when `refs[g][f] = 0`, and `refs[f][g] = 1`
exactly when `refs[g][f] = 2`. -/
theorem orientation_code_meaning :
    (∀ f < 6, ∀ g < 6, ∀ o < 4, f ≤ g →
      face_permutation ((f : Nat) : Int) ((g : Nat) : Int) ((o : Nat) : Int) 0
        = some ((o : Nat) : Int)) ∧
    (∀ f < 6, ∀ g < 6, ∀ o < 4, g ≤ f →
      face_permutation ((f : Nat) : Int) ((g : Nat) : Int) ((o : Nat) : Int) ((o : Nat) : Int)
        = some 0) ∧
    (∀ f < 6, ∀ g < 6,
      (aget2 p8est_face_permutation_refs ((f : Nat) : Int) ((g : Nat) : Int) = some 0 ↔
        aget2 p8est_face_permutation_refs ((g : Nat) : Int) ((f : Nat) : Int) = some 0) ∧
      (aget2 p8est_face_permutation_refs ((f : Nat) : Int) ((g : Nat) : Int) = some 1 ↔
        aget2 p8est_face_permutation_refs ((g : Nat) : Int) ((f : Nat) : Int) = some 2)) :=
  ⟨by decide, by decide, by decide⟩

theorem orientation_code_meaning_witness :
    face_permutation ((0 : Nat) : Int) ((3 : Nat) : Int) ((2 : Nat) : Int) 0
      = some ((2 : Nat) : Int) ∧
    face_permutation ((3 : Nat) : Int) ((0 : Nat) : Int) ((2 : Nat) : Int) ((2 : Nat) : Int)
      = some 0 ∧
    (aget2 p8est_face_permutation_refs ((0 : Nat) : Int) ((1 : Nat) : Int) = some 1 ↔
      aget2 p8est_face_permutation_refs ((1 : Nat) : Int) ((0 : Nat) : Int) = some 2) :=
  ⟨orientation_code_meaning.1 0 (by decide) 3 (by decide) 2 (by decide) (by decide),
   orientation_code_meaning.2.1 3 (by decide) 0 (by decide) 2 (by decide) (by decide),
   (orientation_code_meaning.2.2 0 (by decide) 1 (by decide)).2⟩

/-! ## Orientation codes and vertices: theorems -/

theorem face_orientation_consistent_of_check (conn : p4est_connectivity_t)
    (h : face_orientation_consistent_check conn = true) : face_orientation_consistent conn := by
  intro t f ht hf
  have hc : face_orientation_consistent_at conn t f = true := by
    simp only [face_orientation_consistent_check, List.all_eq_true, List.mem_range] at h
    exact h t (by omega) f hf
  unfold face_orientation_consistent_at at hc
  cases h1 : aget conn.tree_to_tree (6 * (t : Int) + f) with
  | none => simp [h1] at hc
  | some t' =>
    cases h2 : aget conn.tree_to_face (6 * (t : Int) + f) with
    | none => simp [h1, h2] at hc
    | some x =>
      refine ⟨t', x, rfl, rfl, ?_⟩
      intro hne k hk
      simp only [h1, h2, if_neg hne, List.all_eq_true, List.mem_range] at hc
      have hk4 := hc k hk
      cases h3 : face_permutation f (x % 6) (x / 6) k with
      | none => simp [h3] at hk4
      | some pk =>
        simp only [h3, Bool.and_eq_true, beq_iff_eq] at hk4
        obtain ⟨g1, g2⟩ := hk4
        obtain ⟨v, hv⟩ := Option.isSome_iff_exists.mp g1
        exact ⟨pk, v, rfl, hv, by rw [← g2, hv]⟩

theorem edge_flips_consistent_of_check (conn : p4est_connectivity_t)
    (h : edge_flips_consistent_check conn = true) : edge_flips_consistent conn := by
  intro a ha
  simp only [edge_flips_consistent_check, List.all_eq_true, List.mem_range] at h
  have hc := h a (by omega)
  cases h1 : aget conn.ett_offset (a : Int) with
  | none => simp [h1] at hc
  | some lo =>
    cases h2 : aget conn.ett_offset ((a : Int) + 1) with
    | none => simp [h1, h2] at hc
    | some hi =>
      refine ⟨lo, hi, rfl, rfl, ?_⟩
      intro k1 k2 a1 a2 a3 a4
      simp only [h1, h2, List.all_eq_true, List.mem_range] at hc
      have hk := hc (k1 - lo).toNat (by omega) (k2 - lo).toNat (by omega)
      have e1 : lo + ((k1 - lo).toNat : Int) = k1 := by omega
      have e2 : lo + ((k2 - lo).toNat : Int) = k2 := by omega
      rw [e1, e2] at hk
      unfold edge_flip_consistent_at at hk
      cases h3 : edge_entry_vertices conn k1 with
      | none => simp [h3] at hk
      | some p1 =>
        cases h4 : edge_entry_vertices conn k2 with
        | none => simp [h3, h4] at hk
        | some p2 =>
          obtain ⟨t1, e1, b1, v1⟩ := p1
          obtain ⟨t2, e2, b2, v2⟩ := p2
          refine ⟨t1, e1, b1, v1, t2, e2, b2, v2, rfl, rfl, ?_, ?_⟩
          · intro hb
            simp only [h3, h4, if_pos hb, beq_iff_eq] at hk
            exact hk
          · intro hb
            simp only [h3, h4, if_neg hb, beq_iff_eq] at hk
            exact hk

/-- C33: in twocubes and in rotcubes the face orientations agree with the
vertices: for every face connection between two different trees `t` (face `f`)
and `t'` (face `f'`, orientation `o`) and every face corner `k` in 0..3, the
vertex `tree_to_vertex[8t + p8est_face_corners[f][k]]` is the vertex
`tree_to_vertex[8t' + p8est_face_corners[f'][P(f,f',o)[k]]]`. -/
theorem face_orientations_geometric :
    face_orientation_consistent p8est_connectivity_new_twocubes ∧
    face_orientation_consistent p8est_connectivity_new_rotcubes :=
  ⟨face_orientation_consistent_of_check _ (by decide),
   face_orientation_consistent_of_check _ (by decide)⟩

/-- C34: in rotcubes the edge flips agree with the vertices: the connectivity
has three global edges, and any two entries (tree `t`, edge `e`, flip `b`) of
the reverse list of the same global edge have equal vertex pairs
`(tree_to_vertex[8t + p8est_edge_corners[e][0]], tree_to_vertex[8t + p8est_edge_corners[e][1]])`
when their flips are equal and swapped vertex pairs when their flips differ. -/
theorem edge_flips_geometric :
    p8est_connectivity_new_rotcubes.num_edges = 3 ∧
    edge_flips_consistent p8est_connectivity_new_rotcubes :=
  ⟨by decide, edge_flips_consistent_of_check _ (by decide)⟩

/-! ## The brick generator and the hand-written connectivities: theorems -/

theorem option_exists_of_any {α : Type} (o : Option α) (p : α → Prop) [DecidablePred p]
    (h : (o.any fun c => decide (p c)) = true) : ∃ c, o = some c ∧ p c := by
  cases o with
  | none => simp at h
  | some c => exact ⟨c, rfl, by simpa using h⟩

/-- C35: the brick generator reproduces the hand-written connectivities:
`p8est_connectivity_new_brick (1,1,1,0,0,0)` has the vertices, `tree_to_vertex`,
`tree_to_tree` and `tree_to_face` of `p8est_connectivity_new_unitcube` and no
edges or corners; brick (2,1,1,0,0,0) has the `tree_to_tree` and `tree_to_face`
of `p8est_connectivity_new_twocubes`; brick (1,1,1,1,1,1) has the
`tree_to_tree`, `tree_to_face`, `tree_to_edge`, `ett_offset`, `tree_to_corner`
and `ctt_offset` of `p8est_connectivity_new_periodic`, with the same numbers of
edges and corners, and the reverse list of each global edge and of each global
corner is a permutation of the one in periodic. -/
theorem brick_reproduces_predefined :
    (∃ c, p8est_connectivity_new_brick 1 1 1 0 0 0 = some c ∧
      c.vertices = p8est_connectivity_new_unitcube.vertices ∧
      c.tree_to_vertex = p8est_connectivity_new_unitcube.tree_to_vertex ∧
      c.tree_to_tree = p8est_connectivity_new_unitcube.tree_to_tree ∧
      c.tree_to_face = p8est_connectivity_new_unitcube.tree_to_face ∧
      c.num_edges = 0 ∧ c.num_corners = 0 ∧
      c.tree_to_edge = [] ∧ c.edge_to_tree = [] ∧ c.edge_to_edge = [] ∧
      c.tree_to_corner = [] ∧ c.corner_to_tree = [] ∧ c.corner_to_corner = []) ∧
    (∃ c, p8est_connectivity_new_brick 2 1 1 0 0 0 = some c ∧
      c.tree_to_tree = p8est_connectivity_new_twocubes.tree_to_tree ∧
      c.tree_to_face = p8est_connectivity_new_twocubes.tree_to_face) ∧
    (∃ c, p8est_connectivity_new_brick 1 1 1 1 1 1 = some c ∧
      c.tree_to_tree = p8est_connectivity_new_periodic.tree_to_tree ∧
      c.tree_to_face = p8est_connectivity_new_periodic.tree_to_face ∧
      c.tree_to_edge = p8est_connectivity_new_periodic.tree_to_edge ∧
      c.ett_offset = p8est_connectivity_new_periodic.ett_offset ∧
      c.tree_to_corner = p8est_connectivity_new_periodic.tree_to_corner ∧
      c.ctt_offset = p8est_connectivity_new_periodic.ctt_offset ∧
      c.num_edges = p8est_connectivity_new_periodic.num_edges ∧
      c.num_corners = p8est_connectivity_new_periodic.num_corners ∧
      (∀ a < 3, List.Perm
        (reverse_list c.ett_offset c.edge_to_tree c.edge_to_edge ((a : Nat) : Int))
        (reverse_list p8est_connectivity_new_periodic.ett_offset
          p8est_connectivity_new_periodic.edge_to_tree
          p8est_connectivity_new_periodic.edge_to_edge ((a : Nat) : Int))) ∧
      (∀ a < 1, List.Perm
        (reverse_list c.ctt_offset c.corner_to_tree c.corner_to_corner ((a : Nat) : Int))
        (reverse_list p8est_connectivity_new_periodic.ctt_offset
          p8est_connectivity_new_periodic.corner_to_tree
          p8est_connectivity_new_periodic.corner_to_corner ((a : Nat) : Int)))) :=
  ⟨option_exists_of_any _ _ (by decide), option_exists_of_any _ _ (by decide),
   option_exists_of_any _ _ (by decide)⟩
